import Mathlib

/-!
# Vapour front-end: the lexer of `lexer/lex.go`

A shallow embedding of the scanner.  A Go `string` is a byte sequence, modelled
as `List Nat`; `pos`, `start` and `width` are Go `int`s, modelled as `Int`
(they can become negative, see `peek`); a rune is an `Int` (`token.EOF = -1`).
A Go run-time panic (a slice expression out of range) is the fault
`Fault.panic`; every `for` loop of the source carries a fuel argument and
yields `Fault.fuel` when it is exhausted.
-/

namespace Vapour

/-- Ways in which a run of the embedded code can fail to return normally. -/
inductive Fault where
  | panic
  | fuel
deriving DecidableEq, Repr

namespace token

/-- The enumeration `token.ItemType` of `token/token.go`, in source order. -/
inductive ItemType where
  | ItemError
  | ItemEOF
  | ItemIdent
  | ItemDoubleQuote
  | ItemSingleQuote
  | ItemDollar
  | ItemBacktick
  | ItemInfix
  | ItemComma
  | ItemQuestion
  | ItemBool
  | ItemReturn
  | ItemThreeDot
  | ItemPipe
  | ItemAssign
  | ItemC
  | ItemCall
  | ItemFortran
  | ItemNULL
  | ItemNA
  | ItemNan
  | ItemNACharacter
  | ItemNAReal
  | ItemNAComplex
  | ItemNAInteger
  | ItemLeftCurly
  | ItemRightCurly
  | ItemLeftParen
  | ItemRightParen
  | ItemLeftSquare
  | ItemRightSquare
  | ItemDoubleLeftSquare
  | ItemDoubleRightSquare
  | ItemString
  | ItemInteger
  | ItemFloat
  | ItemNamespace
  | ItemNamespaceInternal
  | ItemColon
  | ItemSemiColon
  | ItemPlus
  | ItemMinus
  | ItemDivide
  | ItemMultiply
  | ItemPower
  | ItemModulus
  | ItemComment
  | ItemSpecialComment
  | ItemDoubleEqual
  | ItemLessThan
  | ItemGreaterThan
  | ItemNotEqual
  | ItemLessOrEqual
  | ItemGreaterOrEqual
  | ItemIf
  | ItemElse
  | ItemAnd
  | ItemOr
  | ItemBreak
  | ItemInf
  | ItemFor
  | ItemRepeat
  | ItemWhile
  | ItemNext
  | ItemIn
  | ItemFunction
  | ItemEOL
  | ItemLet
  | ItemConst
  | ItemTypes
  | ItemTypesOr
  | ItemTypesList
  | ItemTypesDecl
  | ItemRange
  | ItemVector
  | ItemDataframe
  | ItemList
deriving DecidableEq, Repr

/-- The struct `token.Item`: a class and the literal text (bytes). -/
structure Item where
  Class : ItemType
  Value : List Nat
deriving DecidableEq, Repr

/-- The constant `token.EOF`. -/
def EOF : Int := -1

end token

open token

/-- Bytes of an ASCII string constant of the source. -/
def str (s : String) : List Nat := s.toList.map Char.toNat

/-- The constant `utf8.RuneError` (U+FFFD) of the Go standard library. -/
def RuneError : Int := 0xFFFD

/-- Lower bound of the second byte accepted after the leading byte `s0`
(the table `acceptRanges` of Go's `unicode/utf8`). -/
def acceptLo (s0 : Nat) : Nat :=
  if s0 = 0xE0 then 0xA0 else if s0 = 0xF0 then 0x90 else 0x80

/-- Upper bound of the second byte accepted after the leading byte `s0`. -/
def acceptHi (s0 : Nat) : Nat :=
  if s0 = 0xED then 0x9F else if s0 = 0xF4 then 0x8F else 0xBF

/-- Go's `utf8.DecodeRuneInString`: the first rune of `s` and its width in
bytes; an invalid or truncated encoding gives `(RuneError, 1)`, the empty
string `(RuneError, 0)`. -/
def DecodeRuneInString (s : List Nat) : Int × Int :=
  match s with
  | [] => (RuneError, 0)
  | s0 :: t =>
    if s0 < 0x80 then ((s0 : Int), 1)
    else if s0 < 0xC2 ∨ 0xF4 < s0 then (RuneError, 1)
    else
      match t with
      | [] => (RuneError, 1)
      | s1 :: t1 =>
        if s1 < acceptLo s0 ∨ acceptHi s0 < s1 then (RuneError, 1)
        else if s0 < 0xE0 then (((s0 % 32 * 64 + s1 % 64 : Nat) : Int), 2)
        else
          match t1 with
          | [] => (RuneError, 1)
          | s2 :: t2 =>
            if s2 < 0x80 ∨ 0xBF < s2 then (RuneError, 1)
            else if s0 < 0xF0 then
              (((s0 % 16 * 4096 + s1 % 64 * 64 + s2 % 64 : Nat) : Int), 3)
            else
              match t2 with
              | [] => (RuneError, 1)
              | s3 :: _ =>
                if s3 < 0x80 ∨ 0xBF < s3 then (RuneError, 1)
                else
                  (((s0 % 8 * 262144 + s1 % 64 * 4096 + s2 % 64 * 64 + s3 % 64 : Nat) : Int), 4)

/-- Go's `strings.ContainsRune(s, r)` (equivalently `strings.IndexRune(s, r) >= 0`)
for an ASCII constant `s`: `r` is the code of one of its characters. -/
def ContainsRune (s : List Nat) (r : Int) : Bool :=
  s.any (fun c => decide ((c : Int) = r))

/-- The slice expression `s[lo:hi]` of Go; out of range indices panic. -/
def slice (s : List Nat) (lo hi : Int) : Except Fault (List Nat) :=
  if 0 ≤ lo ∧ lo ≤ hi ∧ hi ≤ (s.length : Int) then
    .ok ((s.drop lo.toNat).take (hi - lo).toNat)
  else .error .panic

/-- The struct `Lexer`. -/
structure Lexer where
  Input : List Nat
  start : Int
  pos : Int
  width : Int
  line : Int
  Items : List Item
deriving DecidableEq, Repr

/-- The state functions of the scanner (`stateFn` values); `lexString` is the
closure returned by `l.lexString(closing)`. -/
inductive StateFn where
  | lexDefault
  | lexMathOp
  | lexNumber
  | lexComment
  | lexSpecialComment
  | lexString (closing : Int)
  | lexInfix
  | lexIdentifier
  | lexType
deriving DecidableEq, Repr

/-- Result of a state function: the next state (`none` is Go's `nil`) and the
updated lexer. -/
abbrev Step := Except Fault (Option StateFn × Lexer)

def stringNumber : List Nat := str "0123456789"

def stringAlpha : List Nat :=
  str "abcdefghijklmnopqrstuvwxyzABCDEFGHIJKLMNOPQRSTUVWXYZ0123456789"

def stringAlphaNum : List Nat := stringAlpha ++ stringNumber

def stringMathOp : List Nat := str "+-*/^"

/-- The method `errorf`: append an `ItemError` whose value is the formatted
message, and return `nil`. -/
def errorf (l : Lexer) (msg : List Nat) : Option StateFn × Lexer :=
  (none, { l with Items := l.Items ++ [⟨.ItemError, msg⟩] })

/-- The method `emit`. -/
def emit (l : Lexer) (t : ItemType) : Except Fault Lexer :=
  if l.start = l.pos then .ok l
  else do
    let v ← slice l.Input l.start l.pos
    pure { l with Items := l.Items ++ [⟨t, v⟩], start := l.pos }

/-- The method `emitEOF`. -/
def emitEOF (l : Lexer) : Lexer :=
  { l with Items := l.Items ++ [⟨.ItemEOF, str "EOF"⟩] }

/-- The method `token`. -/
def currentToken (l : Lexer) : Except Fault (List Nat) :=
  slice l.Input l.start l.pos

/-- The method `next`. -/
def next (l : Lexer) : Except Fault (Int × Lexer) :=
  if (l.Input.length : Int) ≤ l.pos then .ok (EOF, { l with width := 0 })
  else if l.pos < 0 then .error .panic
  else
    let rw := DecodeRuneInString (l.Input.drop l.pos.toNat)
    let l1 : Lexer := { l with width := rw.2, pos := l.pos + rw.2 }
    .ok (rw.1, if rw.1 = 10 then { l1 with line := l1.line + 1 } else l1)

/-- The method `ignore`. -/
def ignore (l : Lexer) : Lexer := { l with start := l.pos }

/-- The method `backup`. -/
def backup (l : Lexer) : Lexer := { l with pos := l.pos - l.width }

/-- First loop of `peek`: call `next` `n` times, keeping the last rune. -/
def peekNext : Nat → Int → Lexer → Except Fault (Int × Lexer)
  | 0, r, l => .ok (r, l)
  | n + 1, _, l => do
    let (r, l) ← next l
    peekNext n r l

/-- Second loop of `peek`: call `backup` `n` times. -/
def peekBackup : Nat → Lexer → Lexer
  | 0, l => l
  | n + 1, l => peekBackup n (backup l)

/-- The method `peek`. -/
def peek (l : Lexer) (n : Nat) : Except Fault (Int × Lexer) := do
  let (r, l) ← peekNext n 0 l
  pure (r, peekBackup n l)

/-- The method `accept`. -/
def accept (l : Lexer) (rs : List Nat) : Except Fault (Bool × Lexer) := do
  let (r, l) ← next l
  if ContainsRune rs r then pure (true, l)
  else pure (false, backup l)

/-- The method `acceptRun`. -/
def acceptRun : Nat → Lexer → List Nat → Except Fault Lexer
  | 0, _, _ => .error .fuel
  | fuel + 1, l, valid => do
    let (r, l) ← next l
    if ContainsRune valid r then acceptRun fuel l valid
    else pure (backup l)

def acceptNumber (l : Lexer) : Except Fault (Bool × Lexer) := accept l stringNumber

def acceptMathOp (l : Lexer) : Except Fault (Bool × Lexer) := accept l stringMathOp

def acceptAlphaNumeric (l : Lexer) : Except Fault (Bool × Lexer) := accept l stringAlphaNum

/-- The function `itemIn`. -/
def itemIn (item : List Nat) (items : List (List Nat)) : Bool :=
  items.any (fun v => decide (v = item))

/-- The loop `for r != '\n' && r != token.EOF { l.next(); r = l.peek(1) }` of
`lexComment` and `lexSpecialComment`. -/
def untilEOL : Nat → Int → Lexer → Except Fault (Int × Lexer)
  | 0, _, _ => .error .fuel
  | fuel + 1, r, l =>
    if r ≠ 10 ∧ r ≠ EOF then do
      let (_, l) ← next l
      let (r, l) ← peek l 1
      untilEOL fuel r l
    else pure (r, l)

/-- The loop `for r != closing && r != token.EOF { c = l.next(); r = l.peek(1) }`
of `lexString`. -/
def untilClosing (closing : Int) : Nat → Int → Int → Lexer → Except Fault (Int × Int × Lexer)
  | 0, _, _, _ => .error .fuel
  | fuel + 1, c, r, l =>
    if r ≠ closing ∧ r ≠ EOF then do
      let (c, l) ← next l
      let (r, l) ← peek l 1
      untilClosing closing fuel c r l
    else pure (c, r, l)

/-- The loop `for r != '%' && r != token.EOF { l.next(); r = l.peek(1) }` of
`lexInfix`. -/
def untilPercent : Nat → Int → Lexer → Except Fault (Int × Lexer)
  | 0, _, _ => .error .fuel
  | fuel + 1, r, l =>
    if r ≠ 37 ∧ r ≠ EOF then do
      let (_, l) ← next l
      let (r, l) ← peek l 1
      untilPercent fuel r l
    else pure (r, l)

/-- A branch of `lexDefault` of the form
`l.next(); l.emit(t); return s`. -/
def next1Emit (l : Lexer) (t : ItemType) (s : StateFn) : Step := do
  let (_, l) ← next l
  let l ← emit l t
  pure (some s, l)

/-- A branch of `lexDefault` of the form
`l.next(); l.next(); l.emit(t); return s`. -/
def next2Emit (l : Lexer) (t : ItemType) (s : StateFn) : Step := do
  let (_, l) ← next l
  let (_, l) ← next l
  let l ← emit l t
  pure (some s, l)

/-- A branch of `lexDefault` of the form
`l.next(); l.next(); l.next(); l.emit(t); return s`. -/
def next3Emit (l : Lexer) (t : ItemType) (s : StateFn) : Step := do
  let (_, l) ← next l
  let (_, l) ← next l
  let (_, l) ← next l
  let l ← emit l t
  pure (some s, l)

/-- The tail of `lexDefault`, lines 367-380: the `accept…` tests and the
final `l.next()`. -/
def lexDefaultTail (l : Lexer) : Step := do
  let (b, l) ← acceptNumber l
  if b then pure (some .lexNumber, l)
  else do
    let (b, l) ← acceptMathOp l
    if b then pure (some .lexMathOp, l)
    else do
      let (b, l) ← acceptAlphaNumeric l
      if b then pure (some .lexIdentifier, l)
      else do
        let (_, l) ← next l
        pure (some .lexDefault, l)

/-- A test `r1 == c && r2 == c && l.peek(3) == c` of `lexDefault`, with Go's
short-circuit evaluation: `peek(3)` is called only when both runes are `c`. -/
def peekThird (l : Lexer) (r1 r2 c : Int) : Except Fault (Bool × Lexer) :=
  if r1 = c ∧ r2 = c then do
    let (r3, l) ← peek l 3
    pure (decide (r3 = c), l)
  else pure (false, l)

/-- Lines 248-365 of `lexDefault`: the `...` branch (`c3` is the value of its
test) and the single-rune punctuation, then the tail. -/
def lexDefaultPunctBranches (l : Lexer) (c3 : Bool) (r1 r2 : Int) : Step :=
  if c3 then next3Emit l .ItemThreeDot .lexDefault
  else if r1 = 58 then next1Emit l .ItemColon .lexType
  else if r1 = 59 then next1Emit l .ItemSemiColon .lexDefault
  else if r1 = 38 then next1Emit l .ItemAnd .lexDefault
  else if r1 = 124 ∧ r2 = 62 then next2Emit l .ItemPipe .lexDefault
  else if r1 = 124 then next1Emit l .ItemOr .lexDefault
  else if r1 = 36 then next1Emit l .ItemDollar .lexDefault
  else if r1 = 44 then next1Emit l .ItemComma .lexDefault
  else if r1 = 61 then next1Emit l .ItemAssign .lexDefault
  else if r1 = 40 then next1Emit l .ItemLeftParen .lexDefault
  else if r1 = 41 then next1Emit l .ItemLeftParen .lexType
  else if r1 = 123 then next1Emit l .ItemLeftCurly .lexDefault
  else if r1 = 125 then next1Emit l .ItemRightCurly .lexDefault
  else if r1 = 91 ∧ r2 = 91 then next1Emit l .ItemDoubleLeftSquare .lexDefault
  else if r1 = 91 then next1Emit l .ItemLeftSquare .lexDefault
  else if r1 = 93 ∧ r2 = 93 then next1Emit l .ItemDoubleRightSquare .lexDefault
  else if r1 = 93 then next1Emit l .ItemRightSquare .lexDefault
  else if r1 = 63 then next1Emit l .ItemQuestion .lexDefault
  else if r1 = 96 then next1Emit l .ItemBacktick .lexDefault
  else lexDefaultTail l

/-- The part of `lexDefault` from line 248 on (after the two `::` tests);
`r1` and `r2` are the runes peeked earlier. -/
def lexDefaultPunct (l : Lexer) (r1 r2 : Int) : Step := do
  let (c3, l) ← peekThird l r1 r2 46
  lexDefaultPunctBranches l c3 r1 r2

/-- Lines 233-246 of `lexDefault`: the `:::` and `::` branches, then the rest. -/
def lexDefaultNamespace (l : Lexer) (r1 r2 : Int) : Step := do
  let (c3, l) ← peekThird l r1 r2 58
  if c3 then next3Emit l .ItemNamespaceInternal .lexIdentifier
  else if r1 = 58 ∧ r2 = 58 then next2Emit l .ItemNamespace .lexIdentifier
  else lexDefaultPunct l r1 r2

/-- Lines 173-231 of `lexDefault`: the infix test and the two-rune operators,
then the rest. -/
def lexDefaultOpsBranches (l : Lexer) (r1 r2 : Int) : Step :=
  if r1 = 37 ∧ r2 ≠ 37 then pure (some .lexInfix, l)
  else if r1 = 37 ∧ r2 = 37 then next2Emit l .ItemModulus .lexDefault
  else if r1 = 61 ∧ r2 = 61 then next2Emit l .ItemDoubleEqual .lexDefault
  else if r1 = 33 ∧ r2 = 61 then next2Emit l .ItemNotEqual .lexDefault
  else if r1 = 62 ∧ r2 = 61 then next2Emit l .ItemGreaterOrEqual .lexDefault
  else if r1 = 60 ∧ r2 = 61 then next2Emit l .ItemLessOrEqual .lexDefault
  else if r1 = 60 ∧ r2 = 32 then next1Emit l .ItemLessThan .lexDefault
  else if r1 = 62 ∧ r2 = 32 then next1Emit l .ItemGreaterThan .lexDefault
  else if r1 = 60 ∧ r2 = 45 then next2Emit l .ItemAssign .lexDefault
  else lexDefaultNamespace l r1 r2

/-- Lines 167-171 of `lexDefault`: the branch for `..` emits `ItemRange` and
has no `return`, so control falls through to the tests that follow. -/
def rangeFallThrough (l : Lexer) (r1 r2 : Int) : Except Fault Lexer :=
  if r1 = 46 ∧ r2 = 46 then do
    let (_, l) ← next l
    let (_, l) ← next l
    emit l .ItemRange
  else pure l

/-- The part of `lexDefault` from line 165 (`r2 := l.peek(2)`) on. -/
def lexDefaultOps (l : Lexer) (r1 : Int) : Step := do
  let (r2, l) ← peek l 2
  let l ← rangeFallThrough l r1 r2
  lexDefaultOpsBranches l r1 r2

/-- The state function `lexDefault`. -/
def lexDefault (l : Lexer) : Step := do
  let (r1, l) ← peek l 1
  if r1 = EOF then pure (none, emitEOF l)
  else if r1 = 34 then do
    let (_, l) ← next l
    let l ← emit l .ItemDoubleQuote
    pure (some (.lexString 34), l)
  else if r1 = 39 then do
    let (_, l) ← next l
    let l ← emit l .ItemSingleQuote
    pure (some (.lexString 39), l)
  else if r1 = 35 then pure (some .lexComment, l)
  else if r1 = 32 ∨ r1 = 9 then do
    let (_, l) ← next l
    pure (some .lexDefault, ignore l)
  else if r1 = 91 ∨ r1 = 93 then next2Emit l .ItemTypesList .lexIdentifier
  else if r1 = 10 ∨ r1 = 59 then next1Emit l .ItemEOL .lexDefault
  else lexDefaultOps l r1

/-- A statement `if c { l.emit(t) }`. -/
def emitWhen (c : Prop) [Decidable c] (l : Lexer) (t : ItemType) : Except Fault Lexer :=
  if c then emit l t else pure l

/-- The statement `if r == ' ' { l.next(); l.ignore() }` of `lexSpecialComment`
and `lexType`. -/
def skipSpace (l : Lexer) (r : Int) : Except Fault Lexer :=
  if r = 32 then do
    let (_, l) ← next l
    pure (ignore l)
  else pure l

/-- The statement `if r == '|' { l.next(); l.emit(token.ItemTypesOr) }` of
`lexType` (lines 690-693). -/
def typeOr (l : Lexer) (r : Int) : Except Fault Lexer :=
  if r = 124 then do
    let (_, l) ← next l
    emit l .ItemTypesOr
  else pure l

/-- The statement `if r == '[' && r2 == ']' { l.next(); l.next();
l.emit(token.ItemTypesList) }` of `lexType` (lines 697-701). -/
def typeList (l : Lexer) (r r2 : Int) : Except Fault Lexer :=
  if r = 91 ∧ r2 = 93 then do
    let (_, l) ← next l
    let (_, l) ← next l
    emit l .ItemTypesList
  else pure l

/-- The statement `if r1 == 'e' { l.next(); l.acceptRun(stringNumber) }` of
`lexNumber` (lines 417-420). -/
def lexExponent (fuel : Nat) (l : Lexer) (r1 : Int) : Except Fault Lexer :=
  if r1 = 101 then do
    let (_, l) ← next l
    acceptRun fuel l stringNumber
  else pure l

/-- The state function `lexMathOp`. -/
def lexMathOp (fuel : Nat) (l : Lexer) : Step := do
  let l ← acceptRun fuel l stringMathOp
  let tk ← currentToken l
  let l ← emitWhen (tk = str "+") l .ItemPlus
  let l ← emitWhen (tk = str "-") l .ItemMinus
  let l ← emitWhen (tk = str "*") l .ItemMultiply
  let l ← emitWhen (tk = str "/") l .ItemDivide
  let l ← emitWhen (tk = str "^") l .ItemPower
  pure (some .lexDefault, l)

/-- The state function `lexNumber`. -/
def lexNumber (fuel : Nat) (l : Lexer) : Step := do
  let l ← acceptRun fuel l stringNumber
  let (r1, l) ← peek l 1
  let (r2, l) ← peek l 2
  let l ← lexExponent fuel l r1
  if r1 = 46 ∧ r2 = 46 then do
    let l ← emit l .ItemInteger
    let (_, l) ← next l
    let (_, l) ← next l
    let l ← emit l .ItemRange
    pure (some .lexNumber, l)
  else do
    let (b, l) ← accept l (str ".")
    if b then do
      let l ← acceptRun fuel l stringNumber
      let l ← emit l .ItemFloat
      pure (some .lexDefault, l)
    else do
      let l ← emit l .ItemInteger
      pure (some .lexDefault, l)

/-- The state function `lexComment`. -/
def lexComment (fuel : Nat) (l : Lexer) : Step := do
  let (r2, l) ← peek l 2
  if r2 = 39 then do
    let (_, l) ← next l
    let (_, l) ← next l
    let l ← emit l .ItemSpecialComment
    pure (some .lexSpecialComment, l)
  else do
    let (r, l) ← peek l 1
    let (_, l) ← untilEOL fuel r l
    let l ← emit l .ItemComment
    pure (some .lexDefault, l)

/-- The state function `lexSpecialComment`. -/
def lexSpecialComment (fuel : Nat) (l : Lexer) : Step := do
  let (r, l) ← peek l 1
  let l ← skipSpace l r
  let (_, l) ← untilEOL fuel r l
  let l ← emit l .ItemSpecialComment
  pure (some .lexDefault, l)

/-- The closure returned by the method `lexString(closing)`. -/
def lexString (fuel : Nat) (closing : Int) (l : Lexer) : Step := do
  let (r, l) ← peek l 1
  let (c, r, l) ← untilClosing closing fuel 0 r l
  if c = 92 ∧ r = closing then do
    let (_, l) ← next l
    pure (some (.lexString closing), l)
  else if r = EOF then do
    let (_, l) ← next l
    let tk ← currentToken l
    pure (errorf l (str "expecting closing quote, got " ++ tk))
  else do
    let l ← emit l .ItemString
    let (r, l) ← next l
    let l ← emitWhen (r = 34) l .ItemDoubleQuote
    let l ← emitWhen (r = 39) l .ItemSingleQuote
    pure (some .lexDefault, l)

/-- The state function `lexInfix`. -/
def lexInfix (fuel : Nat) (l : Lexer) : Step := do
  let (_, l) ← next l
  let (r, l) ← peek l 1
  let (r, l) ← untilPercent fuel r l
  if r = EOF then do
    let (_, l) ← next l
    let tk ← currentToken l
    pure (errorf l (str "expecting closing %, got " ++ tk))
  else do
    let (_, l) ← next l
    let l ← emit l .ItemInfix
    pure (some .lexDefault, l)

/-- The keyword table of `lexIdentifier`, in source order: the lexeme, the
class emitted for it and the state returned. -/
def keywords : List (List Nat × ItemType × StateFn) :=
  [ (str "TRUE", .ItemBool, .lexDefault),
    (str "FALSE", .ItemBool, .lexDefault),
    (str "if", .ItemIf, .lexDefault),
    (str "else", .ItemElse, .lexDefault),
    (str "return", .ItemReturn, .lexDefault),
    (str ".Call", .ItemCall, .lexDefault),
    (str ".C", .ItemC, .lexDefault),
    (str ".Fortran", .ItemFortran, .lexDefault),
    (str "NULL", .ItemNULL, .lexDefault),
    (str "NA", .ItemNA, .lexDefault),
    (str "NA_integer_", .ItemNAInteger, .lexDefault),
    (str "NA_character_", .ItemNACharacter, .lexDefault),
    (str "NA_real_", .ItemNAReal, .lexDefault),
    (str "NA_complex_", .ItemNAComplex, .lexDefault),
    (str "Inf", .ItemInf, .lexDefault),
    (str "while", .ItemWhile, .lexDefault),
    (str "for", .ItemFor, .lexDefault),
    (str "repeat", .ItemRepeat, .lexDefault),
    (str "next", .ItemNext, .lexDefault),
    (str "break", .ItemBreak, .lexDefault),
    (str "func", .ItemFunction, .lexIdentifier),
    (str "NaN", .ItemNan, .lexDefault),
    (str "in", .ItemIn, .lexDefault),
    (str "let", .ItemLet, .lexIdentifier),
    (str "const", .ItemConst, .lexIdentifier),
    (str "type", .ItemTypesDecl, .lexDefault) ]

/-- The chain `if tk == k { l.emit(t); return s }` of `lexIdentifier` over the
keyword table, ending with the `itemIn` test for the built-in type names and
the default `ItemIdent`. -/
def lexIdentifierChain (l : Lexer) (tk : List Nat) :
    List (List Nat × ItemType × StateFn) → Step
  | [] =>
    if itemIn tk [str "int", str "string", str "num", str "list", str "dataframe", str "struct"]
    then do
      let l ← emit l .ItemTypes
      pure (some .lexDefault, l)
    else do
      let l ← emit l .ItemIdent
      pure (some .lexDefault, l)
  | (k, t, s) :: rest =>
    if tk = k then do
      let l ← emit l t
      pure (some s, l)
    else lexIdentifierChain l tk rest

/-- The state function `lexIdentifier`. -/
def lexIdentifier (fuel : Nat) (l : Lexer) : Step := do
  let l ← acceptRun fuel l (stringAlphaNum ++ str "_.")
  let tk ← currentToken l
  lexIdentifierChain l tk keywords

/-- The state function `lexType`. -/
def lexType (fuel : Nat) (l : Lexer) : Step := do
  let (r, l) ← peek l 1
  let l ← skipSpace l r
  let l ← typeOr l r
  let (r, l) ← peek l 1
  let (r2, l) ← peek l 2
  let l ← typeList l r r2
  let l ← acceptRun fuel l stringAlpha
  let l ← emit l .ItemTypes
  let (r, l) ← peek l 1
  if r = 124 then do
    let (_, l) ← next l
    let l ← emit l .ItemTypesOr
    pure (some .lexType, l)
  else if r = 32 then pure (some .lexType, l)
  else pure (some .lexDefault, l)

/-- Application of a state function to the lexer: `state(l)`. -/
def step (fuel : Nat) (s : StateFn) (l : Lexer) : Step :=
  match s with
  | .lexDefault => lexDefault l
  | .lexMathOp => lexMathOp fuel l
  | .lexNumber => lexNumber fuel l
  | .lexComment => lexComment fuel l
  | .lexSpecialComment => lexSpecialComment fuel l
  | .lexString closing => lexString fuel closing l
  | .lexInfix => lexInfix fuel l
  | .lexIdentifier => lexIdentifier fuel l
  | .lexType => lexType fuel l

/-- The loop of `Run`: `for state := …; state != nil; { state = state(l) }`,
with `n` transitions allowed and `fuel` iterations for each inner loop. -/
def runLoop (fuel : Nat) : Nat → StateFn → Lexer → Except Fault Lexer
  | 0, _, _ => .error .fuel
  | n + 1, s, l => do
    let (s, l) ← step fuel s l
    match s with
    | none => pure l
    | some s => runLoop fuel n s l

/-- The lexer `&Lexer{Input: code}` of the callers: all other fields zero. -/
def Lexer.new (input : List Nat) : Lexer :=
  { Input := input, start := 0, pos := 0, width := 0, line := 0, Items := [] }

/-- The method `Run` on a fresh lexer over `input`, returning `l.Items`. -/
def Run (fuel : Nat) (input : List Nat) : Except Fault (List Item) := do
  let l ← runLoop fuel fuel .lexDefault (Lexer.new input)
  pure l.Items

/-! ## Definitions used to state the properties -/

/-- The rune that `next` returns at position `p` of `inp`. -/
def runeAt (inp : List Nat) (p : Int) : Int :=
  if (inp.length : Int) ≤ p then EOF else (DecodeRuneInString (inp.drop p.toNat)).1

/-- The width that `next` records at position `p` of `inp`. -/
def widthAt (inp : List Nat) (p : Int) : Int :=
  if (inp.length : Int) ≤ p then 0 else (DecodeRuneInString (inp.drop p.toNat)).2

/-- The lexer reads `inp`, with the given `start`, `pos` and `Items`
(`width` and `line` are left free). -/
structure Lexer.At (l : Lexer) (inp : List Nat) (st p : Int) (its : List Item) : Prop where
  input : l.Input = inp
  start : l.start = st
  pos : l.pos = p
  items : l.Items = its

/-- Go's UTF-8 encoding of a rune (`utf8.AppendRune`); a surrogate or a value
above `utf8.MaxRune` is encoded as `utf8.RuneError`. -/
def EncodeRune (r : Nat) : List Nat :=
  if r < 0x80 then [r]
  else if r < 0x800 then [0xC0 + r / 64, 0x80 + r % 64]
  else if 0x10FFFF < r ∨ (0xD800 ≤ r ∧ r ≤ 0xDFFF) then [0xEF, 0xBF, 0xBD]
  else if r < 0x10000 then [0xE0 + r / 4096, 0x80 + r / 64 % 64, 0x80 + r % 64]
  else [0xF0 + r / 262144, 0x80 + r / 4096 % 64, 0x80 + r / 64 % 64, 0x80 + r % 64]

/-- The Go string holding the runes `rs`. -/
def encodeRunes : List Nat → List Nat
  | [] => []
  | r :: rs => EncodeRune r ++ encodeRunes rs

/-- The class of the token emitted for the quote character `q`. -/
def quoteItem (q : Nat) : ItemType :=
  if q = 34 then .ItemDoubleQuote else .ItemSingleQuote

/-- The string `\q\q…\q`: `n` escaped quotes. -/
def escapedQuotes (q : Nat) : Nat → List Nat
  | 0 => []
  | n + 1 => 92 :: q :: escapedQuotes q n

/-- Every byte of the input is an ASCII character. -/
def Ascii (inp : List Nat) : Prop := ∀ b ∈ inp, b < 128

/-- The cursor invariant of the lexer over the input `inp`:
`0 ≤ start ≤ pos ≤ len(Input)`. -/
structure Lexer.Ok (l : Lexer) (inp : List Nat) : Prop where
  input : l.Input = inp
  start_nonneg : 0 ≤ l.start
  start_le : l.start ≤ l.pos
  pos_le : l.pos ≤ inp.length

/-- The lexer `l1` is reached from `l` by reading forward: the cursor
invariant holds, `pos` has not moved back and `Items` has only grown. -/
structure Follows (inp : List Nat) (l l1 : Lexer) : Prop where
  ok : l1.Ok inp
  pos : l.pos ≤ l1.pos
  items : l.Items <+: l1.Items

/-- Rank of a state in the termination measure: the states that may be
entered without reading anything rank lowest. -/
def rank (inp : List Nat) (s : StateFn) (l : Lexer) : Nat :=
  match s with
  | .lexDefault => 1
  | .lexInfix => 0
  | .lexComment => if runeAt inp l.pos = 10 ∨ runeAt inp l.pos = EOF then 2 else 0
  | .lexIdentifier => if l.start < l.pos then 3 else 2
  | _ => 2

/-- Termination measure of the state machine: the bytes left to read, then
the rank of the state. -/
def lexMeasure (inp : List Nat) (s : StateFn) (l : Lexer) : Nat :=
  4 * ((inp.length : Int) - l.pos).toNat + rank inp s l

/-- A branch that ends `lexDefault` returns a state, has read forward, and
has consumed at least one byte unless the end of the input was reached before
(or the state returned is `lexInfix`, which consumes the `%` itself). -/
def Fwd (inp : List Nat) (l : Lexer) (r : Step) : Prop :=
  ∃ s1 l1, r = .ok (some s1, l1) ∧ Follows inp l l1 ∧
    (l.pos < inp.length → l.pos < l1.pos ∨ s1 = .lexInfix)

/-- A state function applied to `l` returns, keeps the cursor invariant and
either halts or decreases the termination measure. -/
def Progress (inp : List Nat) (s : StateFn) (l : Lexer) (r : Step) : Prop :=
  ∃ s1 l1, r = .ok (s1, l1) ∧ Follows inp l l1 ∧
    ∀ s2, s1 = some s2 → lexMeasure inp s2 l1 < lexMeasure inp s l

instance Ascii.decidable (inp : List Nat) : Decidable (Ascii inp) := by
  unfold Ascii
  infer_instance

/-- The bytes of `b` that come before its first `%`. -/
def beforePercent : List Nat → List Nat
  | [] => []
  | a :: t => if a = 37 then [] else a :: beforePercent t





/-- The lexer has dealt with the bytes `done` (emitted or ignored), holds
`cur` as the text of the pending token and has `rest` left to read; `its` are
the items emitted so far. -/
structure Lexer.Seg (l : Lexer) (done cur rest : List Nat) (its : List Item) : Prop where
  input : l.Input = done ++ (cur ++ rest)
  start : l.start = done.length
  pos : l.pos = (done.length : Int) + cur.length
  items : l.Items = its

/-- The rest of the input begins with a byte that `acceptRun` does not accept,
or is empty. -/
def Stops (valid rest : List Nat) : Prop :=
  rest = [] ∨ ∃ b t, rest = b :: t ∧ b < 128 ∧ ContainsRune valid b = false

/-- No branch of `lexDefault` before the final `accept…` tests is taken for
the rune `r1` followed by the rune `r2` (`r1` is not the end of the input). -/
def noBranch (r1 r2 : Int) : Prop :=
  r1 ∉ ([34, 39, 35, 32, 9, 91, 93, 10, 59, 37, 61, 58, 38, 124, 36, 44, 40, 41, 123, 125, 63,
    96] : List Int) ∧
  ¬ (r1 = 46 ∧ r2 = 46) ∧ ¬ (r1 = 33 ∧ r2 = 61) ∧ ¬ (r1 = 62 ∧ r2 = 61) ∧
  ¬ (r1 = 60 ∧ r2 = 61) ∧ ¬ (r1 = 60 ∧ r2 = 32) ∧ ¬ (r1 = 62 ∧ r2 = 32) ∧
  ¬ (r1 = 60 ∧ r2 = 45)

instance noBranch.decidable (r1 r2 : Int) : Decidable (noBranch r1 r2) := by
  unfold noBranch
  infer_instance

/-- The rune `r1`, followed by the rune `r2`, is matched by no test of
`lexDefault`: no branch is taken for it and none of the three `accept…` tests
of the tail accepts it. -/
def unmatched (r1 r2 : Int) : Prop :=
  noBranch r1 r2 ∧ ContainsRune stringNumber r1 = false ∧
  ContainsRune stringMathOp r1 = false ∧ ContainsRune stringAlphaNum r1 = false

instance unmatched.decidable (r1 r2 : Int) : Decidable (unmatched r1 r2) := by
  unfold unmatched
  infer_instance

/-- The rune after the first byte of `rest`. -/
def secondRune : List Nat → Int
  | _ :: c :: _ => c
  | _ => EOF

/-- The byte `b` is an ASCII letter. -/
def letter (b : Nat) : Prop := (65 ≤ b ∧ b ≤ 90) ∨ (97 ≤ b ∧ b ≤ 122)

instance letter.decidable (b : Nat) : Decidable (letter b) := by
  unfold letter
  infer_instance

/-- The bytes that `lexIdentifier` accepts. -/
def identBytes : List Nat := stringAlphaNum ++ str "_."

/-- Every result that `x` returns satisfies `Q` (a fault returns nothing). -/
structure Holds {α : Type} (x : Except Fault α) (Q : α → Prop) : Prop where
  out : ∀ a, x = .ok a → Q a

/-- The class `t` is none of the four classes that no branch of the lexer
emits. -/
def goodClass (t : ItemType) : Prop :=
  t ≠ .ItemRightParen ∧ t ≠ .ItemVector ∧ t ≠ .ItemList ∧ t ≠ .ItemDataframe

instance goodClass.decidable (t : ItemType) : Decidable (goodClass t) := by
  unfold goodClass
  infer_instance

/-- No item of the list has one of the four classes. -/
def Clean (its : List Item) : Prop := ∀ it ∈ its, goodClass it.Class

/-- No item emitted so far has one of the four classes. -/
def CleanL (l : Lexer) : Prop := Clean l.Items

/-! ## The syntax tree and the environment -/

/-- Modelled from the spec: the struct `ast.Type`, declared in the package `ast`
that is not under src: a type name and the list-of flag (written `[]T`).
`Type` is reserved in Lean, hence the name `Ty`; a Go string is the list of
its bytes, as in the lexer. -/
structure ast.Ty where
  Name : List Nat
  List : Bool
deriving DecidableEq, Repr

/-- The slice type `ast.Types` (`[]*ast.Type`): the alternatives of a type
expression. -/
abbrev ast.Types := List ast.Ty

/-- Modelled from the spec: the struct `ast.Parameter` of the absent package
`ast`, with the fields that `walk.go` reads; `α` is the type of nodes and
`Default` is `none` for a nil expression. -/
structure ast.Parameter (α : Type) where
  Token : token.Item
  Name : List Nat
  Type_ : ast.Types
  Default : Option α
  Method : Bool

/-- Modelled from the spec: the struct `ast.Argument` of the absent package
`ast`, with the fields that `walk.go` reads. -/
structure ast.Argument (α : Type) where
  Token : token.Item
  Name : List Nat
  Value : Option α

/-- Modelled from the spec: the node types of the absent package `ast`, one
constructor for each case of the type switch of `Walk`, with the fields that
`walk.go` reads, and `Other` for every node type that the switch does not
list.  A field holding a node is `none` for Go's nil; the fields `Value` of
`For` and `Body` of `FunctionLiteral` are pointers to a block statement, given
by the statements of the block; the field `Type_` of `DecoratorClass` is a
pointer to a type statement, given by its token, name and type. -/
inductive ast.Node where
  | Program (Statements : List ast.Node)
  | ExpressionStatement (Expression : Option ast.Node)
  | Square (Statements : List ast.Node)
  | LetStatement (Token : token.Item) (Name : List Nat) (Type_ : ast.Types)
      (Value : Option ast.Node)
  | ConstStatement (Token : token.Item) (Name : List Nat) (Type_ : ast.Types)
      (Value : Option ast.Node)
  | ReturnStatement (ReturnValue : Option ast.Node)
  | TypeStatement (Token : token.Item) (Name : List Nat) (Type_ : ast.Types)
  | DecoratorClass (Token : token.Item) (Type_ : Option (token.Item × List Nat × ast.Types))
  | DecoratorGeneric (Func : Option ast.Node)
  | DecoratorDefault (Func : Option ast.Node)
  | Keyword (Token : token.Item) (Type_ : ast.Ty)
  | Null (Token : token.Item) (Type_ : ast.Ty)
  | CommentStatement (Token : token.Item)
  | BlockStatement (Statements : List ast.Node)
  | Attrbute (Token : token.Item)
  | Identifier (Token : token.Item) (Value : List Nat) (Type_ : ast.Types)
  | Boolean (Token : token.Item) (Type_ : ast.Ty)
  | IntegerLiteral (Token : token.Item) (Type_ : ast.Ty)
  | FloatLiteral (Token : token.Item) (Type_ : ast.Ty)
  | VectorLiteral (Token : token.Item) (Value : List ast.Node)
  | SquareRightLiteral (Token : token.Item)
  | StringLiteral (Token : token.Item) (Type_ : ast.Ty)
  | PrefixExpression (Token : token.Item) (Right : Option ast.Node)
  | For (Name : Option ast.Node) (Vector : Option ast.Node) (Value : Option (List ast.Node))
  | While (Statement : Option ast.Node) (Value : Option ast.Node)
  | InfixExpression (Token : token.Item) (Left : Option ast.Node) (Operator : List Nat)
      (Right : Option ast.Node)
  | IfExpression (Condition : Option ast.Node) (Consequence : Option ast.Node)
      (Alternative : Option ast.Node)
  | FunctionLiteral (Token : token.Item) (Name : List Nat) (Method : Option ast.Ty)
      (MethodVariable : List Nat) (Parameters : List (ast.Parameter ast.Node))
      (Body : Option (List ast.Node)) (ReturnType : ast.Types)
  | CallExpression (Token : token.Item) (Name : List Nat)
      (Arguments : List (ast.Argument ast.Node)) (Function : Option ast.Node)
  | Other (Token : token.Item)

/-- Modelled from the spec: the struct `environment.Object`, the entry type of
the four tables, whose declaration is not under src.  Its fields are the ones
that `environment.go` and `walk.go` read or write: the declaring token, a
name, the type expression (`Type_`, for Go's `Type`; the types of a variable),
the list flag of a type entry, the flags `Used`, `CanMiss` and `IsConst` of a
variable, the package of a function, and the node of a function or a class
(`Value`, `none` for nil). -/
structure environment.Object where
  Token : token.Item
  Name : List Nat
  Type_ : ast.Types
  Package : List Nat
  Value : Option ast.Node
  Used : Bool
  CanMiss : Bool
  IsConst : Bool
  List : Bool

/-- The zero value `Object{}` of Go. -/
def environment.Object.zero : environment.Object :=
  { Token := ⟨.ItemError, []⟩, Name := [], Type_ := [], List := false, Used := false,
    CanMiss := false, IsConst := false, Package := [], Value := none }

/-- A Go `map[string]Object`, as the list of its entries (each key once, the
key set last first). -/
abbrev environment.Table := List (List Nat × environment.Object)

/-- The lookup `obj, ok := m[name]`: the zero object and `false` for a key
that is not in the map. -/
def environment.Table.get : environment.Table → List Nat → environment.Object × Bool
  | [], _ => (environment.Object.zero, false)
  | (k, v) :: m, name => if k = name then (v, true) else environment.Table.get m name

/-- The assignment `m[name] = val`. -/
def environment.Table.set (m : environment.Table) (name : List Nat) (val : environment.Object) :
    environment.Table :=
  (name, val) :: m.filter (fun e => decide (e.1 ≠ name))

/-- The fields of the struct `Environment` other than `outer`: the four tables
and `Fn` (`variables_` and `classes` stand for the fields `variables` and
`class`, which are reserved words). -/
structure environment.Frame where
  variables_ : environment.Table
  types : environment.Table
  functions : environment.Table
  classes : environment.Table
  Fn : environment.Object

/-- The struct `Environment`: a frame and the pointer `outer` to the enclosing
environment (`none` is Go's `nil`). -/
inductive environment.Environment where
  | mk (frame : environment.Frame) (outer : Option environment.Environment)

/-- The fields of `e` other than `outer`. -/
def environment.Environment.frame : environment.Environment → environment.Frame
  | .mk f _ => f

/-- The field `e.outer`. -/
def environment.Environment.outer : environment.Environment → Option environment.Environment
  | .mk _ o => o

/-- The assignment `env.outer = e` of `Enclose`. -/
def environment.Environment.setOuter :
    environment.Environment → Option environment.Environment → environment.Environment
  | .mk f _, o => .mk f o

/-- The method `Open`. -/
def environment.Environment.Open (e : environment.Environment) :
    Option environment.Environment :=
  e.outer

/-- The table `baseTypes`. -/
def environment.baseTypes : List (List Nat) :=
  [str "factor", str "int", str "any", str "num", str "char", str "bool", str "null",
   str "na", str "na_char", str "na_int", str "na_real", str "na_complex", str "nan",
   str "list", str "object", str "matrix", str "dataframe"]

/-- The method `GetVariable`. -/
def environment.Environment.GetVariable :
    environment.Environment → List Nat → Bool → environment.Object × Bool
  | .mk f o, name, outer =>
    let r := f.variables_.get name
    match o with
    | some e => if !r.2 && outer then e.GetVariable name outer else r
    | none => r

/-- The method `SetVariable`; the environment after the assignment is returned
(the Go method returns `val`). -/
def environment.Environment.SetVariable :
    environment.Environment → List Nat → environment.Object → environment.Environment
  | .mk ⟨vs, ts, fs, cs, fn⟩ o, name, val => .mk ⟨vs.set name val, ts, fs, cs, fn⟩ o

/-- The method `SetVariableUsed`. -/
def environment.Environment.SetVariableUsed (e : environment.Environment) (name : List Nat) :
    environment.Environment :=
  let r := e.GetVariable name false
  if !r.2 then e else e.SetVariable name { r.1 with Used := true }

/-- The method `SetVariableNotMissing`. -/
def environment.Environment.SetVariableNotMissing (e : environment.Environment)
    (name : List Nat) : environment.Environment :=
  let r := e.GetVariable name false
  if !r.2 then e else e.SetVariable name { r.1 with CanMiss := false }

/-- The key of `GetType` and `SetType`: `name`, with `_` appended for a list. -/
def environment.typeKey (name : List Nat) (list : Bool) : List Nat :=
  if list then name ++ str "_" else name

/-- The method `GetType`. -/
def environment.Environment.GetType :
    environment.Environment → List Nat → Bool → environment.Object × Bool
  | .mk f o, name, list =>
    let r := f.types.get (environment.typeKey name list)
    match o with
    | some e => if !r.2 then e.GetType name list else r
    | none => r

/-- The method `SetType`; the environment after the assignment is returned. -/
def environment.Environment.SetType :
    environment.Environment → List Nat → environment.Object → environment.Environment
  | .mk ⟨vs, ts, fs, cs, fn⟩ o, name, val =>
    .mk ⟨vs, ts.set (environment.typeKey name val.List) val, fs, cs, fn⟩ o

/-- The method `GetFunction`. -/
def environment.Environment.GetFunction :
    environment.Environment → List Nat → Bool → environment.Object × Bool
  | .mk f o, name, outer =>
    let r := f.functions.get name
    match o with
    | some e => if !r.2 && outer then e.GetFunction name outer else r
    | none => r

/-- The method `SetFunction`; the environment after the assignment is returned. -/
def environment.Environment.SetFunction :
    environment.Environment → List Nat → environment.Object → environment.Environment
  | .mk ⟨vs, ts, fs, cs, fn⟩ o, name, val => .mk ⟨vs, ts, fs.set name val, cs, fn⟩ o

/-- The method `GetFunctionEnvironment`. -/
def environment.Environment.GetFunctionEnvironment (e : environment.Environment) :
    Bool × environment.Object :=
  (decide (e.frame.Fn.Token.Value ≠ []), e.frame.Fn)

/-- The method `GetClass`. -/
def environment.Environment.GetClass :
    environment.Environment → List Nat → environment.Object × Bool
  | .mk f o, name =>
    let r := f.classes.get name
    match o with
    | some e => if !r.2 then e.GetClass name else r
    | none => r

/-- The method `SetClass`; the environment after the assignment is returned. -/
def environment.Environment.SetClass :
    environment.Environment → List Nat → environment.Object → environment.Environment
  | .mk ⟨vs, ts, fs, cs, fn⟩ o, name, val => .mk ⟨vs, ts, fs, cs.set name val, fn⟩ o

/-- The method `variablesNotUsed` (in the order of the table; Go iterates over
the map in an unspecified order). -/
def environment.Environment.variablesNotUsed (e : environment.Environment) :
    List environment.Object :=
  (e.frame.variables_.filter (fun kv => !kv.2.Used && decide (kv.2.Name ≠ str "..."))).map
    (fun kv => kv.2)

/-- The method `AllVariablesUsed`. -/
def environment.Environment.AllVariablesUsed (e : environment.Environment) :
    List environment.Object × Bool :=
  let v := e.variablesNotUsed
  (v, decide (v.length = 0))

/-- The function `New`. -/
def environment.New (fn : environment.Object) : environment.Environment :=
  environment.baseTypes.foldl
    (fun env t => env.SetType t { environment.Object.zero with Type_ := [⟨t, false⟩] })
    (.mk { variables_ := [], types := [], functions := [], classes := [], Fn := fn } none)

/-- The method `Enclose`. -/
def environment.Environment.Enclose (e : environment.Environment) (fn : environment.Object) :
    environment.Environment :=
  (environment.New fn).setOuter (some e)

/-- The frames of the scope chain of `e`, the current frame first and the
root frame last. -/
def environment.Environment.frames : environment.Environment → List environment.Frame
  | .mk f none => [f]
  | .mk f (some e) => f :: e.frames

/-- The entry that `New` installs for the base type `t`. -/
def environment.baseType (t : List Nat) : environment.Object :=
  { environment.Object.zero with Type_ := [⟨t, false⟩] }

/-- The base type names listed in the data model of the specification, without
`struct`. -/
def environment.specBaseTypes : List (List Nat) :=
  [str "int", str "num", str "char", str "bool", str "null", str "na", str "factor",
   str "list", str "object", str "dataframe"]





/-! ## The walker -/

/-- Modelled from the spec: the severity of a diagnostic of the absent package
`diagnostics`, one for each of the methods `addFatalf`, `addWarnf`,
`addInfof` and `addHintf` that `walk.go` calls. -/
inductive diagnostics.Severity where
  | Fatal
  | Warn
  | Info
  | Hint
deriving DecidableEq, Repr

/-- A value passed for a `%v` of a diagnostic message. -/
inductive diagnostics.Arg where
  | text (s : List Nat)
  | types (t : ast.Types)
  | int (n : Int)
deriving DecidableEq, Repr

/-- Modelled from the spec: a diagnostic of the absent package `diagnostics`:
the token it is attached to, the message (the format string and the values
given for it, not formatted) and the severity. -/
structure diagnostics.Diagnostic where
  Token : token.Item
  Message : List Nat
  Args : List diagnostics.Arg
  Severity : diagnostics.Severity
deriving DecidableEq, Repr

/-- The struct `Walker`; `env` is `none` for a nil pointer. -/
structure walker.Walker where
  errors : List diagnostics.Diagnostic
  env : Option environment.Environment
  state : List Nat

/-- The value `(ast.Types, ast.Node)` returned by `Walk` and the walker after
the call; the node is `none` for nil. -/
abbrev walker.Result := walker.Walker × ast.Types × Option ast.Node

/-- The method `Walk`, as the methods that call it receive it. -/
abbrev walker.WalkFn := walker.Walker → Option ast.Node → Except Fault walker.Result

/-- The functions that `walk.go` calls and that are not under src: the
methods `typesValid`, `validMathTypes`, `validIteratorTypes` and
`allTypesIdentical` of the walker, the method `Item` of a node, and the
functions `PackageIsInstalled` and `PackageHasFunction` of the package `r`
(each returns its result and whether `err != nil`).  They are parameters of the
walk; each returns a value and leaves the walker as it is. -/
structure walker.Deps where
  typesValid : walker.Walker → ast.Types → ast.Types → Bool
  validMathTypes : walker.Walker → ast.Types → Bool
  validIteratorTypes : walker.Walker → ast.Types → Bool
  allTypesIdentical : walker.Walker → ast.Types → Bool
  Item : ast.Node → token.Item
  PackageIsInstalled : List Nat → Bool × Bool
  PackageHasFunction : List Nat → List Nat → List Nat → Bool × Bool

/-- Modelled from the spec: the methods `addFatalf`, `addWarnf`, `addInfof`
and `addHintf` of the walker, which are not under src: the diagnostic is
appended to `w.errors`. -/
def walker.addDiagnostic (sev : diagnostics.Severity) :
    walker.Walker → token.Item → List Nat → List diagnostics.Arg → walker.Walker
  | ⟨errors, env, state⟩, tok, msg, args => ⟨errors ++ [⟨tok, msg, args, sev⟩], env, state⟩

/-- The method `addFatalf`. -/
def walker.addFatalf := walker.addDiagnostic .Fatal

/-- The method `addWarnf`. -/
def walker.addWarnf := walker.addDiagnostic .Warn

/-- The method `addInfof`. -/
def walker.addInfof := walker.addDiagnostic .Info

/-- The method `addHintf`. -/
def walker.addHintf := walker.addDiagnostic .Hint

/-- A statement `if c { w.addFatalf(tok, msg, args...) }`. -/
def walker.fatalWhen (c : Bool) (w : walker.Walker) (tok : token.Item) (msg : List Nat)
    (args : List diagnostics.Arg) : walker.Walker :=
  if c then walker.addFatalf w tok msg args else w

/-- The pointer `w.env`, dereferenced: a nil pointer panics. -/
def walker.Walker.getEnv (w : walker.Walker) : Except Fault environment.Environment :=
  match w.env with
  | some e => .ok e
  | none => .error .panic

/-- The assignment of `e` to `w.env`. -/
def walker.Walker.setEnv : walker.Walker → Option environment.Environment → walker.Walker
  | ⟨errors, _, state⟩, e => ⟨errors, e, state⟩

/-- The assignment of `s` to `w.state`. -/
def walker.Walker.setState : walker.Walker → List Nat → walker.Walker
  | ⟨errors, env, _⟩, s => ⟨errors, env, s⟩

/-- The statement `w.env = w.env.Enclose()`.  `walk.go` calls `Enclose` without
an argument; the method under src is called with the zero object.  `Enclose`
does not dereference its receiver. -/
def walker.Walker.Enclose (w : walker.Walker) : walker.Walker :=
  w.setEnv (some ((environment.New environment.Object.zero).setOuter w.env))

/-- The statement `w.env = w.env.Open()`; `Open` dereferences its receiver. -/
def walker.Walker.Open (w : walker.Walker) : Except Fault walker.Walker := do
  let e ← w.getEnv
  pure (w.setEnv e.Open)

/-- A call `w.env.SetVariable(name, val)`. -/
def walker.Walker.SetVariable (w : walker.Walker) (name : List Nat) (val : environment.Object) :
    Except Fault walker.Walker := do
  let e ← w.getEnv
  pure (w.setEnv (some (e.SetVariable name val)))

/-- Modelled from the spec: the method `SetTypeUsed` of the environment, which
`walk.go` calls and `environment.go` does not define: the type found is marked
used, in the way `SetVariableUsed` marks a variable. -/
def environment.Environment.SetTypeUsed (e : environment.Environment) (name : List Nat) :
    environment.Environment :=
  let r := e.GetType name false
  if !r.2 then e else e.SetType name { r.1 with Used := true }

/-- The method `Item` of a node; a nil node panics. -/
def walker.itemOf (D : walker.Deps) : Option ast.Node → Except Fault token.Item
  | some n => .ok (D.Item n)
  | none => .error .panic

/-- The fields `fn.Value.Parameters` and `fn.Value.ReturnType` of a function
object; a nil `fn.Value` panics. -/
def walker.functionOf (fn : environment.Object) :
    Except Fault (List (ast.Parameter ast.Node) × ast.Types) :=
  match fn.Value with
  | some (.FunctionLiteral _ _ _ _ ps _ rt) => .ok (ps, rt)
  | _ => .error .panic

/-- The loop of the function `hasElipsis`. -/
def walker.hasElipsis (ps : List (ast.Parameter ast.Node)) : Bool :=
  ps.any (fun p => decide (p.Name = str "..."))

/-- The zero value `&ast.Parameter{}`. -/
def ast.Parameter.zero : ast.Parameter ast.Node :=
  { Token := ⟨.ItemError, []⟩, Name := [], Type_ := [], Default := none, Method := false }

/-- The loop of the function `getFunctionParameter` from the parameter with
index `i` on: its body returns in every case, so only the first parameter it
meets is looked at. -/
def walker.getFunctionParameterFrom :
    List (ast.Parameter ast.Node) → Nat → List Nat → Nat → ast.Parameter ast.Node × Bool
  | [], _, _, _ => (ast.Parameter.zero, false)
  | p :: _, i, name, index =>
    if p.Name = name then (p, true)
    else if name = [] ∧ i = index then (p, true)
    else (ast.Parameter.zero, false)

/-- The function `getFunctionParameter`, on the parameters of `fn.Value`. -/
def walker.getFunctionParameter (ps : List (ast.Parameter ast.Node)) (name : List Nat)
    (index : Nat) : ast.Parameter ast.Node × Bool :=
  walker.getFunctionParameterFrom ps 0 name index

/-- A loop `for _, s := range statements { w.Walk(s) }`; the method
`walkBlockStatement` is this loop over `node.Statements`. -/
def walker.walkEach (W : walker.WalkFn) : walker.Walker → List ast.Node → Except Fault walker.Walker
  | w, [] => .ok w
  | w, s :: rest => do
    let (w, _, _) ← W w (some s)
    walker.walkEach W w rest

/-- The method `walkBlockStatement` on a pointer to a block: nil panics. -/
def walker.walkBlockStatement (W : walker.WalkFn) (w : walker.Walker) :
    Option (List ast.Node) → Except Fault walker.Walker
  | some statements => walker.walkEach W w statements
  | none => .error .panic

/-- The loop of `walkSquare`, with the values of `types` and `n` so far. -/
def walker.walkSquareFrom (W : walker.WalkFn) :
    walker.Walker → List ast.Node → ast.Types → Option ast.Node → Except Fault walker.Result
  | w, [], types, n => .ok (w, types, n)
  | w, s :: rest, _, _ => do
    let (w, types, n) ← W w (some s)
    walker.walkSquareFrom W w rest types n

/-- The method `walkSquare`. -/
def walker.walkSquare (W : walker.WalkFn) (w : walker.Walker) (statements : List ast.Node) :
    Except Fault walker.Result :=
  walker.walkSquareFrom W w statements [] none

/-- The statement `switch n := node.(type) { case *ast.ReturnStatement:
if n.ReturnValue != nil { w.Walk(n.ReturnValue) } }` of `walkProgram`. -/
def walker.walkReturned (W : walker.WalkFn) (w : walker.Walker) :
    Option ast.Node → Except Fault walker.Walker
  | some (.ReturnStatement (some v)) => do
    let (w, _, _) ← W w (some v)
    pure w
  | _ => .ok w

/-- The loop of `walkProgram`, with the values of `types` and `node` so far. -/
def walker.walkProgramFrom (W : walker.WalkFn) :
    walker.Walker → List ast.Node → ast.Types → Option ast.Node → Except Fault walker.Result
  | w, [], types, node => .ok (w, types, node)
  | w, s :: rest, _, _ => do
    let (w, types, node) ← W w (some s)
    let w ← walker.walkReturned W w node
    walker.walkProgramFrom W w rest types node

/-- The method `walkProgram`. -/
def walker.walkProgram (W : walker.WalkFn) (w : walker.Walker) (statements : List ast.Node) :
    Except Fault walker.Result :=
  walker.walkProgramFrom W w statements [] none

/-- The loop `for _, v := range node.Arguments { w.Walk(v.Value) }` of
`walkCallExpression`. -/
def walker.walkArguments (W : walker.WalkFn) :
    walker.Walker → List (ast.Argument ast.Node) → Except Fault walker.Walker
  | w, [] => .ok w
  | w, v :: rest => do
    let (w, _, _) ← W w v.Value
    walker.walkArguments W w rest

/-- The body of the loop of `walkKnownCallExpression` after the walk of the
argument: the parameter is looked up and the types are compared. -/
def walker.checkArgument (D : walker.Deps) (w : walker.Walker)
    (ps : List (ast.Parameter ast.Node)) (argument : ast.Argument ast.Node)
    (argumentIndex : Nat) (argumentType : ast.Types) : walker.Walker :=
  let r := walker.getFunctionParameter ps argument.Name argumentIndex
  if !r.2 ∧ argument.Name = [] then
    walker.addFatalf w argument.Token (str "could not find parameter #%v (too many arguments?)")
      [.int (argumentIndex + 1)]
  else if !r.2 ∧ argument.Name ≠ [] then
    walker.addFatalf w argument.Token (str "could not find parameter `%v`")
      [.text argument.Name]
  else
    let ok := D.typesValid w r.1.Type_ argumentType
    if !ok ∧ argument.Name = [] then
      walker.addFatalf w argument.Token (str "argument #%v expects `%v`, got `%v`")
        [.int (argumentIndex + 1), .types r.1.Type_, .types argumentType]
    else if !ok ∧ argument.Name ≠ [] then
      walker.addFatalf w argument.Token (str "argument `%v` expects `%v`, got `%v`")
        [.text argument.Name, .types r.1.Type_, .types argumentType]
    else w

/-- The loop of `walkKnownCallExpression` from the argument with index
`argumentIndex` on. -/
def walker.walkKnownArguments (W : walker.WalkFn) (D : walker.Deps)
    (ps : List (ast.Parameter ast.Node)) :
    walker.Walker → List (ast.Argument ast.Node) → Nat → Except Fault walker.Walker
  | w, [], _ => .ok w
  | w, argument :: rest, argumentIndex => do
    let (w, argumentType, _) ← W w argument.Value
    walker.walkKnownArguments W D ps
      (walker.checkArgument D w ps argument argumentIndex argumentType) rest (argumentIndex + 1)

/-- The method `walkKnownCallExpression`; `node` is the call expression and
`arguments` its field `Arguments`. -/
def walker.walkKnownCallExpression (W : walker.WalkFn) (D : walker.Deps) (w : walker.Walker)
    (node : ast.Node) (arguments : List (ast.Argument ast.Node)) (fn : environment.Object) :
    Except Fault walker.Result := do
  let w := w.setState (str "call")
  let (ps, returnType) ← walker.functionOf fn
  let w ← walker.walkKnownArguments W D ps w arguments 0
  let w := w.setState []
  pure (w, returnType, some node)

/-- The test `exists && fn.Package == "" && !hasElipsis(fn)` of
`walkCallExpression`, with Go's short-circuit evaluation. -/
def walker.isKnownCall (fn : environment.Object) (found : Bool) : Except Fault Bool :=
  if found ∧ fn.Package = [] then do
    let (ps, _) ← walker.functionOf fn
    pure (!walker.hasElipsis ps)
  else pure false

/-- The method `walkCallExpression`; `node` is the call expression with the
fields `Name`, `Arguments` and `Function`. -/
def walker.walkCallExpression (W : walker.WalkFn) (D : walker.Deps) (w : walker.Walker)
    (node : ast.Node) (name : List Nat) (arguments : List (ast.Argument ast.Node))
    (function : Option ast.Node) : Except Fault walker.Result := do
  let e ← w.getEnv
  let r := e.GetFunction name true
  let known ← walker.isKnownCall r.1 r.2
  if known then walker.walkKnownCallExpression W D w node arguments r.1
  else do
    let w := w.setState (str "call")
    let w ← walker.walkArguments W w arguments
    let w := w.setState []
    W w function

/-- The statements `ok := w.validIteratorTypes(vectorType); if !ok {
w.addFatalf(vectorNode.Item(), …) }` of `walkFor`. -/
def walker.checkIterable (D : walker.Deps) (w : walker.Walker) (vectorType : ast.Types)
    (vectorNode : Option ast.Node) : Except Fault walker.Walker :=
  if !D.validIteratorTypes w vectorType then do
    let tok ← walker.itemOf D vectorNode
    pure (walker.addFatalf w tok (str "type `%v` is cannot be iterated") [.types vectorType])
  else pure w

/-- The method `walkFor`. -/
def walker.walkFor (W : walker.WalkFn) (D : walker.Deps) (w : walker.Walker)
    (name vector : Option ast.Node) (value : Option (List ast.Node)) :
    Except Fault walker.Walker := do
  let w := w.Enclose
  let (w, _, _) ← W w name
  let (w, vectorType, vectorNode) ← W w vector
  let w ← walker.checkIterable D w vectorType vectorNode
  let w ← walker.walkBlockStatement W w value
  w.Open

/-- The method `walkInfixExpressionDollar`. -/
def walker.walkInfixExpressionDollar (W : walker.WalkFn) (w : walker.Walker) (tok : token.Item)
    (left right : Option ast.Node) : Except Fault walker.Result := do
  let (w, _, _) ← W w left
  let w := walker.fatalWhen right.isNone w tok (str "expecting right") []
  W w right

/-- The method `walkInfixExpressionRange`; the second test is on `lt` again,
as in the source. -/
def walker.walkInfixExpressionRange (W : walker.WalkFn) (D : walker.Deps) (w : walker.Walker)
    (tok : token.Item) (left right : Option ast.Node) : Except Fault walker.Result := do
  let (w, lt, ln) ← W w left
  let w := walker.fatalWhen (!D.validMathTypes w lt) w tok (str "`%v`:`%v` is not valid")
    [.types lt, .types lt]
  match right with
  | some r => do
    let (w, rt, rn) ← W w (some r)
    let w := walker.fatalWhen (!D.validMathTypes w lt) w tok (str "`%v`:`%v` is not valid")
      [.types lt, .types lt]
    pure (w, rt, rn)
  | none => pure (w, lt, ln)

/-- The method `walkInfixExpressionPipe`. -/
def walker.walkInfixExpressionPipe (W : walker.WalkFn) (w : walker.Walker) (tok : token.Item)
    (left right : Option ast.Node) : Except Fault walker.Result := do
  let (w, _, _) ← W w left
  let w := walker.fatalWhen right.isNone w tok (str "pipe expect right-hand side") []
  W w right

/-- The method `walkInfixExpressionComparison`. -/
def walker.walkInfixExpressionComparison (W : walker.WalkFn) (D : walker.Deps)
    (w : walker.Walker) (tok : token.Item) (operator : List Nat) (left right : Option ast.Node) :
    Except Fault walker.Result := do
  let (w, lt, ln) ← W w left
  match right with
  | some r => do
    let (w, rt, rn) ← W w (some r)
    let w := if !D.typesValid w lt rt then
        walker.addInfof w tok (str "comparison `%v` %v `%v` is not valid: not logical")
          [.types lt, .text operator, .types rt]
      else w
    pure (w, rt, rn)
  | none => pure (w, lt, ln)

/-- The method `walkInfixExpressionDefault`. -/
def walker.walkInfixExpressionDefault (W : walker.WalkFn) (w : walker.Walker)
    (left right : Option ast.Node) : Except Fault walker.Result := do
  let (w, lt, ln) ← W w left
  match right with
  | some r => W w (some r)
  | none => pure (w, lt, ln)

/-- The method `walkInfixExpressionMath`. -/
def walker.walkInfixExpressionMath (W : walker.WalkFn) (D : walker.Deps) (w : walker.Walker)
    (tok : token.Item) (operator : List Nat) (left right : Option ast.Node) :
    Except Fault walker.Result := do
  let (w, lt, ln) ← W w left
  let w := walker.fatalWhen (!D.validMathTypes w lt) w tok (str "`%v` %v `%v` is not valid")
    [.types lt, .text operator, .types lt]
  match right with
  | some r => do
    let (w, rt, rn) ← W w (some r)
    let w := walker.fatalWhen (!D.validMathTypes w rt) w tok (str "`%v` %v `%v` is not valid")
      [.types lt, .text operator, .types rt]
    pure (w, rt, rn)
  | none => pure (w, lt, ln)

/-- The two diagnostics that follow a call of the package `r` in
`walkInfixExpressionNS`: an information when `err != nil`, a hint when the
result is false. -/
def walker.reportProbe (w : walker.Walker) (probe : Bool × Bool) (tok : token.Item)
    (errMsg missMsg : List Nat) (args : List diagnostics.Arg) : walker.Walker :=
  let w := if probe.2 then walker.addInfof w tok errMsg args else w
  if !probe.1 then walker.addHintf w tok missMsg args else w

/-- The method `walkInfixExpressionNS`. -/
def walker.walkInfixExpressionNS (W : walker.WalkFn) (D : walker.Deps) (w : walker.Walker)
    (left right : Option ast.Node) (operator : List Nat) : Except Fault walker.Result := do
  let (w, lt, ln) ← W w left
  let li ← walker.itemOf D ln
  let w := walker.reportProbe w (D.PackageIsInstalled li.Value) li
    (str "error checking if package `%v` is installed") (str "package `%v` is not installed")
    [.text li.Value]
  match right with
  | some r => do
    let (w, rt, rn) ← W w (some r)
    let ri ← walker.itemOf D rn
    let w := walker.reportProbe w (D.PackageHasFunction li.Value operator ri.Value) li
      (str "error checking `%v%v%v`") (str "`%v%v%v` not found")
      [.text li.Value, .text operator, .text ri.Value]
    pure (w, rt, rn)
  | none => pure (w, lt, ln)

/-- The statement `switch n := ln.(type) { case *ast.Identifier: … }` of
`walkInfixExpressionEqual`. -/
def walker.checkAssigned (D : walker.Deps) (w : walker.Walker) :
    Option ast.Node → Except Fault walker.Walker
  | some (.Identifier tok value ty) => do
    let e ← w.getEnv
    let r := e.GetVariable value true
    let li := D.Item (.Identifier tok value ty)
    let w := walker.fatalWhen r.1.IsConst w li (str "`%v` is a constant") [.text li.Value]
    pure (walker.fatalWhen (!r.2 && decide (w.state ≠ str "call")) w tok
      (str "`%v` does not exist") [.text value])
  | _ => .ok w

/-- The method `walkInfixExpressionEqual`. -/
def walker.walkInfixExpressionEqual (W : walker.WalkFn) (D : walker.Deps) (w : walker.Walker)
    (tok : token.Item) (left right : Option ast.Node) : Except Fault walker.Result := do
  let (w, lt, ln) ← W w left
  let w ← walker.checkAssigned D w ln
  let w := walker.fatalWhen right.isNone w tok (str "expecting right hand side") []
  let (w, rt, rn) ← W w right
  let w := walker.fatalWhen (!D.typesValid w lt rt) w tok
    (str "left expects `%v`, right returns `%v`") [.types lt, .types rt]
  pure (w, rt, rn)

/-- The method `walkInfixExpressionEqualParent`. -/
def walker.walkInfixExpressionEqualParent (W : walker.WalkFn) (w : walker.Walker)
    (left right : Option ast.Node) : Except Fault walker.Result := do
  let (w, lt, ln) ← W w left
  match right with
  | some r => do
    let (w, _, _) ← W w (some r)
    pure (w, lt, ln)
  | none => pure (w, lt, ln)

/-- The method `walkInfixExpression`: the switch on `node.Operator`. -/
def walker.walkInfixExpression (W : walker.WalkFn) (D : walker.Deps) (w : walker.Walker)
    (tok : token.Item) (left : Option ast.Node) (operator : List Nat)
    (right : Option ast.Node) : Except Fault walker.Result :=
  if operator = str "=" then walker.walkInfixExpressionEqual W D w tok left right
  else if operator = str "::" then walker.walkInfixExpressionNS W D w left right (str "::")
  else if operator = str ":::" then walker.walkInfixExpressionNS W D w left right (str ":::")
  else if operator = str "+" then walker.walkInfixExpressionMath W D w tok operator left right
  else if operator = str "-" then walker.walkInfixExpressionMath W D w tok operator left right
  else if operator = str "/" then walker.walkInfixExpressionMath W D w tok operator left right
  else if operator = str "*" then walker.walkInfixExpressionMath W D w tok operator left right
  else if operator = str "<-" then walker.walkInfixExpressionEqualParent W w left right
  else if operator = str "<" then
    walker.walkInfixExpressionComparison W D w tok operator left right
  else if operator = str ">" then
    walker.walkInfixExpressionComparison W D w tok operator left right
  else if operator = str "==" then
    walker.walkInfixExpressionComparison W D w tok operator left right
  else if operator = str "!=" then
    walker.walkInfixExpressionComparison W D w tok operator left right
  else if operator = str ">=" then
    walker.walkInfixExpressionComparison W D w tok operator left right
  else if operator = str "<=" then
    walker.walkInfixExpressionComparison W D w tok operator left right
  else if operator = str "|>" then walker.walkInfixExpressionPipe W w tok left right
  else if operator = str ".." then walker.walkInfixExpressionRange W D w tok left right
  else if operator = str "$" then walker.walkInfixExpressionDollar W w tok left right
  else walker.walkInfixExpressionDefault W w left right

/-- The method `walkLetStatement`. -/
def walker.walkLetStatement (W : walker.WalkFn) (D : walker.Deps) (w : walker.Walker)
    (tok : token.Item) (name : List Nat) (ty : ast.Types) (value : Option ast.Node) :
    Except Fault walker.Result := do
  let e ← w.getEnv
  if (e.GetVariable name false).2 then
    W (walker.addFatalf w tok (str "variable `%v` is already declared") [.text name]) value
  else do
    let w ← w.SetVariable name { environment.Object.zero with Token := tok, Type_ := ty }
    let (w, rt, rn) ← W w value
    let w := walker.fatalWhen (!D.typesValid w ty rt) w tok (str "`%v` expects `%v`, got `%v`")
      [.text name, .types ty, .types rt]
    pure (w, rt, rn)

/-- The method `walkConstStatement`. -/
def walker.walkConstStatement (W : walker.WalkFn) (w : walker.Walker) (tok : token.Item)
    (name : List Nat) (ty : ast.Types) (value : Option ast.Node) :
    Except Fault walker.Result := do
  let e ← w.getEnv
  if (e.GetVariable name false).2 then
    W (walker.addFatalf w tok (str "variable `%v` is already declared") [.text name]) value
  else do
    let w := walker.fatalWhen (decide (1 < ty.length)) w tok
      (str "constants may only have a single type") []
    let w ← w.SetVariable name
      { environment.Object.zero with Token := tok, Type_ := ty, IsConst := true }
    W w value

/-- The method `walkDecoratorClass`; `node` is the decorator and `ty` its
field `Type`, a pointer to a type statement. -/
def walker.walkDecoratorClass (W : walker.WalkFn) (w : walker.Walker) (node : ast.Node)
    (tok : token.Item) (ty : Option (token.Item × List Nat × ast.Types)) :
    Except Fault walker.Result :=
  match ty with
  | none => .error .panic
  | some (ttok, tname, tty) => do
    let e ← w.getEnv
    let w := w.setEnv (some (e.SetClass tname
      { environment.Object.zero with Token := tok, Value := some node }))
    W w (some (.TypeStatement ttok tname tty))

/-- The method `walkTypeStatement`.  `walk.go` calls `GetType` with the name
only; the method under src is called with `list` false. -/
def walker.walkTypeStatement (w : walker.Walker) (tok : token.Item) (name : List Nat)
    (ty : ast.Types) : Except Fault walker.Walker := do
  let e ← w.getEnv
  let w := walker.fatalWhen (e.GetType name false).2 w tok (str "type `%v` already defined")
    [.text name]
  pure (w.setEnv (some (e.SetType name { environment.Object.zero with Token := tok, Type_ := ty })))

/-- The method `walkIdentifier`; `node` is the identifier. -/
def walker.walkIdentifier (w : walker.Walker) (node : ast.Node) (tok : token.Item)
    (value : List Nat) (ty : ast.Types) : Except Fault walker.Result := do
  let e ← w.getEnv
  let v := e.GetVariable value true
  if v.2 then
    let w := if v.1.CanMiss then
        walker.addWarnf w tok (str "`%v` might be missing") [.text tok.Value]
      else w
    pure (w.setEnv (some (e.SetVariableUsed value)), v.1.Type_, some node)
  else
    let fn := e.GetFunction value true
    if fn.2 then do
      let (_, returnType) ← walker.functionOf fn.1
      pure (w, returnType, some node)
    else if (e.GetType value false).2 then
      pure (w.setEnv (some (e.SetTypeUsed value)), ty, some node)
    else pure (w, ty, some node)

/-- The loop of `walkVectorLiteral`, with the value of `ts` so far. -/
def walker.walkVectorFrom (W : walker.WalkFn) :
    walker.Walker → List ast.Node → ast.Types → Except Fault (walker.Walker × ast.Types)
  | w, [], ts => .ok (w, ts)
  | w, s :: rest, ts => do
    let (w, t, _) ← W w (some s)
    walker.walkVectorFrom W w rest (ts ++ t)

/-- The method `walkVectorLiteral`; `node` is the vector literal. -/
def walker.walkVectorLiteral (W : walker.WalkFn) (D : walker.Deps) (w : walker.Walker)
    (node : ast.Node) (tok : token.Item) (value : List ast.Node) :
    Except Fault walker.Result := do
  let (w, ts) ← walker.walkVectorFrom W w value []
  let w := walker.fatalWhen (!D.allTypesIdentical w ts) w tok
    (str "vectors of different types (%v)") [.types ts]
  pure (w, ts, some node)

/-- The statement `if p.Default != nil { w.Walk(p.Default) }`. -/
def walker.walkDefault (W : walker.WalkFn) (w : walker.Walker) :
    Option ast.Node → Except Fault walker.Walker
  | some d => do
    let (w, _, _) ← W w (some d)
    pure w
  | none => .ok w

/-- The loop over `node.Parameters` of `walkNamedFunctionLiteral`;
`paramsMap` holds the keys of the map of that name. -/
def walker.walkNamedParameters (W : walker.WalkFn) :
    walker.Walker → List (ast.Parameter ast.Node) → List (List Nat) → Except Fault walker.Walker
  | w, [], _ => .ok w
  | w, p :: rest, paramsMap => do
    let w ← walker.walkDefault W w p.Default
    let w ← w.SetVariable p.Token.Value
      { environment.Object.zero with
        Token := p.Token, Type_ := p.Type_, CanMiss := p.Default.isNone, IsConst := false,
        Used := true }
    if p.Token.Value = str "..." then walker.walkNamedParameters W w rest paramsMap
    else
      walker.walkNamedParameters W
        (walker.fatalWhen (decide (p.Token.Value ∈ paramsMap)) w p.Token
          (str "duplicated function parameter `%v`") [.text p.Token.Value])
        rest (p.Token.Value :: paramsMap)

/-- The loop over `node.Parameters` of `walkAnonymousFunctionLiteral`. -/
def walker.walkAnonymousParameters (W : walker.WalkFn) :
    walker.Walker → List (ast.Parameter ast.Node) → List (List Nat) → Except Fault walker.Walker
  | w, [], _ => .ok w
  | w, p :: rest, paramsMap => do
    let w ← walker.walkDefault W w p.Default
    let w ← w.SetVariable p.Token.Value
      { environment.Object.zero with
        Token := p.Token, Type_ := p.Type_, CanMiss := p.Default.isNone && p.Method,
        IsConst := false, Used := true }
    walker.walkAnonymousParameters W
      (walker.fatalWhen (decide (p.Token.Value ∈ paramsMap)) w p.Token
        (str "duplicated function parameter `%v`") [.text p.Token.Value])
      rest (p.Token.Value :: paramsMap)

/-- The statement `if node.Body != nil { for _, s := range
node.Body.Statements { w.Walk(s) } }`. -/
def walker.walkBody (W : walker.WalkFn) (w : walker.Walker) :
    Option (List ast.Node) → Except Fault walker.Walker
  | some statements => walker.walkEach W w statements
  | none => .ok w

/-- The statement `if node.Method != nil { paramsMap[node.MethodVariable] =
true; w.env.SetVariable(…) }` of `walkNamedFunctionLiteral`: the walker and
the keys of `paramsMap` after it. -/
def walker.bindReceiver (w : walker.Walker) (tok : token.Item) (method : Option ast.Ty)
    (methodVariable : List Nat) : Except Fault (walker.Walker × List (List Nat)) :=
  match method with
  | some m => do
    let w ← w.SetVariable methodVariable
      { environment.Object.zero with Token := tok, Type_ := [m] }
    pure (w, [methodVariable])
  | none => .ok (w, [])

/-- The method `walkNamedFunctionLiteral`; `node` is the function literal. -/
def walker.walkNamedFunctionLiteral (W : walker.WalkFn) (w : walker.Walker) (node : ast.Node)
    (tok : token.Item) (name : List Nat) (method : Option ast.Ty) (methodVariable : List Nat)
    (parameters : List (ast.Parameter ast.Node)) (body : Option (List ast.Node)) :
    Except Fault walker.Walker := do
  let e ← w.getEnv
  if (e.GetFunction name false).2 ∧ method.isNone then
    pure (walker.addFatalf w tok (str "function `%v` is already defined") [.text name])
  else do
    let w := w.setEnv (some (e.SetFunction name
      { environment.Object.zero with Token := tok, Value := some node }))
    let w := w.Enclose
    let (w, paramsMap) ← walker.bindReceiver w tok method methodVariable
    let w ← walker.walkNamedParameters W w parameters paramsMap
    let w ← walker.walkBody W w body
    w.Open

/-- The method `walkAnonymousFunctionLiteral`. -/
def walker.walkAnonymousFunctionLiteral (W : walker.WalkFn) (w : walker.Walker)
    (parameters : List (ast.Parameter ast.Node)) (body : Option (List ast.Node)) :
    Except Fault walker.Walker := do
  let w := w.Enclose
  let w ← walker.walkAnonymousParameters W w parameters []
  let w ← walker.walkBody W w body
  w.Open

/-- The method `walkFunctionLiteral`. -/
def walker.walkFunctionLiteral (W : walker.WalkFn) (w : walker.Walker) (node : ast.Node)
    (tok : token.Item) (name : List Nat) (method : Option ast.Ty) (methodVariable : List Nat)
    (parameters : List (ast.Parameter ast.Node)) (body : Option (List ast.Node)) :
    Except Fault walker.Walker :=
  if name = [] then walker.walkAnonymousFunctionLiteral W w parameters body
  else walker.walkNamedFunctionLiteral W w node tok name method methodVariable parameters body

/-- The case `*ast.While` of `Walk`. -/
def walker.walkWhile (W : walker.WalkFn) (w : walker.Walker) (statement value : Option ast.Node) :
    Except Fault walker.Result := do
  let (w, _, _) ← W w statement
  let w := w.Enclose
  let (w, t, n) ← W w value
  let w ← w.Open
  pure (w, t, n)

/-- The statement `if node.Alternative != nil { … }` of the case
`*ast.IfExpression` of `Walk`. -/
def walker.walkAlternative (W : walker.WalkFn) (w : walker.Walker) :
    Option ast.Node → Except Fault walker.Walker
  | some a => do
    let w := w.Enclose
    let (w, _, _) ← W w (some a)
    w.Open
  | none => .ok w

/-- The case `*ast.IfExpression` of `Walk`. -/
def walker.walkIf (W : walker.WalkFn) (w : walker.Walker)
    (condition consequence alternative : Option ast.Node) : Except Fault walker.Walker := do
  let (w, _, _) ← W w condition
  let w := w.Enclose
  let (w, _, _) ← W w consequence
  let w ← w.Open
  walker.walkAlternative W w alternative

/-- A case of `Walk` that calls a method for its effect and then leaves the
switch: `return types, node` with `types` nil. -/
def walker.thenNode (r : Except Fault walker.Walker) (node : ast.Node) :
    Except Fault walker.Result := do
  let w ← r
  pure (w, [], some node)

/-- A case of `Walk` that walks something for its effect and then leaves the
switch: `return types, node` with `types` nil. -/
def walker.dropResult (r : Except Fault walker.Result) (node : ast.Node) :
    Except Fault walker.Result := do
  let (w, _, _) ← r
  pure (w, [], some node)

/-- The method `Walk`: the type switch, with `fuel` bounding the depth of the
calls. -/
def walker.Walk (D : walker.Deps) : Nat → walker.WalkFn
  | 0, _, _ => .error .fuel
  | fuel + 1, w, node =>
    match node with
    | none => .ok (w, [], none)
    | some (.Program statements) => walker.walkProgram (walker.Walk D fuel) w statements
    | some (.ExpressionStatement expression) =>
      match expression with
      | some e => walker.Walk D fuel w (some e)
      | none => .ok (w, [], some (.ExpressionStatement none))
    | some (.Square statements) => walker.walkSquare (walker.Walk D fuel) w statements
    | some (.LetStatement tok name ty value) =>
      walker.walkLetStatement (walker.Walk D fuel) D w tok name ty value
    | some (.ConstStatement tok name ty value) =>
      walker.walkConstStatement (walker.Walk D fuel) w tok name ty value
    | some (.ReturnStatement value) => walker.Walk D fuel w value
    | some (.TypeStatement tok name ty) =>
      walker.thenNode (walker.walkTypeStatement w tok name ty) (.TypeStatement tok name ty)
    | some (.DecoratorClass tok ty) =>
      walker.dropResult
        (walker.walkDecoratorClass (walker.Walk D fuel) w (.DecoratorClass tok ty) tok ty)
        (.DecoratorClass tok ty)
    | some (.DecoratorGeneric func) =>
      walker.dropResult (walker.Walk D fuel w func) (.DecoratorGeneric func)
    | some (.DecoratorDefault func) =>
      walker.dropResult (walker.Walk D fuel w func) (.DecoratorDefault func)
    | some (.Keyword tok ty) => .ok (w, [ty], some (.Keyword tok ty))
    | some (.Null tok ty) => .ok (w, [ty], some (.Null tok ty))
    | some (.CommentStatement tok) => .ok (w, [], some (.CommentStatement tok))
    | some (.BlockStatement statements) =>
      walker.thenNode (walker.walkEach (walker.Walk D fuel) w statements)
        (.BlockStatement statements)
    | some (.Attrbute tok) => .ok (w, [], some (.Attrbute tok))
    | some (.Identifier tok value ty) =>
      walker.walkIdentifier w (.Identifier tok value ty) tok value ty
    | some (.Boolean tok ty) => .ok (w, [ty], some (.Boolean tok ty))
    | some (.IntegerLiteral tok ty) => .ok (w, [ty], some (.IntegerLiteral tok ty))
    | some (.FloatLiteral tok ty) => .ok (w, [ty], some (.FloatLiteral tok ty))
    | some (.VectorLiteral tok value) =>
      walker.walkVectorLiteral (walker.Walk D fuel) D w (.VectorLiteral tok value) tok value
    | some (.SquareRightLiteral tok) => .ok (w, [], some (.SquareRightLiteral tok))
    | some (.StringLiteral tok ty) => .ok (w, [ty], some (.StringLiteral tok ty))
    | some (.PrefixExpression _ right) => walker.Walk D fuel w right
    | some (.For name vector value) =>
      walker.thenNode (walker.walkFor (walker.Walk D fuel) D w name vector value)
        (.For name vector value)
    | some (.While statement value) => walker.walkWhile (walker.Walk D fuel) w statement value
    | some (.InfixExpression tok left operator right) =>
      walker.walkInfixExpression (walker.Walk D fuel) D w tok left operator right
    | some (.IfExpression condition consequence alternative) =>
      walker.thenNode (walker.walkIf (walker.Walk D fuel) w condition consequence alternative)
        (.IfExpression condition consequence alternative)
    | some (.FunctionLiteral tok name method methodVariable parameters body returnType) =>
      walker.thenNode
        (walker.walkFunctionLiteral (walker.Walk D fuel) w
          (.FunctionLiteral tok name method methodVariable parameters body returnType)
          tok name method methodVariable parameters body)
        (.FunctionLiteral tok name method methodVariable parameters body returnType)
    | some (.CallExpression tok name arguments function) =>
      walker.walkCallExpression (walker.Walk D fuel) D w
        (.CallExpression tok name arguments function) name arguments function
    | some (.Other tok) => .ok (w, [], some (.Other tok))

/-- The function `New` of the package `walker`.  `walk.go` calls
`environment.New` without an argument; the function under src is called with
the zero object. -/
def walker.New : walker.Walker :=
  { errors := [], env := some (environment.New environment.Object.zero), state := [] }

/-- The chain of frames that enclose the current frame of the walker (`none`
when the walker has no current frame).  The frames of a chain are not changed
through the walker, which writes to the current frame only, so the current
frame is identified by what encloses it. -/
def walker.Walker.enclosing (w : walker.Walker) : Option (Option environment.Environment) :=
  w.env.map (fun e => e.outer)

/-- Every call of the walk function `W` that returns leaves the walker in the
frame in which it was called. -/
def walker.Balanced (W : walker.WalkFn) : Prop :=
  ∀ (w : walker.Walker) (node : Option ast.Node) (X : Option (Option environment.Environment)),
    w.enclosing = X → Holds (W w node) (fun r => r.1.enclosing = X)

/-- The node is a return statement. -/
def ast.isReturn : Option ast.Node → Bool
  | some (.ReturnStatement _) => true
  | _ => false

/-- No call of the walk function `W` returns a return statement as its
node. -/
def walker.NoReturn (W : walker.WalkFn) : Prop :=
  ∀ (w : walker.Walker) (node : Option ast.Node),
    Holds (W w node) (fun r => ast.isReturn r.2.2 = false)

/-- The computation `x` does not stop for lack of fuel: it returns or it
panics. -/
structure NoFuel {α : Type} (x : Except Fault α) : Prop where
  out : x ≠ .error .fuel

/-- An instance of the functions that are not under src, for evaluating the
walk: every check of types accepts, the token of every node is the zero token
and every package and function is found. -/
def walker.Deps.lenient : walker.Deps :=
  { typesValid := fun _ _ _ => true
    validMathTypes := fun _ _ => true
    validIteratorTypes := fun _ _ => true
    allTypesIdentical := fun _ _ => true
    Item := fun _ => ⟨.ItemError, []⟩
    PackageIsInstalled := fun _ => (true, false)
    PackageHasFunction := fun _ _ _ => (true, false) }

/-- The program `let x: int = 1` followed by `if (TRUE) { let y: int = 2 }`,
as a syntax tree. -/
def ast.sampleProgram : ast.Node :=
  .Program
    [.LetStatement ⟨.ItemLet, str "let"⟩ (str "x") [⟨str "int", false⟩]
       (some (.IntegerLiteral ⟨.ItemInteger, str "1"⟩ ⟨str "int", false⟩)),
     .IfExpression (some (.Boolean ⟨.ItemBool, str "TRUE"⟩ ⟨str "bool", false⟩))
       (some (.BlockStatement
         [.LetStatement ⟨.ItemLet, str "let"⟩ (str "y") [⟨str "int", false⟩]
            (some (.IntegerLiteral ⟨.ItemInteger, str "2"⟩ ⟨str "int", false⟩))]))
       none]



/-! ## Invariants of the walk and sample inputs -/

/-- Every call of the walk function `W` that returns keeps the diagnostics
recorded before it, in their order. -/
def walker.Growing (W : walker.WalkFn) : Prop :=
  ∀ (w : walker.Walker) (node : Option ast.Node) (errs : List diagnostics.Diagnostic),
    errs <+: w.errors → Holds (W w node) (fun r => errs <+: r.1.errors)

/-- The entries `a` and `b` of a table agree in every field but the flag
`Used`. -/
def environment.Object.sameButUsed (a b : environment.Object) : Prop :=
  b = { a with Used := b.Used }

/-- A property `I` of the current frame that the writes of the walker to that
frame keep: the declaration of a variable that the frame does not hold, the
marking of a variable as used, and the writes to the tables of types,
functions and classes. -/
structure walker.FrameInv (I : environment.Environment → Prop) : Prop where
  declare : ∀ (e : environment.Environment) (name : List Nat) (val : environment.Object),
    I e → (e.GetVariable name false).2 = false → I (e.SetVariable name val)
  used : ∀ (e : environment.Environment) (name : List Nat), I e → I (e.SetVariableUsed name)
  setType : ∀ (e : environment.Environment) (name : List Nat) (val : environment.Object),
    I e → I (e.SetType name val)
  setFunction : ∀ (e : environment.Environment) (name : List Nat) (val : environment.Object),
    I e → I (e.SetFunction name val)
  setClass : ∀ (e : environment.Environment) (name : List Nat) (val : environment.Object),
    I e → I (e.SetClass name val)

/-- The walker has a current frame and the frame has the property `I`. -/
def walker.Walker.frameHas (I : environment.Environment → Prop) (w : walker.Walker) : Prop :=
  ∃ e, w.env = some e ∧ I e

/-- Every call of the walk function `W` that returns keeps the property `I` of
the current frame. -/
def walker.Framed (I : environment.Environment → Prop) (W : walker.WalkFn) : Prop :=
  ∀ (w : walker.Walker) (node : Option ast.Node),
    w.frameHas I → Holds (W w node) (fun r => r.1.frameHas I)

/-- Every variable that the frame `e0` holds is held by the frame `e`, with
the same entry but for the flag `Used`. -/
def environment.Environment.keepsVariables (e0 e : environment.Environment) : Prop :=
  ∀ name : List Nat, (e0.GetVariable name false).2 = true →
    (e.GetVariable name false).2 = true ∧
      (e0.GetVariable name false).1.sameButUsed (e.GetVariable name false).1

/-- The number of fatal diagnostics with the message `msg` among `errs`. -/
def diagnostics.count (msg : List Nat) (errs : List diagnostics.Diagnostic) : Nat :=
  errs.countP (fun d => decide (d.Message = msg ∧ d.Severity = .Fatal))

/-- The name of the receiver variable of a method; a function that is not a
method has none. -/
def ast.receiverNames (method : Option ast.Ty) (methodVariable : List Nat) : List (List Nat) :=
  match method with
  | some _ => [methodVariable]
  | none => []

/-- The names that `walkNamedFunctionLiteral` enters in the frame of the
function: the receiver variable of a method, then the token values of the
parameters. -/
def ast.parameterNames (method : Option ast.Ty) (methodVariable : List Nat)
    (ps : List (ast.Parameter ast.Node)) : List (List Nat) :=
  ast.receiverNames method methodVariable ++ ps.map (fun p => p.Token.Value)

/-- Some name other than `...` occurs more than once among `names`. -/
def ast.repeated (names : List (List Nat)) : Prop :=
  ¬ (names.filter (fun s => decide (s ≠ str "..."))).Nodup

instance ast.repeated.decidable (names : List (List Nat)) : Decidable (ast.repeated names) := by
  unfold ast.repeated
  infer_instance

/-- The nodes that `walkNamedFunctionLiteral` walks: the default values of the
parameters and the statements of the body. -/
def ast.walkedNodes (ps : List (ast.Parameter ast.Node)) (body : Option (List ast.Node)) :
    List ast.Node :=
  ps.filterMap (fun p => p.Default) ++ body.getD []

/-- The walks with `W` of the nodes `nodes` that return leave the number of
fatal diagnostics with the message `msg` as it was. -/
def walker.Quiet (W : walker.WalkFn) (msg : List Nat) (nodes : List ast.Node) : Prop :=
  ∀ node ∈ nodes, ∀ (w : walker.Walker) (r : walker.Result),
    W w (some node) = .ok r → diagnostics.count msg r.1.errors = diagnostics.count msg w.errors

/-- The number of parameters for which the loop of `walkNamedFunctionLiteral`
finds the name among the keys of `paramsMap`, from the keys `m` on. -/
def walker.duplicates : List (List Nat) → List (ast.Parameter ast.Node) → Nat
  | _, [] => 0
  | m, p :: rest =>
    if p.Token.Value = str "..." then walker.duplicates m rest
    else (if p.Token.Value ∈ m then 1 else 0) + walker.duplicates (p.Token.Value :: m) rest

/-- Modelled from the spec: the method `Item` of a node, of the absent package
`ast`: the token of the node, for the nodes that have one. -/
def ast.Node.Item : ast.Node → token.Item
  | .LetStatement tok _ _ _ => tok
  | .ConstStatement tok _ _ _ => tok
  | .TypeStatement tok _ _ => tok
  | .DecoratorClass tok _ => tok
  | .Keyword tok _ => tok
  | .Null tok _ => tok
  | .CommentStatement tok => tok
  | .Attrbute tok => tok
  | .Identifier tok _ _ => tok
  | .Boolean tok _ => tok
  | .IntegerLiteral tok _ => tok
  | .FloatLiteral tok _ => tok
  | .VectorLiteral tok _ => tok
  | .SquareRightLiteral tok => tok
  | .StringLiteral tok _ => tok
  | .PrefixExpression tok _ => tok
  | .InfixExpression tok _ _ _ => tok
  | .FunctionLiteral tok _ _ _ _ _ _ => tok
  | .CallExpression tok _ _ _ => tok
  | .Other tok => tok
  | _ => ⟨.ItemError, []⟩

/-- Modelled from the spec: "Math-valid: the type union, after discarding
`na`, must be a subset of `{int, num, factor}`", for the absent method
`validMathTypes`. -/
def walker.mathValid (t : ast.Types) : Bool :=
  (t.filter (fun x => decide (x.Name ≠ str "na"))).all
    (fun x => decide (x.Name = str "int" ∨ x.Name = str "num" ∨ x.Name = str "factor"))

/-- Modelled from the spec: the type `l` accepts a value of the type `r`, for
the absent method `typesValid`: every alternative of `r` is accepted by an
alternative of `l`, `any` on either side accepts, and otherwise the names and
the list flags agree. -/
def walker.compatible (l r : ast.Types) : Bool :=
  r.all (fun b => l.any (fun a =>
    decide (a.Name = str "any" ∨ b.Name = str "any" ∨ a = b)))

/-- An instance of the functions that are not under src, for evaluating the
walk: the checks `typesValid` and `validMathTypes` as the spec words them, the
token of a node for `Item`, and the other checks as in
`walker.Deps.lenient`. -/
def walker.Deps.sample : walker.Deps :=
  { typesValid := fun _ l r => walker.compatible l r
    validMathTypes := fun _ t => walker.mathValid t
    validIteratorTypes := fun _ _ => true
    allTypesIdentical := fun _ _ => true
    Item := ast.Node.Item
    PackageIsInstalled := fun _ => (true, false)
    PackageHasFunction := fun _ _ _ => (true, false) }

/-- The walker after `let x: int | na = 1` at the top level of a program. -/
def walker.sampleDeclared : walker.Walker :=
  { errors := []
    env := some ((environment.New environment.Object.zero).SetVariable (str "x")
      { environment.Object.zero with
        Token := ⟨.ItemLet, str "let"⟩, Type_ := [⟨str "int", false⟩, ⟨str "na", false⟩] })
    state := [] }

/-- The walker after `const y: int = 1` at the top level of a program. -/
def walker.sampleConst : walker.Walker :=
  { errors := []
    env := some ((environment.New environment.Object.zero).SetVariable (str "y")
      { environment.Object.zero with
        Token := ⟨.ItemConst, str "const"⟩, Type_ := [⟨str "int", false⟩], IsConst := true })
    state := [] }

/-- The identifier `y`. -/
def ast.sampleY : ast.Node := .Identifier ⟨.ItemIdent, str "y"⟩ (str "y") []

/-- The literal `1`. -/
def ast.sampleOne : ast.Node := .IntegerLiteral ⟨.ItemInteger, str "1"⟩ ⟨str "int", false⟩

/-- The literal `2`. -/
def ast.sampleTwo : ast.Node := .IntegerLiteral ⟨.ItemInteger, str "2"⟩ ⟨str "int", false⟩

/-- The literal `3`. -/
def ast.sampleThree : ast.Node := .IntegerLiteral ⟨.ItemInteger, str "3"⟩ ⟨str "int", false⟩

/-- The literal `"hello"`. -/
def ast.sampleHello : ast.Node := .StringLiteral ⟨.ItemString, str "hello"⟩ ⟨str "char", false⟩

/-- The literal `"a"`. -/
def ast.sampleA : ast.Node := .StringLiteral ⟨.ItemString, str "a"⟩ ⟨str "char", false⟩

/-- The parameter `name: ty`, without default value. -/
def ast.sampleParameter (name : List Nat) (ty : ast.Ty) : ast.Parameter ast.Node :=
  { Token := ⟨.ItemIdent, name⟩, Name := name, Type_ := [ty], Default := none, Method := false }

/-- The function `func foo(x: int, y: char): int { }`. -/
def ast.sampleFoo : ast.Node :=
  .FunctionLiteral ⟨.ItemFunction, str "func"⟩ (str "foo") none []
    [ast.sampleParameter (str "x") ⟨str "int", false⟩,
     ast.sampleParameter (str "y") ⟨str "char", false⟩]
    (some []) [⟨str "int", false⟩]

/-- The positional argument `v` of a call. -/
def ast.sampleArgument (v : ast.Node) : ast.Argument ast.Node :=
  { Token := v.Item, Name := [], Value := some v }

/-- The call `foo(1, "hello", 3)`. -/
def ast.sampleCall : ast.Node :=
  .CallExpression ⟨.ItemIdent, str "foo"⟩ (str "foo")
    [ast.sampleArgument ast.sampleOne, ast.sampleArgument ast.sampleHello,
     ast.sampleArgument ast.sampleThree] none

/-- The function `func foo(x: int, x: int): int { }`. -/
def ast.sampleRepeated : ast.Node :=
  .FunctionLiteral ⟨.ItemFunction, str "func"⟩ (str "foo") none []
    [ast.sampleParameter (str "x") ⟨str "int", false⟩,
     ast.sampleParameter (str "x") ⟨str "int", false⟩]
    (some []) [⟨str "int", false⟩]

/-- The function `func lg(...: char, ...: char): null { }`. -/
def ast.sampleVariadic : ast.Node :=
  .FunctionLiteral ⟨.ItemFunction, str "func"⟩ (str "lg") none []
    [ast.sampleParameter (str "...") ⟨str "char", false⟩,
     ast.sampleParameter (str "...") ⟨str "char", false⟩]
    (some []) [⟨str "null", false⟩]



/-- The loop of `Run` cut after `k` iterations: the state at that point
(`none` once the loop has ended) and the lexer. -/
def runSteps (fuel : Nat) : Nat → StateFn → Lexer → Step
  | 0, s, l => .ok (some s, l)
  | k + 1, s, l => do
    let (s1, l1) ← step fuel s l
    match s1 with
    | none => pure (none, l1)
    | some s2 => runSteps fuel k s2 l1

/-- The function `func foo(x: int): int { foo(1, 2) }`, which calls itself
with one argument too many. -/
def ast.sampleRecursive : ast.Node :=
  .FunctionLiteral ⟨.ItemFunction, str "func"⟩ (str "foo") none []
    [ast.sampleParameter (str "x") ⟨str "int", false⟩]
    (some [.CallExpression ⟨.ItemIdent, str "foo"⟩ (str "foo")
      [ast.sampleArgument ast.sampleOne, ast.sampleArgument ast.sampleTwo] none])
    [⟨str "int", false⟩]

/-- The expression `x = 2`, with `x` not declared. -/
def ast.sampleAssignX : ast.Node :=
  .InfixExpression ⟨.ItemAssign, str "="⟩
    (some (.Identifier ⟨.ItemIdent, str "x"⟩ (str "x") [])) (str "=") (some ast.sampleTwo)

/-- The call `g(1)` of a function that is not declared. -/
def ast.sampleCallG : ast.Node :=
  .CallExpression ⟨.ItemIdent, str "g"⟩ (str "g") [ast.sampleArgument ast.sampleOne] none

/-- The call `f(...)` of a function that is not declared, with the given
argument values. -/
def ast.sampleCallF (values : List ast.Node) : ast.Node :=
  .CallExpression ⟨.ItemIdent, str "f"⟩ (str "f") (values.map ast.sampleArgument) none

/-- The diagnostics and the state a walk ends with. -/
def walker.outcome (r : Except Fault walker.Result) :
    Except Fault (List diagnostics.Diagnostic × List Nat) :=
  r.map (fun r => (r.1.errors, r.1.state))

/-! ## The primitives of the lexer -/

theorem decode_cons_ascii (b : Nat) (t : List Nat) (hb : b < 128) :
    DecodeRuneInString (b :: t) = ((b : Int), 1) := by
  simp [DecodeRuneInString, hb]

theorem decode_width_pos (s : List Nat) (hs : s ≠ []) : 1 ≤ (DecodeRuneInString s).2 := by
  unfold DecodeRuneInString
  split
  · exact absurd rfl hs
  · repeat' split
    all_goals simp

theorem decode_width_le (s : List Nat) : (DecodeRuneInString s).2 ≤ (s.length : Int) := by
  unfold DecodeRuneInString
  repeat' split
  all_goals simp
  all_goals omega

theorem decode_rune_nonneg (s : List Nat) : 0 ≤ (DecodeRuneInString s).1 := by
  unfold DecodeRuneInString
  repeat' split
  all_goals simp [RuneError]
  all_goals omega

theorem decode_rune_ne (a : Nat) (t : List Nat) (q : Nat) (hq : q < 128) (ha : a ≠ q) :
    (DecodeRuneInString (a :: t)).1 ≠ (q : Int) := by
  simp only [DecodeRuneInString, acceptLo, acceptHi]
  repeat' split
  all_goals simp [RuneError]
  all_goals omega

theorem decode_width_nonneg (s : List Nat) : 0 ≤ (DecodeRuneInString s).2 := by
  unfold DecodeRuneInString
  repeat' split
  all_goals simp

theorem widthAt_nonneg (inp : List Nat) (p : Int) : 0 ≤ widthAt inp p := by
  unfold widthAt
  split
  · exact le_refl 0
  · exact decode_width_nonneg _

theorem widthAt_le (inp : List Nat) (p : Int) (hp : 0 ≤ p) (hl : p ≤ inp.length) :
    p + widthAt inp p ≤ inp.length := by
  unfold widthAt
  split
  · omega
  · have := decode_width_le (inp.drop p.toNat)
    simp only [List.length_drop] at this
    omega

theorem widthAt_pos (inp : List Nat) (p : Int) (hp : 0 ≤ p) (hl : p < inp.length) :
    1 ≤ widthAt inp p := by
  unfold widthAt
  rw [if_neg (by omega)]
  apply decode_width_pos
  intro h0
  have := List.drop_eq_nil_iff.mp h0
  omega

theorem widthAt_eof (inp : List Nat) (p : Int) (hl : (inp.length : Int) ≤ p) :
    widthAt inp p = 0 := by
  unfold widthAt
  rw [if_pos hl]

theorem runeAt_eof (inp : List Nat) (p : Int) (hl : (inp.length : Int) ≤ p) :
    runeAt inp p = EOF := by
  unfold runeAt
  rw [if_pos hl]

theorem runeAt_ne_eof (inp : List Nat) (p : Int) (hl : p < inp.length) :
    runeAt inp p ≠ EOF := by
  unfold runeAt
  rw [if_neg (by omega)]
  have := decode_rune_nonneg (inp.drop p.toNat)
  unfold EOF
  omega

theorem next_spec {l : Lexer} {inp : List Nat} {st p : Int} {its : List Item}
    (h : l.At inp st p its) (hp : 0 ≤ p) :
    ∃ l1, next l = .ok (runeAt inp p, l1) ∧ l1.At inp st (p + widthAt inp p) its ∧
      l1.width = widthAt inp p := by
  obtain ⟨h1, h2, h3, h4⟩ := h
  subst h1 h3
  unfold next runeAt widthAt
  by_cases hlen : (l.Input.length : Int) ≤ l.pos
  · rw [if_pos hlen, if_pos hlen, if_pos hlen]
    exact ⟨_, rfl, ⟨rfl, h2, by simp, h4⟩, rfl⟩
  · rw [if_neg hlen, if_neg hlen, if_neg hlen, if_neg (by omega)]
    refine ⟨_, rfl, ?_, ?_⟩
    · split <;> exact ⟨rfl, h2, rfl, h4⟩
    · split <;> rfl

theorem peek1_spec {l : Lexer} {inp : List Nat} {st p : Int} {its : List Item}
    (h : l.At inp st p its) (hp : 0 ≤ p) :
    ∃ l1, peek l 1 = .ok (runeAt inp p, l1) ∧ l1.At inp st p its := by
  obtain ⟨l1, hn, ha, hw⟩ := next_spec h hp
  refine ⟨backup l1, ?_, ?_⟩
  · simp [peek, peekNext, peekBackup, hn, bind, Except.bind, pure, Except.pure]
  · obtain ⟨a1, a2, a3, a4⟩ := ha
    exact ⟨a1, a2, by simp [backup, a3, hw], a4⟩

theorem emit_spec {l : Lexer} {inp : List Nat} {st p : Int} {its : List Item}
    (h : l.At inp st p its) (h0 : 0 ≤ st) (h1 : st ≤ p) (h2 : p ≤ inp.length) (t : ItemType) :
    ∃ l1, emit l t = .ok l1 ∧
      l1.At inp p p
        (if st = p then its else its ++ [⟨t, (inp.drop st.toNat).take (p - st).toNat⟩]) := by
  obtain ⟨a1, a2, a3, a4⟩ := h
  subst a1 a2 a3 a4
  unfold emit
  by_cases hs : l.start = l.pos
  · rw [if_pos hs, if_pos hs]
    exact ⟨_, rfl, ⟨rfl, hs, rfl, rfl⟩⟩
  · rw [if_neg hs, if_neg hs]
    simp only [slice, if_pos (And.intro h0 (And.intro h1 h2)), bind, Except.bind, pure, Except.pure]
    exact ⟨_, rfl, ⟨rfl, rfl, rfl, rfl⟩⟩

theorem currentToken_spec {l : Lexer} {inp : List Nat} {st p : Int} {its : List Item}
    (h : l.At inp st p its) (h0 : 0 ≤ st) (h1 : st ≤ p) (h2 : p ≤ inp.length) :
    currentToken l = .ok ((inp.drop st.toNat).take (p - st).toNat) := by
  obtain ⟨a1, a2, a3, a4⟩ := h
  subst a1 a2 a3 a4
  simp only [currentToken, slice, if_pos (And.intro h0 (And.intro h1 h2))]

theorem drop_toNat_add (inp : List Nat) (p w : Int) (hp : 0 ≤ p) (hw : 0 ≤ w) :
    inp.drop (p + w).toNat = (inp.drop p.toNat).drop w.toNat := by
  rw [Int.toNat_add hp hw, List.drop_drop]

theorem drop_toNat_succ {inp : List Nat} {p : Int} {b : Nat} {t : List Nat} (hp : 0 ≤ p)
    (h : inp.drop p.toNat = b :: t) : inp.drop (p + 1).toNat = t := by
  rw [drop_toNat_add inp p 1 hp (by omega), h]
  rfl

theorem lt_length_of_drop {inp : List Nat} {p : Int} {b : Nat} {t : List Nat} (hp : 0 ≤ p)
    (h : inp.drop p.toNat = b :: t) : p < inp.length := by
  by_contra hc
  have : inp.drop p.toNat = [] := List.drop_eq_nil_iff.mpr (by omega)
  rw [this] at h
  exact List.noConfusion h

theorem runeAt_of_drop {inp : List Nat} {p : Int} {b : Nat} {t : List Nat} (hp : 0 ≤ p)
    (h : inp.drop p.toNat = b :: t) (hb : b < 128) : runeAt inp p = b := by
  have hl := lt_length_of_drop hp h
  unfold runeAt
  rw [if_neg (by omega), h, decode_cons_ascii b t hb]

theorem widthAt_of_drop {inp : List Nat} {p : Int} {b : Nat} {t : List Nat} (hp : 0 ≤ p)
    (h : inp.drop p.toNat = b :: t) (hb : b < 128) : widthAt inp p = 1 := by
  have hl := lt_length_of_drop hp h
  unfold widthAt
  rw [if_neg (by omega), h, decode_cons_ascii b t hb]

theorem runeAt_ne_of_not_mem {inp : List Nat} {p : Int} {q : Nat} (hq : q < 128)
    (hno : ∀ b ∈ inp.drop p.toNat, b ≠ q) : runeAt inp p ≠ q := by
  unfold runeAt
  split
  · unfold EOF; omega
  · cases hd : inp.drop p.toNat with
    | nil =>
      have := decode_rune_nonneg ([] : List Nat)
      simp [DecodeRuneInString, RuneError]
      omega
    | cons a t =>
      apply decode_rune_ne a t q hq
      apply hno
      rw [hd]
      exact List.mem_cons_self a t

/-- The loop of `lexString` runs to the end of the input when the closing
quote does not occur in the remaining bytes. -/
theorem untilClosing_not_mem (inp : List Nat) (q : Nat) (hq : q < 128) (st : Int)
    (its : List Item) :
    ∀ (fuel : Nat) (p c : Int) (l : Lexer), 0 ≤ p → p ≤ inp.length →
      (inp.length : Int) - p < fuel → (∀ b ∈ inp.drop p.toNat, b ≠ q) → l.At inp st p its →
      ∃ c1 l1, untilClosing q fuel c (runeAt inp p) l = .ok (c1, EOF, l1) ∧
        l1.At inp st inp.length its := by
  intro fuel
  induction fuel with
  | zero => intro p c l hp hl hf; omega
  | succ fuel ih =>
    intro p c l hp hl hf hno hat
    by_cases hlt : p < inp.length
    · have hr1 : runeAt inp p ≠ q := runeAt_ne_of_not_mem hq hno
      have hr2 : runeAt inp p ≠ EOF := runeAt_ne_eof inp p hlt
      obtain ⟨l1, hn, ha1, _⟩ := next_spec hat hp
      have hw := widthAt_pos inp p hp hlt
      have hle := widthAt_le inp p hp hl
      obtain ⟨l2, hpk, ha2⟩ := peek1_spec ha1 (by omega)
      have hno2 : ∀ b ∈ inp.drop (p + widthAt inp p).toNat, b ≠ q := by
        intro b hb
        rw [drop_toNat_add inp p _ hp (by omega)] at hb
        exact hno b (List.mem_of_mem_drop hb)
      obtain ⟨c1, l3, h3, ha3⟩ := ih (p + widthAt inp p) (runeAt inp p) l2 (by omega) hle
        (by omega) hno2 ha2
      refine ⟨c1, l3, ?_, ha3⟩
      rw [untilClosing, if_pos ⟨hr1, hr2⟩]
      simp only [hn, hpk, bind, Except.bind]
      exact h3
    · have hpe : p = inp.length := by omega
      have hr : runeAt inp p = EOF := runeAt_eof inp p (by omega)
      refine ⟨c, l, ?_, by rw [← hpe]; exact hat⟩
      rw [untilClosing, hr, if_neg (by simp)]
      rfl

theorem not_mem_EncodeRune (q r : Nat) (hq : q < 128) (hr : r ≠ q) : ∀ b ∈ EncodeRune r, b ≠ q := by
  intro b hb
  unfold EncodeRune at hb
  split_ifs at hb <;> simp at hb <;> omega

theorem not_mem_encodeRunes (q : Nat) (hq : q < 128) :
    ∀ rs : List Nat, q ∉ rs → ∀ b ∈ encodeRunes rs, b ≠ q := by
  intro rs
  induction rs with
  | nil => intro _ b hb; simp [encodeRunes] at hb
  | cons r rs ih =>
    intro hno b hb
    simp only [encodeRunes, List.mem_append] at hb
    rcases hb with hb | hb
    · exact not_mem_EncodeRune q r hq (fun h => hno (by simp [h])) b hb
    · exact ih (fun h => hno (List.mem_cons_of_mem _ h)) b hb

theorem runLoop_step {fuel n : Nat} {s s1 : StateFn} {l l1 : Lexer}
    (h : step fuel s l = .ok (some s1, l1)) :
    runLoop fuel (n + 1) s l = runLoop fuel n s1 l1 := by
  simp only [runLoop, h, bind, Except.bind]

theorem runLoop_halt {fuel n : Nat} {s : StateFn} {l l1 : Lexer}
    (h : step fuel s l = .ok (none, l1)) :
    runLoop fuel (n + 1) s l = .ok l1 := by
  simp only [runLoop, h, bind, Except.bind]
  rfl

theorem Lexer.new_At (inp : List Nat) : (Lexer.new inp).At inp 0 0 [] :=
  ⟨rfl, rfl, rfl, rfl⟩

/-- The two quote branches of `lexDefault`: the quote is emitted and the next
state is the string state of that quote. -/
theorem lexDefault_quote {l : Lexer} {inp : List Nat} {p : Int} {its : List Item} {q : Nat}
    {t : List Nat} (hq : q = 34 ∨ q = 39) (hat : l.At inp p p its) (hp : 0 ≤ p)
    (hd : inp.drop p.toNat = q :: t) :
    ∃ l1, lexDefault l = .ok (some (.lexString q), l1) ∧
      l1.At inp (p + 1) (p + 1) (its ++ [⟨quoteItem q, [q]⟩]) := by
  have hq128 : q < 128 := by omega
  have hr := runeAt_of_drop hp hd hq128
  have hw := widthAt_of_drop hp hd hq128
  have hl := lt_length_of_drop hp hd
  obtain ⟨l1, hpk, ha1⟩ := peek1_spec hat hp
  obtain ⟨l2, hn, ha2, _⟩ := next_spec ha1 hp
  rw [hw] at ha2
  have hsl : (inp.drop p.toNat).take (p + 1 - p).toNat = [q] := by
    rw [hd]
    have : (p + 1 - p).toNat = 1 := by omega
    rw [this]
    rfl
  rcases hq with hq | hq
  · subst hq
    obtain ⟨l3, he, ha3⟩ := emit_spec ha2 hp (by omega) (by omega) .ItemDoubleQuote
    rw [if_neg (by omega), hsl] at ha3
    refine ⟨l3, ?_, ha3⟩
    simp only [lexDefault, hpk, hr, hn, he, bind, Except.bind, pure, Except.pure, EOF]
    simp
  · subst hq
    obtain ⟨l3, he, ha3⟩ := emit_spec ha2 hp (by omega) (by omega) .ItemSingleQuote
    rw [if_neg (by omega), hsl] at ha3
    refine ⟨l3, ?_, ha3⟩
    simp only [lexDefault, hpk, hr, hn, he, bind, Except.bind, pure, Except.pure, EOF]
    simp

/-- The branch `r == token.EOF` of `lexString`: when the closing quote does not
occur in the rest of the input, the state records the error and halts. -/
theorem lexString_unterminated {l : Lexer} {inp : List Nat} {st p : Int} {its : List Item}
    {q : Nat} (hq : q < 128) (fuel : Nat) (hat : l.At inp st p its) (hs : 0 ≤ st) (hsp : st ≤ p)
    (hl : p ≤ inp.length) (hf : (inp.length : Int) - p < fuel)
    (hno : ∀ b ∈ inp.drop p.toNat, b ≠ q) :
    ∃ l1, lexString fuel q l = .ok (none, l1) ∧
      l1.Items = its ++ [⟨.ItemError, str "expecting closing quote, got " ++
        (inp.drop st.toNat).take ((inp.length : Int) - st).toNat⟩] := by
  have hp : 0 ≤ p := by omega
  obtain ⟨l1, hpk, ha1⟩ := peek1_spec hat hp
  obtain ⟨c1, l2, hu, ha2⟩ := untilClosing_not_mem inp q hq st its fuel p 0 l1 hp hl hf hno ha1
  obtain ⟨l3, hn, ha3, _⟩ := next_spec ha2 (by omega)
  rw [widthAt_eof inp _ (le_refl _), add_zero] at ha3
  have htk := currentToken_spec ha3 hs (by omega) (by omega)
  have key : lexString fuel q l = .ok (errorf l3 (str "expecting closing quote, got " ++
      (inp.drop st.toNat).take ((inp.length : Int) - st).toNat)) := by
    simp only [lexString, hpk, hu, hn, htk, bind, Except.bind, pure, Except.pure]
    rw [if_pos True.intro, if_neg (fun h => by have := h.2; unfold EOF at this; omega)]
  refine ⟨_, key, ?_⟩
  simp only [errorf, ha3.items]

theorem escapedQuotes_length (q n : Nat) : (escapedQuotes q n).length = 2 * n := by
  induction n with
  | zero => rfl
  | succ n ih => simp only [escapedQuotes, List.length_cons, ih]; omega

/-- The first branch of `lexDefault`: at the end of the input the end-of-file
token is emitted and the machine halts. -/
theorem lexDefault_eof {l : Lexer} {inp : List Nat} {st p : Int} {its : List Item}
    (hat : l.At inp st p its) (hp : 0 ≤ p) (hl : (inp.length : Int) ≤ p) :
    ∃ l1, lexDefault l = .ok (none, l1) ∧ l1.Items = its ++ [⟨.ItemEOF, str "EOF"⟩] := by
  obtain ⟨l1, hpk, ha1⟩ := peek1_spec hat hp
  rw [runeAt_eof inp p hl] at hpk
  refine ⟨emitEOF l1, ?_, ?_⟩
  · simp only [lexDefault, hpk, bind, Except.bind, pure, Except.pure]
    rw [if_pos True.intro]
  · simp only [emitEOF, ha1.items]

/-- The branch of `lexString` for an escaped closing quote: the loop stops at
the quote that follows the backslash, the quote is consumed and the string
state is re-entered. -/
theorem lexString_escape {l : Lexer} {inp : List Nat} {st p : Int} {its : List Item} {q : Nat}
    {t : List Nat} (hq : q = 34 ∨ q = 39) (fuel : Nat) (hat : l.At inp st p its) (hp : 0 ≤ p)
    (hd : inp.drop p.toNat = 92 :: q :: t) :
    ∃ l1, lexString (fuel + 2) q l = .ok (some (.lexString q), l1) ∧ l1.At inp st (p + 2) its := by
  have hq128 : q < 128 := by omega
  have hd1 : inp.drop (p + 1).toNat = q :: t := drop_toNat_succ hp hd
  have hr0 := runeAt_of_drop hp hd (by omega)
  have hw0 := widthAt_of_drop hp hd (by omega)
  have hr1 := runeAt_of_drop (by omega) hd1 hq128
  have hw1 := widthAt_of_drop (by omega) hd1 hq128
  obtain ⟨l1, hpk, ha1⟩ := peek1_spec hat hp
  obtain ⟨l2, hn, ha2, _⟩ := next_spec ha1 hp
  rw [hw0] at ha2
  obtain ⟨l3, hpk2, ha3⟩ := peek1_spec ha2 (by omega)
  obtain ⟨l4, hn2, ha4, _⟩ := next_spec ha3 (by omega)
  rw [hw1] at ha4
  rw [hr0] at hpk hn
  rw [hr1] at hpk2 hn2
  refine ⟨l4, ?_, by rw [show p + 2 = p + 1 + 1 by ring]; exact ha4⟩
  have h92 : ((92 : Nat) : Int) ≠ (q : Int) := by omega
  have h92e : ((92 : Nat) : Int) ≠ EOF := by unfold EOF; omega
  simp only [lexString, hpk, bind, Except.bind, pure, Except.pure]
  rw [untilClosing, if_pos ⟨h92, h92e⟩]
  simp only [hn, hpk2, bind, Except.bind, pure, Except.pure]
  rw [untilClosing, if_neg (fun h => h.1 rfl)]
  simp [pure, Except.pure, hn2]

/-- The last branch of `lexString`: at an unescaped closing quote the body
is emitted as `ItemString`, then the quote. -/
theorem lexString_close {l : Lexer} {inp : List Nat} {st p : Int} {its : List Item} {q : Nat}
    {t : List Nat} (hq : q = 34 ∨ q = 39) (fuel : Nat) (hat : l.At inp st p its) (hs : 0 ≤ st)
    (hsp : st < p) (hd : inp.drop p.toNat = q :: t) :
    ∃ l1, lexString (fuel + 1) q l = .ok (some .lexDefault, l1) ∧
      l1.At inp (p + 1) (p + 1)
        (its ++ [⟨.ItemString, (inp.drop st.toNat).take (p - st).toNat⟩, ⟨quoteItem q, [q]⟩]) := by
  have hq128 : q < 128 := by omega
  have hp : 0 ≤ p := by omega
  have hr0 := runeAt_of_drop hp hd hq128
  have hw0 := widthAt_of_drop hp hd hq128
  have hl := lt_length_of_drop hp hd
  obtain ⟨l1, hpk, ha1⟩ := peek1_spec hat hp
  obtain ⟨l2, he, ha2⟩ := emit_spec ha1 hs (by omega) (by omega) .ItemString
  rw [if_neg (by omega)] at ha2
  obtain ⟨l3, hn, ha3, _⟩ := next_spec ha2 hp
  rw [hw0] at ha3
  rw [hr0] at hpk hn
  have hsl : (inp.drop p.toNat).take (p + 1 - p).toNat = [q] := by
    rw [hd]
    have : (p + 1 - p).toNat = 1 := by omega
    rw [this]
    rfl
  have hqe : (q : Int) ≠ EOF := by unfold EOF; omega
  rcases hq with hq | hq
  · subst hq
    obtain ⟨l4, he2, ha4⟩ := emit_spec ha3 hp (by omega) (by omega) .ItemDoubleQuote
    rw [if_neg (by omega), hsl] at ha4
    refine ⟨l4, ?_, by simpa using ha4⟩
    simp only [lexString, hpk, bind, Except.bind, pure, Except.pure]
    rw [untilClosing, if_neg (fun h => h.1 rfl)]
    simp only [pure, Except.pure]
    rw [if_neg (fun h => by have := h.1; omega), if_neg hqe]
    simp only [he, hn, bind, Except.bind, pure, Except.pure, emitWhen]
    simp [he2]
  · subst hq
    obtain ⟨l4, he2, ha4⟩ := emit_spec ha3 hp (by omega) (by omega) .ItemSingleQuote
    rw [if_neg (by omega), hsl] at ha4
    refine ⟨l4, ?_, by simpa using ha4⟩
    simp only [lexString, hpk, bind, Except.bind, pure, Except.pure]
    rw [untilClosing, if_neg (fun h => h.1 rfl)]
    simp only [pure, Except.pure]
    rw [if_neg (fun h => by have := h.1; omega), if_neg hqe]
    simp only [he, hn, bind, Except.bind, pure, Except.pure, emitWhen]
    simp [he2]

/-- From the string state, `m` escaped quotes followed by the closing quote
and the end of the input: the run emits the string, the quote and the
end-of-file token. -/
theorem runLoop_escapedQuotes (inp : List Nat) (q : Nat) (hq : q = 34 ∨ q = 39)
    (its : List Item) (fuel k : Nat) :
    ∀ (m : Nat) (p : Int) (l : Lexer), l.At inp 1 p its → 1 ≤ p → (m = 0 → 1 < p) →
      inp.drop p.toNat = escapedQuotes q m ++ [q] →
      ∃ l1, runLoop (fuel + 2) (m + 2 + k) (.lexString q) l = .ok l1 ∧
        l1.Items = its ++ [⟨.ItemString, (inp.drop 1).take (p + 2 * m - 1).toNat⟩,
          ⟨quoteItem q, [q]⟩, ⟨.ItemEOF, str "EOF"⟩] := by
  intro m
  induction m with
  | zero =>
    intro p l hat hp1 hp hd
    have hd0 : inp.drop p.toNat = [q] := hd
    obtain ⟨l1, h1, a1⟩ := lexString_close hq (fuel + 1) hat (by omega) (hp rfl) hd0
    have hlen : (inp.length : Int) ≤ p + 1 := by
      have h2 := drop_toNat_succ (by omega) hd0
      have := List.drop_eq_nil_iff.mp h2
      omega
    obtain ⟨l2, h2, i2⟩ := lexDefault_eof a1 (by omega) hlen
    have s1 : step (fuel + 2) (.lexString q) l = .ok (some .lexDefault, l1) := h1
    have s2 : step (fuel + 2) .lexDefault l1 = .ok (none, l2) := h2
    refine ⟨l2, ?_, ?_⟩
    · rw [show 0 + 2 + k = (k + 1) + 1 by omega, runLoop_step s1, runLoop_halt s2]
    · rw [i2]
      simp
  | succ m ih =>
    intro p l hat hp1 _ hd
    have hd0 : inp.drop p.toNat = 92 :: q :: (escapedQuotes q m ++ [q]) := hd
    obtain ⟨l1, h1, a1⟩ := lexString_escape hq fuel hat (by omega) hd0
    have hd2 : inp.drop (p + 2).toNat = escapedQuotes q m ++ [q] := by
      have := drop_toNat_succ (by omega) (drop_toNat_succ (by omega) hd0)
      rw [show p + 2 = p + 1 + 1 by ring]
      exact this
    obtain ⟨l2, h2, i2⟩ := ih (p + 2) l1 a1 (by omega) (by omega) hd2
    have s1 : step (fuel + 2) (.lexString q) l = .ok (some (.lexString q), l1) := h1
    refine ⟨l2, ?_, ?_⟩
    · rw [show m + 1 + 2 + k = (m + 2 + k) + 1 by omega, runLoop_step s1]
      exact h2
    · rw [i2]
      have : (p + 2 + 2 * (m : Int) - 1) = (p + 2 * ((m + 1 : Nat) : Int) - 1) := by
        push_cast; ring
      rw [this]

theorem Lexer.Ok.at {l : Lexer} {inp : List Nat} (h : l.Ok inp) :
    l.At inp l.start l.pos l.Items := ⟨h.input, rfl, rfl, rfl⟩

theorem Follows.refl {inp : List Nat} {l : Lexer} (h : l.Ok inp) : Follows inp l l :=
  ⟨h, le_refl _, List.prefix_refl _⟩

theorem Follows.trans {inp : List Nat} {l l1 l2 : Lexer} (h1 : Follows inp l l1)
    (h2 : Follows inp l1 l2) : Follows inp l l2 :=
  ⟨h2.ok, le_trans h1.pos h2.pos, h1.items.trans h2.items⟩

theorem widthAt_ascii {inp : List Nat} (hA : Ascii inp) (p : Int) (hp : 0 ≤ p) :
    widthAt inp p = if p < inp.length then 1 else 0 := by
  by_cases hl : p < inp.length
  · rw [if_pos hl]
    have hlt : p.toNat < inp.length := by omega
    have hd := List.drop_eq_getElem_cons hlt
    exact widthAt_of_drop hp hd (hA _ (List.getElem_mem _))
  · rw [if_neg hl]
    exact widthAt_eof inp p (by omega)

theorem next_ok {inp : List Nat} (hA : Ascii inp) {l : Lexer} (hI : l.Ok inp) :
    ∃ l1, next l = .ok (runeAt inp l.pos, l1) ∧ Follows inp l l1 ∧
      l1.pos = (if l.pos < inp.length then l.pos + 1 else l.pos) ∧
      l1.width = (if l.pos < inp.length then 1 else 0) ∧ l1.start = l.start := by
  have hp : 0 ≤ l.pos := le_trans hI.start_nonneg hI.start_le
  obtain ⟨l1, hn, ha, hw⟩ := next_spec hI.at hp
  rw [widthAt_ascii hA _ hp] at ha hw
  have hpos : l1.pos = (if l.pos < inp.length then l.pos + 1 else l.pos) := by
    rw [ha.pos]; split <;> omega
  have hle := hI.pos_le
  have hsl := hI.start_le
  refine ⟨l1, hn, ⟨⟨ha.input, by rw [ha.start]; exact hI.start_nonneg, ?_, ?_⟩, ?_, ?_⟩, hpos, hw,
    ha.start⟩
  · rw [ha.start, hpos]; split <;> omega
  · rw [hpos]; split <;> omega
  · rw [hpos]; split <;> omega
  · rw [ha.items]

theorem peekBackup_eq (n : Nat) (l : Lexer) :
    peekBackup n l = { l with pos := l.pos - n * l.width } := by
  induction n generalizing l with
  | zero => simp [peekBackup]
  | succ n ih =>
    rw [peekBackup, ih]
    simp only [backup]
    congr 1
    push_cast
    ring

theorem runeAt_eof_add (inp : List Nat) (p : Int) (n : Nat) (hl : (inp.length : Int) ≤ p) :
    runeAt inp (p + n) = EOF := runeAt_eof inp _ (by omega)

/-- The first loop of `peek` over an ASCII input: `n + 1` calls of `next`. -/
theorem peekNext_ok {inp : List Nat} (hA : Ascii inp) (n : Nat) :
    ∀ (r0 : Int) (l : Lexer), l.Ok inp →
      ∃ l1, peekNext (n + 1) r0 l = .ok (runeAt inp (l.pos + n), l1) ∧ Follows inp l l1 ∧
        l1.pos = (if l.pos + n + 1 ≤ inp.length then l.pos + n + 1 else inp.length) ∧
        l1.width = (if l.pos + n + 1 ≤ inp.length then 1 else 0) ∧ l1.start = l.start := by
  induction n with
  | zero =>
    intro r0 l hI
    obtain ⟨l1, hn, hf, hpos, hw, hs⟩ := next_ok hA hI
    have hle := hI.pos_le
    refine ⟨l1, ?_, hf, ?_, ?_, hs⟩
    · simp only [peekNext, hn, bind, Except.bind]
      simp
    · rw [hpos]; split <;> split <;> omega
    · rw [hw]; split <;> split <;> omega
  | succ n ih =>
    intro r0 l hI
    obtain ⟨l1, hn, hf, hpos, hw, hs⟩ := next_ok hA hI
    obtain ⟨l2, hn2, hf2, hpos2, hw2, hs2⟩ := ih (runeAt inp l.pos) l1 hf.ok
    have hle := hI.pos_le
    have hr : runeAt inp (l1.pos + n) = runeAt inp (l.pos + (n + 1 : Nat)) := by
      rw [hpos]
      split
      · congr 1; push_cast; ring
      · rw [runeAt_eof inp _ (by omega), runeAt_eof inp _ (by push_cast; omega)]
    refine ⟨l2, ?_, hf.trans hf2, ?_, ?_, by rw [hs2, hs]⟩
    · rw [peekNext]
      simp only [hn, bind, Except.bind]
      rw [hn2, hr]
    · rw [hpos2, hpos]; push_cast; split <;> split <;> split <;> omega
    · rw [hw2, hpos]; push_cast; split <;> split <;> split <;> omega

/-- The method `peek` over an ASCII input: the rune `n` places ahead is
returned; `pos` is restored only when `n + 1` runes remain, otherwise it is
left at the end of the input. -/
theorem peek_ok {inp : List Nat} (hA : Ascii inp) (n : Nat) {l : Lexer} (hI : l.Ok inp) :
    ∃ l1, peek l (n + 1) = .ok (runeAt inp (l.pos + n), l1) ∧ Follows inp l l1 ∧
      l1.pos = (if l.pos + n + 1 ≤ inp.length then l.pos else inp.length) ∧
      l1.start = l.start := by
  obtain ⟨l1, hn, hf, hpos, hw, hs⟩ := peekNext_ok hA n 0 l hI
  have hle := hI.pos_le
  have hsl := hI.start_le
  have hpos2 : (peekBackup (n + 1) l1).pos =
      (if l.pos + n + 1 ≤ inp.length then l.pos else inp.length) := by
    rw [peekBackup_eq]
    simp only [hpos, hw]
    split
    · push_cast; ring
    · push_cast; ring
  have hst : (peekBackup (n + 1) l1).start = l.start := by rw [peekBackup_eq]; exact hs
  have hit : (peekBackup (n + 1) l1).Items = l1.Items := by rw [peekBackup_eq]
  have hin : (peekBackup (n + 1) l1).Input = l1.Input := by rw [peekBackup_eq]
  refine ⟨peekBackup (n + 1) l1, ?_, ⟨⟨?_, ?_, ?_, ?_⟩, ?_, ?_⟩, hpos2, hst⟩
  · simp only [peek, hn, bind, Except.bind, pure, Except.pure]
  · rw [hin]; exact hf.ok.input
  · rw [hst]; exact hI.start_nonneg
  · rw [hst, hpos2]; split <;> omega
  · rw [hpos2]; split <;> omega
  · rw [hpos2]; split <;> omega
  · rw [hit]; exact hf.items

theorem containsRune_eof (rs : List Nat) : ContainsRune rs EOF = false := by
  unfold ContainsRune
  rw [List.any_eq_false]
  intro c _
  simp only [decide_eq_true_eq]
  unfold EOF
  omega

theorem runeAt_lt_of_ne_eof {inp : List Nat} {p : Int} (h : runeAt inp p ≠ EOF) :
    p < inp.length := by
  by_contra hc
  exact h (runeAt_eof inp p (by omega))

theorem accept_ok {inp : List Nat} (hA : Ascii inp) {l : Lexer} (hI : l.Ok inp) (rs : List Nat) :
    ∃ b l1, accept l rs = .ok (b, l1) ∧ Follows inp l l1 ∧
      l1.pos = (if b = true then l.pos + 1 else l.pos) ∧ (b = true → l.pos < inp.length) ∧
      l1.start = l.start := by
  obtain ⟨l1, hn, hf, hpos, hw, hs⟩ := next_ok hA hI
  have hle := hI.pos_le
  have hsl := hI.start_le
  by_cases hc : ContainsRune rs (runeAt inp l.pos) = true
  · have hlt : l.pos < inp.length := by
      apply runeAt_lt_of_ne_eof
      intro he
      rw [he, containsRune_eof] at hc
      exact Bool.noConfusion hc
    refine ⟨true, l1, ?_, hf, ?_, fun _ => hlt, hs⟩
    · simp only [accept, hn, bind, Except.bind, pure, Except.pure, hc, if_true]
    · rw [hpos, if_pos hlt, if_pos rfl]
  · have hbp : (backup l1).pos = l.pos := by
      simp only [backup, hpos, hw]; split <;> omega
    refine ⟨false, backup l1, ?_, ⟨⟨hf.ok.input, ?_, ?_, ?_⟩, ?_, hf.items⟩, ?_, ?_, hs⟩
    · simp only [accept, hn, bind, Except.bind, pure, Except.pure, hc]
      rfl
    · show 0 ≤ l1.start
      rw [hs]; exact hI.start_nonneg
    · show l1.start ≤ (backup l1).pos
      rw [hs, hbp]; exact hsl
    · rw [hbp]; exact hle
    · rw [hbp]
    · rw [hbp]; simp
    · intro h; exact Bool.noConfusion h

theorem acceptRun_ok {inp : List Nat} (hA : Ascii inp) (valid : List Nat) :
    ∀ (fuel : Nat) (l : Lexer), l.Ok inp → (inp.length : Int) - l.pos < fuel →
      ∃ l1, acceptRun fuel l valid = .ok l1 ∧ Follows inp l l1 ∧ l1.start = l.start := by
  intro fuel
  induction fuel with
  | zero => intro l hI hf; have := hI.pos_le; omega
  | succ fuel ih =>
    intro l hI hf
    obtain ⟨l1, hn, hfo, hpos, hw, hs⟩ := next_ok hA hI
    have hle := hI.pos_le
    have hsl := hI.start_le
    by_cases hc : ContainsRune valid (runeAt inp l.pos) = true
    · have hlt : l.pos < inp.length := by
        apply runeAt_lt_of_ne_eof
        intro he
        rw [he, containsRune_eof] at hc
        exact Bool.noConfusion hc
      rw [if_pos hlt] at hpos
      obtain ⟨l2, h2, hf2, hs2⟩ := ih l1 hfo.ok (by rw [hpos]; omega)
      refine ⟨l2, ?_, hfo.trans hf2, by rw [hs2, hs]⟩
      rw [acceptRun]
      simp only [hn, bind, Except.bind, hc, if_true]
      exact h2
    · have hbp : (backup l1).pos = l.pos := by
        simp only [backup, hpos, hw]; split <;> omega
      refine ⟨backup l1, ?_, ⟨⟨hfo.ok.input, ?_, ?_, ?_⟩, ?_, hfo.items⟩, hs⟩
      · rw [acceptRun]
        simp only [hn, bind, Except.bind, pure, Except.pure, hc]
        rfl
      · show 0 ≤ l1.start
        rw [hs]; exact hI.start_nonneg
      · show l1.start ≤ (backup l1).pos
        rw [hs, hbp]; exact hsl
      · rw [hbp]; exact hle
      · rw [hbp]

theorem emit_ok {inp : List Nat} {l : Lexer} (hI : l.Ok inp) (t : ItemType) :
    ∃ l1, emit l t = .ok l1 ∧ Follows inp l l1 ∧ l1.pos = l.pos ∧ l1.start = l.pos := by
  have hp : 0 ≤ l.pos := le_trans hI.start_nonneg hI.start_le
  obtain ⟨l1, he, ha⟩ := emit_spec hI.at hI.start_nonneg hI.start_le hI.pos_le t
  refine ⟨l1, he, ⟨⟨ha.input, by rw [ha.start]; exact hp, by rw [ha.start, ha.pos],
    by rw [ha.pos]; exact hI.pos_le⟩, by rw [ha.pos], ?_⟩, ha.pos, ha.start⟩
  rw [ha.items]
  split
  · exact List.prefix_refl _
  · exact List.prefix_append _ _

theorem currentToken_ok {inp : List Nat} {l : Lexer} (hI : l.Ok inp) :
    ∃ tk, currentToken l = .ok tk ∧ (l.start = l.pos → tk = []) := by
  refine ⟨_, currentToken_spec hI.at hI.start_nonneg hI.start_le hI.pos_le, ?_⟩
  intro h
  rw [h]
  simp

theorem ignore_ok {inp : List Nat} {l : Lexer} (hI : l.Ok inp) :
    Follows inp l (ignore l) ∧ (ignore l).pos = l.pos :=
  ⟨⟨⟨hI.input, le_trans hI.start_nonneg hI.start_le, le_refl _, hI.pos_le⟩, le_refl _,
    List.prefix_refl _⟩, rfl⟩

theorem rank_le (inp : List Nat) (s : StateFn) (l : Lexer) : rank inp s l ≤ 3 := by
  cases s <;> simp only [rank] <;> (try split) <;> omega

theorem lexMeasure_lt_of_pos_lt {inp : List Nat} (s s1 : StateFn) {l l1 : Lexer}
    (h : l.pos < l1.pos) (hl : l1.pos ≤ inp.length) :
    lexMeasure inp s1 l1 < lexMeasure inp s l := by
  have := rank_le inp s1 l1
  unfold lexMeasure
  omega

theorem peek1_ok {inp : List Nat} (hA : Ascii inp) {l : Lexer} (hI : l.Ok inp) :
    ∃ l1, peek l 1 = .ok (runeAt inp l.pos, l1) ∧ Follows inp l l1 ∧ l1.pos = l.pos ∧
      l1.start = l.start := by
  obtain ⟨l1, h, hf, hpos, hs⟩ := peek_ok hA 0 hI
  have hle := hI.pos_le
  refine ⟨l1, by simpa using h, hf, ?_, hs⟩
  rw [hpos]; split <;> omega

theorem peek2_ok {inp : List Nat} (hA : Ascii inp) {l : Lexer} (hI : l.Ok inp) :
    ∃ l1, peek l 2 = .ok (runeAt inp (l.pos + 1), l1) ∧ Follows inp l l1 ∧
      (l1.pos = l.pos ∨ (l1.pos = inp.length ∧ l.pos + 1 = inp.length)) ∧
      (runeAt inp (l.pos + 1) ≠ EOF → l1.pos = l.pos) ∧ l1.start = l.start := by
  obtain ⟨l1, h, hf, hpos, hs⟩ := peek_ok hA 1 hI
  have hle := hI.pos_le
  refine ⟨l1, by simpa using h, hf, ?_, ?_, hs⟩
  · rw [hpos]; split <;> omega
  · intro hne
    have := runeAt_lt_of_ne_eof hne
    rw [hpos]; split <;> omega

theorem peek3_ok {inp : List Nat} (hA : Ascii inp) {l : Lexer} (hI : l.Ok inp) :
    ∃ l1, peek l 3 = .ok (runeAt inp (l.pos + 2), l1) ∧ Follows inp l l1 ∧
      l1.start = l.start := by
  obtain ⟨l1, h, hf, _, hs⟩ := peek_ok hA 2 hI
  exact ⟨l1, by simpa using h, hf, hs⟩

/-- The loop of `lexComment`, entered with the rune at the cursor. -/
theorem untilEOL_ok {inp : List Nat} (hA : Ascii inp) :
    ∀ (fuel : Nat) (l : Lexer), l.Ok inp → (inp.length : Int) - l.pos < fuel →
      ∃ r1 l1, untilEOL fuel (runeAt inp l.pos) l = .ok (r1, l1) ∧ Follows inp l l1 ∧
        (runeAt inp l.pos ≠ 10 → runeAt inp l.pos ≠ EOF → l.pos < l1.pos) := by
  intro fuel
  induction fuel with
  | zero => intro l hI hf; have := hI.pos_le; omega
  | succ fuel ih =>
    intro l hI hf
    by_cases hc : runeAt inp l.pos ≠ 10 ∧ runeAt inp l.pos ≠ EOF
    · have hlt := runeAt_lt_of_ne_eof hc.2
      obtain ⟨l1, hn, hf1, hpos1, _, _⟩ := next_ok hA hI
      rw [if_pos hlt] at hpos1
      obtain ⟨l2, hp, hf2, hpos2, _⟩ := peek1_ok hA hf1.ok
      obtain ⟨r3, l3, h3, hf3, _⟩ := ih l2 hf2.ok (by rw [hpos2, hpos1]; omega)
      refine ⟨r3, l3, ?_, hf1.trans (hf2.trans hf3), ?_⟩
      · rw [untilEOL, if_pos hc]
        simp only [hn, hp, bind, Except.bind]
        rw [← hpos2]
        exact h3
      · intro _ _
        have := hf3.pos
        omega
    · refine ⟨runeAt inp l.pos, l, ?_, Follows.refl hI, ?_⟩
      · rw [untilEOL, if_neg hc]
        rfl
      · intro h1 h2
        exact absurd ⟨h1, h2⟩ hc

/-- The loop of `lexSpecialComment`, entered with any rune `r`. -/
theorem untilEOL_ok_any {inp : List Nat} (hA : Ascii inp) (fuel : Nat) (r : Int) (l : Lexer)
    (hI : l.Ok inp) (hf : (inp.length : Int) - l.pos + 1 < fuel) :
    ∃ r1 l1, untilEOL fuel r l = .ok (r1, l1) ∧ Follows inp l l1 := by
  have hle := hI.pos_le
  cases fuel with
  | zero => omega
  | succ fuel =>
    by_cases hc : r ≠ 10 ∧ r ≠ EOF
    · obtain ⟨l1, hn, hf1, hpos1, _, _⟩ := next_ok hA hI
      obtain ⟨l2, hp, hf2, hpos2, _⟩ := peek1_ok hA hf1.ok
      obtain ⟨r3, l3, h3, hf3, _⟩ := untilEOL_ok hA fuel l2 hf2.ok (by
        rw [hpos2, hpos1]; split <;> omega)
      refine ⟨r3, l3, ?_, hf1.trans (hf2.trans hf3)⟩
      rw [untilEOL, if_pos hc]
      simp only [hn, hp, bind, Except.bind]
      rw [← hpos2]
      exact h3
    · refine ⟨r, l, ?_, Follows.refl hI⟩
      rw [untilEOL, if_neg hc]
      rfl

/-- The loop of `lexString`, entered with the rune at the cursor. -/
theorem untilClosing_ok {inp : List Nat} (hA : Ascii inp) (closing : Int) :
    ∀ (fuel : Nat) (c : Int) (l : Lexer), l.Ok inp → (inp.length : Int) - l.pos < fuel →
      ∃ c1 l1, untilClosing closing fuel c (runeAt inp l.pos) l =
          .ok (c1, runeAt inp l1.pos, l1) ∧ Follows inp l l1 ∧ (c1 = c ∨ l.pos < l1.pos) := by
  intro fuel
  induction fuel with
  | zero => intro c l hI hf; have := hI.pos_le; omega
  | succ fuel ih =>
    intro c l hI hf
    by_cases hc : runeAt inp l.pos ≠ closing ∧ runeAt inp l.pos ≠ EOF
    · have hlt := runeAt_lt_of_ne_eof hc.2
      obtain ⟨l1, hn, hf1, hpos1, _, _⟩ := next_ok hA hI
      rw [if_pos hlt] at hpos1
      obtain ⟨l2, hp, hf2, hpos2, _⟩ := peek1_ok hA hf1.ok
      obtain ⟨c3, l3, h3, hf3, _⟩ := ih (runeAt inp l.pos) l2 hf2.ok (by
        rw [hpos2, hpos1]; omega)
      refine ⟨c3, l3, ?_, hf1.trans (hf2.trans hf3), ?_⟩
      · rw [untilClosing, if_pos hc]
        simp only [hn, hp, bind, Except.bind]
        rw [← hpos2]
        exact h3
      · right
        have := hf3.pos
        omega
    · refine ⟨c, l, ?_, Follows.refl hI, Or.inl rfl⟩
      rw [untilClosing, if_neg hc]
      rfl

/-- The loop of `lexInfix`, entered with the rune at the cursor. -/
theorem untilPercent_ok {inp : List Nat} (hA : Ascii inp) :
    ∀ (fuel : Nat) (l : Lexer), l.Ok inp → (inp.length : Int) - l.pos < fuel →
      ∃ l1, untilPercent fuel (runeAt inp l.pos) l = .ok (runeAt inp l1.pos, l1) ∧
        Follows inp l l1 := by
  intro fuel
  induction fuel with
  | zero => intro l hI hf; have := hI.pos_le; omega
  | succ fuel ih =>
    intro l hI hf
    by_cases hc : runeAt inp l.pos ≠ 37 ∧ runeAt inp l.pos ≠ EOF
    · have hlt := runeAt_lt_of_ne_eof hc.2
      obtain ⟨l1, hn, hf1, hpos1, _, _⟩ := next_ok hA hI
      rw [if_pos hlt] at hpos1
      obtain ⟨l2, hp, hf2, hpos2, _⟩ := peek1_ok hA hf1.ok
      obtain ⟨l3, h3, hf3⟩ := ih l2 hf2.ok (by rw [hpos2, hpos1]; omega)
      refine ⟨l3, ?_, hf1.trans (hf2.trans hf3)⟩
      rw [untilPercent, if_pos hc]
      simp only [hn, hp, bind, Except.bind]
      rw [← hpos2]
      exact h3
    · refine ⟨l, ?_, Follows.refl hI⟩
      rw [untilPercent, if_neg hc]
      rfl

theorem Fwd.mono {inp : List Nat} {l l1 : Lexer} {r : Step} (h : Follows inp l l1)
    (hf : Fwd inp l1 r) : Fwd inp l r := by
  obtain ⟨s2, l2, hr, hf2, hp⟩ := hf
  refine ⟨s2, l2, hr, h.trans hf2, ?_⟩
  intro _
  have h1 := h.pos
  have h2 := hf2.pos
  have h3 := h.ok.pos_le
  by_cases he : l1.pos < inp.length
  · rcases hp he with h4 | h4
    · left; omega
    · right; exact h4
  · left; omega

theorem next1Emit_fwd {inp : List Nat} (hA : Ascii inp) {l : Lexer} (hI : l.Ok inp)
    (t : ItemType) (s : StateFn) : Fwd inp l (next1Emit l t s) := by
  obtain ⟨l1, hn, hf1, hpos1, _, _⟩ := next_ok hA hI
  obtain ⟨l2, he, hf2, hpos2, _⟩ := emit_ok hf1.ok t
  refine ⟨s, l2, ?_, hf1.trans hf2, ?_⟩
  · simp only [next1Emit, hn, he, bind, Except.bind, pure, Except.pure]
  · intro hlt
    left
    rw [hpos2, hpos1, if_pos hlt]
    omega

theorem next2Emit_fwd {inp : List Nat} (hA : Ascii inp) {l : Lexer} (hI : l.Ok inp)
    (t : ItemType) (s : StateFn) : Fwd inp l (next2Emit l t s) := by
  obtain ⟨l1, hn, hf1, hpos1, _, _⟩ := next_ok hA hI
  obtain ⟨l2, hn2, hf2, _, _, _⟩ := next_ok hA hf1.ok
  obtain ⟨l3, he, hf3, _, _⟩ := emit_ok hf2.ok t
  refine ⟨s, l3, ?_, hf1.trans (hf2.trans hf3), ?_⟩
  · simp only [next2Emit, hn, hn2, he, bind, Except.bind, pure, Except.pure]
  · intro hlt
    left
    have := (hf2.trans hf3).pos
    rw [hpos1, if_pos hlt] at this
    omega

theorem next3Emit_fwd {inp : List Nat} (hA : Ascii inp) {l : Lexer} (hI : l.Ok inp)
    (t : ItemType) (s : StateFn) : Fwd inp l (next3Emit l t s) := by
  obtain ⟨l1, hn, hf1, hpos1, _, _⟩ := next_ok hA hI
  obtain ⟨l2, hn2, hf2, _, _, _⟩ := next_ok hA hf1.ok
  obtain ⟨l3, hn3, hf3, _, _, _⟩ := next_ok hA hf2.ok
  obtain ⟨l4, he, hf4, _, _⟩ := emit_ok hf3.ok t
  refine ⟨s, l4, ?_, hf1.trans (hf2.trans (hf3.trans hf4)), ?_⟩
  · simp only [next3Emit, hn, hn2, hn3, he, bind, Except.bind, pure, Except.pure]
  · intro hlt
    left
    have := (hf2.trans (hf3.trans hf4)).pos
    rw [hpos1, if_pos hlt] at this
    omega

theorem lexDefaultTail_fwd {inp : List Nat} (hA : Ascii inp) {l : Lexer} (hI : l.Ok inp) :
    Fwd inp l (lexDefaultTail l) := by
  unfold lexDefaultTail acceptNumber acceptMathOp acceptAlphaNumeric
  obtain ⟨b1, l1, h1, hf1, hpos1, _, _⟩ := accept_ok hA hI stringNumber
  simp only [h1, bind, Except.bind, pure, Except.pure]
  cases b1 with
  | true =>
    refine ⟨_, l1, rfl, hf1, fun _ => Or.inl ?_⟩
    rw [hpos1]; simp
  | false =>
    obtain ⟨b2, l2, h2, hf2, hpos2, _, _⟩ := accept_ok hA hf1.ok stringMathOp
    simp only [h2, Bool.false_eq_true, if_false]
    cases b2 with
    | true =>
      refine ⟨_, l2, rfl, hf1.trans hf2, fun _ => Or.inl ?_⟩
      have := hf1.pos
      rw [hpos2]; simp; omega
    | false =>
      obtain ⟨b3, l3, h3, hf3, hpos3, _, _⟩ := accept_ok hA hf2.ok stringAlphaNum
      simp only [h3, Bool.false_eq_true, if_false]
      cases b3 with
      | true =>
        refine ⟨_, l3, rfl, hf1.trans (hf2.trans hf3), fun _ => Or.inl ?_⟩
        have := (hf1.trans hf2).pos
        rw [hpos3]; simp; omega
      | false =>
        obtain ⟨l4, h4, hf4, hpos4, _, _⟩ := next_ok hA hf3.ok
        simp only [h4, Bool.false_eq_true, if_false]
        refine ⟨_, l4, rfl, hf1.trans (hf2.trans (hf3.trans hf4)), fun hlt => Or.inl ?_⟩
        simp at hpos1 hpos2 hpos3
        rw [hpos4, hpos3, hpos2, hpos1, if_pos hlt]
        omega

theorem peekThird_ok {inp : List Nat} (hA : Ascii inp) {l : Lexer} (hI : l.Ok inp)
    (r1 r2 c : Int) : ∃ c3 l1, peekThird l r1 r2 c = .ok (c3, l1) ∧ Follows inp l l1 := by
  unfold peekThird
  by_cases h : r1 = c ∧ r2 = c
  · obtain ⟨l1, hp, hf1, _⟩ := peek3_ok hA hI
    rw [if_pos h]
    simp only [hp, bind, Except.bind, pure, Except.pure]
    exact ⟨_, l1, rfl, hf1⟩
  · rw [if_neg h]
    exact ⟨false, l, rfl, Follows.refl hI⟩

theorem Fwd.ite {inp : List Nat} {l : Lexer} {c : Prop} [Decidable c] {a b : Step}
    (ha : Fwd inp l a) (hb : Fwd inp l b) : Fwd inp l (if c then a else b) := by
  split <;> assumption

theorem lexDefaultPunctBranches_fwd {inp : List Nat} (hA : Ascii inp) {l : Lexer}
    (hI : l.Ok inp) (c3 : Bool) (r1 r2 : Int) :
    Fwd inp l (lexDefaultPunctBranches l c3 r1 r2) := by
  unfold lexDefaultPunctBranches
  repeat' first
    | apply Fwd.ite
    | exact next1Emit_fwd hA hI _ _
    | exact next2Emit_fwd hA hI _ _
    | exact next3Emit_fwd hA hI _ _
    | exact lexDefaultTail_fwd hA hI

theorem lexDefaultPunct_fwd {inp : List Nat} (hA : Ascii inp) {l : Lexer} (hI : l.Ok inp)
    (r1 r2 : Int) : Fwd inp l (lexDefaultPunct l r1 r2) := by
  obtain ⟨c3, l1, h1, hf1⟩ := peekThird_ok hA hI r1 r2 46
  unfold lexDefaultPunct
  simp only [h1, bind, Except.bind]
  exact Fwd.mono hf1 (lexDefaultPunctBranches_fwd hA hf1.ok c3 r1 r2)

theorem lexDefaultNamespace_fwd {inp : List Nat} (hA : Ascii inp) {l : Lexer} (hI : l.Ok inp)
    (r1 r2 : Int) : Fwd inp l (lexDefaultNamespace l r1 r2) := by
  obtain ⟨c3, l1, h1, hf1⟩ := peekThird_ok hA hI r1 r2 58
  unfold lexDefaultNamespace
  simp only [h1, bind, Except.bind]
  apply Fwd.mono hf1
  repeat' first
    | apply Fwd.ite
    | exact next2Emit_fwd hA hf1.ok _ _
    | exact next3Emit_fwd hA hf1.ok _ _
    | exact lexDefaultPunct_fwd hA hf1.ok _ _

theorem lexDefaultOpsBranches_fwd {inp : List Nat} (hA : Ascii inp) {l : Lexer}
    (hI : l.Ok inp) (r1 r2 : Int) : Fwd inp l (lexDefaultOpsBranches l r1 r2) := by
  unfold lexDefaultOpsBranches
  repeat' first
    | apply Fwd.ite
    | exact ⟨_, l, rfl, Follows.refl hI, fun _ => Or.inr rfl⟩
    | exact next1Emit_fwd hA hI _ _
    | exact next2Emit_fwd hA hI _ _
    | exact lexDefaultNamespace_fwd hA hI _ _

theorem rangeFallThrough_ok {inp : List Nat} (hA : Ascii inp) {l : Lexer} (hI : l.Ok inp)
    (r1 r2 : Int) : ∃ l1, rangeFallThrough l r1 r2 = .ok l1 ∧ Follows inp l l1 := by
  unfold rangeFallThrough
  by_cases h : r1 = 46 ∧ r2 = 46
  · obtain ⟨l2, hn2, hf2, _⟩ := next_ok hA hI
    obtain ⟨l3, hn3, hf3, _⟩ := next_ok hA hf2.ok
    obtain ⟨l4, he, hf4, _⟩ := emit_ok hf3.ok .ItemRange
    rw [if_pos h]
    simp only [hn2, hn3, he, bind, Except.bind]
    exact ⟨l4, rfl, hf2.trans (hf3.trans hf4)⟩
  · rw [if_neg h]
    exact ⟨l, rfl, Follows.refl hI⟩

theorem lexDefaultOps_fwd {inp : List Nat} (hA : Ascii inp) {l : Lexer} (hI : l.Ok inp)
    (r1 : Int) : Fwd inp l (lexDefaultOps l r1) := by
  obtain ⟨l1, hp, hf1, _⟩ := peek2_ok hA hI
  obtain ⟨l2, h2, hf2⟩ := rangeFallThrough_ok hA hf1.ok r1 (runeAt inp (l.pos + 1))
  unfold lexDefaultOps
  simp only [hp, h2, bind, Except.bind]
  exact Fwd.mono (hf1.trans hf2) (lexDefaultOpsBranches_fwd hA hf2.ok r1 _)

theorem Fwd.progress {inp : List Nat} {l0 l : Lexer} {r : Step} (hf0 : Follows inp l0 l)
    (hlt : l0.pos < inp.length) (hf : Fwd inp l r) : Progress inp .lexDefault l0 r := by
  obtain ⟨s1, l1, hr, hf1, hp⟩ := (Fwd.mono hf0 hf)
  refine ⟨some s1, l1, hr, hf1, ?_⟩
  intro s2 hs2
  cases hs2
  rcases hp hlt with h | h
  · exact lexMeasure_lt_of_pos_lt _ _ h hf1.ok.pos_le
  · subst h
    have := hf1.pos
    simp only [lexMeasure, rank]
    omega

theorem Follows.emitEOF {inp : List Nat} {l : Lexer} (hI : l.Ok inp) :
    Follows inp l (emitEOF l) :=
  ⟨⟨hI.input, hI.start_nonneg, hI.start_le, hI.pos_le⟩, le_refl _, List.prefix_append _ _⟩

/-- The state `lexDefault` over an ASCII input. -/
theorem lexDefault_progress {inp : List Nat} (hA : Ascii inp) {l : Lexer} (hI : l.Ok inp) :
    Progress inp .lexDefault l (lexDefault l) := by
  obtain ⟨l1, hp, hf1, hpos1, _⟩ := peek1_ok hA hI
  unfold lexDefault
  simp only [hp, bind, Except.bind, pure, Except.pure]
  by_cases he : runeAt inp l.pos = EOF
  · rw [if_pos he]
    exact ⟨none, _, rfl, hf1.trans (Follows.emitEOF hf1.ok), fun s2 h => Option.noConfusion h⟩
  rw [if_neg he]
  have hlt := runeAt_lt_of_ne_eof he
  by_cases h35 : runeAt inp l.pos = 35
  · have h1 : ¬ runeAt inp l.pos = 34 := by omega
    have h2 : ¬ runeAt inp l.pos = 39 := by omega
    rw [if_neg h1, if_neg h2, if_pos h35]
    refine ⟨_, l1, rfl, hf1, ?_⟩
    intro s2 hs2
    cases hs2
    have hr : ¬ (runeAt inp l.pos = 10 ∨ runeAt inp l.pos = EOF) := by
      rw [h35]; unfold EOF; omega
    simp only [lexMeasure, rank, hpos1, if_neg hr]
    omega
  · obtain ⟨l2, hn, hf2, hpos2, _, _⟩ := next_ok hA hf1.ok
    rw [if_pos (by omega)] at hpos2
    simp only [hn]
    split_ifs
    · obtain ⟨l3, h3, hf3, hpos3, _⟩ := emit_ok hf2.ok .ItemDoubleQuote
      simp only [h3]
      exact ⟨_, l3, rfl, hf1.trans (hf2.trans hf3), fun s2 hs2 =>
        lexMeasure_lt_of_pos_lt _ _ (by omega) hf3.ok.pos_le⟩
    · obtain ⟨l3, h3, hf3, hpos3, _⟩ := emit_ok hf2.ok .ItemSingleQuote
      simp only [h3]
      exact ⟨_, l3, rfl, hf1.trans (hf2.trans hf3), fun s2 hs2 =>
        lexMeasure_lt_of_pos_lt _ _ (by omega) hf3.ok.pos_le⟩
    · exact ⟨_, _, rfl, hf1.trans (hf2.trans (ignore_ok hf2.ok).1), fun s2 hs2 =>
        lexMeasure_lt_of_pos_lt _ _ (by rw [(ignore_ok hf2.ok).2]; omega)
          (ignore_ok hf2.ok).1.ok.pos_le⟩
    · exact Fwd.progress hf1 hlt (next2Emit_fwd hA hf1.ok _ _)
    · exact Fwd.progress hf1 hlt (next1Emit_fwd hA hf1.ok _ _)
    · exact Fwd.progress hf1 hlt (lexDefaultOps_fwd hA hf1.ok _)

theorem Progress.halt {inp : List Nat} {s : StateFn} {l l1 : Lexer} (hf : Follows inp l l1) :
    Progress inp s l (.ok (none, l1)) :=
  ⟨none, l1, rfl, hf, fun _ h => Option.noConfusion h⟩

theorem Progress.of_pos_lt {inp : List Nat} {s s1 : StateFn} {l l1 : Lexer}
    (hf : Follows inp l l1) (h : l.pos < l1.pos) : Progress inp s l (.ok (some s1, l1)) :=
  ⟨some s1, l1, rfl, hf, fun s2 hs2 => by
    cases hs2
    exact lexMeasure_lt_of_pos_lt _ _ h hf.ok.pos_le⟩

theorem Progress.to_default {inp : List Nat} {s : StateFn} {l l1 : Lexer}
    (hf : Follows inp l l1) (h : 2 ≤ rank inp s l) :
    Progress inp s l (.ok (some .lexDefault, l1)) :=
  ⟨some .lexDefault, l1, rfl, hf, fun s2 hs2 => by
    cases hs2
    have h1 := hf.pos
    have h2 := hf.ok.pos_le
    have h3 : rank inp .lexDefault l1 = 1 := rfl
    unfold lexMeasure
    omega⟩

theorem emitWhen_ok {inp : List Nat} {l : Lexer} (hI : l.Ok inp) (c : Prop) [Decidable c]
    (t : ItemType) : ∃ l1, emitWhen c l t = .ok l1 ∧ Follows inp l l1 := by
  unfold emitWhen
  split
  · obtain ⟨l1, h1, hf1, _⟩ := emit_ok hI t
    exact ⟨l1, h1, hf1⟩
  · exact ⟨l, rfl, Follows.refl hI⟩

theorem skipSpace_ok {inp : List Nat} (hA : Ascii inp) {l : Lexer} (hI : l.Ok inp) (r : Int) :
    ∃ l1, skipSpace l r = .ok l1 ∧ Follows inp l l1 ∧
      (r = 32 → l.pos < inp.length → l.pos < l1.pos) := by
  unfold skipSpace
  split
  · obtain ⟨l1, h1, hf1, hpos1, _⟩ := next_ok hA hI
    refine ⟨ignore l1, ?_, hf1.trans (ignore_ok hf1.ok).1, ?_⟩
    · simp only [h1, bind, Except.bind, pure, Except.pure]
    · intro _ hlt
      rw [(ignore_ok hf1.ok).2, hpos1, if_pos hlt]
      omega
  · rename_i h
    exact ⟨l, rfl, Follows.refl hI, fun h1 => absurd h1 h⟩

theorem typeOr_ok {inp : List Nat} (hA : Ascii inp) {l : Lexer} (hI : l.Ok inp) (r : Int) :
    ∃ l1, typeOr l r = .ok l1 ∧ Follows inp l l1 := by
  unfold typeOr
  split
  · obtain ⟨l1, h1, hf1, _⟩ := next_ok hA hI
    obtain ⟨l2, h2, hf2, _⟩ := emit_ok hf1.ok .ItemTypesOr
    refine ⟨l2, ?_, hf1.trans hf2⟩
    simp only [h1, h2, bind, Except.bind]
  · exact ⟨l, rfl, Follows.refl hI⟩

theorem typeList_ok {inp : List Nat} (hA : Ascii inp) {l : Lexer} (hI : l.Ok inp)
    (r r2 : Int) : ∃ l1, typeList l r r2 = .ok l1 ∧ Follows inp l l1 := by
  unfold typeList
  split
  · obtain ⟨l1, h1, hf1, _⟩ := next_ok hA hI
    obtain ⟨l2, h2, hf2, _⟩ := next_ok hA hf1.ok
    obtain ⟨l3, h3, hf3, _⟩ := emit_ok hf2.ok .ItemTypesList
    refine ⟨l3, ?_, hf1.trans (hf2.trans hf3)⟩
    simp only [h1, h2, h3, bind, Except.bind]
  · exact ⟨l, rfl, Follows.refl hI⟩

theorem lexExponent_ok {inp : List Nat} (hA : Ascii inp) {l : Lexer} (hI : l.Ok inp)
    (fuel : Nat) (hf : (inp.length : Int) + 1 < fuel) (r1 : Int) :
    ∃ l1, lexExponent fuel l r1 = .ok l1 ∧ Follows inp l l1 := by
  unfold lexExponent
  split
  · obtain ⟨l1, h1, hf1, _⟩ := next_ok hA hI
    have := hf1.ok.start_le
    have := hf1.ok.start_nonneg
    obtain ⟨l2, h2, hf2, _⟩ := acceptRun_ok hA stringNumber fuel l1 hf1.ok (by omega)
    refine ⟨l2, ?_, hf1.trans hf2⟩
    simp only [h1, h2, bind, Except.bind]
  · exact ⟨l, rfl, Follows.refl hI⟩

/-- The state `lexMathOp` over an ASCII input. -/
theorem lexMathOp_progress {inp : List Nat} (hA : Ascii inp) {l : Lexer} (hI : l.Ok inp)
    (fuel : Nat) (hf : (inp.length : Int) + 1 < fuel) :
    Progress inp .lexMathOp l (lexMathOp fuel l) := by
  have := hI.start_le
  have := hI.start_nonneg
  obtain ⟨l1, h1, hf1, _⟩ := acceptRun_ok hA stringMathOp fuel l hI (by omega)
  obtain ⟨tk, htk, _⟩ := currentToken_ok hf1.ok
  obtain ⟨l2, h2, hf2⟩ := emitWhen_ok hf1.ok (tk = str "+") .ItemPlus
  obtain ⟨l3, h3, hf3⟩ := emitWhen_ok hf2.ok (tk = str "-") .ItemMinus
  obtain ⟨l4, h4, hf4⟩ := emitWhen_ok hf3.ok (tk = str "*") .ItemMultiply
  obtain ⟨l5, h5, hf5⟩ := emitWhen_ok hf4.ok (tk = str "/") .ItemDivide
  obtain ⟨l6, h6, hf6⟩ := emitWhen_ok hf5.ok (tk = str "^") .ItemPower
  unfold lexMathOp
  simp only [h1, htk, h2, h3, h4, h5, h6, bind, Except.bind, pure, Except.pure]
  exact Progress.to_default (hf1.trans (hf2.trans (hf3.trans (hf4.trans (hf5.trans hf6)))))
    (le_refl _)

/-- The state `lexNumber` over an ASCII input. -/
theorem lexNumber_progress {inp : List Nat} (hA : Ascii inp) {l : Lexer} (hI : l.Ok inp)
    (fuel : Nat) (hf : (inp.length : Int) + 1 < fuel) :
    Progress inp .lexNumber l (lexNumber fuel l) := by
  have := hI.start_le
  have := hI.start_nonneg
  obtain ⟨l1, h1, hf1, _⟩ := acceptRun_ok hA stringNumber fuel l hI (by omega)
  obtain ⟨l2, h2, hf2, hpos2, _⟩ := peek1_ok hA hf1.ok
  obtain ⟨l3, h3, hf3, _⟩ := peek2_ok hA hf2.ok
  obtain ⟨l4, h4, hf4⟩ := lexExponent_ok hA hf3.ok fuel hf (runeAt inp l1.pos)
  unfold lexNumber
  simp only [h1, h2, h3, h4, bind, Except.bind, pure, Except.pure]
  split
  · rename_i hc
    obtain ⟨l5, h5, hf5, hpos5, _⟩ := emit_ok hf4.ok .ItemInteger
    obtain ⟨l6, h6, hf6, hpos6, _⟩ := next_ok hA hf5.ok
    obtain ⟨l7, h7, hf7, _⟩ := next_ok hA hf6.ok
    obtain ⟨l8, h8, hf8, _⟩ := emit_ok hf7.ok .ItemRange
    simp only [h5, h6, h7, h8]
    have hlt : l1.pos < inp.length := by
      apply runeAt_lt_of_ne_eof
      rw [hc.1]; unfold EOF; omega
    refine Progress.of_pos_lt
      (hf1.trans (hf2.trans (hf3.trans (hf4.trans (hf5.trans (hf6.trans (hf7.trans hf8)))))))
      ?_
    have a1 := hf1.pos
    have a3 := hf3.pos
    have a4 := hf4.pos
    have a7 := hf7.pos
    have a8 := hf8.pos
    have a5 := hf5.ok.pos_le
    split at hpos6 <;> omega
  · have := hf4.ok.start_le
    have := hf4.ok.start_nonneg
    obtain ⟨b, l5, h5, hf5, _⟩ := accept_ok hA hf4.ok (str ".")
    simp only [h5]
    cases b with
    | true =>
      have := hf5.ok.start_le
      have := hf5.ok.start_nonneg
      obtain ⟨l6, h6, hf6, _⟩ := acceptRun_ok hA stringNumber fuel l5 hf5.ok (by omega)
      obtain ⟨l7, h7, hf7, _⟩ := emit_ok hf6.ok .ItemFloat
      simp only [h6, h7, if_true]
      exact Progress.to_default
        (hf1.trans (hf2.trans (hf3.trans (hf4.trans (hf5.trans (hf6.trans hf7)))))) (le_refl _)
    | false =>
      obtain ⟨l6, h6, hf6, _⟩ := emit_ok hf5.ok .ItemInteger
      simp only [h6, Bool.false_eq_true, if_false]
      exact Progress.to_default
        (hf1.trans (hf2.trans (hf3.trans (hf4.trans (hf5.trans hf6))))) (le_refl _)

/-- The state `lexComment` over an ASCII input. -/
theorem lexComment_progress {inp : List Nat} (hA : Ascii inp) {l : Lexer} (hI : l.Ok inp)
    (fuel : Nat) (hf : (inp.length : Int) + 1 < fuel) :
    Progress inp .lexComment l (lexComment fuel l) := by
  have := hI.start_le
  have := hI.start_nonneg
  obtain ⟨l1, h1, hf1, hpos1, hne1, _⟩ := peek2_ok hA hI
  unfold lexComment
  simp only [h1, bind, Except.bind, pure, Except.pure]
  split
  · rename_i hc
    have hne : runeAt inp (l.pos + 1) ≠ EOF := by rw [hc]; unfold EOF; omega
    have hlt := runeAt_lt_of_ne_eof hne
    obtain ⟨l2, h2, hf2, hpos2, _⟩ := next_ok hA hf1.ok
    obtain ⟨l3, h3, hf3, _⟩ := next_ok hA hf2.ok
    obtain ⟨l4, h4, hf4, _⟩ := emit_ok hf3.ok .ItemSpecialComment
    simp only [h2, h3, h4]
    refine Progress.of_pos_lt (hf1.trans (hf2.trans (hf3.trans hf4))) ?_
    have a3 := hf3.pos
    have a4 := hf4.pos
    rw [hne1 hne] at hpos2
    rw [if_pos (by omega)] at hpos2
    omega
  · have := hf1.ok.start_le
    have := hf1.ok.start_nonneg
    obtain ⟨l2, h2, hf2, hpos2, _⟩ := peek1_ok hA hf1.ok
    have := hf2.ok.start_le
    have := hf2.ok.start_nonneg
    obtain ⟨r3, l3, h3, hf3, hcons⟩ := untilEOL_ok hA fuel l2 hf2.ok (by omega)
    obtain ⟨l4, h4, hf4, hpos4, _⟩ := emit_ok hf3.ok .ItemComment
    rw [hpos2] at h3
    simp only [h2, h3, h4]
    refine ⟨_, l4, rfl, hf1.trans (hf2.trans (hf3.trans hf4)), ?_⟩
    intro s2 hs2
    cases hs2
    have a3 := hf3.pos
    have a4 := hf4.ok.pos_le
    have a1 := hf1.pos
    by_cases hr : runeAt inp l.pos = 10 ∨ runeAt inp l.pos = EOF
    · simp only [lexMeasure, rank, if_pos hr]
      omega
    · simp only [lexMeasure, rank, if_neg hr]
      have hlt : l.pos < l4.pos := by
        rcases hpos1 with hp | hp
        · have := hcons (by rw [hpos2, hp]; exact fun h => hr (Or.inl h))
            (by rw [hpos2, hp]; exact fun h => hr (Or.inr h))
          omega
        · have : l.pos < inp.length := by omega
          omega
      omega

/-- The state `lexSpecialComment` over an ASCII input. -/
theorem lexSpecialComment_progress {inp : List Nat} (hA : Ascii inp) {l : Lexer}
    (hI : l.Ok inp) (fuel : Nat) (hf : (inp.length : Int) + 1 < fuel) :
    Progress inp .lexSpecialComment l (lexSpecialComment fuel l) := by
  obtain ⟨l1, h1, hf1, _⟩ := peek1_ok hA hI
  obtain ⟨l2, h2, hf2, _⟩ := skipSpace_ok hA hf1.ok (runeAt inp l.pos)
  have := hf2.ok.start_le
  have := hf2.ok.start_nonneg
  obtain ⟨r3, l3, h3, hf3⟩ := untilEOL_ok_any hA fuel (runeAt inp l.pos) l2 hf2.ok (by omega)
  obtain ⟨l4, h4, hf4, _⟩ := emit_ok hf3.ok .ItemSpecialComment
  unfold lexSpecialComment
  simp only [h1, h2, h3, h4, bind, Except.bind, pure, Except.pure]
  exact Progress.to_default (hf1.trans (hf2.trans (hf3.trans hf4))) (le_refl _)

theorem Follows.errorf {inp : List Nat} {l : Lexer} (hI : l.Ok inp) (msg : List Nat) :
    Follows inp l (errorf l msg).2 :=
  ⟨⟨hI.input, hI.start_nonneg, hI.start_le, hI.pos_le⟩, le_refl _, List.prefix_append _ _⟩

/-- The string state over an ASCII input. -/
theorem lexString_progress {inp : List Nat} (hA : Ascii inp) {l : Lexer} (hI : l.Ok inp)
    (fuel : Nat) (hf : (inp.length : Int) + 1 < fuel) (closing : Int) :
    Progress inp (.lexString closing) l (lexString fuel closing l) := by
  obtain ⟨l1, h1, hf1, hpos1, _⟩ := peek1_ok hA hI
  have := hf1.ok.start_le
  have := hf1.ok.start_nonneg
  obtain ⟨c2, l2, h2, hf2, hc2⟩ := untilClosing_ok hA closing fuel 0 l1 hf1.ok (by omega)
  rw [hpos1] at h2
  unfold lexString
  simp only [h1, h2, bind, Except.bind, pure, Except.pure]
  split
  · rename_i hc
    obtain ⟨l3, h3, hf3, _⟩ := next_ok hA hf2.ok
    simp only [h3]
    refine Progress.of_pos_lt (hf1.trans (hf2.trans hf3)) ?_
    have a3 := hf3.pos
    rcases hc2 with h0 | h0
    · rw [h0] at hc; omega
    · omega
  · split
    · obtain ⟨l3, h3, hf3, _⟩ := next_ok hA hf2.ok
      obtain ⟨tk, htk, _⟩ := currentToken_ok hf3.ok
      simp only [h3, htk]
      exact Progress.halt (hf1.trans (hf2.trans (hf3.trans (Follows.errorf hf3.ok _))))
    · obtain ⟨l3, h3, hf3, _⟩ := emit_ok hf2.ok .ItemString
      obtain ⟨l4, h4, hf4, _⟩ := next_ok hA hf3.ok
      obtain ⟨l5, h5, hf5⟩ := emitWhen_ok hf4.ok (runeAt inp l3.pos = 34) .ItemDoubleQuote
      obtain ⟨l6, h6, hf6⟩ := emitWhen_ok hf5.ok (runeAt inp l3.pos = 39) .ItemSingleQuote
      simp only [h3, h4, h5, h6]
      exact Progress.to_default
        (hf1.trans (hf2.trans (hf3.trans (hf4.trans (hf5.trans hf6))))) (le_refl _)

/-- The state `lexInfix` over an ASCII input. -/
theorem lexInfix_progress {inp : List Nat} (hA : Ascii inp) {l : Lexer} (hI : l.Ok inp)
    (fuel : Nat) (hf : (inp.length : Int) + 1 < fuel) :
    Progress inp .lexInfix l (lexInfix fuel l) := by
  obtain ⟨l1, h1, hf1, hpos1, _⟩ := next_ok hA hI
  obtain ⟨l2, h2, hf2, hpos2, _⟩ := peek1_ok hA hf1.ok
  have := hf2.ok.start_le
  have := hf2.ok.start_nonneg
  obtain ⟨l3, h3, hf3⟩ := untilPercent_ok hA fuel l2 hf2.ok (by omega)
  rw [hpos2] at h3
  unfold lexInfix
  simp only [h1, h2, h3, bind, Except.bind, pure, Except.pure]
  split
  · obtain ⟨l4, h4, hf4, _⟩ := next_ok hA hf3.ok
    obtain ⟨tk, htk, _⟩ := currentToken_ok hf4.ok
    simp only [h4, htk]
    exact Progress.halt (hf1.trans (hf2.trans (hf3.trans (hf4.trans (Follows.errorf hf4.ok _)))))
  · rename_i hc
    obtain ⟨l4, h4, hf4, _⟩ := next_ok hA hf3.ok
    obtain ⟨l5, h5, hf5, _⟩ := emit_ok hf4.ok .ItemInfix
    simp only [h4, h5]
    refine Progress.of_pos_lt (hf1.trans (hf2.trans (hf3.trans (hf4.trans hf5)))) ?_
    have hlt := runeAt_lt_of_ne_eof hc
    have a2 := hf2.pos
    have a3 := hf3.pos
    have a4 := hf4.pos
    have a5 := hf5.pos
    have a6 := hI.pos_le
    split at hpos1 <;> omega

/-- Every entry of the keyword table returns to `lexDefault`, or re-enters
`lexIdentifier` for a non-empty lexeme. -/
theorem keywords_states :
    ∀ e ∈ keywords, e.2.2 = .lexDefault ∨ (e.2.2 = .lexIdentifier ∧ e.1 ≠ []) := by
  decide

theorem lexIdentifierChain_ok {inp : List Nat} {l : Lexer} (hI : l.Ok inp) (tk : List Nat) :
    ∀ kws : List (List Nat × ItemType × StateFn),
      (∀ e ∈ kws, e.2.2 = .lexDefault ∨ (e.2.2 = .lexIdentifier ∧ e.1 ≠ [])) →
      ∃ s1 l1, lexIdentifierChain l tk kws = .ok (some s1, l1) ∧ Follows inp l l1 ∧
        l1.pos = l.pos ∧ l1.start = l1.pos ∧
        (s1 = .lexDefault ∨ (s1 = .lexIdentifier ∧ tk ≠ [])) := by
  intro kws
  induction kws with
  | nil =>
    intro _
    unfold lexIdentifierChain
    split
    · obtain ⟨l1, h1, hf1, hp1, hs1⟩ := emit_ok hI .ItemTypes
      simp only [h1, bind, Except.bind, pure, Except.pure]
      exact ⟨_, l1, rfl, hf1, hp1, by rw [hs1, hp1], Or.inl rfl⟩
    · obtain ⟨l1, h1, hf1, hp1, hs1⟩ := emit_ok hI .ItemIdent
      simp only [h1, bind, Except.bind, pure, Except.pure]
      exact ⟨_, l1, rfl, hf1, hp1, by rw [hs1, hp1], Or.inl rfl⟩
  | cons e rest ih =>
    intro hk
    obtain ⟨k, t, s⟩ := e
    unfold lexIdentifierChain
    split
    · rename_i htk
      obtain ⟨l1, h1, hf1, hp1, hs1⟩ := emit_ok hI t
      simp only [h1, bind, Except.bind, pure, Except.pure]
      refine ⟨_, l1, rfl, hf1, hp1, by rw [hs1, hp1], ?_⟩
      rcases hk (k, t, s) (List.mem_cons_self _ _) with h | h
      · exact Or.inl h
      · exact Or.inr ⟨h.1, by rw [htk]; exact h.2⟩
    · exact ih (fun e he => hk e (List.mem_cons_of_mem _ he))

/-- The state `lexIdentifier` over an ASCII input. -/
theorem lexIdentifier_progress {inp : List Nat} (hA : Ascii inp) {l : Lexer} (hI : l.Ok inp)
    (fuel : Nat) (hf : (inp.length : Int) + 1 < fuel) :
    Progress inp .lexIdentifier l (lexIdentifier fuel l) := by
  have := hI.start_le
  have := hI.start_nonneg
  obtain ⟨l1, h1, hf1, hs1⟩ := acceptRun_ok hA (stringAlphaNum ++ str "_.") fuel l hI (by omega)
  obtain ⟨tk, htk, htk0⟩ := currentToken_ok hf1.ok
  obtain ⟨s2, l2, h2, hf2, hp2, hs2, hcase⟩ :=
    lexIdentifierChain_ok hf1.ok tk keywords keywords_states
  unfold lexIdentifier
  simp only [h1, htk, h2, bind, Except.bind]
  rcases hcase with hd | ⟨hi, hne⟩
  · subst hd
    refine Progress.to_default (hf1.trans hf2) ?_
    simp only [rank]
    split <;> omega
  · subst hi
    refine ⟨_, l2, rfl, hf1.trans hf2, ?_⟩
    intro s3 hs3
    cases hs3
    have a1 := hf1.pos
    have a2 := hf2.ok.pos_le
    have a3 := hf1.ok.start_le
    have hlt : l1.start < l1.pos := by
      rcases lt_or_eq_of_le a3 with h | h
      · exact h
      · exact absurd (htk0 h) hne
    simp only [lexMeasure, rank, if_neg (show ¬ l2.start < l2.pos by omega)]
    split <;> omega

/-- The state `lexType` over an ASCII input. -/
theorem lexType_progress {inp : List Nat} (hA : Ascii inp) {l : Lexer} (hI : l.Ok inp)
    (fuel : Nat) (hf : (inp.length : Int) + 1 < fuel) :
    Progress inp .lexType l (lexType fuel l) := by
  obtain ⟨l1, h1, hf1, hpos1, _⟩ := peek1_ok hA hI
  obtain ⟨l2, h2, hf2, hcons2⟩ := skipSpace_ok hA hf1.ok (runeAt inp l.pos)
  obtain ⟨l3, h3, hf3⟩ := typeOr_ok hA hf2.ok (runeAt inp l.pos)
  obtain ⟨l4, h4, hf4, hpos4, _⟩ := peek1_ok hA hf3.ok
  obtain ⟨l5, h5, hf5, _⟩ := peek2_ok hA hf4.ok
  obtain ⟨l6, h6, hf6⟩ := typeList_ok hA hf5.ok (runeAt inp l3.pos) (runeAt inp (l4.pos + 1))
  have := hf6.ok.start_le
  have := hf6.ok.start_nonneg
  obtain ⟨l7, h7, hf7, _⟩ := acceptRun_ok hA stringAlpha fuel l6 hf6.ok (by omega)
  obtain ⟨l8, h8, hf8, hpos8, _⟩ := emit_ok hf7.ok .ItemTypes
  obtain ⟨l9, h9, hf9, hpos9, _⟩ := peek1_ok hA hf8.ok
  have hall : Follows inp l l9 :=
    hf1.trans (hf2.trans (hf3.trans (hf4.trans (hf5.trans (hf6.trans (hf7.trans
      (hf8.trans hf9)))))))
  unfold lexType
  simp only [h1, h2, h3, h4, h5, h6, h7, h8, h9, bind, Except.bind, pure, Except.pure]
  split
  · rename_i hc
    have hlt : l8.pos < inp.length := by
      apply runeAt_lt_of_ne_eof
      rw [hc]; unfold EOF; omega
    obtain ⟨l10, h10, hf10, hpos10, _⟩ := next_ok hA hf9.ok
    obtain ⟨l11, h11, hf11, hpos11, _⟩ := emit_ok hf10.ok .ItemTypesOr
    simp only [h10, h11]
    refine Progress.of_pos_lt (hall.trans (hf10.trans hf11)) ?_
    have := hall.pos
    rw [hpos9, if_pos hlt] at hpos10
    omega
  · split
    · rename_i hc
      refine Progress.of_pos_lt hall ?_
      have a := hall.pos
      have b2 := hf2.pos
      have b := (hf3.trans (hf4.trans (hf5.trans (hf6.trans (hf7.trans (hf8.trans hf9)))))).pos
      by_cases h32 : runeAt inp l.pos = 32
      · have hlt : l.pos < inp.length := by
          apply runeAt_lt_of_ne_eof
          rw [h32]; unfold EOF; omega
        have := hcons2 h32 (by omega)
        omega
      · rcases lt_or_eq_of_le a with h | h
        · exact h
        · exfalso
          apply h32
          rw [h, hpos9]
          exact hc
    · exact Progress.to_default hall (le_refl _)

/-- Every state function, applied to a lexer over an ASCII input that satisfies
the cursor invariant, returns, keeps the invariant and either halts or
decreases the termination measure. -/
theorem step_progress {inp : List Nat} (hA : Ascii inp) (fuel : Nat)
    (hf : (inp.length : Int) + 1 < fuel) (s : StateFn) {l : Lexer} (hI : l.Ok inp) :
    Progress inp s l (step fuel s l) := by
  cases s with
  | lexDefault => exact lexDefault_progress hA hI
  | lexMathOp => exact lexMathOp_progress hA hI fuel hf
  | lexNumber => exact lexNumber_progress hA hI fuel hf
  | lexComment => exact lexComment_progress hA hI fuel hf
  | lexSpecialComment => exact lexSpecialComment_progress hA hI fuel hf
  | lexString closing => exact lexString_progress hA hI fuel hf closing
  | lexInfix => exact lexInfix_progress hA hI fuel hf
  | lexIdentifier => exact lexIdentifier_progress hA hI fuel hf
  | lexType => exact lexType_progress hA hI fuel hf

/-- Over an ASCII input the loop of `Run` terminates from every state that
satisfies the cursor invariant, and only appends to `Items`. -/
theorem runLoop_total {inp : List Nat} (hA : Ascii inp) (fuel : Nat)
    (hf : (inp.length : Int) + 1 < fuel) :
    ∀ (n : Nat) (s : StateFn) (l : Lexer), l.Ok inp → lexMeasure inp s l < n →
      ∃ l1, runLoop fuel n s l = .ok l1 ∧ Follows inp l l1 := by
  intro n
  induction n with
  | zero => intro s l _ h; omega
  | succ n ih =>
    intro s l hI hm
    obtain ⟨s1, l1, h1, hf1, hdec⟩ := step_progress hA fuel hf s hI
    cases s1 with
    | none => exact ⟨l1, runLoop_halt h1, hf1⟩
    | some s2 =>
      obtain ⟨l2, h2, hf2⟩ := ih s2 l1 hf1.ok (by have := hdec s2 rfl; omega)
      exact ⟨l2, by rw [runLoop_step h1]; exact h2, hf1.trans hf2⟩

theorem lexMeasure_le (inp : List Nat) (s : StateFn) (l : Lexer) (h : 0 ≤ l.pos) :
    lexMeasure inp s l ≤ 4 * inp.length + 3 := by
  have := rank_le inp s l
  unfold lexMeasure
  omega

theorem peek2_spec {l : Lexer} {inp : List Nat} {st p : Int} {its : List Item}
    (h : l.At inp st p its) (hp : 0 ≤ p) :
    ∃ l1, peek l 2 = .ok (runeAt inp (p + widthAt inp p), l1) ∧
      l1.At inp st (p + widthAt inp p - widthAt inp (p + widthAt inp p)) its := by
  obtain ⟨l1, hn1, ha1, _⟩ := next_spec h hp
  have hw := widthAt_nonneg inp p
  obtain ⟨l2, hn2, ha2, hw2⟩ := next_spec ha1 (by omega)
  refine ⟨backup (backup l2), ?_, ?_⟩
  · simp only [peek, peekNext, peekBackup, hn1, hn2, bind, Except.bind, pure, Except.pure]
  · obtain ⟨a1, a2, a3, a4⟩ := ha2
    refine ⟨a1, a2, ?_, a4⟩
    simp only [backup, a3, hw2]
    ring

/-- The loop of `lexInfix` reads the bytes `b1`, none of which is `%`, and
stops at the `%` or at the end of the input that follows them. -/
theorem untilPercent_run (inp : List Nat) (st : Int) (its : List Item) (rest : List Nat)
    (hrest : rest = [] ∨ ∃ t, rest = 37 :: t) :
    ∀ (b1 : List Nat) (fuel : Nat) (p : Int) (l : Lexer), 0 ≤ p → l.At inp st p its →
      inp.drop p.toNat = b1 ++ rest → Ascii b1 → 37 ∉ b1 → b1.length < fuel →
      ∃ l1, untilPercent fuel (runeAt inp p) l = .ok (runeAt inp (p + b1.length), l1) ∧
        l1.At inp st (p + b1.length) its := by
  intro b1
  induction b1 with
  | nil =>
    intro fuel p l hp hat hd _ _ hf
    obtain ⟨fuel, rfl⟩ : ∃ k, fuel = k + 1 := ⟨fuel - 1, by simp at hf; omega⟩
    have hr : ¬ (runeAt inp p ≠ 37 ∧ runeAt inp p ≠ EOF) := by
      rcases hrest with h | ⟨t, h⟩
      · subst h
        have : (inp.length : Int) ≤ p := by
          have := List.drop_eq_nil_iff.mp hd
          omega
        rw [runeAt_eof inp p this]
        exact fun h => h.2 rfl
      · subst h
        have := runeAt_of_drop hp hd (by omega)
        rw [this]
        exact fun h => h.1 rfl
    refine ⟨l, ?_, by simpa using hat⟩
    rw [untilPercent, if_neg hr]
    simp [pure, Except.pure]
  | cons a b1 ih =>
    intro fuel p l hp hat hd hA hno hf
    obtain ⟨fuel, rfl⟩ : ∃ k, fuel = k + 1 := ⟨fuel - 1, by simp at hf; omega⟩
    have hd0 : inp.drop p.toNat = a :: (b1 ++ rest) := hd
    have ha : a < 128 := hA a (List.mem_cons_self _ _)
    have ha37 : a ≠ 37 := fun h => hno (by rw [h]; exact List.mem_cons_self _ _)
    have hr := runeAt_of_drop hp hd0 ha
    have hw := widthAt_of_drop hp hd0 ha
    have hd1 := drop_toNat_succ hp hd0
    obtain ⟨l1, hn, ha1, _⟩ := next_spec hat hp
    rw [hw] at ha1
    obtain ⟨l2, hpk, ha2⟩ := peek1_spec ha1 (by omega)
    obtain ⟨l3, h3, ha3⟩ := ih fuel (p + 1) l2 (by omega) ha2 hd1
      (fun b hb => hA b (List.mem_cons_of_mem _ hb))
      (fun h => hno (List.mem_cons_of_mem _ h)) (by simp at hf; omega)
    have hcond : runeAt inp p ≠ 37 ∧ runeAt inp p ≠ EOF := by
      rw [hr]; unfold EOF; constructor <;> omega
    have he : p + 1 + (b1.length : Int) = p + ((a :: b1).length : Int) := by
      simp only [List.length_cons]; push_cast; ring
    rw [he] at h3 ha3
    refine ⟨l3, ?_, ha3⟩
    rw [untilPercent, if_pos hcond]
    simp only [hn, hpk, bind, Except.bind]
    exact h3

/-- On `%` followed by a byte other than `%`, `lexDefault` returns the state
`lexInfix` without consuming or emitting anything. -/
theorem lexDefault_percent {l : Lexer} {inp : List Nat} {a : Nat} {t : List Nat} {its : List Item}
    (hat : l.At inp 0 0 its) (hd : inp = 37 :: a :: t) (ha : a < 128) (ha37 : a ≠ 37) :
    ∃ l1, lexDefault l = .ok (some .lexInfix, l1) ∧ l1.At inp 0 0 its := by
  subst hd
  have hd0 : (37 :: a :: t).drop (0 : Int).toNat = 37 :: a :: t := rfl
  have hd1 : (37 :: a :: t).drop ((0 : Int) + 1).toNat = a :: t := rfl
  have hr0 := runeAt_of_drop (le_refl 0) hd0 (by omega)
  have hw0 := widthAt_of_drop (le_refl 0) hd0 (by omega)
  have hr1 := runeAt_of_drop (by omega) hd1 ha
  have hw1 := widthAt_of_drop (by omega) hd1 ha
  obtain ⟨l1, hpk, ha1⟩ := peek1_spec hat (le_refl 0)
  obtain ⟨l2, hpk2, ha2⟩ := peek2_spec ha1 (le_refl 0)
  rw [hw0, hw1] at ha2
  rw [hw0, hr1] at hpk2
  rw [hr0] at hpk
  refine ⟨l2, ?_, by simpa using ha2⟩
  have hne : (a : Int) ≠ 37 := by omega
  simp only [lexDefault, lexDefaultOps, rangeFallThrough, lexDefaultOpsBranches, hpk, hpk2, bind,
    Except.bind, pure, Except.pure, EOF]
  simp [hne]

/-- The state `lexInfix` on `%` followed by the bytes `b1` (none is `%`) and a
closing `%`: the infix operator is emitted up to and including that `%`. -/
theorem lexInfix_closed {l : Lexer} (b1 b2 : List Nat) (fuel : Nat) (hA : Ascii b1)
    (hno : 37 ∉ b1) (hf : b1.length < fuel)
    (hat : l.At (37 :: (b1 ++ 37 :: b2)) 0 0 []) :
    ∃ l1, lexInfix fuel l = .ok (some .lexDefault, l1) ∧
      l1.At (37 :: (b1 ++ 37 :: b2)) ((b1.length : Int) + 2) ((b1.length : Int) + 2)
        [⟨.ItemInfix, 37 :: (b1 ++ [37])⟩] := by
  have hd0 : (37 :: (b1 ++ 37 :: b2)).drop (0 : Int).toNat = 37 :: (b1 ++ 37 :: b2) := rfl
  have hd1 : (37 :: (b1 ++ 37 :: b2)).drop ((0 : Int) + 1).toNat = b1 ++ 37 :: b2 := rfl
  have hw0 := widthAt_of_drop (le_refl 0) hd0 (by omega)
  obtain ⟨l1, hn1, ha1, _⟩ := next_spec hat (le_refl 0)
  rw [hw0] at ha1
  obtain ⟨l2, hpk, ha2⟩ := peek1_spec ha1 (by omega)
  obtain ⟨l3, h3, ha3⟩ := untilPercent_run (37 :: (b1 ++ 37 :: b2)) 0 [] (37 :: b2)
    (Or.inr ⟨b2, rfl⟩) b1 fuel (0 + 1) l2 (by omega) ha2 hd1 hA hno hf
  have hd2 : (37 :: (b1 ++ 37 :: b2)).drop ((0 : Int) + 1 + b1.length).toNat = 37 :: b2 := by
    have : ((0 : Int) + 1 + b1.length).toNat = b1.length + 1 := by omega
    rw [this]
    simp
  have hp2 : (0 : Int) ≤ 0 + 1 + b1.length := by omega
  have hr2 := runeAt_of_drop hp2 hd2 (by omega)
  have hw2 := widthAt_of_drop hp2 hd2 (by omega)
  have hl2 := lt_length_of_drop hp2 hd2
  obtain ⟨l4, hn4, ha4, _⟩ := next_spec ha3 hp2
  rw [hw2] at ha4
  obtain ⟨l5, he5, ha5⟩ := emit_spec ha4 (le_refl 0) (by omega) (by omega) .ItemInfix
  rw [if_neg (by omega)] at ha5
  rw [hr2] at h3
  have hsl : ((37 :: (b1 ++ 37 :: b2)).drop (0 : Int).toNat).take
      ((0 : Int) + 1 + b1.length + 1 - 0).toNat = 37 :: (b1 ++ [37]) := by
    have : ((0 : Int) + 1 + b1.length + 1 - 0).toNat = b1.length + 1 + 1 := by omega
    rw [this]
    simp [List.take_append_eq_append_take]
  rw [hsl] at ha5
  have hk : (0 : Int) + 1 + b1.length + 1 = (b1.length : Int) + 2 := by ring
  rw [hk] at ha5
  refine ⟨l5, ?_, by simpa using ha5⟩
  simp only [lexInfix, hn1, hpk, h3, bind, Except.bind, pure, Except.pure]
  rw [if_neg (by unfold EOF; omega)]
  simp only [hn4, he5]

/-- The state `lexInfix` on `%` followed by bytes none of which is `%`, up to
the end of the input: the error is recorded and the machine halts. -/
theorem lexInfix_open {l : Lexer} (b1 : List Nat) (fuel : Nat) (hA : Ascii b1)
    (hno : 37 ∉ b1) (hf : b1.length < fuel) (hat : l.At (37 :: b1) 0 0 []) :
    ∃ l1, lexInfix fuel l = .ok (none, l1) ∧
      l1.Items = [⟨.ItemError, str "expecting closing %, got " ++ 37 :: b1⟩] := by
  have hd0 : (37 :: b1).drop (0 : Int).toNat = 37 :: b1 := rfl
  have hd1 : (37 :: b1).drop ((0 : Int) + 1).toNat = b1 ++ [] := by simp
  have hw0 := widthAt_of_drop (le_refl 0) hd0 (by omega)
  obtain ⟨l1, hn1, ha1, _⟩ := next_spec hat (le_refl 0)
  rw [hw0] at ha1
  obtain ⟨l2, hpk, ha2⟩ := peek1_spec ha1 (by omega)
  obtain ⟨l3, h3, ha3⟩ := untilPercent_run (37 :: b1) 0 [] [] (Or.inl rfl) b1 fuel (0 + 1) l2
    (by omega) ha2 hd1 hA hno hf
  have hlen : (((37 :: b1).length : Nat) : Int) ≤ 0 + 1 + b1.length := by
    simp only [List.length_cons]; push_cast; omega
  rw [runeAt_eof _ _ hlen] at h3
  obtain ⟨l4, hn4, ha4, _⟩ := next_spec ha3 (by omega)
  rw [widthAt_eof _ _ hlen, add_zero] at ha4
  rw [runeAt_eof _ _ hlen] at hn4
  have htk := currentToken_spec ha4 (le_refl 0) (by omega)
    (by simp only [List.length_cons]; push_cast; omega)
  have hsl : ((37 :: b1).drop (0 : Int).toNat).take ((0 : Int) + 1 + b1.length - 0).toNat =
      37 :: b1 := by
    have : ((0 : Int) + 1 + b1.length - 0).toNat = (37 :: b1).length := by
      simp only [List.length_cons]; omega
    rw [this]
    simp
  rw [hsl] at htk
  have key : lexInfix fuel l =
      .ok (errorf l4 (str "expecting closing %, got " ++ 37 :: b1)) := by
    simp only [lexInfix, hn1, hpk, h3, bind, Except.bind, pure, Except.pure]
    rw [if_pos True.intro]
    simp only [hn4, htk]
  refine ⟨_, key, ?_⟩
  simp only [errorf, ha4.items]
  rfl

theorem Ascii.cons {a : Nat} {t : List Nat} (ha : a < 128) (ht : Ascii t) : Ascii (a :: t) := by
  intro b hb
  rcases List.mem_cons.mp hb with h | h
  · rw [h]; exact ha
  · exact ht b h

theorem Ascii.append {s t : List Nat} (hs : Ascii s) (ht : Ascii t) : Ascii (s ++ t) := by
  intro b hb
  rcases List.mem_append.mp hb with h | h
  · exact hs b h
  · exact ht b h

theorem Lexer.new_Ok (inp : List Nat) : (Lexer.new inp).Ok inp :=
  ⟨rfl, le_refl _, le_refl _, by simp [Lexer.new]⟩

theorem Lexer.At.to_Ok {l : Lexer} {inp : List Nat} {st p : Int} {its : List Item}
    (h : l.At inp st p its) (h0 : 0 ≤ st) (h1 : st ≤ p) (h2 : p ≤ inp.length) : l.Ok inp :=
  ⟨h.input, by rw [h.start]; exact h0, by rw [h.start, h.pos]; exact h1, by rw [h.pos]; exact h2⟩

/-- On `%` followed by ASCII bytes `b1` (non-empty, without `%`): when a
`%` and any ASCII text follow, the run returns and its first item is the
`ItemInfix` token from the first `%` up to and including the second; when the
input ends after `b1`, the items are exactly one `ItemError`. -/
theorem infix_run (b1 b2 : List Nat) (fuel : Nat) (hA1 : Ascii b1) (hA2 : Ascii b2)
    (hne : b1 ≠ []) (hno : 37 ∉ b1) (hf : 4 * (b1.length + b2.length) + 16 ≤ fuel) :
    (∃ rest, Run fuel (37 :: (b1 ++ 37 :: b2)) =
        .ok (⟨.ItemInfix, 37 :: (b1 ++ [37])⟩ :: rest)) ∧
    Run fuel (37 :: b1) = .ok [⟨.ItemError, str "expecting closing %, got " ++ 37 :: b1⟩] := by
  obtain ⟨a, t, rfl⟩ : ∃ a t, b1 = a :: t := by
    cases b1 with
    | nil => exact absurd rfl hne
    | cons a t => exact ⟨a, t, rfl⟩
  have ha : a < 128 := hA1 a (List.mem_cons_self _ _)
  have ha37 : a ≠ 37 := fun h => hno (by rw [h]; exact List.mem_cons_self _ _)
  obtain ⟨k, rfl⟩ : ∃ k, fuel = k + 2 := ⟨fuel - 2, by omega⟩
  constructor
  · obtain ⟨l1, h1, a1⟩ := lexDefault_percent (Lexer.new_At (37 :: (a :: t ++ 37 :: b2))) rfl ha ha37
    obtain ⟨l2, h2, a2⟩ := lexInfix_closed (a :: t) b2 (k + 2) hA1 hno (by omega) a1
    have hlen2 : ((a :: t).length : Int) + 2 ≤ ((37 :: (a :: t ++ 37 :: b2)).length : Nat) := by
      simp only [List.length_cons, List.length_append]
      push_cast
      omega
    have hI2 : l2.Ok (37 :: (a :: t ++ 37 :: b2)) := a2.to_Ok (by omega) (le_refl _) hlen2
    have hAll : Ascii (37 :: (a :: t ++ 37 :: b2)) :=
      Ascii.cons (by omega) (Ascii.append hA1 (Ascii.cons (by omega) hA2))
    obtain ⟨l3, h3, hf3⟩ := runLoop_total hAll (k + 2)
      (by simp only [List.length_cons, List.length_append] at hf ⊢; push_cast; omega)
      k .lexDefault l2 hI2 (by
        have := lexMeasure_le (37 :: (a :: t ++ 37 :: b2)) .lexDefault l2
          (le_trans hI2.start_nonneg hI2.start_le)
        simp only [List.length_cons, List.length_append] at hf this
        omega)
    have s1 : step (k + 2) .lexDefault (Lexer.new (37 :: (a :: t ++ 37 :: b2))) =
        .ok (some .lexInfix, l1) := h1
    have s2 : step (k + 2) .lexInfix l1 = .ok (some .lexDefault, l2) := h2
    have e1 : runLoop (k + 2) (k + 1 + 1) .lexDefault (Lexer.new (37 :: (a :: t ++ 37 :: b2))) =
        .ok l3 := by
      rw [runLoop_step s1, runLoop_step s2, h3]
    obtain ⟨rest, hrest⟩ := hf3.items
    rw [a2.items] at hrest
    refine ⟨rest, ?_⟩
    show (do
      let l ← runLoop (k + 2) (k + 1 + 1) .lexDefault (Lexer.new (37 :: (a :: t ++ 37 :: b2)))
      pure l.Items) = _
    rw [e1]
    simp only [bind, Except.bind, pure, Except.pure, ← hrest]
    rfl
  · obtain ⟨l1, h1, a1⟩ := lexDefault_percent (Lexer.new_At (37 :: a :: t)) rfl ha ha37
    obtain ⟨l2, h2, i2⟩ := lexInfix_open (a :: t) (k + 2) hA1 hno (by
      simp only [List.length_cons] at hf ⊢; omega) a1
    have s1 : step (k + 2) .lexDefault (Lexer.new (37 :: a :: t)) =
        .ok (some .lexInfix, l1) := h1
    have s2 : step (k + 2) .lexInfix l1 = .ok (none, l2) := h2
    have e1 : runLoop (k + 2) (k + 1 + 1) .lexDefault (Lexer.new (37 :: a :: t)) = .ok l2 := by
      rw [runLoop_step s1, runLoop_halt s2]
    show (do
      let l ← runLoop (k + 2) (k + 1 + 1) .lexDefault (Lexer.new (37 :: a :: t))
      pure l.Items) = _
    rw [e1]
    simp only [bind, Except.bind, pure, Except.pure, i2]

theorem split_at_percent : ∀ b : List Nat, 37 ∈ b → ∃ b2, b = beforePercent b ++ 37 :: b2 := by
  intro b
  induction b with
  | nil => intro h; exact absurd h (List.not_mem_nil _)
  | cons a t ih =>
    intro h
    by_cases ha : a = 37
    · exact ⟨t, by simp [beforePercent, ha]⟩
    · rcases List.mem_cons.mp h with h1 | h1
      · exact absurd h1.symm ha
      · obtain ⟨b2, hb2⟩ := ih h1
        refine ⟨b2, ?_⟩
        simp only [beforePercent, if_neg ha, List.cons_append]
        rw [← hb2]

theorem not_mem_beforePercent : ∀ b : List Nat, 37 ∉ beforePercent b := by
  intro b
  induction b with
  | nil => simp [beforePercent]
  | cons a t ih =>
    by_cases ha : a = 37
    · simp [beforePercent, ha]
    · simp only [beforePercent, if_neg ha, List.mem_cons, not_or]
      exact ⟨fun h => ha h.symm, ih⟩

theorem beforePercent_ne_nil (b : List Nat) (hne : b ≠ []) (hhd : b.head? ≠ some 37) :
    beforePercent b ≠ [] := by
  cases b with
  | nil => exact absurd rfl hne
  | cons a t =>
    have ha : a ≠ 37 := fun h => hhd (by simp [h])
    simp [beforePercent, ha]

theorem Ascii.of_append {s t : List Nat} (h : Ascii (s ++ t)) : Ascii s ∧ Ascii t :=
  ⟨fun b hb => h b (List.mem_append_left _ hb), fun b hb => h b (List.mem_append_right _ hb)⟩

/-- Over an ASCII input `Run` returns: no slice is out of range and no loop
runs for ever. -/
theorem Run_total_of_ascii (inp : List Nat) (hA : Ascii inp) (fuel : Nat)
    (hf : 4 * inp.length + 4 ≤ fuel) : ∃ items, Run fuel inp = .ok items := by
  obtain ⟨l1, h1, _⟩ := runLoop_total hA fuel (by omega) fuel .lexDefault (Lexer.new inp)
    (Lexer.new_Ok inp) (by
      have := lexMeasure_le inp .lexDefault (Lexer.new inp) (le_refl 0)
      omega)
  refine ⟨l1.Items, ?_⟩
  unfold Run
  rw [h1]
  rfl

theorem Lexer.Seg.toAt {l : Lexer} {done cur rest : List Nat} {its : List Item}
    (h : l.Seg done cur rest its) :
    l.At (done ++ (cur ++ rest)) done.length ((done.length : Int) + cur.length) its :=
  ⟨h.input, h.start, h.pos, h.items⟩

theorem Lexer.At.toSeg {l : Lexer} {done cur rest : List Nat} {its : List Item} {p : Int}
    (h : l.At (done ++ (cur ++ rest)) done.length p its)
    (hp : p = (done.length : Int) + cur.length) : l.Seg done cur rest its :=
  ⟨h.input, h.start, by rw [h.pos, hp], h.items⟩

theorem Lexer.new_Seg (inp : List Nat) : (Lexer.new inp).Seg [] [] inp [] :=
  ⟨rfl, rfl, rfl, rfl⟩

theorem seg_drop (done cur rest : List Nat) :
    (done ++ (cur ++ rest)).drop ((done.length : Int) + cur.length).toNat = rest := by
  have h : ((done.length : Int) + cur.length).toNat = (done ++ cur).length := by
    rw [List.length_append]; omega
  rw [h, ← List.append_assoc, List.drop_left]

theorem seg_take (done cur rest : List Nat) :
    ((done ++ (cur ++ rest)).drop ((done.length : Int)).toNat).take
      ((done.length : Int) + cur.length - done.length).toNat = cur := by
  have h1 : ((done.length : Int)).toNat = done.length := by omega
  have h2 : ((done.length : Int) + cur.length - done.length).toNat = cur.length := by omega
  rw [h1, h2, List.drop_left, List.take_left]

theorem seg_pos_nonneg (done cur : List Nat) : (0 : Int) ≤ (done.length : Int) + cur.length := by
  omega

theorem seg_runeAt_cons (done cur : List Nat) (b : Nat) (t : List Nat) (hb : b < 128) :
    runeAt (done ++ (cur ++ b :: t)) ((done.length : Int) + cur.length) = b :=
  runeAt_of_drop (seg_pos_nonneg done cur) (seg_drop done cur (b :: t)) hb

theorem seg_widthAt_cons (done cur : List Nat) (b : Nat) (t : List Nat) (hb : b < 128) :
    widthAt (done ++ (cur ++ b :: t)) ((done.length : Int) + cur.length) = 1 :=
  widthAt_of_drop (seg_pos_nonneg done cur) (seg_drop done cur (b :: t)) hb

theorem seg_length_nil (done cur : List Nat) :
    ((done ++ (cur ++ ([] : List Nat))).length : Int) = (done.length : Int) + cur.length := by
  simp

theorem seg_runeAt_nil (done cur : List Nat) :
    runeAt (done ++ (cur ++ [])) ((done.length : Int) + cur.length) = EOF :=
  runeAt_eof _ _ (by rw [seg_length_nil])

theorem seg_widthAt_nil (done cur : List Nat) :
    widthAt (done ++ (cur ++ [])) ((done.length : Int) + cur.length) = 0 :=
  widthAt_eof _ _ (by rw [seg_length_nil])

/-- Reading one ASCII byte moves it from the rest to the pending text. -/
theorem next_seg {l : Lexer} {done cur t : List Nat} {b : Nat} {its : List Item}
    (h : l.Seg done cur (b :: t) its) (hb : b < 128) :
    ∃ l1, next l = .ok ((b : Int), l1) ∧ l1.Seg done (cur ++ [b]) t its ∧ l1.width = 1 := by
  obtain ⟨l1, hn, ha, hw⟩ := next_spec h.toAt (seg_pos_nonneg done cur)
  rw [seg_runeAt_cons done cur b t hb] at hn
  rw [seg_widthAt_cons done cur b t hb] at ha hw
  refine ⟨l1, hn, ⟨?_, ha.start, ?_, ha.items⟩, hw⟩
  · rw [ha.input]; simp
  · rw [ha.pos]; simp; omega

/-- At the end of the input `next` returns `EOF` and moves nothing. -/
theorem next_seg_eof {l : Lexer} {done cur : List Nat} {its : List Item}
    (h : l.Seg done cur [] its) :
    ∃ l1, next l = .ok (EOF, l1) ∧ l1.Seg done cur [] its ∧ l1.width = 0 := by
  obtain ⟨l1, hn, ha, hw⟩ := next_spec h.toAt (seg_pos_nonneg done cur)
  rw [seg_runeAt_nil done cur] at hn
  rw [seg_widthAt_nil done cur] at ha hw
  exact ⟨l1, hn, ⟨ha.input, ha.start, by rw [ha.pos]; simp, ha.items⟩, hw⟩

theorem peek1_seg {l : Lexer} {done cur t : List Nat} {b : Nat} {its : List Item}
    (h : l.Seg done cur (b :: t) its) (hb : b < 128) :
    ∃ l1, peek l 1 = .ok ((b : Int), l1) ∧ l1.Seg done cur (b :: t) its := by
  obtain ⟨l1, hn, ha⟩ := peek1_spec h.toAt (seg_pos_nonneg done cur)
  rw [seg_runeAt_cons done cur b t hb] at hn
  exact ⟨l1, hn, ha.toSeg rfl⟩

theorem peek1_seg_eof {l : Lexer} {done cur : List Nat} {its : List Item}
    (h : l.Seg done cur [] its) :
    ∃ l1, peek l 1 = .ok (EOF, l1) ∧ l1.Seg done cur [] its := by
  obtain ⟨l1, hn, ha⟩ := peek1_spec h.toAt (seg_pos_nonneg done cur)
  rw [seg_runeAt_nil done cur] at hn
  exact ⟨l1, hn, ha.toSeg rfl⟩

/-- With two ASCII bytes left, `peek(2)` returns the second and restores the
position. -/
theorem peek2_seg {l : Lexer} {done cur t : List Nat} {b c : Nat} {its : List Item}
    (h : l.Seg done cur (b :: c :: t) its) (hb : b < 128) (hc : c < 128) :
    ∃ l1, peek l 2 = .ok ((c : Int), l1) ∧ l1.Seg done cur (b :: c :: t) its := by
  obtain ⟨l1, hn, ha⟩ := peek2_spec h.toAt (seg_pos_nonneg done cur)
  have hw := seg_widthAt_cons done cur b (c :: t) hb
  have e : done ++ (cur ++ b :: c :: t) = done ++ ((cur ++ [b]) ++ c :: t) := by simp
  have hp : (done.length : Int) + cur.length + 1 = (done.length : Int) + (cur ++ [b]).length := by
    simp; omega
  have hr : runeAt (done ++ (cur ++ b :: c :: t)) ((done.length : Int) + cur.length + 1) = c := by
    rw [e, hp]; exact seg_runeAt_cons done (cur ++ [b]) c t hc
  have hw2 : widthAt (done ++ (cur ++ b :: c :: t)) ((done.length : Int) + cur.length + 1) = 1 := by
    rw [e, hp]; exact seg_widthAt_cons done (cur ++ [b]) c t hc
  rw [hw, hr] at hn
  rw [hw, hw2] at ha
  exact ⟨l1, hn, ha.toSeg (by omega)⟩

/-- With one ASCII byte left, `peek(2)` returns `EOF` and leaves the position
one byte further: the byte has joined the pending text. -/
theorem peek2_seg_last {l : Lexer} {done cur : List Nat} {b : Nat} {its : List Item}
    (h : l.Seg done cur [b] its) (hb : b < 128) :
    ∃ l1, peek l 2 = .ok (EOF, l1) ∧ l1.Seg done (cur ++ [b]) [] its := by
  obtain ⟨l1, hn, ha⟩ := peek2_spec h.toAt (seg_pos_nonneg done cur)
  have hw := seg_widthAt_cons done cur b [] hb
  have e : done ++ (cur ++ [b]) = done ++ ((cur ++ [b]) ++ []) := by simp
  have hp : (done.length : Int) + cur.length + 1 = (done.length : Int) + (cur ++ [b]).length := by
    simp; omega
  have hr : runeAt (done ++ (cur ++ [b])) ((done.length : Int) + cur.length + 1) = EOF := by
    rw [e, hp]; exact seg_runeAt_nil done (cur ++ [b])
  have hw2 : widthAt (done ++ (cur ++ [b])) ((done.length : Int) + cur.length + 1) = 0 := by
    rw [e, hp]; exact seg_widthAt_nil done (cur ++ [b])
  rw [hw, hr] at hn
  rw [hw, hw2] at ha
  refine ⟨l1, hn, ⟨?_, ha.start, ?_, ha.items⟩⟩
  · rw [ha.input]; simp
  · rw [ha.pos]; simp; omega

theorem emit_seg {l : Lexer} {done cur rest : List Nat} {its : List Item}
    (h : l.Seg done cur rest its) (t : ItemType) :
    ∃ l1, emit l t = .ok l1 ∧
      l1.Seg (done ++ cur) [] rest (if cur = [] then its else its ++ [⟨t, cur⟩]) := by
  obtain ⟨l1, he, ha⟩ := emit_spec h.toAt (by omega) (by omega)
    (by simp only [List.length_append]; push_cast; omega) t
  rw [seg_take] at ha
  refine ⟨l1, he, ⟨?_, ?_, ?_, ?_⟩⟩
  · rw [ha.input]; simp
  · rw [ha.start]; simp
  · rw [ha.pos]; simp
  · rw [ha.items]
    by_cases hc : cur = []
    · subst hc; simp
    · have : ¬ ((done.length : Int) = (done.length : Int) + cur.length) := by
        have := List.length_pos.mpr hc
        omega
      rw [if_neg this, if_neg hc]

theorem currentToken_seg {l : Lexer} {done cur rest : List Nat} {its : List Item}
    (h : l.Seg done cur rest its) : currentToken l = .ok cur := by
  have := currentToken_spec h.toAt (by omega) (by omega)
    (by simp only [List.length_append]; push_cast; omega)
  rw [seg_take] at this
  exact this

theorem ignore_seg {l : Lexer} {done cur rest : List Nat} {its : List Item}
    (h : l.Seg done cur rest its) : (ignore l).Seg (done ++ cur) [] rest its := by
  refine ⟨?_, ?_, ?_, h.items⟩
  · show l.Input = _; rw [h.input]; simp
  · show l.pos = _; rw [h.pos]; simp
  · show l.pos = _; rw [h.pos]; simp

theorem backup_seg {l : Lexer} {done cur rest : List Nat} {its : List Item} {b : Nat}
    (h : l.Seg done (cur ++ [b]) rest its) (hw : l.width = 1) :
    (backup l).Seg done cur (b :: rest) its := by
  refine ⟨?_, h.start, ?_, h.items⟩
  · show l.Input = _; rw [h.input]; simp
  · show l.pos - l.width = _; rw [h.pos, hw]; simp; omega

theorem backup_seg_eof {l : Lexer} {done cur rest : List Nat} {its : List Item}
    (h : l.Seg done cur rest its) (hw : l.width = 0) :
    (backup l).Seg done cur rest its := by
  refine ⟨h.input, h.start, ?_, h.items⟩
  show l.pos - l.width = _; rw [h.pos, hw]; simp

/-- The method `accept` on an ASCII byte. -/
theorem accept_seg {l : Lexer} {done cur t : List Nat} {b : Nat} {its : List Item}
    (h : l.Seg done cur (b :: t) its) (hb : b < 128) (rs : List Nat) :
    ∃ l1, accept l rs = .ok (ContainsRune rs b, l1) ∧
      (ContainsRune rs b = true → l1.Seg done (cur ++ [b]) t its) ∧
      (ContainsRune rs b = false → l1.Seg done cur (b :: t) its) := by
  obtain ⟨l1, hn, hs, hw⟩ := next_seg h hb
  cases hc : ContainsRune rs (b : Int)
  · refine ⟨backup l1, ?_, fun h => Bool.noConfusion h, fun _ => backup_seg hs hw⟩
    simp only [accept, hn, bind, Except.bind, hc, pure, Except.pure]
    rfl
  · refine ⟨l1, ?_, fun _ => hs, fun h => Bool.noConfusion h⟩
    simp only [accept, hn, bind, Except.bind, hc, pure, Except.pure]
    rfl

theorem accept_seg_eof {l : Lexer} {done cur : List Nat} {its : List Item}
    (h : l.Seg done cur [] its) (rs : List Nat) :
    ∃ l1, accept l rs = .ok (false, l1) ∧ l1.Seg done cur [] its := by
  obtain ⟨l1, hn, hs, hw⟩ := next_seg_eof h
  refine ⟨backup l1, ?_, backup_seg_eof hs hw⟩
  simp only [accept, hn, bind, Except.bind, containsRune_eof, pure, Except.pure]
  rfl

/-- The loop `acceptRun` reads the bytes `w`, all of them valid, and stops at
what follows. -/
theorem acceptRun_seg (valid : List Nat) {done rest : List Nat} {its : List Item}
    (hstop : Stops valid rest) :
    ∀ (w : List Nat) (fuel : Nat) (cur : List Nat) (l : Lexer), l.Seg done cur (w ++ rest) its →
      (∀ b ∈ w, b < 128 ∧ ContainsRune valid b = true) → w.length < fuel →
      ∃ l1, acceptRun fuel l valid = .ok l1 ∧ l1.Seg done (cur ++ w) rest its := by
  intro w
  induction w with
  | nil =>
    intro fuel cur l h _ hf
    obtain ⟨fuel, rfl⟩ : ∃ k, fuel = k + 1 := ⟨fuel - 1, by simp at hf; omega⟩
    rcases hstop with h0 | ⟨b, t, h0, hb, hc⟩
    · subst h0
      obtain ⟨l1, hn, hs, hw⟩ := next_seg_eof h
      refine ⟨backup l1, ?_, by simpa using backup_seg_eof hs hw⟩
      simp only [acceptRun, hn, bind, Except.bind, containsRune_eof, pure, Except.pure]
      rfl
    · subst h0
      obtain ⟨l1, hn, hs, hw⟩ := next_seg h hb
      refine ⟨backup l1, ?_, by simpa using backup_seg hs hw⟩
      simp only [acceptRun, hn, bind, Except.bind, hc, pure, Except.pure]
      rfl
  | cons a w ih =>
    intro fuel cur l h hall hf
    obtain ⟨fuel, rfl⟩ : ∃ k, fuel = k + 1 := ⟨fuel - 1, by simp at hf; omega⟩
    have ha := hall a (List.mem_cons_self a w)
    obtain ⟨l1, hn, hs, _⟩ := next_seg h ha.1
    obtain ⟨l2, h2, hs2⟩ := ih fuel (cur ++ [a]) l1 hs
      (fun b hb => hall b (List.mem_cons_of_mem a hb)) (by simp at hf; omega)
    refine ⟨l2, ?_, by simpa using hs2⟩
    simp only [acceptRun, hn, bind, Except.bind, ha.2]
    exact h2

theorem lexDefault_falls {l l1 l2 : Lexer} {r1 r2 : Int} (h0 : 0 ≤ r1) (hn : noBranch r1 r2)
    (h1 : peek l 1 = .ok (r1, l1)) (h2 : peek l1 2 = .ok (r2, l2)) :
    lexDefault l = lexDefaultTail l2 := by
  have hE : ¬ r1 = -1 := by omega
  obtain ⟨hm, a1, a2, a3, a4, a5, a6, a7⟩ := hn
  simp only [List.mem_cons, List.mem_singleton, not_or, List.not_mem_nil, not_false_eq_true,
    and_true] at hm
  obtain ⟨g1, g2, g3, g4, g5, g6, g7, g8, g9, g10, g11, g12, g13, g14, g15, g16, g17, g18, g19,
    g20, g21, g22⟩ := hm
  simp only [lexDefault, h1, bind, Except.bind, EOF, lexDefaultOps, h2, rangeFallThrough,
    pure, Except.pure, lexDefaultOpsBranches, lexDefaultNamespace, peekThird,
    lexDefaultPunct, lexDefaultPunctBranches, hE, a1, a2, a3, a4, a5, a6, a7,
    g1, g2, g3, g4, g5, g6, g7, g8, g9, g10, g11, g12, g13, g14, g15, g16, g17, g18, g19, g20,
    g21, g22, if_false, false_and, or_self, Bool.false_eq_true]

theorem Lexer.Ok.asSeg {l : Lexer} {inp : List Nat} (h : l.Ok inp) :
    l.Seg (inp.take l.start.toNat) ((inp.drop l.start.toNat).take (l.pos - l.start).toNat)
      (inp.drop l.pos.toNat) l.Items := by
  have h0 := h.start_nonneg
  have h1 := h.start_le
  have h2 := h.pos_le
  have e : l.pos.toNat = l.start.toNat + (l.pos - l.start).toNat := by omega
  refine ⟨?_, ?_, ?_, rfl⟩
  · rw [h.input, e, ← List.drop_drop, List.take_append_drop, List.take_append_drop]
  · rw [List.length_take]
    have : l.start.toNat ≤ inp.length := by omega
    omega
  · rw [List.length_take, List.length_take, List.length_drop]
    omega

/-- The tail of `lexDefault` on an unmatched ASCII byte: the byte is read and
the state is `lexDefault` again. -/
theorem lexDefaultTail_unmatched {l : Lexer} {done cur t : List Nat} {b : Nat} {its : List Item}
    (h : l.Seg done cur (b :: t) its) (hb : b < 128)
    (h1 : ContainsRune stringNumber b = false) (h2 : ContainsRune stringMathOp b = false)
    (h3 : ContainsRune stringAlphaNum b = false) :
    ∃ l1, lexDefaultTail l = .ok (some .lexDefault, l1) ∧ l1.Seg done (cur ++ [b]) t its := by
  obtain ⟨l1, e1, _, s1⟩ := accept_seg h hb stringNumber
  have s1 := s1 h1
  obtain ⟨l2, e2, _, s2⟩ := accept_seg s1 hb stringMathOp
  have s2 := s2 h2
  obtain ⟨l3, e3, _, s3⟩ := accept_seg s2 hb stringAlphaNum
  have s3 := s3 h3
  obtain ⟨l4, e4, s4, _⟩ := next_seg s3 hb
  rw [h1] at e1
  rw [h2] at e2
  rw [h3] at e3
  refine ⟨l4, ?_, s4⟩
  simp only [lexDefaultTail, acceptNumber, acceptMathOp, acceptAlphaNumeric, e1, e2, e3, e4, bind,
    Except.bind, pure, Except.pure, Bool.false_eq_true, if_false]

/-- The tail of `lexDefault` at the end of the input. -/
theorem lexDefaultTail_eof {l : Lexer} {done cur : List Nat} {its : List Item}
    (h : l.Seg done cur [] its) :
    ∃ l1, lexDefaultTail l = .ok (some .lexDefault, l1) ∧ l1.Seg done cur [] its := by
  obtain ⟨l1, e1, s1⟩ := accept_seg_eof h stringNumber
  obtain ⟨l2, e2, s2⟩ := accept_seg_eof s1 stringMathOp
  obtain ⟨l3, e3, s3⟩ := accept_seg_eof s2 stringAlphaNum
  obtain ⟨l4, e4, s4, _⟩ := next_seg_eof s3
  refine ⟨l4, ?_, s4⟩
  simp only [lexDefaultTail, acceptNumber, acceptMathOp, acceptAlphaNumeric, e1, e2, e3, e4, bind,
    Except.bind, pure, Except.pure, Bool.false_eq_true, if_false]

/-- An unmatched ASCII byte in the Default state is read, nothing is emitted
and the state is `lexDefault` again. -/
theorem lexDefault_unmatched {l : Lexer} {done cur t : List Nat} {b : Nat} {its : List Item}
    (h : l.Seg done cur (b :: t) its) (hb : b < 128) (ht : ∀ c ∈ t.head?, c < 128)
    (hu : unmatched b (secondRune (b :: t))) :
    ∃ l1, lexDefault l = .ok (some .lexDefault, l1) ∧ l1.Seg done (cur ++ [b]) t its := by
  obtain ⟨hn, h1, h2, h3⟩ := hu
  obtain ⟨l1, e1, s1⟩ := peek1_seg h hb
  cases t with
  | nil =>
    obtain ⟨l2, e2, s2⟩ := peek2_seg_last s1 hb
    rw [lexDefault_falls (by omega) hn e1 e2]
    exact lexDefaultTail_eof s2
  | cons c t =>
    have hc : c < 128 := ht c (by simp)
    obtain ⟨l2, e2, s2⟩ := peek2_seg s1 hb hc
    rw [lexDefault_falls (by omega) hn e1 e2]
    exact lexDefaultTail_unmatched s2 hb h1 h2 h3

theorem letter_lt (b : Nat) (h : letter b) : b < 128 := by
  unfold letter at h; omega

theorem containsRune_nat (rs : List Nat) (b : Nat) :
    ContainsRune rs (b : Int) = rs.any (fun c => decide (c = b)) := by
  unfold ContainsRune
  congr 1
  funext c
  simp

theorem letter_not_number (b : Nat) (h : letter b) : ContainsRune stringNumber b = false := by
  rw [containsRune_nat]
  have e : stringNumber = [48, 49, 50, 51, 52, 53, 54, 55, 56, 57] := by decide
  rw [e]
  unfold letter at h
  simp only [List.any_cons, List.any_nil, Bool.or_false, Bool.or_eq_false_iff,
    decide_eq_false_iff_not]
  omega

theorem letter_not_mathop (b : Nat) (h : letter b) : ContainsRune stringMathOp b = false := by
  rw [containsRune_nat]
  have e : stringMathOp = [43, 45, 42, 47, 94] := by decide
  rw [e]
  unfold letter at h
  simp only [List.any_cons, List.any_nil, Bool.or_false, Bool.or_eq_false_iff,
    decide_eq_false_iff_not]
  omega

theorem letter_alpha (b : Nat) (h : letter b) : ContainsRune stringAlpha b = true := by
  rw [containsRune_nat]
  unfold letter at h
  rcases h with h | h
  · obtain ⟨h1, h2⟩ := h
    interval_cases b <;> rfl
  · obtain ⟨h1, h2⟩ := h
    interval_cases b <;> rfl

theorem containsRune_append (r1 r2 : List Nat) (r : Int) :
    ContainsRune (r1 ++ r2) r = (ContainsRune r1 r || ContainsRune r2 r) := by
  unfold ContainsRune
  rw [List.any_append]

theorem letter_alnum (b : Nat) (h : letter b) : ContainsRune stringAlphaNum b = true := by
  unfold stringAlphaNum
  rw [containsRune_append, letter_alpha b h]
  rfl

theorem letter_ident (b : Nat) (h : letter b) :
    ContainsRune (stringAlphaNum ++ str "_.") b = true := by
  rw [containsRune_append, letter_alnum b h]
  rfl

theorem letter_noBranch (b : Nat) (r2 : Int) (h : letter b) : noBranch b r2 := by
  unfold letter at h
  unfold noBranch
  simp only [List.mem_cons, List.mem_singleton, List.not_mem_nil, or_false, not_or, not_and]
  refine ⟨?_, ?_, ?_, ?_, ?_, ?_, ?_, ?_⟩ <;> omega

/-- On a letter that another ASCII byte follows, `lexDefault` reads the letter
and returns the state `lexIdentifier`. -/
theorem lexDefault_letter {l : Lexer} {done cur t : List Nat} {b c : Nat} {its : List Item}
    (h : l.Seg done cur (b :: c :: t) its) (hb : letter b) (hc : c < 128) :
    ∃ l1, lexDefault l = .ok (some .lexIdentifier, l1) ∧ l1.Seg done (cur ++ [b]) (c :: t) its := by
  have hb1 := letter_lt b hb
  obtain ⟨l1, e1, s1⟩ := peek1_seg h hb1
  obtain ⟨l2, e2, s2⟩ := peek2_seg s1 hb1 hc
  rw [lexDefault_falls (by omega) (letter_noBranch b c hb) e1 e2]
  obtain ⟨l3, e3, _, s3⟩ := accept_seg s2 hb1 stringNumber
  have s3 := s3 (letter_not_number b hb)
  obtain ⟨l4, e4, _, s4⟩ := accept_seg s3 hb1 stringMathOp
  have s4 := s4 (letter_not_mathop b hb)
  obtain ⟨l5, e5, s5, _⟩ := accept_seg s4 hb1 stringAlphaNum
  have s5 := s5 (letter_alnum b hb)
  rw [letter_not_number b hb] at e3
  rw [letter_not_mathop b hb] at e4
  rw [letter_alnum b hb] at e5
  refine ⟨l5, ?_, s5⟩
  simp only [lexDefaultTail, acceptNumber, acceptMathOp, acceptAlphaNumeric, e3, e4, e5, bind,
    Except.bind, pure, Except.pure, Bool.false_eq_true, if_false, if_true]

/-- The keyword chain of `lexIdentifier` on a lexeme that is none of the
keywords: the built-in type names are tried next. -/
theorem lexIdentifierChain_none (l : Lexer) (tk : List Nat) :
    ∀ ks : List (List Nat × ItemType × StateFn), (∀ e ∈ ks, tk ≠ e.1) →
      lexIdentifierChain l tk ks = lexIdentifierChain l tk []
  | [], _ => rfl
  | (k, t, s) :: rest, h => by
    have h1 : tk ≠ k := h (k, t, s) (List.mem_cons_self _ _)
    have h2 : lexIdentifierChain l tk ((k, t, s) :: rest) = lexIdentifierChain l tk rest := by
      show (if tk = k then _ else _) = _
      rw [if_neg h1]
    rw [h2]
    exact lexIdentifierChain_none l tk rest (fun e he => h e (List.mem_cons_of_mem _ he))

/-- The state `lexIdentifier` on a word that is neither a keyword nor a
built-in type name: the word, with the pending text before it, is emitted as
an identifier. -/
theorem lexIdentifier_ident {l : Lexer} {done cur rest : List Nat} {its : List Item}
    (w : List Nat) (fuel : Nat) (h : l.Seg done cur (w ++ rest) its)
    (hw : ∀ b ∈ w, b < 128 ∧ ContainsRune identBytes b = true) (hstop : Stops identBytes rest)
    (hf : w.length < fuel) (hne : cur ++ w ≠ [])
    (hk : ∀ e ∈ keywords, cur ++ w ≠ e.1)
    (ht : itemIn (cur ++ w)
      [str "int", str "string", str "num", str "list", str "dataframe", str "struct"] = false) :
    ∃ l1, lexIdentifier fuel l = .ok (some .lexDefault, l1) ∧
      l1.Seg (done ++ (cur ++ w)) [] rest (its ++ [⟨.ItemIdent, cur ++ w⟩]) := by
  obtain ⟨l1, e1, s1⟩ := acceptRun_seg identBytes hstop w fuel cur l h hw hf
  have e2 := currentToken_seg s1
  obtain ⟨l3, e3, s3⟩ := emit_seg s1 .ItemIdent
  rw [if_neg hne] at s3
  refine ⟨l3, ?_, s3⟩
  unfold identBytes at e1
  simp only [lexIdentifier, e1, e2, bind, Except.bind]
  rw [lexIdentifierChain_none l1 _ keywords hk, lexIdentifierChain, if_neg (by rw [ht]; simp)]
  simp only [e3, bind, Except.bind, pure, Except.pure]

/-- On a newline `lexDefault` emits the pending text and the newline as one
`ItemEOL`. -/
theorem lexDefault_newline {l : Lexer} {done cur t : List Nat} {its : List Item}
    (h : l.Seg done cur (10 :: t) its) :
    ∃ l1, lexDefault l = .ok (some .lexDefault, l1) ∧
      l1.Seg (done ++ (cur ++ [10])) [] t (its ++ [⟨.ItemEOL, cur ++ [10]⟩]) := by
  obtain ⟨l1, e1, s1⟩ := peek1_seg h (by omega)
  obtain ⟨l2, e2, s2, _⟩ := next_seg s1 (by omega)
  obtain ⟨l3, e3, s3⟩ := emit_seg s2 .ItemEOL
  rw [if_neg (by simp)] at s3
  refine ⟨l3, ?_, s3⟩
  simp only [lexDefault, e1, bind, Except.bind, EOF, next1Emit, e2, e3, pure, Except.pure]
  simp

theorem lexDefault_seg_eof {l : Lexer} {done cur : List Nat} {its : List Item}
    (h : l.Seg done cur [] its) :
    ∃ l1, lexDefault l = .ok (none, l1) ∧ l1.Items = its ++ [⟨.ItemEOF, str "EOF"⟩] :=
  lexDefault_eof h.toAt (seg_pos_nonneg done cur) (by rw [seg_length_nil])

theorem letter_ne (b : Nat) (h : letter b) :
    ¬ ((b : Int) = 91) ∧ ¬ ((b : Int) = 124) ∧ ¬ ((b : Int) = 32) := by
  unfold letter at h
  omega

/-- On a `:` that a byte other than `:` follows, `lexDefault` emits the colon
and returns the state `lexType`. -/
theorem lexDefault_colon {l : Lexer} {done cur t : List Nat} {c : Nat} {its : List Item}
    (h : l.Seg done cur (58 :: c :: t) its) (hc : c < 128) (hc58 : c ≠ 58) :
    ∃ l1, lexDefault l = .ok (some .lexType, l1) ∧
      l1.Seg (done ++ (cur ++ [58])) [] (c :: t) (its ++ [⟨.ItemColon, cur ++ [58]⟩]) := by
  obtain ⟨l1, e1, s1⟩ := peek1_seg h (by omega)
  obtain ⟨l2, e2, s2⟩ := peek2_seg s1 (by omega) hc
  obtain ⟨l3, e3, s3, _⟩ := next_seg s2 (by omega)
  obtain ⟨l4, e4, s4⟩ := emit_seg s3 .ItemColon
  rw [if_neg (by simp)] at s4
  refine ⟨l4, ?_, s4⟩
  have hc2 : ¬ ((c : Int) = 58) := by omega
  simp only [lexDefault, e1, bind, Except.bind, EOF, lexDefaultOps, e2, rangeFallThrough,
    pure, Except.pure, lexDefaultOpsBranches, lexDefaultNamespace, peekThird,
    lexDefaultPunct, lexDefaultPunctBranches, hc2, and_false]
  simp [next1Emit, e3, e4, bind, Except.bind, pure, Except.pure]

/-- The state `lexType` on a space and a name of letters: the name is emitted
as `ItemTypes`; the state returned is `lexType` when a space follows the name
and `lexDefault` otherwise. -/
theorem lexType_name {l : Lexer} {done t : List Nat} {its : List Item} (A : List Nat) (e : Nat)
    (fuel : Nat) (h : l.Seg done [] (32 :: (A ++ e :: t)) its) (hA : ∀ b ∈ A, letter b)
    (hne : A ≠ []) (he : e < 128) (hea : ContainsRune stringAlpha e = false) (he124 : e ≠ 124)
    (hf : A.length < fuel) :
    ∃ l1, lexType fuel l = .ok (some (if e = 32 then .lexType else .lexDefault), l1) ∧
      l1.Seg (done ++ 32 :: A) [] (e :: t) (its ++ [⟨.ItemTypes, A⟩]) := by
  obtain ⟨a, A1, rfl⟩ : ∃ a A1, A = a :: A1 := by
    cases A with
    | nil => exact absurd rfl hne
    | cons a A1 => exact ⟨a, A1, rfl⟩
  have ha : letter a := hA a (List.mem_cons_self _ _)
  have ha1 := letter_lt a ha
  obtain ⟨c, t1, hct, hc⟩ : ∃ c t1, A1 ++ e :: t = c :: t1 ∧ c < 128 := by
    cases A1 with
    | nil => exact ⟨e, t, rfl, he⟩
    | cons c A2 =>
      exact ⟨c, A2 ++ e :: t, List.cons_append _ _ _,
        letter_lt c (hA c (List.mem_cons_of_mem _ (List.mem_cons_self _ _)))⟩
  obtain ⟨l1, e1, s1⟩ := peek1_seg h (by omega)
  obtain ⟨l2, e2, s2, _⟩ := next_seg s1 (by omega)
  have s3 := ignore_seg s2
  rw [List.cons_append, hct] at s3
  obtain ⟨l4, e4, s4⟩ := peek1_seg s3 ha1
  obtain ⟨l5, e5, s5⟩ := peek2_seg s4 ha1 hc
  rw [← hct, ← List.cons_append] at s5
  obtain ⟨l6, e6, s6⟩ := acceptRun_seg stringAlpha (Or.inr ⟨e, t, rfl, he, hea⟩) (a :: A1) fuel []
    l5 s5 (fun b hb => ⟨letter_lt b (hA b hb), letter_alpha b (hA b hb)⟩) hf
  obtain ⟨l7, e7, s7⟩ := emit_seg s6 .ItemTypes
  rw [if_neg (by simp)] at s7
  obtain ⟨l8, e8, s8⟩ := peek1_seg s7 he
  refine ⟨l8, ?_, by simpa using s8⟩
  obtain ⟨n1, n2, n3⟩ := letter_ne a ha
  have he2 : ¬ ((e : Int) = 124) := by omega
  simp only [Nat.cast_ofNat] at e1 e2
  simp only [lexType, e1, bind, Except.bind, skipSpace, e2, pure, Except.pure, if_true, typeOr,
    show ¬ ((32 : Int) = 124) by omega, if_false, e4, e5, typeList, n1, false_and, e6, e7, e8, he2]
  by_cases h32 : e = 32
  · have : (e : Int) = 32 := by omega
    rw [if_pos this, if_pos h32]
  · have : ¬ ((e : Int) = 32) := by omega
    rw [if_neg this, if_neg h32]

/-- The state `lexType` on a space, `[]` and a name of letters: the list
marker and the name are emitted. -/
theorem lexType_list_name {l : Lexer} {done t : List Nat} {its : List Item} (A : List Nat)
    (e : Nat) (fuel : Nat) (h : l.Seg done [] (32 :: 91 :: 93 :: (A ++ e :: t)) its)
    (hA : ∀ b ∈ A, letter b) (hne : A ≠ []) (he : e < 128)
    (hea : ContainsRune stringAlpha e = false) (he124 : e ≠ 124) (hf : A.length < fuel) :
    ∃ l1, lexType fuel l = .ok (some (if e = 32 then .lexType else .lexDefault), l1) ∧
      l1.Seg (done ++ 32 :: 91 :: 93 :: A) [] (e :: t)
        (its ++ [⟨.ItemTypesList, [91, 93]⟩, ⟨.ItemTypes, A⟩]) := by
  obtain ⟨l1, e1, s1⟩ := peek1_seg h (by omega)
  obtain ⟨l2, e2, s2, _⟩ := next_seg s1 (by omega)
  have s3 := ignore_seg s2
  obtain ⟨l4, e4, s4⟩ := peek1_seg s3 (by omega)
  obtain ⟨l5, e5, s5⟩ := peek2_seg s4 (by omega) (by omega)
  obtain ⟨m1, f1, r1, _⟩ := next_seg s5 (by omega)
  obtain ⟨m2, f2, r2, _⟩ := next_seg r1 (by omega)
  obtain ⟨m3, f3, r3⟩ := emit_seg r2 .ItemTypesList
  rw [if_neg (by simp)] at r3
  obtain ⟨l6, e6, s6⟩ := acceptRun_seg stringAlpha (Or.inr ⟨e, t, rfl, he, hea⟩) A fuel []
    m3 r3 (fun b hb => ⟨letter_lt b (hA b hb), letter_alpha b (hA b hb)⟩) hf
  obtain ⟨l7, e7, s7⟩ := emit_seg s6 .ItemTypes
  rw [if_neg (by simpa using hne)] at s7
  obtain ⟨l8, e8, s8⟩ := peek1_seg s7 he
  refine ⟨l8, ?_, by simpa using s8⟩
  have he2 : ¬ ((e : Int) = 124) := by omega
  simp only [Nat.cast_ofNat] at e1 e2 e4 e5 f1 f2
  simp only [lexType, e1, bind, Except.bind, skipSpace, e2, pure, Except.pure, if_true, typeOr,
    show ¬ ((32 : Int) = 124) by omega, if_false, e4, e5, typeList, and_self, f1, f2, f3, e6, e7,
    e8, he2]
  by_cases h32 : e = 32
  · have : (e : Int) = 32 := by omega
    rw [if_pos this, if_pos h32]
  · have : ¬ ((e : Int) = 32) := by omega
    rw [if_neg this, if_neg h32]

/-- The state `lexType` on a space and a `|`: the union separator is emitted
and the state is `lexType` again. -/
theorem lexType_or {l : Lexer} {done t : List Nat} {its : List Item} (c : Nat) (fuel : Nat)
    (h : l.Seg done [] (32 :: 124 :: c :: t) its) (hc : c < 128) (hf : 0 < fuel) :
    ∃ l1, lexType fuel l = .ok (some .lexType, l1) ∧
      l1.Seg (done ++ [32, 124]) [] (c :: t) (its ++ [⟨.ItemTypesOr, [124]⟩]) := by
  obtain ⟨l1, e1, s1⟩ := peek1_seg h (by omega)
  obtain ⟨l2, e2, s2, _⟩ := next_seg s1 (by omega)
  have s3 := ignore_seg s2
  obtain ⟨l4, e4, s4⟩ := peek1_seg s3 (by omega)
  obtain ⟨l5, e5, s5⟩ := peek2_seg s4 (by omega) hc
  obtain ⟨l6, e6, s6⟩ := acceptRun_seg stringAlpha
    (Or.inr ⟨124, c :: t, rfl, by omega, by rfl⟩) [] fuel [] l5 s5 (by simp) hf
  obtain ⟨l7, e7, s7⟩ := emit_seg s6 .ItemTypes
  rw [if_pos (by simp)] at s7
  obtain ⟨l8, e8, s8⟩ := peek1_seg s7 (by omega)
  obtain ⟨l9, e9, s9, _⟩ := next_seg s8 (by omega)
  obtain ⟨l10, e10, s10⟩ := emit_seg s9 .ItemTypesOr
  rw [if_neg (by simp)] at s10
  refine ⟨l10, ?_, by simpa using s10⟩
  simp only [Nat.cast_ofNat] at e1 e2 e4 e5 e8 e9
  simp only [lexType, e1, bind, Except.bind, skipSpace, e2, pure, Except.pure, if_true, typeOr,
    show ¬ ((32 : Int) = 124) by omega, if_false, e4, e5, typeList,
    show ¬ ((124 : Int) = 91) by omega, false_and, e6, e7, e8, e9, e10]

theorem Holds.of_pure {α : Type} {a : α} {Q : α → Prop} (h : Q a) :
    Holds (Pure.pure a : Except Fault α) Q := by
  constructor
  intro b hb
  cases hb
  exact h

theorem Holds.of_ok {α : Type} {a : α} {Q : α → Prop} (h : Q a) :
    Holds (Except.ok a : Except Fault α) Q := by
  constructor
  intro b hb
  cases hb
  exact h

theorem Holds.of_error {α : Type} {e : Fault} {Q : α → Prop} :
    Holds (Except.error e : Except Fault α) Q := by
  constructor
  intro b hb
  cases hb

theorem Holds.of_bind {α β : Type} {x : Except Fault α} {f : α → Except Fault β} {Q : β → Prop}
    (P : α → Prop) (hx : Holds x P) (hf : ∀ a, P a → Holds (f a) Q) : Holds (x >>= f) Q := by
  constructor
  intro b hb
  cases x with
  | error e => cases hb
  | ok a => exact (hf a (hx.out a rfl)).out b hb

theorem Holds.of_ite {α : Type} {c : Prop} [Decidable c] {x y : Except Fault α} {Q : α → Prop}
    (hx : Holds x Q) (hy : Holds y Q) : Holds (if c then x else y) Q := by
  split
  · exact hx
  · exact hy

theorem Holds.weaken {α : Type} {x : Except Fault α} {P Q : α → Prop} (hx : Holds x P)
    (h : ∀ a, P a → Q a) : Holds x Q :=
  ⟨fun a ha => h a (hx.out a ha)⟩

theorem Clean.snoc {its : List Item} {t : ItemType} (v : List Nat) (h : Clean its)
    (ht : goodClass t) : Clean (its ++ [⟨t, v⟩]) := by
  intro it hit
  rcases List.mem_append.mp hit with h1 | h1
  · exact h it h1
  · rw [List.mem_singleton] at h1
    subst h1
    exact ht

theorem next_clean {l : Lexer} (h : CleanL l) : Holds (next l) (fun r => CleanL r.2) := by
  constructor
  intro a ha
  unfold next at ha
  split at ha
  · cases ha; exact h
  · split at ha
    · cases ha
    · cases ha
      show Clean _
      split <;> exact h

theorem backup_clean {l : Lexer} (h : CleanL l) : CleanL (backup l) := h

theorem ignore_clean {l : Lexer} (h : CleanL l) : CleanL (ignore l) := h

theorem peekBackup_clean : ∀ (n : Nat) {l : Lexer}, CleanL l → CleanL (peekBackup n l)
  | 0, _, h => h
  | n + 1, _, h => peekBackup_clean n (backup_clean h)

theorem peekNext_clean : ∀ (n : Nat) (r : Int) {l : Lexer}, CleanL l →
    Holds (peekNext n r l) (fun r => CleanL r.2)
  | 0, _, _, h => Holds.of_ok h
  | n + 1, _, _, h =>
    Holds.of_bind _ (next_clean h) (fun a ha => peekNext_clean n a.1 ha)

theorem peek_clean {l : Lexer} (n : Nat) (h : CleanL l) :
    Holds (peek l n) (fun r => CleanL r.2) :=
  Holds.of_bind _ (peekNext_clean n 0 h) (fun _ ha => Holds.of_pure (peekBackup_clean n ha))

theorem accept_clean {l : Lexer} (rs : List Nat) (h : CleanL l) :
    Holds (accept l rs) (fun r => CleanL r.2) :=
  Holds.of_bind _ (next_clean h) (fun _ ha => Holds.of_ite (Holds.of_pure ha) (Holds.of_pure (backup_clean ha)))

theorem acceptRun_clean (valid : List Nat) : ∀ (fuel : Nat) {l : Lexer}, CleanL l →
    Holds (acceptRun fuel l valid) CleanL
  | 0, _, _ => Holds.of_error
  | fuel + 1, _, h =>
    Holds.of_bind _ (next_clean h) (fun _ ha =>
      Holds.of_ite (acceptRun_clean valid fuel ha) (Holds.of_pure (backup_clean ha)))

theorem emit_clean {l : Lexer} {t : ItemType} (ht : goodClass t) (h : CleanL l) :
    Holds (emit l t) CleanL := by
  unfold emit
  exact Holds.of_ite (Holds.of_ok h)
    (Holds.of_bind (fun _ => True) ⟨fun _ _ => True.intro⟩
      (fun v _ => Holds.of_pure (Clean.snoc v h ht)))

theorem emitEOF_clean {l : Lexer} (h : CleanL l) : CleanL (emitEOF l) :=
  Clean.snoc _ h (by decide)

theorem errorf_clean {l : Lexer} (msg : List Nat) (h : CleanL l) : CleanL (errorf l msg).2 :=
  Clean.snoc _ h (by decide)

theorem untilEOL_clean : ∀ (fuel : Nat) (r : Int) {l : Lexer}, CleanL l →
    Holds (untilEOL fuel r l) (fun r => CleanL r.2)
  | 0, _, _, _ => Holds.of_error
  | fuel + 1, _, _, h =>
    Holds.of_ite
      (Holds.of_bind _ (next_clean h) (fun _ h1 =>
        Holds.of_bind _ (peek_clean 1 h1) (fun a h2 => untilEOL_clean fuel a.1 h2)))
      (Holds.of_pure h)

theorem untilPercent_clean : ∀ (fuel : Nat) (r : Int) {l : Lexer}, CleanL l →
    Holds (untilPercent fuel r l) (fun r => CleanL r.2)
  | 0, _, _, _ => Holds.of_error
  | fuel + 1, _, _, h =>
    Holds.of_ite
      (Holds.of_bind _ (next_clean h) (fun _ h1 =>
        Holds.of_bind _ (peek_clean 1 h1) (fun a h2 => untilPercent_clean fuel a.1 h2)))
      (Holds.of_pure h)

theorem untilClosing_clean (closing : Int) : ∀ (fuel : Nat) (c r : Int) {l : Lexer}, CleanL l →
    Holds (untilClosing closing fuel c r l) (fun r => CleanL r.2.2)
  | 0, _, _, _, _ => Holds.of_error
  | fuel + 1, _, _, _, h =>
    Holds.of_ite
      (Holds.of_bind _ (next_clean h) (fun a h1 =>
        Holds.of_bind _ (peek_clean 1 h1) (fun b h2 => untilClosing_clean closing fuel a.1 b.1 h2)))
      (Holds.of_pure h)

theorem next1Emit_clean {l : Lexer} {t : ItemType} (s : StateFn) (ht : goodClass t)
    (h : CleanL l) : Holds (next1Emit l t s) (fun r => CleanL r.2) :=
  Holds.of_bind _ (next_clean h) (fun ⟨_, _⟩ h1 =>
    Holds.of_bind _ (emit_clean ht h1) (fun _ h2 => Holds.of_pure h2))

theorem next2Emit_clean {l : Lexer} {t : ItemType} (s : StateFn) (ht : goodClass t)
    (h : CleanL l) : Holds (next2Emit l t s) (fun r => CleanL r.2) :=
  Holds.of_bind _ (next_clean h) (fun ⟨_, _⟩ h1 =>
    Holds.of_bind _ (next_clean h1) (fun ⟨_, _⟩ h2 =>
      Holds.of_bind _ (emit_clean ht h2) (fun _ h3 => Holds.of_pure h3)))

theorem next3Emit_clean {l : Lexer} {t : ItemType} (s : StateFn) (ht : goodClass t)
    (h : CleanL l) : Holds (next3Emit l t s) (fun r => CleanL r.2) :=
  Holds.of_bind _ (next_clean h) (fun ⟨_, _⟩ h1 =>
    Holds.of_bind _ (next_clean h1) (fun ⟨_, _⟩ h2 =>
      Holds.of_bind _ (next_clean h2) (fun ⟨_, _⟩ h3 =>
        Holds.of_bind _ (emit_clean ht h3) (fun _ h4 => Holds.of_pure h4))))

theorem lexDefaultTail_clean {l : Lexer} (h : CleanL l) :
    Holds (lexDefaultTail l) (fun r => CleanL r.2) :=
  Holds.of_bind _ (accept_clean stringNumber h) (fun ⟨_, _⟩ h1 =>
    Holds.of_ite (Holds.of_pure h1)
      (Holds.of_bind _ (accept_clean stringMathOp h1) (fun ⟨_, _⟩ h2 =>
        Holds.of_ite (Holds.of_pure h2)
          (Holds.of_bind _ (accept_clean stringAlphaNum h2) (fun ⟨_, _⟩ h3 =>
            Holds.of_ite (Holds.of_pure h3)
              (Holds.of_bind _ (next_clean h3) (fun ⟨_, _⟩ h4 => Holds.of_pure h4)))))))

theorem peekThird_clean {l : Lexer} (r1 r2 c : Int) (h : CleanL l) :
    Holds (peekThird l r1 r2 c) (fun r => CleanL r.2) :=
  Holds.of_ite (Holds.of_bind _ (peek_clean 3 h) (fun ⟨_, _⟩ h1 => Holds.of_pure h1)) (Holds.of_pure h)

theorem lexDefaultPunctBranches_clean {l : Lexer} (c3 : Bool) (r1 r2 : Int) (h : CleanL l) :
    Holds (lexDefaultPunctBranches l c3 r1 r2) (fun r => CleanL r.2) := by
  unfold lexDefaultPunctBranches
  repeat' first
    | apply Holds.of_ite
    | exact next1Emit_clean _ (by decide) h
    | exact next2Emit_clean _ (by decide) h
    | exact next3Emit_clean _ (by decide) h
    | exact lexDefaultTail_clean h

theorem lexDefaultPunct_clean {l : Lexer} (r1 r2 : Int) (h : CleanL l) :
    Holds (lexDefaultPunct l r1 r2) (fun r => CleanL r.2) :=
  Holds.of_bind _ (peekThird_clean r1 r2 46 h) (fun ⟨_, _⟩ h1 =>
    lexDefaultPunctBranches_clean _ r1 r2 h1)

theorem lexDefaultNamespace_clean {l : Lexer} (r1 r2 : Int) (h : CleanL l) :
    Holds (lexDefaultNamespace l r1 r2) (fun r => CleanL r.2) :=
  Holds.of_bind _ (peekThird_clean r1 r2 58 h) (fun ⟨_, _⟩ h1 =>
    Holds.of_ite (next3Emit_clean _ (by decide) h1)
      (Holds.of_ite (next2Emit_clean _ (by decide) h1) (lexDefaultPunct_clean r1 r2 h1)))

theorem lexDefaultOpsBranches_clean {l : Lexer} (r1 r2 : Int) (h : CleanL l) :
    Holds (lexDefaultOpsBranches l r1 r2) (fun r => CleanL r.2) := by
  unfold lexDefaultOpsBranches
  repeat' first
    | apply Holds.of_ite
    | exact Holds.of_pure h
    | exact next1Emit_clean _ (by decide) h
    | exact next2Emit_clean _ (by decide) h
    | exact lexDefaultNamespace_clean r1 r2 h

theorem rangeFallThrough_clean {l : Lexer} (r1 r2 : Int) (h : CleanL l) :
    Holds (rangeFallThrough l r1 r2) CleanL :=
  Holds.of_ite
    (Holds.of_bind _ (next_clean h) (fun ⟨_, _⟩ h1 =>
      Holds.of_bind _ (next_clean h1) (fun ⟨_, _⟩ h2 => emit_clean (by decide) h2)))
    (Holds.of_pure h)

theorem lexDefaultOps_clean {l : Lexer} (r1 : Int) (h : CleanL l) :
    Holds (lexDefaultOps l r1) (fun r => CleanL r.2) :=
  Holds.of_bind _ (peek_clean 2 h) (fun ⟨r2, _⟩ h1 =>
    Holds.of_bind _ (rangeFallThrough_clean r1 r2 h1) (fun _ h2 =>
      lexDefaultOpsBranches_clean r1 r2 h2))

theorem lexDefault_clean {l : Lexer} (h : CleanL l) :
    Holds (lexDefault l) (fun r => CleanL r.2) :=
  Holds.of_bind _ (peek_clean 1 h) (fun ⟨r1, _⟩ h1 =>
    Holds.of_ite (Holds.of_pure (emitEOF_clean h1))
      (Holds.of_ite
        (Holds.of_bind _ (next_clean h1) (fun ⟨_, _⟩ h2 =>
          Holds.of_bind _ (emit_clean (by decide) h2) (fun _ h3 => Holds.of_pure h3)))
        (Holds.of_ite
          (Holds.of_bind _ (next_clean h1) (fun ⟨_, _⟩ h2 =>
            Holds.of_bind _ (emit_clean (by decide) h2) (fun _ h3 => Holds.of_pure h3)))
          (Holds.of_ite (Holds.of_pure h1)
            (Holds.of_ite
              (Holds.of_bind _ (next_clean h1) (fun ⟨_, _⟩ h2 => Holds.of_pure (ignore_clean h2)))
              (Holds.of_ite (next2Emit_clean _ (by decide) h1)
                (Holds.of_ite (next1Emit_clean _ (by decide) h1)
                  (lexDefaultOps_clean r1 h1))))))))

theorem emitWhen_clean {l : Lexer} {t : ItemType} (c : Prop) [Decidable c] (ht : goodClass t)
    (h : CleanL l) : Holds (emitWhen c l t) CleanL :=
  Holds.of_ite (emit_clean ht h) (Holds.of_pure h)

theorem skipSpace_clean {l : Lexer} (r : Int) (h : CleanL l) : Holds (skipSpace l r) CleanL :=
  Holds.of_ite (Holds.of_bind _ (next_clean h) (fun ⟨_, _⟩ h1 => Holds.of_pure (ignore_clean h1)))
    (Holds.of_pure h)

theorem typeOr_clean {l : Lexer} (r : Int) (h : CleanL l) : Holds (typeOr l r) CleanL :=
  Holds.of_ite (Holds.of_bind _ (next_clean h) (fun ⟨_, _⟩ h1 => emit_clean (by decide) h1))
    (Holds.of_pure h)

theorem typeList_clean {l : Lexer} (r r2 : Int) (h : CleanL l) :
    Holds (typeList l r r2) CleanL :=
  Holds.of_ite
    (Holds.of_bind _ (next_clean h) (fun ⟨_, _⟩ h1 =>
      Holds.of_bind _ (next_clean h1) (fun ⟨_, _⟩ h2 => emit_clean (by decide) h2)))
    (Holds.of_pure h)

theorem lexExponent_clean {l : Lexer} (fuel : Nat) (r1 : Int) (h : CleanL l) :
    Holds (lexExponent fuel l r1) CleanL :=
  Holds.of_ite (Holds.of_bind _ (next_clean h) (fun ⟨_, _⟩ h1 => acceptRun_clean _ fuel h1))
    (Holds.of_pure h)

theorem currentToken_any (l : Lexer) : Holds (currentToken l) (fun _ => True) :=
  ⟨fun _ _ => True.intro⟩

theorem lexMathOp_clean {l : Lexer} (fuel : Nat) (h : CleanL l) :
    Holds (lexMathOp fuel l) (fun r => CleanL r.2) :=
  Holds.of_bind _ (acceptRun_clean _ fuel h) (fun _ h1 =>
    Holds.of_bind _ (currentToken_any _) (fun _ _ =>
      Holds.of_bind _ (emitWhen_clean _ (by decide) h1) (fun _ h2 =>
        Holds.of_bind _ (emitWhen_clean _ (by decide) h2) (fun _ h3 =>
          Holds.of_bind _ (emitWhen_clean _ (by decide) h3) (fun _ h4 =>
            Holds.of_bind _ (emitWhen_clean _ (by decide) h4) (fun _ h5 =>
              Holds.of_bind _ (emitWhen_clean _ (by decide) h5) (fun _ h6 => Holds.of_pure h6)))))))

theorem lexNumber_clean {l : Lexer} (fuel : Nat) (h : CleanL l) :
    Holds (lexNumber fuel l) (fun r => CleanL r.2) :=
  Holds.of_bind _ (acceptRun_clean _ fuel h) (fun _ h1 =>
    Holds.of_bind _ (peek_clean 1 h1) (fun ⟨r1, _⟩ h2 =>
      Holds.of_bind _ (peek_clean 2 h2) (fun ⟨_, _⟩ h3 =>
        Holds.of_bind _ (lexExponent_clean fuel r1 h3) (fun _ h4 =>
          Holds.of_ite
            (Holds.of_bind _ (emit_clean (by decide) h4) (fun _ h5 =>
              Holds.of_bind _ (next_clean h5) (fun ⟨_, _⟩ h6 =>
                Holds.of_bind _ (next_clean h6) (fun ⟨_, _⟩ h7 =>
                  Holds.of_bind _ (emit_clean (by decide) h7) (fun _ h8 => Holds.of_pure h8)))))
            (Holds.of_bind _ (accept_clean _ h4) (fun ⟨_, _⟩ h5 =>
              Holds.of_ite
                (Holds.of_bind _ (acceptRun_clean _ fuel h5) (fun _ h6 =>
                  Holds.of_bind _ (emit_clean (by decide) h6) (fun _ h7 => Holds.of_pure h7)))
                (Holds.of_bind _ (emit_clean (by decide) h5) (fun _ h6 => Holds.of_pure h6))))))))

theorem lexComment_clean {l : Lexer} (fuel : Nat) (h : CleanL l) :
    Holds (lexComment fuel l) (fun r => CleanL r.2) :=
  Holds.of_bind _ (peek_clean 2 h) (fun ⟨_, _⟩ h1 =>
    Holds.of_ite
      (Holds.of_bind _ (next_clean h1) (fun ⟨_, _⟩ h2 =>
        Holds.of_bind _ (next_clean h2) (fun ⟨_, _⟩ h3 =>
          Holds.of_bind _ (emit_clean (by decide) h3) (fun _ h4 => Holds.of_pure h4))))
      (Holds.of_bind _ (peek_clean 1 h1) (fun ⟨r, _⟩ h2 =>
        Holds.of_bind _ (untilEOL_clean fuel r h2) (fun ⟨_, _⟩ h3 =>
          Holds.of_bind _ (emit_clean (by decide) h3) (fun _ h4 => Holds.of_pure h4)))))

theorem lexSpecialComment_clean {l : Lexer} (fuel : Nat) (h : CleanL l) :
    Holds (lexSpecialComment fuel l) (fun r => CleanL r.2) :=
  Holds.of_bind _ (peek_clean 1 h) (fun ⟨r, _⟩ h1 =>
    Holds.of_bind _ (skipSpace_clean r h1) (fun _ h2 =>
      Holds.of_bind _ (untilEOL_clean fuel r h2) (fun ⟨_, _⟩ h3 =>
        Holds.of_bind _ (emit_clean (by decide) h3) (fun _ h4 => Holds.of_pure h4))))

theorem lexString_clean {l : Lexer} (fuel : Nat) (closing : Int) (h : CleanL l) :
    Holds (lexString fuel closing l) (fun r => CleanL r.2) :=
  Holds.of_bind _ (peek_clean 1 h) (fun ⟨r, _⟩ h1 =>
    Holds.of_bind _ (untilClosing_clean closing fuel 0 r h1) (fun ⟨_, _, _⟩ h2 =>
      Holds.of_ite
        (Holds.of_bind _ (next_clean h2) (fun ⟨_, _⟩ h3 => Holds.of_pure h3))
        (Holds.of_ite
          (Holds.of_bind _ (next_clean h2) (fun ⟨_, _⟩ h3 =>
            Holds.of_bind _ (currentToken_any _) (fun _ _ => Holds.of_pure (errorf_clean _ h3))))
          (Holds.of_bind _ (emit_clean (by decide) h2) (fun _ h3 =>
            Holds.of_bind _ (next_clean h3) (fun ⟨_, _⟩ h4 =>
              Holds.of_bind _ (emitWhen_clean _ (by decide) h4) (fun _ h5 =>
                Holds.of_bind _ (emitWhen_clean _ (by decide) h5) (fun _ h6 =>
                  Holds.of_pure h6))))))))

theorem lexInfix_clean {l : Lexer} (fuel : Nat) (h : CleanL l) :
    Holds (lexInfix fuel l) (fun r => CleanL r.2) :=
  Holds.of_bind _ (next_clean h) (fun ⟨_, _⟩ h1 =>
    Holds.of_bind _ (peek_clean 1 h1) (fun ⟨r, _⟩ h2 =>
      Holds.of_bind _ (untilPercent_clean fuel r h2) (fun ⟨_, _⟩ h3 =>
        Holds.of_ite
          (Holds.of_bind _ (next_clean h3) (fun ⟨_, _⟩ h4 =>
            Holds.of_bind _ (currentToken_any _) (fun _ _ => Holds.of_pure (errorf_clean _ h4))))
          (Holds.of_bind _ (next_clean h3) (fun ⟨_, _⟩ h4 =>
            Holds.of_bind _ (emit_clean (by decide) h4) (fun _ h5 => Holds.of_pure h5))))))

theorem lexIdentifierChain_clean {l : Lexer} (tk : List Nat) (h : CleanL l) :
    ∀ ks : List (List Nat × ItemType × StateFn), (∀ e ∈ ks, goodClass e.2.1) →
      Holds (lexIdentifierChain l tk ks) (fun r => CleanL r.2)
  | [], _ =>
    Holds.of_ite (Holds.of_bind _ (emit_clean (by decide) h) (fun _ h1 => Holds.of_pure h1))
      (Holds.of_bind _ (emit_clean (by decide) h) (fun _ h1 => Holds.of_pure h1))
  | (k, t, s) :: rest, hk =>
    Holds.of_ite
      (Holds.of_bind _ (emit_clean (hk (k, t, s) (List.mem_cons_self _ _)) h)
        (fun _ h1 => Holds.of_pure h1))
      (lexIdentifierChain_clean tk h rest (fun e he => hk e (List.mem_cons_of_mem _ he)))

theorem lexIdentifier_clean {l : Lexer} (fuel : Nat) (h : CleanL l) :
    Holds (lexIdentifier fuel l) (fun r => CleanL r.2) :=
  Holds.of_bind _ (acceptRun_clean _ fuel h) (fun _ h1 =>
    Holds.of_bind _ (currentToken_any _) (fun tk _ =>
      lexIdentifierChain_clean tk h1 keywords (by decide)))

theorem lexType_clean {l : Lexer} (fuel : Nat) (h : CleanL l) :
    Holds (lexType fuel l) (fun r => CleanL r.2) :=
  Holds.of_bind _ (peek_clean 1 h) (fun ⟨r, _⟩ h1 =>
    Holds.of_bind _ (skipSpace_clean r h1) (fun _ h2 =>
      Holds.of_bind _ (typeOr_clean r h2) (fun _ h3 =>
        Holds.of_bind _ (peek_clean 1 h3) (fun ⟨r, _⟩ h4 =>
          Holds.of_bind _ (peek_clean 2 h4) (fun ⟨r2, _⟩ h5 =>
            Holds.of_bind _ (typeList_clean r r2 h5) (fun _ h6 =>
              Holds.of_bind _ (acceptRun_clean _ fuel h6) (fun _ h7 =>
                Holds.of_bind _ (emit_clean (by decide) h7) (fun _ h8 =>
                  Holds.of_bind _ (peek_clean 1 h8) (fun ⟨_, _⟩ h9 =>
                    Holds.of_ite
                      (Holds.of_bind _ (next_clean h9) (fun ⟨_, _⟩ h10 =>
                        Holds.of_bind _ (emit_clean (by decide) h10) (fun _ h11 =>
                          Holds.of_pure h11)))
                      (Holds.of_ite (Holds.of_pure h9) (Holds.of_pure h9)))))))))))

theorem step_clean (fuel : Nat) (s : StateFn) {l : Lexer} (h : CleanL l) :
    Holds (step fuel s l) (fun r => CleanL r.2) := by
  cases s with
  | lexDefault => exact lexDefault_clean h
  | lexMathOp => exact lexMathOp_clean fuel h
  | lexNumber => exact lexNumber_clean fuel h
  | lexComment => exact lexComment_clean fuel h
  | lexSpecialComment => exact lexSpecialComment_clean fuel h
  | lexString closing => exact lexString_clean fuel closing h
  | lexInfix => exact lexInfix_clean fuel h
  | lexIdentifier => exact lexIdentifier_clean fuel h
  | lexType => exact lexType_clean fuel h

theorem runLoop_clean (fuel : Nat) : ∀ (n : Nat) (s : StateFn) {l : Lexer}, CleanL l →
    Holds (runLoop fuel n s l) CleanL
  | 0, _, _, _ => Holds.of_error
  | n + 1, s, _, h =>
    Holds.of_bind _ (step_clean fuel s h) (fun ⟨s1, _⟩ h1 =>
      match s1 with
      | none => Holds.of_pure h1
      | some s2 => runLoop_clean fuel n s2 h1)

theorem Run_clean (fuel : Nat) (input : List Nat) : Holds (Run fuel input) Clean :=
  Holds.of_bind _ (runLoop_clean fuel fuel .lexDefault
    (show CleanL (Lexer.new input) from fun _ h => absurd h (List.not_mem_nil _)))
    (fun _ h => Holds.of_pure h)

theorem secondRune_eq {inp : List Nat} (hA : Ascii inp) {p : Int} (hp : 0 ≤ p) {b : Nat}
    {t : List Nat} (hd : inp.drop p.toNat = b :: t) :
    secondRune (b :: t) = runeAt inp (p + 1) := by
  have hd1 := drop_toNat_succ hp hd
  cases t with
  | nil =>
    have : (inp.length : Int) ≤ p + 1 := by
      have := List.drop_eq_nil_iff.mp hd1
      omega
    rw [runeAt_eof inp _ this]
    rfl
  | cons c t =>
    have hc : c < 128 := by
      apply hA
      have : c ∈ inp.drop (p + 1).toNat := by rw [hd1]; exact List.mem_cons_self c t
      exact List.mem_of_mem_drop this
    rw [runeAt_of_drop (by omega) hd1 hc]
    rfl

theorem stops_newline (valid : List Nat) (t : List Nat) (h : ContainsRune valid 10 = false) :
    Stops valid (10 :: t) :=
  Or.inr ⟨10, t, rfl, by omega, h⟩

theorem lexDefault_paren_falls {l l1 l2 : Lexer} {b : Nat} {r2 : Int} (hb : b = 40 ∨ b = 41)
    (h1 : peek l 1 = .ok ((b : Int), l1)) (h2 : peek l1 2 = .ok (r2, l2)) :
    lexDefault l = next1Emit l2 .ItemLeftParen (if b = 40 then .lexDefault else .lexType) := by
  rcases hb with rfl | rfl
  · simp only [Nat.cast_ofNat] at h1
    simp only [lexDefault, h1, bind, Except.bind, EOF, lexDefaultOps, h2, rangeFallThrough,
      pure, Except.pure, lexDefaultOpsBranches, lexDefaultNamespace, peekThird,
      lexDefaultPunct, lexDefaultPunctBranches]
    simp
  · simp only [Nat.cast_ofNat] at h1
    simp only [lexDefault, h1, bind, Except.bind, EOF, lexDefaultOps, h2, rangeFallThrough,
      pure, Except.pure, lexDefaultOpsBranches, lexDefaultNamespace, peekThird,
      lexDefaultPunct, lexDefaultPunctBranches]
    simp

/-- On `(` and on `)` the Default state emits the pending text and the
parenthesis as one `ItemLeftParen`. -/
theorem lexDefault_paren {l : Lexer} {done cur t : List Nat} {b : Nat} {its : List Item}
    (h : l.Seg done cur (b :: t) its) (hb : b = 40 ∨ b = 41) (ht : ∀ c ∈ t.head?, c < 128) :
    ∃ l1, lexDefault l = .ok (some (if b = 40 then .lexDefault else .lexType), l1) ∧
      l1.Seg (done ++ (cur ++ [b])) [] t (its ++ [⟨.ItemLeftParen, cur ++ [b]⟩]) := by
  have hb1 : b < 128 := by omega
  obtain ⟨l1, e1, s1⟩ := peek1_seg h hb1
  cases t with
  | nil =>
    obtain ⟨l2, e2, s2⟩ := peek2_seg_last s1 hb1
    obtain ⟨l3, e3, s3, _⟩ := next_seg_eof s2
    obtain ⟨l4, e4, s4⟩ := emit_seg s3 .ItemLeftParen
    rw [if_neg (by simp)] at s4
    refine ⟨l4, ?_, s4⟩
    rw [lexDefault_paren_falls hb e1 e2]
    simp only [next1Emit, e3, e4, bind, Except.bind, pure, Except.pure]
  | cons c t =>
    obtain ⟨l2, e2, s2⟩ := peek2_seg s1 hb1 (ht c (by simp))
    obtain ⟨l3, e3, s3, _⟩ := next_seg s2 hb1
    obtain ⟨l4, e4, s4⟩ := emit_seg s3 .ItemLeftParen
    rw [if_neg (by simp)] at s4
    refine ⟨l4, ?_, s4⟩
    rw [lexDefault_paren_falls hb e1 e2]
    simp only [next1Emit, e3, e4, bind, Except.bind, pure, Except.pure]

/-! ## The tables of the environment -/

theorem environment.Table.get_miss (m : environment.Table) (name : List Nat)
    (h : (environment.Table.get m name).2 = false) :
    environment.Table.get m name = (environment.Object.zero, false) := by
  induction m with
  | nil => rfl
  | cons a m ih =>
    obtain ⟨k1, v1⟩ := a
    by_cases h1 : k1 = name
    · simp [environment.Table.get, h1] at h
    · simp only [environment.Table.get, if_neg h1] at h ⊢
      exact ih h

theorem environment.Table.get_filter_ne (m : environment.Table) (k name : List Nat)
    (h : name ≠ k) :
    environment.Table.get (m.filter (fun e => decide (e.1 ≠ k))) name
      = environment.Table.get m name := by
  induction m with
  | nil => rfl
  | cons a m ih =>
    obtain ⟨k1, v1⟩ := a
    by_cases h1 : k1 = k
    · have h2 : k1 ≠ name := fun h2 => h (h2.symm.trans h1)
      rw [List.filter_cons_of_neg (by simp [h1])]
      simp only [environment.Table.get, if_neg h2]
      exact ih
    · rw [List.filter_cons_of_pos (by simp [h1])]
      by_cases h2 : k1 = name
      · simp only [environment.Table.get, if_pos h2]
      · simp only [environment.Table.get, if_neg h2]
        exact ih

theorem environment.Table.get_set_ne (m : environment.Table) (k name : List Nat)
    (v : environment.Object) (h : name ≠ k) :
    environment.Table.get (m.set k v) name = environment.Table.get m name := by
  have h1 : k ≠ name := fun h2 => h h2.symm
  simp only [environment.Table.set, environment.Table.get, if_neg h1]
  exact environment.Table.get_filter_ne m k name h

theorem environment.Table.get_set_eq (m : environment.Table) (k : List Nat)
    (v : environment.Object) :
    environment.Table.get (m.set k v) k = (v, true) := by
  simp [environment.Table.set, environment.Table.get]

theorem environment.Environment.GetVariable_false :
    ∀ (e : environment.Environment) (name : List Nat),
      e.GetVariable name false = e.frame.variables_.get name
  | .mk f none, name => by simp [environment.Environment.GetVariable, environment.Environment.frame]
  | .mk f (some e), name => by
    simp [environment.Environment.GetVariable, environment.Environment.frame]

theorem environment.Environment.GetVariable_true :
    ∀ (e : environment.Environment) (name : List Nat),
      e.GetVariable name true =
        match e.frames.find? (fun f => (f.variables_.get name).2) with
        | some f => f.variables_.get name
        | none => (environment.Object.zero, false)
  | .mk f none, name => by
    cases h : (f.variables_.get name).2
    · have h2 : f.variables_.get name = (environment.Object.zero, false) := by
        exact environment.Table.get_miss _ _ h
      simp [environment.Environment.GetVariable, environment.Environment.frames, List.find?, h, h2]
    · simp [environment.Environment.GetVariable, environment.Environment.frames, List.find?, h]
  | .mk f (some e), name => by
    have ih := environment.Environment.GetVariable_true e name
    cases h : (f.variables_.get name).2
    · simp [environment.Environment.GetVariable, environment.Environment.frames, List.find?, h, ih]
    · simp [environment.Environment.GetVariable, environment.Environment.frames, List.find?, h]

/-! ## Scope balance and termination of the walker -/

theorem environment.Environment.SetVariable_outer (e : environment.Environment) (name : List Nat)
    (val : environment.Object) : (e.SetVariable name val).outer = e.outer := by
  obtain ⟨⟨_, _, _, _, _⟩, _⟩ := e
  rfl

theorem environment.Environment.SetType_outer (e : environment.Environment) (name : List Nat)
    (val : environment.Object) : (e.SetType name val).outer = e.outer := by
  obtain ⟨⟨_, _, _, _, _⟩, _⟩ := e
  rfl

theorem environment.Environment.SetFunction_outer (e : environment.Environment)
    (name : List Nat) (val : environment.Object) : (e.SetFunction name val).outer = e.outer := by
  obtain ⟨⟨_, _, _, _, _⟩, _⟩ := e
  rfl

theorem environment.Environment.SetClass_outer (e : environment.Environment) (name : List Nat)
    (val : environment.Object) : (e.SetClass name val).outer = e.outer := by
  obtain ⟨⟨_, _, _, _, _⟩, _⟩ := e
  rfl

theorem environment.Environment.SetVariableUsed_outer (e : environment.Environment)
    (name : List Nat) : (e.SetVariableUsed name).outer = e.outer := by
  unfold environment.Environment.SetVariableUsed
  dsimp only
  split
  · rfl
  · exact environment.Environment.SetVariable_outer _ _ _

theorem environment.Environment.SetTypeUsed_outer (e : environment.Environment)
    (name : List Nat) : (e.SetTypeUsed name).outer = e.outer := by
  unfold environment.Environment.SetTypeUsed
  dsimp only
  split
  · rfl
  · exact environment.Environment.SetType_outer _ _ _

theorem walker.enclosing_addDiagnostic (sev : diagnostics.Severity) (w : walker.Walker)
    (tok : token.Item) (msg : List Nat) (args : List diagnostics.Arg) :
    (walker.addDiagnostic sev w tok msg args).enclosing = w.enclosing := rfl

theorem walker.enclosing_fatalWhen (c : Bool) (w : walker.Walker) (tok : token.Item)
    (msg : List Nat) (args : List diagnostics.Arg) :
    (walker.fatalWhen c w tok msg args).enclosing = w.enclosing := by
  unfold walker.fatalWhen
  split <;> rfl

theorem walker.enclosing_setState (w : walker.Walker) (s : List Nat) :
    (w.setState s).enclosing = w.enclosing := rfl

theorem walker.enclosing_Enclose (w : walker.Walker) : w.Enclose.enclosing = some w.env := by
  obtain ⟨_, env, _⟩ := w
  rfl

theorem walker.getEnv_holds (w : walker.Walker) :
    Holds w.getEnv (fun e => w.env = some e) := by
  constructor
  intro e he
  unfold walker.Walker.getEnv at he
  split at he
  · cases he
    assumption
  · cases he

/-- Replacing the current frame by one with the same enclosing frames. -/
theorem walker.enclosing_setEnv {w : walker.Walker} {e e1 : environment.Environment}
    {X : Option (Option environment.Environment)} (h : w.enclosing = X) (he : w.env = some e)
    (h1 : e1.outer = e.outer) : (w.setEnv (some e1)).enclosing = X := by
  obtain ⟨_, env, _⟩ := w
  subst h
  cases he
  show some e1.outer = some e.outer
  rw [h1]

/-- Opening a frame whose enclosing chain is that of `w0` gives back the
frame of `w0`. -/
theorem walker.Open_holds {w w0 : walker.Walker} {X : Option (Option environment.Environment)}
    (h : w.enclosing = some w0.env) (h0 : w0.enclosing = X) :
    Holds w.Open (fun w1 => w1.enclosing = X) := by
  constructor
  intro w1 h1
  obtain ⟨errors, env, state⟩ := w
  cases env with
  | none => cases h
  | some e =>
    cases h1
    have h2 : e.outer = w0.env := Option.some.inj h
    show Option.map _ e.Open = X
    rw [← h0]
    show Option.map _ e.outer = _
    rw [h2]
    rfl

theorem walker.SetVariable_holds {w : walker.Walker} {X : Option (Option environment.Environment)}
    (name : List Nat) (val : environment.Object) (h : w.enclosing = X) :
    Holds (w.SetVariable name val) (fun w1 => w1.enclosing = X) :=
  Holds.of_bind _ (walker.getEnv_holds w) (fun _ he =>
    Holds.of_pure (walker.enclosing_setEnv h he (environment.Environment.SetVariable_outer _ _ _)))

theorem walker.fatalWhen_bal {w : walker.Walker} {X : Option (Option environment.Environment)}
    (c : Bool) (tok : token.Item) (msg : List Nat) (args : List diagnostics.Arg)
    (h : w.enclosing = X) : (walker.fatalWhen c w tok msg args).enclosing = X :=
  (walker.enclosing_fatalWhen c w tok msg args).trans h

theorem walker.addDiagnostic_bal {w : walker.Walker} {X : Option (Option environment.Environment)}
    (sev : diagnostics.Severity) (tok : token.Item) (msg : List Nat)
    (args : List diagnostics.Arg) (h : w.enclosing = X) :
    (walker.addDiagnostic sev w tok msg args).enclosing = X :=
  (walker.enclosing_addDiagnostic sev w tok msg args).trans h

theorem walker.setState_bal {w : walker.Walker} {X : Option (Option environment.Environment)}
    (s : List Nat) (h : w.enclosing = X) : (w.setState s).enclosing = X :=
  (walker.enclosing_setState w s).trans h

theorem walker.walkEach_bal {W : walker.WalkFn} (hW : walker.Balanced W) :
    ∀ (xs : List ast.Node) (w : walker.Walker) (X : Option (Option environment.Environment)),
      w.enclosing = X → Holds (walker.walkEach W w xs) (fun w1 => w1.enclosing = X)
  | [], _, _, h => Holds.of_ok h
  | s :: rest, w, X, h =>
    Holds.of_bind _ (hW w (some s) X h) (fun ⟨w1, _, _⟩ h1 => walker.walkEach_bal hW rest w1 X h1)

theorem walker.walkBlockStatement_bal {W : walker.WalkFn} (hW : walker.Balanced W)
    {w : walker.Walker} {X : Option (Option environment.Environment)}
    (value : Option (List ast.Node)) (h : w.enclosing = X) :
    Holds (walker.walkBlockStatement W w value) (fun w1 => w1.enclosing = X) := by
  cases value with
  | none => exact Holds.of_error
  | some xs => exact walker.walkEach_bal hW xs w X h

theorem walker.walkBody_bal {W : walker.WalkFn} (hW : walker.Balanced W)
    {w : walker.Walker} {X : Option (Option environment.Environment)}
    (body : Option (List ast.Node)) (h : w.enclosing = X) :
    Holds (walker.walkBody W w body) (fun w1 => w1.enclosing = X) := by
  cases body with
  | none => exact Holds.of_ok h
  | some xs => exact walker.walkEach_bal hW xs w X h

theorem walker.walkSquareFrom_bal {W : walker.WalkFn} (hW : walker.Balanced W) :
    ∀ (xs : List ast.Node) (w : walker.Walker) (t : ast.Types) (n : Option ast.Node)
      (X : Option (Option environment.Environment)),
      w.enclosing = X → Holds (walker.walkSquareFrom W w xs t n) (fun r => r.1.enclosing = X)
  | [], _, _, _, _, h => Holds.of_ok h
  | s :: rest, w, _, _, X, h =>
    Holds.of_bind _ (hW w (some s) X h) (fun ⟨w1, t1, n1⟩ h1 =>
      walker.walkSquareFrom_bal hW rest w1 t1 n1 X h1)

theorem walker.walkReturned_bal {W : walker.WalkFn} (hW : walker.Balanced W)
    {w : walker.Walker} {X : Option (Option environment.Environment)} (node : Option ast.Node)
    (h : w.enclosing = X) :
    Holds (walker.walkReturned W w node) (fun w1 => w1.enclosing = X) := by
  unfold walker.walkReturned
  split
  · exact Holds.of_bind _ (hW w _ X h) (fun ⟨_, _, _⟩ h1 => Holds.of_pure h1)
  · exact Holds.of_ok h

theorem walker.walkProgramFrom_bal {W : walker.WalkFn} (hW : walker.Balanced W) :
    ∀ (xs : List ast.Node) (w : walker.Walker) (t : ast.Types) (n : Option ast.Node)
      (X : Option (Option environment.Environment)),
      w.enclosing = X → Holds (walker.walkProgramFrom W w xs t n) (fun r => r.1.enclosing = X)
  | [], _, _, _, _, h => Holds.of_ok h
  | s :: rest, w, _, _, X, h =>
    Holds.of_bind _ (hW w (some s) X h) (fun ⟨_, t1, n1⟩ h1 =>
      Holds.of_bind _ (walker.walkReturned_bal hW n1 h1) (fun w2 h2 =>
        walker.walkProgramFrom_bal hW rest w2 t1 n1 X h2))

theorem walker.walkArguments_bal {W : walker.WalkFn} (hW : walker.Balanced W) :
    ∀ (xs : List (ast.Argument ast.Node)) (w : walker.Walker)
      (X : Option (Option environment.Environment)),
      w.enclosing = X → Holds (walker.walkArguments W w xs) (fun w1 => w1.enclosing = X)
  | [], _, _, h => Holds.of_ok h
  | v :: rest, w, X, h =>
    Holds.of_bind _ (hW w v.Value X h) (fun ⟨w1, _, _⟩ h1 =>
      walker.walkArguments_bal hW rest w1 X h1)

theorem walker.checkArgument_bal (D : walker.Deps) {w : walker.Walker}
    {X : Option (Option environment.Environment)} (ps : List (ast.Parameter ast.Node))
    (argument : ast.Argument ast.Node) (i : Nat) (t : ast.Types) (h : w.enclosing = X) :
    (walker.checkArgument D w ps argument i t).enclosing = X := by
  unfold walker.checkArgument
  dsimp only
  repeat' split
  all_goals exact h

theorem walker.walkKnownArguments_bal {W : walker.WalkFn} (hW : walker.Balanced W)
    (D : walker.Deps) (ps : List (ast.Parameter ast.Node)) :
    ∀ (xs : List (ast.Argument ast.Node)) (w : walker.Walker) (i : Nat)
      (X : Option (Option environment.Environment)),
      w.enclosing = X →
      Holds (walker.walkKnownArguments W D ps w xs i) (fun w1 => w1.enclosing = X)
  | [], _, _, _, h => Holds.of_ok h
  | a :: rest, w, i, X, h =>
    Holds.of_bind _ (hW w a.Value X h) (fun ⟨_, t, _⟩ h1 =>
      walker.walkKnownArguments_bal hW D ps rest _ (i + 1) X
        (walker.checkArgument_bal D ps a i t h1))

theorem walker.walkKnownCallExpression_bal {W : walker.WalkFn} (hW : walker.Balanced W)
    (D : walker.Deps) {w : walker.Walker} {X : Option (Option environment.Environment)}
    (node : ast.Node) (arguments : List (ast.Argument ast.Node)) (fn : environment.Object)
    (h : w.enclosing = X) :
    Holds (walker.walkKnownCallExpression W D w node arguments fn)
      (fun r => r.1.enclosing = X) :=
  Holds.of_bind (fun _ => True) ⟨fun _ _ => True.intro⟩ (fun ⟨ps, _⟩ _ =>
    Holds.of_bind _ (walker.walkKnownArguments_bal hW D ps arguments _ 0 X
      (walker.setState_bal _ h)) (fun _ h1 => Holds.of_pure (walker.setState_bal _ h1)))

theorem walker.walkCallExpression_bal {W : walker.WalkFn} (hW : walker.Balanced W)
    (D : walker.Deps) {w : walker.Walker} {X : Option (Option environment.Environment)}
    (node : ast.Node) (name : List Nat) (arguments : List (ast.Argument ast.Node))
    (function : Option ast.Node) (h : w.enclosing = X) :
    Holds (walker.walkCallExpression W D w node name arguments function)
      (fun r => r.1.enclosing = X) :=
  Holds.of_bind (fun _ => True) ⟨fun _ _ => True.intro⟩ (fun _ _ =>
    Holds.of_bind (fun _ => True) ⟨fun _ _ => True.intro⟩ (fun _ _ =>
      Holds.of_ite (walker.walkKnownCallExpression_bal hW D node arguments _ h)
        (Holds.of_bind _ (walker.walkArguments_bal hW arguments _ X (walker.setState_bal _ h))
          (fun _ h1 => hW _ function X (walker.setState_bal _ h1)))))

theorem walker.checkIterable_bal (D : walker.Deps) {w : walker.Walker}
    {X : Option (Option environment.Environment)} (t : ast.Types) (n : Option ast.Node)
    (h : w.enclosing = X) :
    Holds (walker.checkIterable D w t n) (fun w1 => w1.enclosing = X) :=
  Holds.of_ite
    (Holds.of_bind (fun _ => True) ⟨fun _ _ => True.intro⟩ (fun _ _ =>
      Holds.of_pure (walker.addDiagnostic_bal _ _ _ _ h)))
    (Holds.of_pure h)

theorem walker.walkFor_bal {W : walker.WalkFn} (hW : walker.Balanced W) (D : walker.Deps)
    {w : walker.Walker} {X : Option (Option environment.Environment)}
    (name vector : Option ast.Node) (value : Option (List ast.Node)) (h : w.enclosing = X) :
    Holds (walker.walkFor W D w name vector value) (fun w1 => w1.enclosing = X) :=
  Holds.of_bind _ (hW _ name _ (walker.enclosing_Enclose w)) (fun ⟨_, _, _⟩ h1 =>
    Holds.of_bind _ (hW _ vector _ h1) (fun ⟨_, _, _⟩ h2 =>
      Holds.of_bind _ (walker.checkIterable_bal D _ _ h2) (fun _ h3 =>
        Holds.of_bind _ (walker.walkBlockStatement_bal hW value h3) (fun _ h4 =>
          walker.Open_holds h4 h))))

theorem walker.walkWhile_bal {W : walker.WalkFn} (hW : walker.Balanced W)
    {w : walker.Walker} {X : Option (Option environment.Environment)}
    (statement value : Option ast.Node) (h : w.enclosing = X) :
    Holds (walker.walkWhile W w statement value) (fun r => r.1.enclosing = X) :=
  Holds.of_bind _ (hW _ statement X h) (fun ⟨w1, _, _⟩ h1 =>
    Holds.of_bind _ (hW _ value _ (walker.enclosing_Enclose w1)) (fun ⟨_, _, _⟩ h2 =>
      Holds.of_bind _ (walker.Open_holds h2 h1) (fun _ h3 => Holds.of_pure h3)))

theorem walker.walkAlternative_bal {W : walker.WalkFn} (hW : walker.Balanced W)
    {w : walker.Walker} {X : Option (Option environment.Environment)}
    (alternative : Option ast.Node) (h : w.enclosing = X) :
    Holds (walker.walkAlternative W w alternative) (fun w1 => w1.enclosing = X) := by
  cases alternative with
  | none => exact Holds.of_ok h
  | some a =>
    exact Holds.of_bind _ (hW _ (some a) _ (walker.enclosing_Enclose w)) (fun ⟨_, _, _⟩ h2 =>
      walker.Open_holds h2 h)

theorem walker.walkIf_bal {W : walker.WalkFn} (hW : walker.Balanced W)
    {w : walker.Walker} {X : Option (Option environment.Environment)}
    (condition consequence alternative : Option ast.Node) (h : w.enclosing = X) :
    Holds (walker.walkIf W w condition consequence alternative) (fun w1 => w1.enclosing = X) :=
  Holds.of_bind _ (hW _ condition X h) (fun ⟨w1, _, _⟩ h1 =>
    Holds.of_bind _ (hW _ consequence _ (walker.enclosing_Enclose w1)) (fun ⟨_, _, _⟩ h2 =>
      Holds.of_bind _ (walker.Open_holds h2 h1) (fun _ h3 =>
        walker.walkAlternative_bal hW alternative h3)))

theorem walker.walkInfixExpressionDollar_bal {W : walker.WalkFn} (hW : walker.Balanced W)
    {w : walker.Walker} {X : Option (Option environment.Environment)} (tok : token.Item)
    (left right : Option ast.Node) (h : w.enclosing = X) :
    Holds (walker.walkInfixExpressionDollar W w tok left right) (fun r => r.1.enclosing = X) :=
  Holds.of_bind _ (hW _ left X h) (fun ⟨_, _, _⟩ h1 =>
    hW _ right X (walker.fatalWhen_bal _ _ _ _ h1))

theorem walker.walkInfixExpressionPipe_bal {W : walker.WalkFn} (hW : walker.Balanced W)
    {w : walker.Walker} {X : Option (Option environment.Environment)} (tok : token.Item)
    (left right : Option ast.Node) (h : w.enclosing = X) :
    Holds (walker.walkInfixExpressionPipe W w tok left right) (fun r => r.1.enclosing = X) :=
  Holds.of_bind _ (hW _ left X h) (fun ⟨_, _, _⟩ h1 =>
    hW _ right X (walker.fatalWhen_bal _ _ _ _ h1))

theorem walker.walkInfixExpressionRange_bal {W : walker.WalkFn} (hW : walker.Balanced W)
    (D : walker.Deps) {w : walker.Walker} {X : Option (Option environment.Environment)}
    (tok : token.Item) (left right : Option ast.Node) (h : w.enclosing = X) :
    Holds (walker.walkInfixExpressionRange W D w tok left right)
      (fun r => r.1.enclosing = X) := by
  unfold walker.walkInfixExpressionRange
  refine Holds.of_bind _ (hW _ left X h) (fun ⟨w1, lt, ln⟩ h1 => ?_)
  have h2 := walker.fatalWhen_bal (!D.validMathTypes w1 lt) tok (str "`%v`:`%v` is not valid")
    [.types lt, .types lt] h1
  cases right with
  | none => exact Holds.of_pure h2
  | some r =>
    exact Holds.of_bind _ (hW _ (some r) X h2) (fun ⟨_, _, _⟩ h3 =>
      Holds.of_pure (walker.fatalWhen_bal _ _ _ _ h3))

theorem walker.walkInfixExpressionComparison_bal {W : walker.WalkFn} (hW : walker.Balanced W)
    (D : walker.Deps) {w : walker.Walker} {X : Option (Option environment.Environment)}
    (tok : token.Item) (operator : List Nat) (left right : Option ast.Node)
    (h : w.enclosing = X) :
    Holds (walker.walkInfixExpressionComparison W D w tok operator left right)
      (fun r => r.1.enclosing = X) := by
  unfold walker.walkInfixExpressionComparison
  refine Holds.of_bind _ (hW _ left X h) (fun ⟨w1, lt, ln⟩ h1 => ?_)
  cases right with
  | none => exact Holds.of_pure h1
  | some r =>
    refine Holds.of_bind _ (hW _ (some r) X h1) (fun ⟨w2, rt, rn⟩ h2 => Holds.of_pure ?_)
    dsimp only
    split
    · exact walker.addDiagnostic_bal _ _ _ _ h2
    · exact h2

theorem walker.walkInfixExpressionDefault_bal {W : walker.WalkFn} (hW : walker.Balanced W)
    {w : walker.Walker} {X : Option (Option environment.Environment)}
    (left right : Option ast.Node) (h : w.enclosing = X) :
    Holds (walker.walkInfixExpressionDefault W w left right) (fun r => r.1.enclosing = X) := by
  unfold walker.walkInfixExpressionDefault
  refine Holds.of_bind _ (hW _ left X h) (fun ⟨w1, lt, ln⟩ h1 => ?_)
  cases right with
  | none => exact Holds.of_pure h1
  | some r => exact hW _ (some r) X h1

theorem walker.walkInfixExpressionMath_bal {W : walker.WalkFn} (hW : walker.Balanced W)
    (D : walker.Deps) {w : walker.Walker} {X : Option (Option environment.Environment)}
    (tok : token.Item) (operator : List Nat) (left right : Option ast.Node)
    (h : w.enclosing = X) :
    Holds (walker.walkInfixExpressionMath W D w tok operator left right)
      (fun r => r.1.enclosing = X) := by
  unfold walker.walkInfixExpressionMath
  refine Holds.of_bind _ (hW _ left X h) (fun ⟨w1, lt, ln⟩ h1 => ?_)
  have h2 := walker.fatalWhen_bal (!D.validMathTypes w1 lt) tok
    (str "`%v` %v `%v` is not valid") [.types lt, .text operator, .types lt] h1
  cases right with
  | none => exact Holds.of_pure h2
  | some r =>
    exact Holds.of_bind _ (hW _ (some r) X h2) (fun ⟨_, _, _⟩ h3 =>
      Holds.of_pure (walker.fatalWhen_bal _ _ _ _ h3))

theorem walker.reportProbe_bal {w : walker.Walker} {X : Option (Option environment.Environment)}
    (probe : Bool × Bool) (tok : token.Item) (errMsg missMsg : List Nat)
    (args : List diagnostics.Arg) (h : w.enclosing = X) :
    (walker.reportProbe w probe tok errMsg missMsg args).enclosing = X := by
  unfold walker.reportProbe
  dsimp only
  repeat' split
  all_goals exact h

theorem walker.walkInfixExpressionNS_bal {W : walker.WalkFn} (hW : walker.Balanced W)
    (D : walker.Deps) {w : walker.Walker} {X : Option (Option environment.Environment)}
    (left right : Option ast.Node) (operator : List Nat) (h : w.enclosing = X) :
    Holds (walker.walkInfixExpressionNS W D w left right operator)
      (fun r => r.1.enclosing = X) := by
  unfold walker.walkInfixExpressionNS
  refine Holds.of_bind _ (hW _ left X h) (fun ⟨w1, lt, ln⟩ h1 => ?_)
  refine Holds.of_bind (fun _ => True) ⟨fun _ _ => True.intro⟩ (fun li _ => ?_)
  have h2 := walker.reportProbe_bal (D.PackageIsInstalled li.Value) li
    (str "error checking if package `%v` is installed") (str "package `%v` is not installed")
    [.text li.Value] h1
  cases right with
  | none => exact Holds.of_pure h2
  | some r =>
    exact Holds.of_bind _ (hW _ (some r) X h2) (fun ⟨_, _, _⟩ h3 =>
      Holds.of_bind (fun _ => True) ⟨fun _ _ => True.intro⟩ (fun _ _ =>
        Holds.of_pure (walker.reportProbe_bal _ _ _ _ _ h3)))

theorem walker.checkAssigned_bal (D : walker.Deps) {w : walker.Walker}
    {X : Option (Option environment.Environment)} (ln : Option ast.Node)
    (h : w.enclosing = X) :
    Holds (walker.checkAssigned D w ln) (fun w1 => w1.enclosing = X) := by
  unfold walker.checkAssigned
  split
  · exact Holds.of_bind (fun _ => True) ⟨fun _ _ => True.intro⟩ (fun _ _ =>
      Holds.of_pure (walker.fatalWhen_bal _ _ _ _ (walker.fatalWhen_bal _ _ _ _ h)))
  · exact Holds.of_ok h

theorem walker.walkInfixExpressionEqual_bal {W : walker.WalkFn} (hW : walker.Balanced W)
    (D : walker.Deps) {w : walker.Walker} {X : Option (Option environment.Environment)}
    (tok : token.Item) (left right : Option ast.Node) (h : w.enclosing = X) :
    Holds (walker.walkInfixExpressionEqual W D w tok left right)
      (fun r => r.1.enclosing = X) :=
  Holds.of_bind _ (hW _ left X h) (fun ⟨_, _, ln⟩ h1 =>
    Holds.of_bind _ (walker.checkAssigned_bal D ln h1) (fun _ h2 =>
      Holds.of_bind _ (hW _ right X (walker.fatalWhen_bal _ _ _ _ h2)) (fun ⟨_, _, _⟩ h3 =>
        Holds.of_pure (walker.fatalWhen_bal _ _ _ _ h3))))

theorem walker.walkInfixExpressionEqualParent_bal {W : walker.WalkFn}
    (hW : walker.Balanced W) {w : walker.Walker} {X : Option (Option environment.Environment)}
    (left right : Option ast.Node) (h : w.enclosing = X) :
    Holds (walker.walkInfixExpressionEqualParent W w left right)
      (fun r => r.1.enclosing = X) := by
  unfold walker.walkInfixExpressionEqualParent
  refine Holds.of_bind _ (hW _ left X h) (fun ⟨w1, lt, ln⟩ h1 => ?_)
  cases right with
  | none => exact Holds.of_pure h1
  | some r => exact Holds.of_bind _ (hW _ (some r) X h1) (fun ⟨_, _, _⟩ h2 => Holds.of_pure h2)

theorem walker.walkInfixExpression_bal {W : walker.WalkFn} (hW : walker.Balanced W)
    (D : walker.Deps) {w : walker.Walker} {X : Option (Option environment.Environment)}
    (tok : token.Item) (left : Option ast.Node) (operator : List Nat) (right : Option ast.Node)
    (h : w.enclosing = X) :
    Holds (walker.walkInfixExpression W D w tok left operator right)
      (fun r => r.1.enclosing = X) := by
  unfold walker.walkInfixExpression
  repeat' first
    | apply Holds.of_ite
    | exact walker.walkInfixExpressionEqual_bal hW D tok left right h
    | exact walker.walkInfixExpressionNS_bal hW D left right _ h
    | exact walker.walkInfixExpressionMath_bal hW D tok operator left right h
    | exact walker.walkInfixExpressionEqualParent_bal hW left right h
    | exact walker.walkInfixExpressionComparison_bal hW D tok operator left right h
    | exact walker.walkInfixExpressionPipe_bal hW tok left right h
    | exact walker.walkInfixExpressionRange_bal hW D tok left right h
    | exact walker.walkInfixExpressionDollar_bal hW tok left right h
    | exact walker.walkInfixExpressionDefault_bal hW left right h

theorem walker.walkLetStatement_bal {W : walker.WalkFn} (hW : walker.Balanced W)
    (D : walker.Deps) {w : walker.Walker} {X : Option (Option environment.Environment)}
    (tok : token.Item) (name : List Nat) (ty : ast.Types) (value : Option ast.Node)
    (h : w.enclosing = X) :
    Holds (walker.walkLetStatement W D w tok name ty value) (fun r => r.1.enclosing = X) :=
  Holds.of_bind (fun _ => True) ⟨fun _ _ => True.intro⟩ (fun _ _ =>
    Holds.of_ite (hW _ value X (walker.addDiagnostic_bal _ _ _ _ h))
      (Holds.of_bind _ (walker.SetVariable_holds _ _ h) (fun _ h1 =>
        Holds.of_bind _ (hW _ value X h1) (fun ⟨_, _, _⟩ h2 =>
          Holds.of_pure (walker.fatalWhen_bal _ _ _ _ h2)))))

theorem walker.walkConstStatement_bal {W : walker.WalkFn} (hW : walker.Balanced W)
    {w : walker.Walker} {X : Option (Option environment.Environment)}
    (tok : token.Item) (name : List Nat) (ty : ast.Types) (value : Option ast.Node)
    (h : w.enclosing = X) :
    Holds (walker.walkConstStatement W w tok name ty value) (fun r => r.1.enclosing = X) :=
  Holds.of_bind (fun _ => True) ⟨fun _ _ => True.intro⟩ (fun _ _ =>
    Holds.of_ite (hW _ value X (walker.addDiagnostic_bal _ _ _ _ h))
      (Holds.of_bind _ (walker.SetVariable_holds _ _ (walker.fatalWhen_bal _ _ _ _ h))
        (fun _ h1 => hW _ value X h1)))

theorem walker.walkDecoratorClass_bal {W : walker.WalkFn} (hW : walker.Balanced W)
    {w : walker.Walker} {X : Option (Option environment.Environment)} (node : ast.Node)
    (tok : token.Item) (ty : Option (token.Item × List Nat × ast.Types))
    (h : w.enclosing = X) :
    Holds (walker.walkDecoratorClass W w node tok ty) (fun r => r.1.enclosing = X) := by
  unfold walker.walkDecoratorClass
  split
  · exact Holds.of_error
  · exact Holds.of_bind _ (walker.getEnv_holds w) (fun _ he =>
      hW _ _ X (walker.enclosing_setEnv h he (environment.Environment.SetClass_outer _ _ _)))

theorem walker.walkTypeStatement_bal {w : walker.Walker}
    {X : Option (Option environment.Environment)} (tok : token.Item) (name : List Nat)
    (ty : ast.Types) (h : w.enclosing = X) :
    Holds (walker.walkTypeStatement w tok name ty) (fun w1 => w1.enclosing = X) :=
  Holds.of_bind _ (walker.getEnv_holds w) (fun e he =>
    Holds.of_pure (walker.enclosing_setEnv
      (walker.fatalWhen_bal (e.GetType name false).2 tok (str "type `%v` already defined")
        [.text name] h)
      (show (walker.fatalWhen (e.GetType name false).2 w tok (str "type `%v` already defined")
        [.text name]).env = some e by
          unfold walker.fatalWhen
          split
          · exact he
          · exact he)
      (environment.Environment.SetType_outer _ _ _)))

theorem walker.walkIdentifier_bal {w : walker.Walker}
    {X : Option (Option environment.Environment)} (node : ast.Node) (tok : token.Item)
    (value : List Nat) (ty : ast.Types) (h : w.enclosing = X) :
    Holds (walker.walkIdentifier w node tok value ty) (fun r => r.1.enclosing = X) := by
  unfold walker.walkIdentifier
  refine Holds.of_bind _ (walker.getEnv_holds w) (fun e he => ?_)
  dsimp only
  split
  · refine Holds.of_pure ?_
    split
    · exact walker.enclosing_setEnv (walker.addDiagnostic_bal _ _ _ _ h) he
        (environment.Environment.SetVariableUsed_outer _ _)
    · exact walker.enclosing_setEnv h he (environment.Environment.SetVariableUsed_outer _ _)
  · split
    · exact Holds.of_bind (fun _ => True) ⟨fun _ _ => True.intro⟩ (fun ⟨_, _⟩ _ => Holds.of_pure h)
    · split
      · exact Holds.of_pure
          (walker.enclosing_setEnv h he (environment.Environment.SetTypeUsed_outer _ _))
      · exact Holds.of_pure h

theorem walker.walkVectorFrom_bal {W : walker.WalkFn} (hW : walker.Balanced W) :
    ∀ (xs : List ast.Node) (w : walker.Walker) (ts : ast.Types)
      (X : Option (Option environment.Environment)),
      w.enclosing = X → Holds (walker.walkVectorFrom W w xs ts) (fun r => r.1.enclosing = X)
  | [], _, _, _, h => Holds.of_ok h
  | s :: rest, w, ts, X, h =>
    Holds.of_bind _ (hW w (some s) X h) (fun ⟨w1, t, _⟩ h1 =>
      walker.walkVectorFrom_bal hW rest w1 (ts ++ t) X h1)

theorem walker.walkVectorLiteral_bal {W : walker.WalkFn} (hW : walker.Balanced W)
    (D : walker.Deps) {w : walker.Walker} {X : Option (Option environment.Environment)}
    (node : ast.Node) (tok : token.Item) (value : List ast.Node) (h : w.enclosing = X) :
    Holds (walker.walkVectorLiteral W D w node tok value) (fun r => r.1.enclosing = X) :=
  Holds.of_bind _ (walker.walkVectorFrom_bal hW value w [] X h) (fun ⟨_, _⟩ h1 =>
    Holds.of_pure (walker.fatalWhen_bal _ _ _ _ h1))

theorem walker.walkDefault_bal {W : walker.WalkFn} (hW : walker.Balanced W)
    {w : walker.Walker} {X : Option (Option environment.Environment)} (d : Option ast.Node)
    (h : w.enclosing = X) :
    Holds (walker.walkDefault W w d) (fun w1 => w1.enclosing = X) := by
  cases d with
  | none => exact Holds.of_ok h
  | some d => exact Holds.of_bind _ (hW _ (some d) X h) (fun ⟨_, _, _⟩ h1 => Holds.of_pure h1)

theorem walker.walkNamedParameters_bal {W : walker.WalkFn} (hW : walker.Balanced W) :
    ∀ (ps : List (ast.Parameter ast.Node)) (w : walker.Walker) (m : List (List Nat))
      (X : Option (Option environment.Environment)),
      w.enclosing = X →
      Holds (walker.walkNamedParameters W w ps m) (fun w1 => w1.enclosing = X)
  | [], _, _, _, h => Holds.of_ok h
  | p :: rest, _, m, X, h =>
    Holds.of_bind _ (walker.walkDefault_bal hW p.Default h) (fun _ h1 =>
      Holds.of_bind _ (walker.SetVariable_holds _ _ h1) (fun w2 h2 =>
        Holds.of_ite (walker.walkNamedParameters_bal hW rest w2 m X h2)
          (walker.walkNamedParameters_bal hW rest _ _ X (walker.fatalWhen_bal _ _ _ _ h2))))

theorem walker.walkAnonymousParameters_bal {W : walker.WalkFn} (hW : walker.Balanced W) :
    ∀ (ps : List (ast.Parameter ast.Node)) (w : walker.Walker) (m : List (List Nat))
      (X : Option (Option environment.Environment)),
      w.enclosing = X →
      Holds (walker.walkAnonymousParameters W w ps m) (fun w1 => w1.enclosing = X)
  | [], _, _, _, h => Holds.of_ok h
  | p :: rest, _, _, X, h =>
    Holds.of_bind _ (walker.walkDefault_bal hW p.Default h) (fun _ h1 =>
      Holds.of_bind _ (walker.SetVariable_holds _ _ h1) (fun _ h2 =>
        walker.walkAnonymousParameters_bal hW rest _ _ X (walker.fatalWhen_bal _ _ _ _ h2)))

theorem walker.bindReceiver_bal {w : walker.Walker}
    {X : Option (Option environment.Environment)} (tok : token.Item) (method : Option ast.Ty)
    (methodVariable : List Nat) (h : w.enclosing = X) :
    Holds (walker.bindReceiver w tok method methodVariable) (fun r => r.1.enclosing = X) := by
  cases method with
  | none => exact Holds.of_ok h
  | some m => exact Holds.of_bind _ (walker.SetVariable_holds _ _ h) (fun _ h1 => Holds.of_pure h1)

theorem walker.walkNamedFunctionLiteral_bal {W : walker.WalkFn} (hW : walker.Balanced W)
    {w : walker.Walker} {X : Option (Option environment.Environment)} (node : ast.Node)
    (tok : token.Item) (name : List Nat) (method : Option ast.Ty) (methodVariable : List Nat)
    (parameters : List (ast.Parameter ast.Node)) (body : Option (List ast.Node))
    (h : w.enclosing = X) :
    Holds (walker.walkNamedFunctionLiteral W w node tok name method methodVariable parameters
      body) (fun w1 => w1.enclosing = X) :=
  Holds.of_bind _ (walker.getEnv_holds w) (fun e he =>
    Holds.of_ite (Holds.of_pure (walker.addDiagnostic_bal _ _ _ _ h))
      (Holds.of_bind _
        (walker.bindReceiver_bal tok method methodVariable
          (walker.enclosing_Enclose (w.setEnv (some (e.SetFunction name
            { environment.Object.zero with Token := tok, Value := some node })))))
        (fun ⟨_, m⟩ h1 =>
          Holds.of_bind _ (walker.walkNamedParameters_bal hW parameters _ m _ h1) (fun _ h2 =>
            Holds.of_bind _ (walker.walkBody_bal hW body h2) (fun _ h3 =>
              walker.Open_holds h3
                (walker.enclosing_setEnv h he
                  (environment.Environment.SetFunction_outer _ _ _)))))))

theorem walker.walkAnonymousFunctionLiteral_bal {W : walker.WalkFn} (hW : walker.Balanced W)
    {w : walker.Walker} {X : Option (Option environment.Environment)}
    (parameters : List (ast.Parameter ast.Node)) (body : Option (List ast.Node))
    (h : w.enclosing = X) :
    Holds (walker.walkAnonymousFunctionLiteral W w parameters body)
      (fun w1 => w1.enclosing = X) :=
  Holds.of_bind _ (walker.walkAnonymousParameters_bal hW parameters _ [] _
    (walker.enclosing_Enclose w)) (fun _ h2 =>
      Holds.of_bind _ (walker.walkBody_bal hW body h2) (fun _ h3 => walker.Open_holds h3 h))

theorem walker.walkFunctionLiteral_bal {W : walker.WalkFn} (hW : walker.Balanced W)
    {w : walker.Walker} {X : Option (Option environment.Environment)} (node : ast.Node)
    (tok : token.Item) (name : List Nat) (method : Option ast.Ty) (methodVariable : List Nat)
    (parameters : List (ast.Parameter ast.Node)) (body : Option (List ast.Node))
    (h : w.enclosing = X) :
    Holds (walker.walkFunctionLiteral W w node tok name method methodVariable parameters body)
      (fun w1 => w1.enclosing = X) :=
  Holds.of_ite (walker.walkAnonymousFunctionLiteral_bal hW parameters body h)
    (walker.walkNamedFunctionLiteral_bal hW node tok name method methodVariable parameters body h)

theorem walker.thenNode_bal {r : Except Fault walker.Walker}
    {X : Option (Option environment.Environment)} (node : ast.Node)
    (h : Holds r (fun w1 => w1.enclosing = X)) :
    Holds (walker.thenNode r node) (fun r => r.1.enclosing = X) :=
  Holds.of_bind _ h (fun _ h1 => Holds.of_pure h1)

theorem walker.dropResult_bal {r : Except Fault walker.Result}
    {X : Option (Option environment.Environment)} (node : ast.Node)
    (h : Holds r (fun r => r.1.enclosing = X)) :
    Holds (walker.dropResult r node) (fun r => r.1.enclosing = X) :=
  Holds.of_bind _ h (fun ⟨_, _, _⟩ h1 => Holds.of_pure h1)

/-- The walk is balanced at every depth of calls. -/
theorem walker.Walk_balanced (D : walker.Deps) : ∀ fuel : Nat, walker.Balanced (walker.Walk D fuel)
  | 0 => fun _ _ _ _ => Holds.of_error
  | fuel + 1 => by
    have hW := walker.Walk_balanced D fuel
    intro w node X h
    cases node with
    | none => exact Holds.of_ok h
    | some n =>
      cases n with
      | Program statements => exact walker.walkProgramFrom_bal hW statements w [] none X h
      | ExpressionStatement expression =>
        cases expression with
        | none => exact Holds.of_ok h
        | some e => exact hW w (some e) X h
      | Square statements => exact walker.walkSquareFrom_bal hW statements w [] none X h
      | LetStatement tok name ty value => exact walker.walkLetStatement_bal hW D tok name ty value h
      | ConstStatement tok name ty value =>
        exact walker.walkConstStatement_bal hW tok name ty value h
      | ReturnStatement value => exact hW w value X h
      | TypeStatement tok name ty =>
        exact walker.thenNode_bal _ (walker.walkTypeStatement_bal tok name ty h)
      | DecoratorClass tok ty =>
        exact walker.dropResult_bal _ (walker.walkDecoratorClass_bal hW _ tok ty h)
      | DecoratorGeneric func => exact walker.dropResult_bal _ (hW w func X h)
      | DecoratorDefault func => exact walker.dropResult_bal _ (hW w func X h)
      | Keyword tok ty => exact Holds.of_ok h
      | Null tok ty => exact Holds.of_ok h
      | CommentStatement tok => exact Holds.of_ok h
      | BlockStatement statements =>
        exact walker.thenNode_bal _ (walker.walkEach_bal hW statements w X h)
      | Attrbute tok => exact Holds.of_ok h
      | Identifier tok value ty => exact walker.walkIdentifier_bal _ tok value ty h
      | Boolean tok ty => exact Holds.of_ok h
      | IntegerLiteral tok ty => exact Holds.of_ok h
      | FloatLiteral tok ty => exact Holds.of_ok h
      | VectorLiteral tok value => exact walker.walkVectorLiteral_bal hW D _ tok value h
      | SquareRightLiteral tok => exact Holds.of_ok h
      | StringLiteral tok ty => exact Holds.of_ok h
      | PrefixExpression tok right => exact hW w right X h
      | For name vector value =>
        exact walker.thenNode_bal _ (walker.walkFor_bal hW D name vector value h)
      | While statement value => exact walker.walkWhile_bal hW statement value h
      | InfixExpression tok left operator right =>
        exact walker.walkInfixExpression_bal hW D tok left operator right h
      | IfExpression condition consequence alternative =>
        exact walker.thenNode_bal _ (walker.walkIf_bal hW condition consequence alternative h)
      | FunctionLiteral tok name method methodVariable parameters body returnType =>
        exact walker.thenNode_bal _
          (walker.walkFunctionLiteral_bal hW _ tok name method methodVariable parameters body h)
      | CallExpression tok name arguments function =>
        exact walker.walkCallExpression_bal hW D _ name arguments function h
      | Other tok => exact Holds.of_ok h

theorem walker.walkSquareFrom_noReturn {W : walker.WalkFn} (hW : walker.NoReturn W) :
    ∀ (xs : List ast.Node) (w : walker.Walker) (t : ast.Types) (n : Option ast.Node),
      ast.isReturn n = false →
      Holds (walker.walkSquareFrom W w xs t n) (fun r => ast.isReturn r.2.2 = false)
  | [], _, _, _, h => Holds.of_ok h
  | s :: rest, w, _, _, _ =>
    Holds.of_bind _ (hW w (some s)) (fun ⟨w1, t1, n1⟩ h1 =>
      walker.walkSquareFrom_noReturn hW rest w1 t1 n1 h1)

theorem walker.walkProgramFrom_noReturn {W : walker.WalkFn} (hW : walker.NoReturn W) :
    ∀ (xs : List ast.Node) (w : walker.Walker) (t : ast.Types) (n : Option ast.Node),
      ast.isReturn n = false →
      Holds (walker.walkProgramFrom W w xs t n) (fun r => ast.isReturn r.2.2 = false)
  | [], _, _, _, h => Holds.of_ok h
  | s :: rest, w, _, _, _ =>
    Holds.of_bind _ (hW w (some s)) (fun ⟨_, t1, n1⟩ h1 =>
      Holds.of_bind (fun _ => True) ⟨fun _ _ => True.intro⟩ (fun w2 _ =>
        walker.walkProgramFrom_noReturn hW rest w2 t1 n1 h1))

theorem walker.walkKnownCallExpression_noReturn (W : walker.WalkFn) (D : walker.Deps)
    (w : walker.Walker) (node : ast.Node) (arguments : List (ast.Argument ast.Node))
    (fn : environment.Object) (hn : ast.isReturn (some node) = false) :
    Holds (walker.walkKnownCallExpression W D w node arguments fn)
      (fun r => ast.isReturn r.2.2 = false) :=
  Holds.of_bind (fun _ => True) ⟨fun _ _ => True.intro⟩ (fun ⟨_, _⟩ _ =>
    Holds.of_bind (fun _ => True) ⟨fun _ _ => True.intro⟩ (fun _ _ => Holds.of_pure hn))

theorem walker.walkCallExpression_noReturn {W : walker.WalkFn} (hW : walker.NoReturn W)
    (D : walker.Deps) (w : walker.Walker) (node : ast.Node) (name : List Nat)
    (arguments : List (ast.Argument ast.Node)) (function : Option ast.Node)
    (hn : ast.isReturn (some node) = false) :
    Holds (walker.walkCallExpression W D w node name arguments function)
      (fun r => ast.isReturn r.2.2 = false) :=
  Holds.of_bind (fun _ => True) ⟨fun _ _ => True.intro⟩ (fun _ _ =>
    Holds.of_bind (fun _ => True) ⟨fun _ _ => True.intro⟩ (fun _ _ =>
      Holds.of_ite (walker.walkKnownCallExpression_noReturn W D _ node arguments _ hn)
        (Holds.of_bind (fun _ => True) ⟨fun _ _ => True.intro⟩ (fun _ _ => hW _ function))))

theorem walker.walkWhile_noReturn {W : walker.WalkFn} (hW : walker.NoReturn W)
    (w : walker.Walker) (statement value : Option ast.Node) :
    Holds (walker.walkWhile W w statement value) (fun r => ast.isReturn r.2.2 = false) :=
  Holds.of_bind (fun _ => True) ⟨fun _ _ => True.intro⟩ (fun ⟨_, _, _⟩ _ =>
    Holds.of_bind _ (hW _ value) (fun ⟨_, _, _⟩ h2 =>
      Holds.of_bind (fun _ => True) ⟨fun _ _ => True.intro⟩ (fun _ _ => Holds.of_pure h2)))

theorem walker.walkInfixExpressionDollar_noReturn {W : walker.WalkFn} (hW : walker.NoReturn W)
    (w : walker.Walker) (tok : token.Item) (left right : Option ast.Node) :
    Holds (walker.walkInfixExpressionDollar W w tok left right)
      (fun r => ast.isReturn r.2.2 = false) :=
  Holds.of_bind (fun _ => True) ⟨fun _ _ => True.intro⟩ (fun ⟨_, _, _⟩ _ => hW _ right)

theorem walker.walkInfixExpressionPipe_noReturn {W : walker.WalkFn} (hW : walker.NoReturn W)
    (w : walker.Walker) (tok : token.Item) (left right : Option ast.Node) :
    Holds (walker.walkInfixExpressionPipe W w tok left right)
      (fun r => ast.isReturn r.2.2 = false) :=
  Holds.of_bind (fun _ => True) ⟨fun _ _ => True.intro⟩ (fun ⟨_, _, _⟩ _ => hW _ right)

theorem walker.walkInfixExpressionRange_noReturn {W : walker.WalkFn} (hW : walker.NoReturn W)
    (D : walker.Deps) (w : walker.Walker) (tok : token.Item) (left right : Option ast.Node) :
    Holds (walker.walkInfixExpressionRange W D w tok left right)
      (fun r => ast.isReturn r.2.2 = false) := by
  unfold walker.walkInfixExpressionRange
  refine Holds.of_bind _ (hW _ left) (fun ⟨w1, lt, ln⟩ h1 => ?_)
  cases right with
  | none => exact Holds.of_pure h1
  | some r => exact Holds.of_bind _ (hW _ (some r)) (fun ⟨_, _, _⟩ h3 => Holds.of_pure h3)

theorem walker.walkInfixExpressionComparison_noReturn {W : walker.WalkFn}
    (hW : walker.NoReturn W) (D : walker.Deps) (w : walker.Walker) (tok : token.Item)
    (operator : List Nat) (left right : Option ast.Node) :
    Holds (walker.walkInfixExpressionComparison W D w tok operator left right)
      (fun r => ast.isReturn r.2.2 = false) := by
  unfold walker.walkInfixExpressionComparison
  refine Holds.of_bind _ (hW _ left) (fun ⟨w1, lt, ln⟩ h1 => ?_)
  cases right with
  | none => exact Holds.of_pure h1
  | some r => exact Holds.of_bind _ (hW _ (some r)) (fun ⟨_, _, _⟩ h3 => Holds.of_pure h3)

theorem walker.walkInfixExpressionDefault_noReturn {W : walker.WalkFn} (hW : walker.NoReturn W)
    (w : walker.Walker) (left right : Option ast.Node) :
    Holds (walker.walkInfixExpressionDefault W w left right)
      (fun r => ast.isReturn r.2.2 = false) := by
  unfold walker.walkInfixExpressionDefault
  refine Holds.of_bind _ (hW _ left) (fun ⟨w1, lt, ln⟩ h1 => ?_)
  cases right with
  | none => exact Holds.of_pure h1
  | some r => exact hW _ (some r)

theorem walker.walkInfixExpressionMath_noReturn {W : walker.WalkFn} (hW : walker.NoReturn W)
    (D : walker.Deps) (w : walker.Walker) (tok : token.Item) (operator : List Nat)
    (left right : Option ast.Node) :
    Holds (walker.walkInfixExpressionMath W D w tok operator left right)
      (fun r => ast.isReturn r.2.2 = false) := by
  unfold walker.walkInfixExpressionMath
  refine Holds.of_bind _ (hW _ left) (fun ⟨w1, lt, ln⟩ h1 => ?_)
  cases right with
  | none => exact Holds.of_pure h1
  | some r => exact Holds.of_bind _ (hW _ (some r)) (fun ⟨_, _, _⟩ h3 => Holds.of_pure h3)

theorem walker.walkInfixExpressionNS_noReturn {W : walker.WalkFn} (hW : walker.NoReturn W)
    (D : walker.Deps) (w : walker.Walker) (left right : Option ast.Node) (operator : List Nat) :
    Holds (walker.walkInfixExpressionNS W D w left right operator)
      (fun r => ast.isReturn r.2.2 = false) := by
  unfold walker.walkInfixExpressionNS
  refine Holds.of_bind _ (hW _ left) (fun ⟨w1, lt, ln⟩ h1 => ?_)
  refine Holds.of_bind (fun _ => True) ⟨fun _ _ => True.intro⟩ (fun li _ => ?_)
  cases right with
  | none => exact Holds.of_pure h1
  | some r =>
    exact Holds.of_bind _ (hW _ (some r)) (fun ⟨_, _, _⟩ h3 =>
      Holds.of_bind (fun _ => True) ⟨fun _ _ => True.intro⟩ (fun _ _ => Holds.of_pure h3))

theorem walker.walkInfixExpressionEqual_noReturn {W : walker.WalkFn} (hW : walker.NoReturn W)
    (D : walker.Deps) (w : walker.Walker) (tok : token.Item) (left right : Option ast.Node) :
    Holds (walker.walkInfixExpressionEqual W D w tok left right)
      (fun r => ast.isReturn r.2.2 = false) :=
  Holds.of_bind (fun _ => True) ⟨fun _ _ => True.intro⟩ (fun ⟨_, _, _⟩ _ =>
    Holds.of_bind (fun _ => True) ⟨fun _ _ => True.intro⟩ (fun _ _ =>
      Holds.of_bind _ (hW _ right) (fun ⟨_, _, _⟩ h3 => Holds.of_pure h3)))

theorem walker.walkInfixExpressionEqualParent_noReturn {W : walker.WalkFn}
    (hW : walker.NoReturn W) (w : walker.Walker) (left right : Option ast.Node) :
    Holds (walker.walkInfixExpressionEqualParent W w left right)
      (fun r => ast.isReturn r.2.2 = false) := by
  unfold walker.walkInfixExpressionEqualParent
  refine Holds.of_bind _ (hW _ left) (fun ⟨w1, lt, ln⟩ h1 => ?_)
  cases right with
  | none => exact Holds.of_pure h1
  | some r =>
    exact Holds.of_bind (fun _ => True) ⟨fun _ _ => True.intro⟩ (fun ⟨_, _, _⟩ _ => Holds.of_pure h1)

theorem walker.walkInfixExpression_noReturn {W : walker.WalkFn} (hW : walker.NoReturn W)
    (D : walker.Deps) (w : walker.Walker) (tok : token.Item) (left : Option ast.Node)
    (operator : List Nat) (right : Option ast.Node) :
    Holds (walker.walkInfixExpression W D w tok left operator right)
      (fun r => ast.isReturn r.2.2 = false) := by
  unfold walker.walkInfixExpression
  repeat' first
    | apply Holds.of_ite
    | exact walker.walkInfixExpressionEqual_noReturn hW D w tok left right
    | exact walker.walkInfixExpressionNS_noReturn hW D w left right _
    | exact walker.walkInfixExpressionMath_noReturn hW D w tok operator left right
    | exact walker.walkInfixExpressionEqualParent_noReturn hW w left right
    | exact walker.walkInfixExpressionComparison_noReturn hW D w tok operator left right
    | exact walker.walkInfixExpressionPipe_noReturn hW w tok left right
    | exact walker.walkInfixExpressionRange_noReturn hW D w tok left right
    | exact walker.walkInfixExpressionDollar_noReturn hW w tok left right
    | exact walker.walkInfixExpressionDefault_noReturn hW w left right

theorem walker.walkLetStatement_noReturn {W : walker.WalkFn} (hW : walker.NoReturn W)
    (D : walker.Deps) (w : walker.Walker) (tok : token.Item) (name : List Nat) (ty : ast.Types)
    (value : Option ast.Node) :
    Holds (walker.walkLetStatement W D w tok name ty value)
      (fun r => ast.isReturn r.2.2 = false) :=
  Holds.of_bind (fun _ => True) ⟨fun _ _ => True.intro⟩ (fun _ _ =>
    Holds.of_ite (hW _ value)
      (Holds.of_bind (fun _ => True) ⟨fun _ _ => True.intro⟩ (fun _ _ =>
        Holds.of_bind _ (hW _ value) (fun ⟨_, _, _⟩ h2 => Holds.of_pure h2))))

theorem walker.walkConstStatement_noReturn {W : walker.WalkFn} (hW : walker.NoReturn W)
    (w : walker.Walker) (tok : token.Item) (name : List Nat) (ty : ast.Types)
    (value : Option ast.Node) :
    Holds (walker.walkConstStatement W w tok name ty value)
      (fun r => ast.isReturn r.2.2 = false) :=
  Holds.of_bind (fun _ => True) ⟨fun _ _ => True.intro⟩ (fun _ _ =>
    Holds.of_ite (hW _ value)
      (Holds.of_bind (fun _ => True) ⟨fun _ _ => True.intro⟩ (fun _ _ => hW _ value)))

theorem walker.walkIdentifier_noReturn (w : walker.Walker) (node : ast.Node) (tok : token.Item)
    (value : List Nat) (ty : ast.Types) (hn : ast.isReturn (some node) = false) :
    Holds (walker.walkIdentifier w node tok value ty) (fun r => ast.isReturn r.2.2 = false) := by
  unfold walker.walkIdentifier
  refine Holds.of_bind (fun _ => True) ⟨fun _ _ => True.intro⟩ (fun e _ => ?_)
  dsimp only
  split
  · exact Holds.of_pure hn
  · split
    · exact Holds.of_bind (fun _ => True) ⟨fun _ _ => True.intro⟩ (fun ⟨_, _⟩ _ => Holds.of_pure hn)
    · split
      · exact Holds.of_pure hn
      · exact Holds.of_pure hn

theorem walker.walkVectorLiteral_noReturn (W : walker.WalkFn) (D : walker.Deps)
    (w : walker.Walker) (node : ast.Node) (tok : token.Item) (value : List ast.Node)
    (hn : ast.isReturn (some node) = false) :
    Holds (walker.walkVectorLiteral W D w node tok value)
      (fun r => ast.isReturn r.2.2 = false) :=
  Holds.of_bind (fun _ => True) ⟨fun _ _ => True.intro⟩ (fun ⟨_, _⟩ _ => Holds.of_pure hn)

theorem walker.thenNode_noReturn (r : Except Fault walker.Walker) (node : ast.Node)
    (hn : ast.isReturn (some node) = false) :
    Holds (walker.thenNode r node) (fun r => ast.isReturn r.2.2 = false) :=
  Holds.of_bind (fun _ => True) ⟨fun _ _ => True.intro⟩ (fun _ _ => Holds.of_pure hn)

theorem walker.dropResult_noReturn (r : Except Fault walker.Result) (node : ast.Node)
    (hn : ast.isReturn (some node) = false) :
    Holds (walker.dropResult r node) (fun r => ast.isReturn r.2.2 = false) :=
  Holds.of_bind (fun _ => True) ⟨fun _ _ => True.intro⟩ (fun ⟨_, _, _⟩ _ => Holds.of_pure hn)

/-- The walk never returns a return statement as its node: the case
`*ast.ReturnStatement` of `Walk` returns what the walk of the returned value
returns. -/
theorem walker.Walk_noReturn (D : walker.Deps) : ∀ fuel : Nat, walker.NoReturn (walker.Walk D fuel)
  | 0 => fun _ _ => Holds.of_error
  | fuel + 1 => by
    have hW := walker.Walk_noReturn D fuel
    intro w node
    cases node with
    | none => exact Holds.of_ok rfl
    | some n =>
      cases n with
      | Program statements => exact walker.walkProgramFrom_noReturn hW statements w [] none rfl
      | ExpressionStatement expression =>
        cases expression with
        | none => exact Holds.of_ok rfl
        | some e => exact hW w (some e)
      | Square statements => exact walker.walkSquareFrom_noReturn hW statements w [] none rfl
      | LetStatement tok name ty value => exact walker.walkLetStatement_noReturn hW D w tok name ty value
      | ConstStatement tok name ty value =>
        exact walker.walkConstStatement_noReturn hW w tok name ty value
      | ReturnStatement value => exact hW w value
      | TypeStatement tok name ty => exact walker.thenNode_noReturn _ _ rfl
      | DecoratorClass tok ty => exact walker.dropResult_noReturn _ _ rfl
      | DecoratorGeneric func => exact walker.dropResult_noReturn _ _ rfl
      | DecoratorDefault func => exact walker.dropResult_noReturn _ _ rfl
      | Keyword tok ty => exact Holds.of_ok rfl
      | Null tok ty => exact Holds.of_ok rfl
      | CommentStatement tok => exact Holds.of_ok rfl
      | BlockStatement statements => exact walker.thenNode_noReturn _ _ rfl
      | Attrbute tok => exact Holds.of_ok rfl
      | Identifier tok value ty => exact walker.walkIdentifier_noReturn w _ tok value ty rfl
      | Boolean tok ty => exact Holds.of_ok rfl
      | IntegerLiteral tok ty => exact Holds.of_ok rfl
      | FloatLiteral tok ty => exact Holds.of_ok rfl
      | VectorLiteral tok value => exact walker.walkVectorLiteral_noReturn _ D w _ tok value rfl
      | SquareRightLiteral tok => exact Holds.of_ok rfl
      | StringLiteral tok ty => exact Holds.of_ok rfl
      | PrefixExpression tok right => exact hW w right
      | For name vector value => exact walker.thenNode_noReturn _ _ rfl
      | While statement value => exact walker.walkWhile_noReturn hW w statement value
      | InfixExpression tok left operator right =>
        exact walker.walkInfixExpression_noReturn hW D w tok left operator right
      | IfExpression condition consequence alternative =>
        exact walker.thenNode_noReturn _ _ rfl
      | FunctionLiteral tok name method methodVariable parameters body returnType =>
        exact walker.thenNode_noReturn _ _ rfl
      | CallExpression tok name arguments function =>
        exact walker.walkCallExpression_noReturn hW D w _ name arguments function rfl
      | Other tok => exact Holds.of_ok rfl

theorem NoFuel.at_ok {α : Type} (a : α) : NoFuel (Except.ok a : Except Fault α) :=
  ⟨fun h => Except.noConfusion h⟩

theorem NoFuel.at_pure {α : Type} (a : α) : NoFuel (Pure.pure a : Except Fault α) :=
  ⟨fun h => Except.noConfusion h⟩

theorem NoFuel.at_panic {α : Type} : NoFuel (Except.error Fault.panic : Except Fault α) :=
  ⟨fun h => Fault.noConfusion (Except.error.inj h)⟩

theorem NoFuel.at_bind {α β : Type} {x : Except Fault α} {f : α → Except Fault β}
    (hx : NoFuel x) (hf : ∀ a, NoFuel (f a)) : NoFuel (x >>= f) := by
  constructor
  cases x with
  | error e =>
    intro h
    have h2 : e = Fault.fuel := Except.error.inj h
    subst h2
    exact hx.out rfl
  | ok a => exact (hf a).out

theorem NoFuel.bind_holds {α β : Type} {x : Except Fault α} {f : α → Except Fault β}
    (P : α → Prop) (hP : Holds x P) (hx : NoFuel x) (hf : ∀ a, P a → NoFuel (f a)) :
    NoFuel (x >>= f) := by
  constructor
  cases x with
  | error e =>
    intro h
    have h2 : e = Fault.fuel := Except.error.inj h
    subst h2
    exact hx.out rfl
  | ok a => exact (hf a (hP.out a rfl)).out

theorem NoFuel.at_ite {α : Type} {c : Prop} [Decidable c] {x y : Except Fault α}
    (hx : NoFuel x) (hy : NoFuel y) : NoFuel (if c then x else y) := by
  split
  · exact hx
  · exact hy

theorem walker.getEnv_noFuel (w : walker.Walker) : NoFuel w.getEnv := by
  unfold walker.Walker.getEnv
  split
  · exact NoFuel.at_ok _
  · exact NoFuel.at_panic

theorem walker.Open_noFuel (w : walker.Walker) : NoFuel w.Open :=
  NoFuel.at_bind (walker.getEnv_noFuel w) (fun _ => NoFuel.at_pure _)

theorem walker.SetVariable_noFuel (w : walker.Walker) (name : List Nat)
    (val : environment.Object) : NoFuel (w.SetVariable name val) :=
  NoFuel.at_bind (walker.getEnv_noFuel w) (fun _ => NoFuel.at_pure _)

theorem walker.itemOf_noFuel (D : walker.Deps) (n : Option ast.Node) :
    NoFuel (walker.itemOf D n) := by
  cases n with
  | none => exact NoFuel.at_panic
  | some n => exact NoFuel.at_ok _

theorem walker.functionOf_noFuel (fn : environment.Object) : NoFuel (walker.functionOf fn) := by
  unfold walker.functionOf
  split
  · exact NoFuel.at_ok _
  · exact NoFuel.at_panic

theorem walker.walkEach_noFuel {W : walker.WalkFn} :
    ∀ (xs : List ast.Node) (w : walker.Walker),
      (∀ s ∈ xs, ∀ w, NoFuel (W w (some s))) → NoFuel (walker.walkEach W w xs)
  | [], _, _ => NoFuel.at_ok _
  | s :: rest, w, h =>
    NoFuel.at_bind (h s (List.mem_cons_self _ _) w) (fun ⟨w1, _, _⟩ =>
      walker.walkEach_noFuel rest w1 (fun s1 hs => h s1 (List.mem_cons_of_mem _ hs)))

theorem walker.walkBlockStatement_noFuel {W : walker.WalkFn} (w : walker.Walker)
    (value : Option (List ast.Node))
    (h : ∀ xs, value = some xs → ∀ s ∈ xs, ∀ w, NoFuel (W w (some s))) :
    NoFuel (walker.walkBlockStatement W w value) := by
  cases value with
  | none => exact NoFuel.at_panic
  | some xs => exact walker.walkEach_noFuel xs w (h xs rfl)

theorem walker.walkBody_noFuel {W : walker.WalkFn} (w : walker.Walker)
    (body : Option (List ast.Node))
    (h : ∀ xs, body = some xs → ∀ s ∈ xs, ∀ w, NoFuel (W w (some s))) :
    NoFuel (walker.walkBody W w body) := by
  cases body with
  | none => exact NoFuel.at_ok _
  | some xs => exact walker.walkEach_noFuel xs w (h xs rfl)

theorem walker.walkSquareFrom_noFuel {W : walker.WalkFn} :
    ∀ (xs : List ast.Node) (w : walker.Walker) (t : ast.Types) (n : Option ast.Node),
      (∀ s ∈ xs, ∀ w, NoFuel (W w (some s))) → NoFuel (walker.walkSquareFrom W w xs t n)
  | [], _, _, _, _ => NoFuel.at_ok _
  | s :: rest, w, _, _, h =>
    NoFuel.at_bind (h s (List.mem_cons_self _ _) w) (fun ⟨w1, t1, n1⟩ =>
      walker.walkSquareFrom_noFuel rest w1 t1 n1 (fun s1 hs => h s1 (List.mem_cons_of_mem _ hs)))

theorem walker.walkReturned_dead (W : walker.WalkFn) (w : walker.Walker) (n : Option ast.Node)
    (h : ast.isReturn n = false) : walker.walkReturned W w n = .ok w := by
  unfold walker.walkReturned
  split
  · simp [ast.isReturn] at h
  · rfl

theorem walker.walkProgramFrom_noFuel {W : walker.WalkFn} (hN : walker.NoReturn W) :
    ∀ (xs : List ast.Node) (w : walker.Walker) (t : ast.Types) (n : Option ast.Node),
      (∀ s ∈ xs, ∀ w, NoFuel (W w (some s))) → NoFuel (walker.walkProgramFrom W w xs t n)
  | [], _, _, _, _ => NoFuel.at_ok _
  | s :: rest, w, _, _, h =>
    NoFuel.bind_holds _ (hN w (some s)) (h s (List.mem_cons_self _ _) w) (fun ⟨w1, t1, n1⟩ h1 =>
      NoFuel.at_bind (by rw [walker.walkReturned_dead W w1 n1 h1]; exact NoFuel.at_ok _) (fun w2 =>
        walker.walkProgramFrom_noFuel hN rest w2 t1 n1
          (fun s1 hs => h s1 (List.mem_cons_of_mem _ hs))))

theorem walker.walkArguments_noFuel {W : walker.WalkFn} :
    ∀ (xs : List (ast.Argument ast.Node)) (w : walker.Walker),
      (∀ a ∈ xs, ∀ w, NoFuel (W w a.Value)) → NoFuel (walker.walkArguments W w xs)
  | [], _, _ => NoFuel.at_ok _
  | a :: rest, w, h =>
    NoFuel.at_bind (h a (List.mem_cons_self _ _) w) (fun ⟨w1, _, _⟩ =>
      walker.walkArguments_noFuel rest w1 (fun a1 ha => h a1 (List.mem_cons_of_mem _ ha)))

theorem walker.walkKnownArguments_noFuel {W : walker.WalkFn} (D : walker.Deps)
    (ps : List (ast.Parameter ast.Node)) :
    ∀ (xs : List (ast.Argument ast.Node)) (w : walker.Walker) (i : Nat),
      (∀ a ∈ xs, ∀ w, NoFuel (W w a.Value)) →
      NoFuel (walker.walkKnownArguments W D ps w xs i)
  | [], _, _, _ => NoFuel.at_ok _
  | a :: rest, w, i, h =>
    NoFuel.at_bind (h a (List.mem_cons_self _ _) w) (fun ⟨_, _, _⟩ =>
      walker.walkKnownArguments_noFuel D ps rest _ (i + 1)
        (fun a1 ha => h a1 (List.mem_cons_of_mem _ ha)))

theorem walker.walkKnownCallExpression_noFuel {W : walker.WalkFn} (D : walker.Deps)
    (w : walker.Walker) (node : ast.Node) (arguments : List (ast.Argument ast.Node))
    (fn : environment.Object) (h : ∀ a ∈ arguments, ∀ w, NoFuel (W w a.Value)) :
    NoFuel (walker.walkKnownCallExpression W D w node arguments fn) :=
  NoFuel.at_bind (walker.functionOf_noFuel fn) (fun ⟨ps, _⟩ =>
    NoFuel.at_bind (walker.walkKnownArguments_noFuel D ps arguments _ 0 h) (fun _ =>
      NoFuel.at_pure _))

theorem walker.isKnownCall_noFuel (fn : environment.Object) (found : Bool) :
    NoFuel (walker.isKnownCall fn found) :=
  NoFuel.at_ite (NoFuel.at_bind (walker.functionOf_noFuel fn) (fun ⟨_, _⟩ => NoFuel.at_pure _))
    (NoFuel.at_pure _)

theorem walker.walkCallExpression_noFuel {W : walker.WalkFn} (D : walker.Deps)
    (w : walker.Walker) (node : ast.Node) (name : List Nat)
    (arguments : List (ast.Argument ast.Node)) (function : Option ast.Node)
    (h : ∀ a ∈ arguments, ∀ w, NoFuel (W w a.Value)) (hf : ∀ w, NoFuel (W w function)) :
    NoFuel (walker.walkCallExpression W D w node name arguments function) :=
  NoFuel.at_bind (walker.getEnv_noFuel w) (fun _ =>
    NoFuel.at_bind (walker.isKnownCall_noFuel _ _) (fun _ =>
      NoFuel.at_ite (walker.walkKnownCallExpression_noFuel D _ node arguments _ h)
        (NoFuel.at_bind (walker.walkArguments_noFuel arguments _ h) (fun _ => hf _))))

theorem walker.checkIterable_noFuel (D : walker.Deps) (w : walker.Walker) (t : ast.Types)
    (n : Option ast.Node) : NoFuel (walker.checkIterable D w t n) :=
  NoFuel.at_ite (NoFuel.at_bind (walker.itemOf_noFuel D n) (fun _ => NoFuel.at_pure _)) (NoFuel.at_pure _)

theorem walker.walkFor_noFuel {W : walker.WalkFn} (D : walker.Deps) (w : walker.Walker)
    (name vector : Option ast.Node) (value : Option (List ast.Node))
    (h1 : ∀ w, NoFuel (W w name)) (h2 : ∀ w, NoFuel (W w vector))
    (h3 : ∀ xs, value = some xs → ∀ s ∈ xs, ∀ w, NoFuel (W w (some s))) :
    NoFuel (walker.walkFor W D w name vector value) :=
  NoFuel.at_bind (h1 _) (fun ⟨_, _, _⟩ =>
    NoFuel.at_bind (h2 _) (fun ⟨_, _, _⟩ =>
      NoFuel.at_bind (walker.checkIterable_noFuel D _ _ _) (fun _ =>
        NoFuel.at_bind (walker.walkBlockStatement_noFuel _ value h3) (fun _ =>
          walker.Open_noFuel _))))

theorem walker.walkWhile_noFuel {W : walker.WalkFn} (w : walker.Walker)
    (statement value : Option ast.Node) (h1 : ∀ w, NoFuel (W w statement))
    (h2 : ∀ w, NoFuel (W w value)) : NoFuel (walker.walkWhile W w statement value) :=
  NoFuel.at_bind (h1 _) (fun ⟨_, _, _⟩ =>
    NoFuel.at_bind (h2 _) (fun ⟨_, _, _⟩ =>
      NoFuel.at_bind (walker.Open_noFuel _) (fun _ => NoFuel.at_pure _)))

theorem walker.walkAlternative_noFuel {W : walker.WalkFn} (w : walker.Walker)
    (alternative : Option ast.Node) (h : ∀ w, NoFuel (W w alternative)) :
    NoFuel (walker.walkAlternative W w alternative) := by
  cases alternative with
  | none => exact NoFuel.at_ok _
  | some a => exact NoFuel.at_bind (h _) (fun ⟨_, _, _⟩ => walker.Open_noFuel _)

theorem walker.walkIf_noFuel {W : walker.WalkFn} (w : walker.Walker)
    (condition consequence alternative : Option ast.Node) (h1 : ∀ w, NoFuel (W w condition))
    (h2 : ∀ w, NoFuel (W w consequence)) (h3 : ∀ w, NoFuel (W w alternative)) :
    NoFuel (walker.walkIf W w condition consequence alternative) :=
  NoFuel.at_bind (h1 _) (fun ⟨_, _, _⟩ =>
    NoFuel.at_bind (h2 _) (fun ⟨_, _, _⟩ =>
      NoFuel.at_bind (walker.Open_noFuel _) (fun _ => walker.walkAlternative_noFuel _ _ h3)))

theorem walker.checkAssigned_noFuel (D : walker.Deps) (w : walker.Walker)
    (ln : Option ast.Node) : NoFuel (walker.checkAssigned D w ln) := by
  unfold walker.checkAssigned
  split
  · exact NoFuel.at_bind (walker.getEnv_noFuel w) (fun _ => NoFuel.at_pure _)
  · exact NoFuel.at_ok _

theorem walker.walkInfixExpression_noFuel {W : walker.WalkFn} (D : walker.Deps)
    (w : walker.Walker) (tok : token.Item) (left : Option ast.Node) (operator : List Nat)
    (right : Option ast.Node) (hl : ∀ w, NoFuel (W w left)) (hr : ∀ w, NoFuel (W w right)) :
    NoFuel (walker.walkInfixExpression W D w tok left operator right) := by
  have e : NoFuel (walker.walkInfixExpressionEqual W D w tok left right) :=
    NoFuel.at_bind (hl _) (fun ⟨_, _, _⟩ =>
      NoFuel.at_bind (walker.checkAssigned_noFuel D _ _) (fun _ =>
        NoFuel.at_bind (hr _) (fun ⟨_, _, _⟩ => NoFuel.at_pure _)))
  have ns : ∀ op, NoFuel (walker.walkInfixExpressionNS W D w left right op) := by
    intro op
    unfold walker.walkInfixExpressionNS
    refine NoFuel.at_bind (hl _) (fun ⟨w1, lt, ln⟩ => ?_)
    refine NoFuel.at_bind (walker.itemOf_noFuel D ln) (fun li => ?_)
    cases right with
    | none => exact NoFuel.at_pure _
    | some r =>
      exact NoFuel.at_bind (hr _) (fun ⟨_, _, rn⟩ =>
        NoFuel.at_bind (walker.itemOf_noFuel D rn) (fun _ => NoFuel.at_pure _))
  have m : NoFuel (walker.walkInfixExpressionMath W D w tok operator left right) := by
    unfold walker.walkInfixExpressionMath
    refine NoFuel.at_bind (hl _) (fun ⟨w1, lt, ln⟩ => ?_)
    cases right with
    | none => exact NoFuel.at_pure _
    | some r => exact NoFuel.at_bind (hr _) (fun ⟨_, _, _⟩ => NoFuel.at_pure _)
  have p : NoFuel (walker.walkInfixExpressionEqualParent W w left right) := by
    unfold walker.walkInfixExpressionEqualParent
    refine NoFuel.at_bind (hl _) (fun ⟨w1, lt, ln⟩ => ?_)
    cases right with
    | none => exact NoFuel.at_pure _
    | some r => exact NoFuel.at_bind (hr _) (fun ⟨_, _, _⟩ => NoFuel.at_pure _)
  have c : NoFuel (walker.walkInfixExpressionComparison W D w tok operator left right) := by
    unfold walker.walkInfixExpressionComparison
    refine NoFuel.at_bind (hl _) (fun ⟨w1, lt, ln⟩ => ?_)
    cases right with
    | none => exact NoFuel.at_pure _
    | some r => exact NoFuel.at_bind (hr _) (fun ⟨_, _, _⟩ => NoFuel.at_pure _)
  have pi : NoFuel (walker.walkInfixExpressionPipe W w tok left right) :=
    NoFuel.at_bind (hl _) (fun ⟨_, _, _⟩ => hr _)
  have rg : NoFuel (walker.walkInfixExpressionRange W D w tok left right) := by
    unfold walker.walkInfixExpressionRange
    refine NoFuel.at_bind (hl _) (fun ⟨w1, lt, ln⟩ => ?_)
    cases right with
    | none => exact NoFuel.at_pure _
    | some r => exact NoFuel.at_bind (hr _) (fun ⟨_, _, _⟩ => NoFuel.at_pure _)
  have d : NoFuel (walker.walkInfixExpressionDollar W w tok left right) :=
    NoFuel.at_bind (hl _) (fun ⟨_, _, _⟩ => hr _)
  have df : NoFuel (walker.walkInfixExpressionDefault W w left right) := by
    unfold walker.walkInfixExpressionDefault
    refine NoFuel.at_bind (hl _) (fun ⟨w1, lt, ln⟩ => ?_)
    cases right with
    | none => exact NoFuel.at_pure _
    | some r => exact hr _
  unfold walker.walkInfixExpression
  repeat' first
    | apply NoFuel.at_ite
    | exact e
    | exact ns _
    | exact m
    | exact p
    | exact c
    | exact pi
    | exact rg
    | exact d
    | exact df

theorem walker.walkLetStatement_noFuel {W : walker.WalkFn} (D : walker.Deps)
    (w : walker.Walker) (tok : token.Item) (name : List Nat) (ty : ast.Types)
    (value : Option ast.Node) (h : ∀ w, NoFuel (W w value)) :
    NoFuel (walker.walkLetStatement W D w tok name ty value) :=
  NoFuel.at_bind (walker.getEnv_noFuel w) (fun _ =>
    NoFuel.at_ite (h _)
      (NoFuel.at_bind (walker.SetVariable_noFuel _ _ _) (fun _ =>
        NoFuel.at_bind (h _) (fun ⟨_, _, _⟩ => NoFuel.at_pure _))))

theorem walker.walkConstStatement_noFuel {W : walker.WalkFn} (w : walker.Walker)
    (tok : token.Item) (name : List Nat) (ty : ast.Types) (value : Option ast.Node)
    (h : ∀ w, NoFuel (W w value)) :
    NoFuel (walker.walkConstStatement W w tok name ty value) :=
  NoFuel.at_bind (walker.getEnv_noFuel w) (fun _ =>
    NoFuel.at_ite (h _) (NoFuel.at_bind (walker.SetVariable_noFuel _ _ _) (fun _ => h _)))

theorem walker.walkDecoratorClass_noFuel {W : walker.WalkFn} (w : walker.Walker)
    (node : ast.Node) (tok : token.Item) (ty : Option (token.Item × List Nat × ast.Types))
    (h : ∀ a b c, ty = some (a, b, c) → ∀ w, NoFuel (W w (some (.TypeStatement a b c)))) :
    NoFuel (walker.walkDecoratorClass W w node tok ty) := by
  unfold walker.walkDecoratorClass
  split
  · exact NoFuel.at_panic
  · exact NoFuel.at_bind (walker.getEnv_noFuel w) (fun _ => h _ _ _ rfl _)

theorem walker.walkTypeStatement_noFuel (w : walker.Walker) (tok : token.Item)
    (name : List Nat) (ty : ast.Types) : NoFuel (walker.walkTypeStatement w tok name ty) :=
  NoFuel.at_bind (walker.getEnv_noFuel w) (fun _ => NoFuel.at_pure _)

theorem walker.walkIdentifier_noFuel (w : walker.Walker) (node : ast.Node) (tok : token.Item)
    (value : List Nat) (ty : ast.Types) : NoFuel (walker.walkIdentifier w node tok value ty) := by
  unfold walker.walkIdentifier
  refine NoFuel.at_bind (walker.getEnv_noFuel w) (fun e => ?_)
  dsimp only
  split
  · exact NoFuel.at_pure _
  · split
    · exact NoFuel.at_bind (walker.functionOf_noFuel _) (fun ⟨_, _⟩ => NoFuel.at_pure _)
    · split
      · exact NoFuel.at_pure _
      · exact NoFuel.at_pure _

theorem walker.walkVectorFrom_noFuel {W : walker.WalkFn} :
    ∀ (xs : List ast.Node) (w : walker.Walker) (ts : ast.Types),
      (∀ s ∈ xs, ∀ w, NoFuel (W w (some s))) → NoFuel (walker.walkVectorFrom W w xs ts)
  | [], _, _, _ => NoFuel.at_ok _
  | s :: rest, w, ts, h =>
    NoFuel.at_bind (h s (List.mem_cons_self _ _) w) (fun ⟨w1, t, _⟩ =>
      walker.walkVectorFrom_noFuel rest w1 (ts ++ t)
        (fun s1 hs => h s1 (List.mem_cons_of_mem _ hs)))

theorem walker.walkVectorLiteral_noFuel {W : walker.WalkFn} (D : walker.Deps)
    (w : walker.Walker) (node : ast.Node) (tok : token.Item) (value : List ast.Node)
    (h : ∀ s ∈ value, ∀ w, NoFuel (W w (some s))) :
    NoFuel (walker.walkVectorLiteral W D w node tok value) :=
  NoFuel.at_bind (walker.walkVectorFrom_noFuel value w [] h) (fun ⟨_, _⟩ => NoFuel.at_pure _)

theorem walker.walkDefault_noFuel {W : walker.WalkFn} (w : walker.Walker)
    (d : Option ast.Node) (h : ∀ w, NoFuel (W w d)) : NoFuel (walker.walkDefault W w d) := by
  cases d with
  | none => exact NoFuel.at_ok _
  | some d => exact NoFuel.at_bind (h _) (fun ⟨_, _, _⟩ => NoFuel.at_pure _)

theorem walker.walkNamedParameters_noFuel {W : walker.WalkFn} :
    ∀ (ps : List (ast.Parameter ast.Node)) (w : walker.Walker) (m : List (List Nat)),
      (∀ p ∈ ps, ∀ w, NoFuel (W w p.Default)) → NoFuel (walker.walkNamedParameters W w ps m)
  | [], _, _, _ => NoFuel.at_ok _
  | p :: rest, w, m, h =>
    NoFuel.at_bind (walker.walkDefault_noFuel w p.Default (h p (List.mem_cons_self _ _))) (fun _ =>
      NoFuel.at_bind (walker.SetVariable_noFuel _ _ _) (fun w2 =>
        NoFuel.at_ite
          (walker.walkNamedParameters_noFuel rest w2 m
            (fun p1 hp => h p1 (List.mem_cons_of_mem _ hp)))
          (walker.walkNamedParameters_noFuel rest _ _
            (fun p1 hp => h p1 (List.mem_cons_of_mem _ hp)))))

theorem walker.walkAnonymousParameters_noFuel {W : walker.WalkFn} :
    ∀ (ps : List (ast.Parameter ast.Node)) (w : walker.Walker) (m : List (List Nat)),
      (∀ p ∈ ps, ∀ w, NoFuel (W w p.Default)) →
      NoFuel (walker.walkAnonymousParameters W w ps m)
  | [], _, _, _ => NoFuel.at_ok _
  | p :: rest, w, _, h =>
    NoFuel.at_bind (walker.walkDefault_noFuel w p.Default (h p (List.mem_cons_self _ _))) (fun _ =>
      NoFuel.at_bind (walker.SetVariable_noFuel _ _ _) (fun _ =>
        walker.walkAnonymousParameters_noFuel rest _ _
          (fun p1 hp => h p1 (List.mem_cons_of_mem _ hp))))

theorem walker.bindReceiver_noFuel (w : walker.Walker) (tok : token.Item)
    (method : Option ast.Ty) (methodVariable : List Nat) :
    NoFuel (walker.bindReceiver w tok method methodVariable) := by
  cases method with
  | none => exact NoFuel.at_ok _
  | some m => exact NoFuel.at_bind (walker.SetVariable_noFuel _ _ _) (fun _ => NoFuel.at_pure _)

theorem walker.walkFunctionLiteral_noFuel {W : walker.WalkFn} (w : walker.Walker)
    (node : ast.Node) (tok : token.Item) (name : List Nat) (method : Option ast.Ty)
    (methodVariable : List Nat) (parameters : List (ast.Parameter ast.Node))
    (body : Option (List ast.Node)) (hp : ∀ p ∈ parameters, ∀ w, NoFuel (W w p.Default))
    (hb : ∀ xs, body = some xs → ∀ s ∈ xs, ∀ w, NoFuel (W w (some s))) :
    NoFuel (walker.walkFunctionLiteral W w node tok name method methodVariable parameters
      body) :=
  NoFuel.at_ite
    (NoFuel.at_bind (walker.walkAnonymousParameters_noFuel parameters _ [] hp) (fun _ =>
      NoFuel.at_bind (walker.walkBody_noFuel _ body hb) (fun _ => walker.Open_noFuel _)))
    (NoFuel.at_bind (walker.getEnv_noFuel w) (fun _ =>
      NoFuel.at_ite (NoFuel.at_pure _)
        (NoFuel.at_bind (walker.bindReceiver_noFuel _ tok method methodVariable) (fun ⟨_, m⟩ =>
          NoFuel.at_bind (walker.walkNamedParameters_noFuel parameters _ m hp) (fun _ =>
            NoFuel.at_bind (walker.walkBody_noFuel _ body hb) (fun _ =>
              walker.Open_noFuel _))))))

theorem walker.thenNode_noFuel {r : Except Fault walker.Walker} (node : ast.Node)
    (h : NoFuel r) : NoFuel (walker.thenNode r node) :=
  NoFuel.at_bind h (fun _ => NoFuel.at_pure _)

theorem walker.dropResult_noFuel {r : Except Fault walker.Result} (node : ast.Node)
    (h : NoFuel r) : NoFuel (walker.dropResult r node) :=
  NoFuel.at_bind h (fun ⟨_, _, _⟩ => NoFuel.at_pure _)

theorem ast.sizeOf_default_lt {ps : List (ast.Parameter ast.Node)} {p : ast.Parameter ast.Node}
    (hp : p ∈ ps) : sizeOf p.Default < sizeOf ps := by
  have h := List.sizeOf_lt_of_mem hp
  obtain ⟨a, b, c, d, e⟩ := p
  simp only [ast.Parameter.mk.sizeOf_spec] at h
  show sizeOf d < _
  omega

theorem ast.sizeOf_value_lt {xs : List (ast.Argument ast.Node)} {a : ast.Argument ast.Node}
    (ha : a ∈ xs) : sizeOf a.Value < sizeOf xs := by
  have h := List.sizeOf_lt_of_mem ha
  obtain ⟨a, b, c⟩ := a
  simp only [ast.Argument.mk.sizeOf_spec] at h
  show sizeOf c < _
  omega

theorem ast.sizeOf_some_lt {xs : List ast.Node} {s : ast.Node} (hs : s ∈ xs) :
    sizeOf (some s) < 1 + sizeOf xs := by
  have h := List.sizeOf_lt_of_mem hs
  simp only [Option.some.sizeOf_spec]
  omega

/-- Fuel above the size of the node is enough: the walk returns or panics. -/
theorem walker.Walk_adequate (D : walker.Deps) :
    ∀ (fuel : Nat) (w : walker.Walker) (node : Option ast.Node),
      sizeOf node < fuel → NoFuel (walker.Walk D fuel w node)
  | 0, _, _, h => absurd h (Nat.not_lt_zero _)
  | fuel + 1, w, node, h => by
    have ih := walker.Walk_adequate D fuel
    have hN := walker.Walk_noReturn D fuel
    cases node with
    | none => exact NoFuel.at_ok _
    | some n =>
      simp only [Option.some.sizeOf_spec] at h
      cases n with
      | Program statements =>
        simp only [ast.Node.Program.sizeOf_spec] at h
        exact walker.walkProgramFrom_noFuel hN statements w [] none
          (fun s hs w1 => ih w1 (some s) (by have := ast.sizeOf_some_lt hs; omega))
      | ExpressionStatement expression =>
        simp only [ast.Node.ExpressionStatement.sizeOf_spec] at h
        cases expression with
        | none => exact NoFuel.at_ok _
        | some e => exact ih w (some e) (by omega)
      | Square statements =>
        simp only [ast.Node.Square.sizeOf_spec] at h
        exact walker.walkSquareFrom_noFuel statements w [] none
          (fun s hs w1 => ih w1 (some s) (by have := ast.sizeOf_some_lt hs; omega))
      | LetStatement tok name ty value =>
        simp only [ast.Node.LetStatement.sizeOf_spec] at h
        exact walker.walkLetStatement_noFuel D w tok name ty value
          (fun w1 => ih w1 value (by omega))
      | ConstStatement tok name ty value =>
        simp only [ast.Node.ConstStatement.sizeOf_spec] at h
        exact walker.walkConstStatement_noFuel w tok name ty value
          (fun w1 => ih w1 value (by omega))
      | ReturnStatement value =>
        simp only [ast.Node.ReturnStatement.sizeOf_spec] at h
        exact ih w value (by omega)
      | TypeStatement tok name ty =>
        exact walker.thenNode_noFuel _ (walker.walkTypeStatement_noFuel w tok name ty)
      | DecoratorClass tok ty =>
        simp only [ast.Node.DecoratorClass.sizeOf_spec] at h
        refine walker.dropResult_noFuel _ (walker.walkDecoratorClass_noFuel w _ tok ty ?_)
        intro a b c hty w1
        subst hty
        simp only [Option.some.sizeOf_spec, Prod.mk.sizeOf_spec] at h
        exact ih w1 _ (by
          simp only [Option.some.sizeOf_spec, ast.Node.TypeStatement.sizeOf_spec]
          omega)
      | DecoratorGeneric func =>
        simp only [ast.Node.DecoratorGeneric.sizeOf_spec] at h
        exact walker.dropResult_noFuel _ (ih w func (by omega))
      | DecoratorDefault func =>
        simp only [ast.Node.DecoratorDefault.sizeOf_spec] at h
        exact walker.dropResult_noFuel _ (ih w func (by omega))
      | Keyword tok ty => exact NoFuel.at_ok _
      | Null tok ty => exact NoFuel.at_ok _
      | CommentStatement tok => exact NoFuel.at_ok _
      | BlockStatement statements =>
        simp only [ast.Node.BlockStatement.sizeOf_spec] at h
        exact walker.thenNode_noFuel _ (walker.walkEach_noFuel statements w
          (fun s hs w1 => ih w1 (some s) (by have := ast.sizeOf_some_lt hs; omega)))
      | Attrbute tok => exact NoFuel.at_ok _
      | Identifier tok value ty => exact walker.walkIdentifier_noFuel w _ tok value ty
      | Boolean tok ty => exact NoFuel.at_ok _
      | IntegerLiteral tok ty => exact NoFuel.at_ok _
      | FloatLiteral tok ty => exact NoFuel.at_ok _
      | VectorLiteral tok value =>
        simp only [ast.Node.VectorLiteral.sizeOf_spec] at h
        exact walker.walkVectorLiteral_noFuel D w _ tok value
          (fun s hs w1 => ih w1 (some s) (by have := ast.sizeOf_some_lt hs; omega))
      | SquareRightLiteral tok => exact NoFuel.at_ok _
      | StringLiteral tok ty => exact NoFuel.at_ok _
      | PrefixExpression tok right =>
        simp only [ast.Node.PrefixExpression.sizeOf_spec] at h
        exact ih w right (by omega)
      | For name vector value =>
        simp only [ast.Node.For.sizeOf_spec] at h
        exact walker.thenNode_noFuel _ (walker.walkFor_noFuel D w name vector value
          (fun w1 => ih w1 name (by omega)) (fun w1 => ih w1 vector (by omega))
          (fun xs hx s hs w1 => ih w1 (some s) (by
            subst hx
            have := ast.sizeOf_some_lt hs
            simp only [Option.some.sizeOf_spec] at h this ⊢
            omega)))
      | While statement value =>
        simp only [ast.Node.While.sizeOf_spec] at h
        exact walker.walkWhile_noFuel w statement value (fun w1 => ih w1 statement (by omega))
          (fun w1 => ih w1 value (by omega))
      | InfixExpression tok left operator right =>
        simp only [ast.Node.InfixExpression.sizeOf_spec] at h
        exact walker.walkInfixExpression_noFuel D w tok left operator right
          (fun w1 => ih w1 left (by omega)) (fun w1 => ih w1 right (by omega))
      | IfExpression condition consequence alternative =>
        simp only [ast.Node.IfExpression.sizeOf_spec] at h
        exact walker.thenNode_noFuel _ (walker.walkIf_noFuel w condition consequence alternative
          (fun w1 => ih w1 condition (by omega)) (fun w1 => ih w1 consequence (by omega))
          (fun w1 => ih w1 alternative (by omega)))
      | FunctionLiteral tok name method methodVariable parameters body returnType =>
        simp only [ast.Node.FunctionLiteral.sizeOf_spec] at h
        exact walker.thenNode_noFuel _
          (walker.walkFunctionLiteral_noFuel w _ tok name method methodVariable parameters body
            (fun p hp w1 => ih w1 p.Default (by have := ast.sizeOf_default_lt hp; omega))
            (fun xs hx s hs w1 => ih w1 (some s) (by
              subst hx
              have := ast.sizeOf_some_lt hs
              simp only [Option.some.sizeOf_spec] at h this ⊢
              omega)))
      | CallExpression tok name arguments function =>
        simp only [ast.Node.CallExpression.sizeOf_spec] at h
        exact walker.walkCallExpression_noFuel D w _ name arguments function
          (fun a ha w1 => ih w1 a.Value (by have := ast.sizeOf_value_lt ha; omega))
          (fun w1 => ih w1 function (by omega))
      | Other tok => exact NoFuel.at_ok _

/-! ## The diagnostics and the current frame through a walk -/

theorem walker.errors_addDiagnostic (sev : diagnostics.Severity) (w : walker.Walker)
    (tok : token.Item) (msg : List Nat) (args : List diagnostics.Arg) :
    (walker.addDiagnostic sev w tok msg args).errors = w.errors ++ [⟨tok, msg, args, sev⟩] := by
  obtain ⟨_, _, _⟩ := w
  rfl

theorem walker.errors_setEnv (w : walker.Walker) (e : Option environment.Environment) :
    (w.setEnv e).errors = w.errors := by
  obtain ⟨_, _, _⟩ := w
  rfl

theorem walker.errors_setState (w : walker.Walker) (s : List Nat) :
    (w.setState s).errors = w.errors := by
  obtain ⟨_, _, _⟩ := w
  rfl

theorem walker.addDiagnostic_grow {w : walker.Walker} {errs : List diagnostics.Diagnostic}
    (sev : diagnostics.Severity) (tok : token.Item) (msg : List Nat)
    (args : List diagnostics.Arg) (h : errs <+: w.errors) :
    errs <+: (walker.addDiagnostic sev w tok msg args).errors := by
  rw [walker.errors_addDiagnostic]
  exact h.trans (List.prefix_append _ _)

theorem walker.fatalWhen_grow {w : walker.Walker} {errs : List diagnostics.Diagnostic}
    (c : Bool) (tok : token.Item) (msg : List Nat) (args : List diagnostics.Arg)
    (h : errs <+: w.errors) : errs <+: (walker.fatalWhen c w tok msg args).errors := by
  unfold walker.fatalWhen
  split
  · exact walker.addDiagnostic_grow _ _ _ _ h
  · exact h

theorem walker.setState_grow {w : walker.Walker} {errs : List diagnostics.Diagnostic}
    (s : List Nat) (h : errs <+: w.errors) : errs <+: (w.setState s).errors := by
  rw [walker.errors_setState]
  exact h

theorem walker.setEnv_grow {w : walker.Walker} {errs : List diagnostics.Diagnostic}
    (e : Option environment.Environment) (h : errs <+: w.errors) :
    errs <+: (w.setEnv e).errors := by
  rw [walker.errors_setEnv]
  exact h

theorem walker.Enclose_grow {w : walker.Walker} {errs : List diagnostics.Diagnostic}
    (h : errs <+: w.errors) : errs <+: w.Enclose.errors :=
  walker.setEnv_grow _ h

theorem walker.Open_grow {w : walker.Walker} {errs : List diagnostics.Diagnostic}
    (h : errs <+: w.errors) : Holds w.Open (fun w1 => errs <+: w1.errors) :=
  Holds.of_bind (fun _ => True) ⟨fun _ _ => True.intro⟩ (fun _ _ =>
    Holds.of_pure (walker.setEnv_grow _ h))

theorem walker.SetVariable_grow {w : walker.Walker} {errs : List diagnostics.Diagnostic}
    (name : List Nat) (val : environment.Object) (h : errs <+: w.errors) :
    Holds (w.SetVariable name val) (fun w1 => errs <+: w1.errors) :=
  Holds.of_bind (fun _ => True) ⟨fun _ _ => True.intro⟩ (fun _ _ =>
    Holds.of_pure (walker.setEnv_grow _ h))

theorem walker.walkEach_grow {W : walker.WalkFn} (hW : walker.Growing W) :
    ∀ (xs : List ast.Node) (w : walker.Walker) (errs : List diagnostics.Diagnostic),
      errs <+: w.errors → Holds (walker.walkEach W w xs) (fun w1 => errs <+: w1.errors)
  | [], _, _, h => Holds.of_ok h
  | s :: rest, w, errs, h =>
    Holds.of_bind _ (hW w (some s) errs h) (fun ⟨w1, _, _⟩ h1 =>
      walker.walkEach_grow hW rest w1 errs h1)

theorem walker.walkBlockStatement_grow {W : walker.WalkFn} (hW : walker.Growing W)
    {w : walker.Walker} {errs : List diagnostics.Diagnostic}
    (value : Option (List ast.Node)) (h : errs <+: w.errors) :
    Holds (walker.walkBlockStatement W w value) (fun w1 => errs <+: w1.errors) := by
  cases value with
  | none => exact Holds.of_error
  | some xs => exact walker.walkEach_grow hW xs w errs h

theorem walker.walkBody_grow {W : walker.WalkFn} (hW : walker.Growing W)
    {w : walker.Walker} {errs : List diagnostics.Diagnostic}
    (body : Option (List ast.Node)) (h : errs <+: w.errors) :
    Holds (walker.walkBody W w body) (fun w1 => errs <+: w1.errors) := by
  cases body with
  | none => exact Holds.of_ok h
  | some xs => exact walker.walkEach_grow hW xs w errs h

theorem walker.walkSquareFrom_grow {W : walker.WalkFn} (hW : walker.Growing W) :
    ∀ (xs : List ast.Node) (w : walker.Walker) (t : ast.Types) (n : Option ast.Node)
      (errs : List diagnostics.Diagnostic),
      errs <+: w.errors → Holds (walker.walkSquareFrom W w xs t n) (fun r => errs <+: r.1.errors)
  | [], _, _, _, _, h => Holds.of_ok h
  | s :: rest, w, _, _, errs, h =>
    Holds.of_bind _ (hW w (some s) errs h) (fun ⟨w1, t1, n1⟩ h1 =>
      walker.walkSquareFrom_grow hW rest w1 t1 n1 errs h1)

theorem walker.walkReturned_grow {W : walker.WalkFn} (hW : walker.Growing W)
    {w : walker.Walker} {errs : List diagnostics.Diagnostic} (node : Option ast.Node)
    (h : errs <+: w.errors) :
    Holds (walker.walkReturned W w node) (fun w1 => errs <+: w1.errors) := by
  unfold walker.walkReturned
  split
  · exact Holds.of_bind _ (hW w _ errs h) (fun ⟨_, _, _⟩ h1 => Holds.of_pure h1)
  · exact Holds.of_ok h

theorem walker.walkProgramFrom_grow {W : walker.WalkFn} (hW : walker.Growing W) :
    ∀ (xs : List ast.Node) (w : walker.Walker) (t : ast.Types) (n : Option ast.Node)
      (errs : List diagnostics.Diagnostic),
      errs <+: w.errors → Holds (walker.walkProgramFrom W w xs t n) (fun r => errs <+: r.1.errors)
  | [], _, _, _, _, h => Holds.of_ok h
  | s :: rest, w, _, _, errs, h =>
    Holds.of_bind _ (hW w (some s) errs h) (fun ⟨_, t1, n1⟩ h1 =>
      Holds.of_bind _ (walker.walkReturned_grow hW n1 h1) (fun w2 h2 =>
        walker.walkProgramFrom_grow hW rest w2 t1 n1 errs h2))

theorem walker.walkArguments_grow {W : walker.WalkFn} (hW : walker.Growing W) :
    ∀ (xs : List (ast.Argument ast.Node)) (w : walker.Walker)
      (errs : List diagnostics.Diagnostic),
      errs <+: w.errors → Holds (walker.walkArguments W w xs) (fun w1 => errs <+: w1.errors)
  | [], _, _, h => Holds.of_ok h
  | v :: rest, w, errs, h =>
    Holds.of_bind _ (hW w v.Value errs h) (fun ⟨w1, _, _⟩ h1 =>
      walker.walkArguments_grow hW rest w1 errs h1)

theorem walker.checkArgument_grow (D : walker.Deps) {w : walker.Walker}
    {errs : List diagnostics.Diagnostic} (ps : List (ast.Parameter ast.Node))
    (argument : ast.Argument ast.Node) (i : Nat) (t : ast.Types) (h : errs <+: w.errors) :
    errs <+: (walker.checkArgument D w ps argument i t).errors := by
  unfold walker.checkArgument
  dsimp only
  repeat' split
  all_goals first
    | exact h
    | exact walker.addDiagnostic_grow _ _ _ _ h

theorem walker.walkKnownArguments_grow {W : walker.WalkFn} (hW : walker.Growing W)
    (D : walker.Deps) (ps : List (ast.Parameter ast.Node)) :
    ∀ (xs : List (ast.Argument ast.Node)) (w : walker.Walker) (i : Nat)
      (errs : List diagnostics.Diagnostic),
      errs <+: w.errors →
      Holds (walker.walkKnownArguments W D ps w xs i) (fun w1 => errs <+: w1.errors)
  | [], _, _, _, h => Holds.of_ok h
  | a :: rest, w, i, errs, h =>
    Holds.of_bind _ (hW w a.Value errs h) (fun ⟨_, t, _⟩ h1 =>
      walker.walkKnownArguments_grow hW D ps rest _ (i + 1) errs
        (walker.checkArgument_grow D ps a i t h1))

theorem walker.walkKnownCallExpression_grow {W : walker.WalkFn} (hW : walker.Growing W)
    (D : walker.Deps) {w : walker.Walker} {errs : List diagnostics.Diagnostic}
    (node : ast.Node) (arguments : List (ast.Argument ast.Node)) (fn : environment.Object)
    (h : errs <+: w.errors) :
    Holds (walker.walkKnownCallExpression W D w node arguments fn)
      (fun r => errs <+: r.1.errors) :=
  Holds.of_bind (fun _ => True) ⟨fun _ _ => True.intro⟩ (fun ⟨ps, _⟩ _ =>
    Holds.of_bind _ (walker.walkKnownArguments_grow hW D ps arguments _ 0 errs
      (walker.setState_grow _ h)) (fun _ h1 => Holds.of_pure (walker.setState_grow _ h1)))

theorem walker.walkCallExpression_grow {W : walker.WalkFn} (hW : walker.Growing W)
    (D : walker.Deps) {w : walker.Walker} {errs : List diagnostics.Diagnostic}
    (node : ast.Node) (name : List Nat) (arguments : List (ast.Argument ast.Node))
    (function : Option ast.Node) (h : errs <+: w.errors) :
    Holds (walker.walkCallExpression W D w node name arguments function)
      (fun r => errs <+: r.1.errors) :=
  Holds.of_bind (fun _ => True) ⟨fun _ _ => True.intro⟩ (fun _ _ =>
    Holds.of_bind (fun _ => True) ⟨fun _ _ => True.intro⟩ (fun _ _ =>
      Holds.of_ite (walker.walkKnownCallExpression_grow hW D node arguments _ h)
        (Holds.of_bind _ (walker.walkArguments_grow hW arguments _ errs (walker.setState_grow _ h))
          (fun _ h1 => hW _ function errs (walker.setState_grow _ h1)))))

theorem walker.checkIterable_grow (D : walker.Deps) {w : walker.Walker}
    {errs : List diagnostics.Diagnostic} (t : ast.Types) (n : Option ast.Node)
    (h : errs <+: w.errors) :
    Holds (walker.checkIterable D w t n) (fun w1 => errs <+: w1.errors) :=
  Holds.of_ite
    (Holds.of_bind (fun _ => True) ⟨fun _ _ => True.intro⟩ (fun _ _ =>
      Holds.of_pure (walker.addDiagnostic_grow _ _ _ _ h)))
    (Holds.of_pure h)

theorem walker.walkFor_grow {W : walker.WalkFn} (hW : walker.Growing W) (D : walker.Deps)
    {w : walker.Walker} {errs : List diagnostics.Diagnostic}
    (name vector : Option ast.Node) (value : Option (List ast.Node)) (h : errs <+: w.errors) :
    Holds (walker.walkFor W D w name vector value) (fun w1 => errs <+: w1.errors) :=
  Holds.of_bind _ (hW _ name _ (walker.Enclose_grow h)) (fun ⟨_, _, _⟩ h1 =>
    Holds.of_bind _ (hW _ vector _ h1) (fun ⟨_, _, _⟩ h2 =>
      Holds.of_bind _ (walker.checkIterable_grow D _ _ h2) (fun _ h3 =>
        Holds.of_bind _ (walker.walkBlockStatement_grow hW value h3) (fun _ h4 =>
          walker.Open_grow h4))))

theorem walker.walkWhile_grow {W : walker.WalkFn} (hW : walker.Growing W)
    {w : walker.Walker} {errs : List diagnostics.Diagnostic}
    (statement value : Option ast.Node) (h : errs <+: w.errors) :
    Holds (walker.walkWhile W w statement value) (fun r => errs <+: r.1.errors) :=
  Holds.of_bind _ (hW _ statement errs h) (fun ⟨_, _, _⟩ h1 =>
    Holds.of_bind _ (hW _ value _ (walker.Enclose_grow h1)) (fun ⟨_, _, _⟩ h2 =>
      Holds.of_bind _ (walker.Open_grow h2) (fun _ h3 => Holds.of_pure h3)))

theorem walker.walkAlternative_grow {W : walker.WalkFn} (hW : walker.Growing W)
    {w : walker.Walker} {errs : List diagnostics.Diagnostic}
    (alternative : Option ast.Node) (h : errs <+: w.errors) :
    Holds (walker.walkAlternative W w alternative) (fun w1 => errs <+: w1.errors) := by
  cases alternative with
  | none => exact Holds.of_ok h
  | some a =>
    exact Holds.of_bind _ (hW _ (some a) _ (walker.Enclose_grow h)) (fun ⟨_, _, _⟩ h2 =>
      walker.Open_grow h2)

theorem walker.walkIf_grow {W : walker.WalkFn} (hW : walker.Growing W)
    {w : walker.Walker} {errs : List diagnostics.Diagnostic}
    (condition consequence alternative : Option ast.Node) (h : errs <+: w.errors) :
    Holds (walker.walkIf W w condition consequence alternative) (fun w1 => errs <+: w1.errors) :=
  Holds.of_bind _ (hW _ condition errs h) (fun ⟨_, _, _⟩ h1 =>
    Holds.of_bind _ (hW _ consequence _ (walker.Enclose_grow h1)) (fun ⟨_, _, _⟩ h2 =>
      Holds.of_bind _ (walker.Open_grow h2) (fun _ h3 =>
        walker.walkAlternative_grow hW alternative h3)))

theorem walker.walkInfixExpressionDollar_grow {W : walker.WalkFn} (hW : walker.Growing W)
    {w : walker.Walker} {errs : List diagnostics.Diagnostic} (tok : token.Item)
    (left right : Option ast.Node) (h : errs <+: w.errors) :
    Holds (walker.walkInfixExpressionDollar W w tok left right) (fun r => errs <+: r.1.errors) :=
  Holds.of_bind _ (hW _ left errs h) (fun ⟨_, _, _⟩ h1 =>
    hW _ right errs (walker.fatalWhen_grow _ _ _ _ h1))

theorem walker.walkInfixExpressionPipe_grow {W : walker.WalkFn} (hW : walker.Growing W)
    {w : walker.Walker} {errs : List diagnostics.Diagnostic} (tok : token.Item)
    (left right : Option ast.Node) (h : errs <+: w.errors) :
    Holds (walker.walkInfixExpressionPipe W w tok left right) (fun r => errs <+: r.1.errors) :=
  Holds.of_bind _ (hW _ left errs h) (fun ⟨_, _, _⟩ h1 =>
    hW _ right errs (walker.fatalWhen_grow _ _ _ _ h1))

theorem walker.walkInfixExpressionRange_grow {W : walker.WalkFn} (hW : walker.Growing W)
    (D : walker.Deps) {w : walker.Walker} {errs : List diagnostics.Diagnostic}
    (tok : token.Item) (left right : Option ast.Node) (h : errs <+: w.errors) :
    Holds (walker.walkInfixExpressionRange W D w tok left right)
      (fun r => errs <+: r.1.errors) := by
  unfold walker.walkInfixExpressionRange
  refine Holds.of_bind _ (hW _ left errs h) (fun ⟨w1, lt, ln⟩ h1 => ?_)
  have h2 := walker.fatalWhen_grow (!D.validMathTypes w1 lt) tok (str "`%v`:`%v` is not valid")
    [.types lt, .types lt] h1
  cases right with
  | none => exact Holds.of_pure h2
  | some r =>
    exact Holds.of_bind _ (hW _ (some r) errs h2) (fun ⟨_, _, _⟩ h3 =>
      Holds.of_pure (walker.fatalWhen_grow _ _ _ _ h3))

theorem walker.walkInfixExpressionComparison_grow {W : walker.WalkFn} (hW : walker.Growing W)
    (D : walker.Deps) {w : walker.Walker} {errs : List diagnostics.Diagnostic}
    (tok : token.Item) (operator : List Nat) (left right : Option ast.Node)
    (h : errs <+: w.errors) :
    Holds (walker.walkInfixExpressionComparison W D w tok operator left right)
      (fun r => errs <+: r.1.errors) := by
  unfold walker.walkInfixExpressionComparison
  refine Holds.of_bind _ (hW _ left errs h) (fun ⟨w1, lt, ln⟩ h1 => ?_)
  cases right with
  | none => exact Holds.of_pure h1
  | some r =>
    refine Holds.of_bind _ (hW _ (some r) errs h1) (fun ⟨w2, rt, rn⟩ h2 => Holds.of_pure ?_)
    dsimp only
    split
    · exact walker.addDiagnostic_grow _ _ _ _ h2
    · exact h2

theorem walker.walkInfixExpressionDefault_grow {W : walker.WalkFn} (hW : walker.Growing W)
    {w : walker.Walker} {errs : List diagnostics.Diagnostic}
    (left right : Option ast.Node) (h : errs <+: w.errors) :
    Holds (walker.walkInfixExpressionDefault W w left right) (fun r => errs <+: r.1.errors) := by
  unfold walker.walkInfixExpressionDefault
  refine Holds.of_bind _ (hW _ left errs h) (fun ⟨w1, lt, ln⟩ h1 => ?_)
  cases right with
  | none => exact Holds.of_pure h1
  | some r => exact hW _ (some r) errs h1

theorem walker.walkInfixExpressionMath_grow {W : walker.WalkFn} (hW : walker.Growing W)
    (D : walker.Deps) {w : walker.Walker} {errs : List diagnostics.Diagnostic}
    (tok : token.Item) (operator : List Nat) (left right : Option ast.Node)
    (h : errs <+: w.errors) :
    Holds (walker.walkInfixExpressionMath W D w tok operator left right)
      (fun r => errs <+: r.1.errors) := by
  unfold walker.walkInfixExpressionMath
  refine Holds.of_bind _ (hW _ left errs h) (fun ⟨w1, lt, ln⟩ h1 => ?_)
  have h2 := walker.fatalWhen_grow (!D.validMathTypes w1 lt) tok
    (str "`%v` %v `%v` is not valid") [.types lt, .text operator, .types lt] h1
  cases right with
  | none => exact Holds.of_pure h2
  | some r =>
    exact Holds.of_bind _ (hW _ (some r) errs h2) (fun ⟨_, _, _⟩ h3 =>
      Holds.of_pure (walker.fatalWhen_grow _ _ _ _ h3))

theorem walker.reportProbe_grow {w : walker.Walker} {errs : List diagnostics.Diagnostic}
    (probe : Bool × Bool) (tok : token.Item) (errMsg missMsg : List Nat)
    (args : List diagnostics.Arg) (h : errs <+: w.errors) :
    errs <+: (walker.reportProbe w probe tok errMsg missMsg args).errors := by
  unfold walker.reportProbe
  dsimp only
  repeat' split
  all_goals first
    | exact h
    | exact walker.addDiagnostic_grow _ _ _ _ h
    | exact walker.addDiagnostic_grow _ _ _ _ (walker.addDiagnostic_grow _ _ _ _ h)

theorem walker.walkInfixExpressionNS_grow {W : walker.WalkFn} (hW : walker.Growing W)
    (D : walker.Deps) {w : walker.Walker} {errs : List diagnostics.Diagnostic}
    (left right : Option ast.Node) (operator : List Nat) (h : errs <+: w.errors) :
    Holds (walker.walkInfixExpressionNS W D w left right operator)
      (fun r => errs <+: r.1.errors) := by
  unfold walker.walkInfixExpressionNS
  refine Holds.of_bind _ (hW _ left errs h) (fun ⟨w1, lt, ln⟩ h1 => ?_)
  refine Holds.of_bind (fun _ => True) ⟨fun _ _ => True.intro⟩ (fun li _ => ?_)
  have h2 := walker.reportProbe_grow (D.PackageIsInstalled li.Value) li
    (str "error checking if package `%v` is installed") (str "package `%v` is not installed")
    [.text li.Value] h1
  cases right with
  | none => exact Holds.of_pure h2
  | some r =>
    exact Holds.of_bind _ (hW _ (some r) errs h2) (fun ⟨_, _, _⟩ h3 =>
      Holds.of_bind (fun _ => True) ⟨fun _ _ => True.intro⟩ (fun _ _ =>
        Holds.of_pure (walker.reportProbe_grow _ _ _ _ _ h3)))

theorem walker.checkAssigned_grow (D : walker.Deps) {w : walker.Walker}
    {errs : List diagnostics.Diagnostic} (ln : Option ast.Node)
    (h : errs <+: w.errors) :
    Holds (walker.checkAssigned D w ln) (fun w1 => errs <+: w1.errors) := by
  unfold walker.checkAssigned
  split
  · exact Holds.of_bind (fun _ => True) ⟨fun _ _ => True.intro⟩ (fun _ _ =>
      Holds.of_pure (walker.fatalWhen_grow _ _ _ _ (walker.fatalWhen_grow _ _ _ _ h)))
  · exact Holds.of_ok h

theorem walker.walkInfixExpressionEqual_grow {W : walker.WalkFn} (hW : walker.Growing W)
    (D : walker.Deps) {w : walker.Walker} {errs : List diagnostics.Diagnostic}
    (tok : token.Item) (left right : Option ast.Node) (h : errs <+: w.errors) :
    Holds (walker.walkInfixExpressionEqual W D w tok left right)
      (fun r => errs <+: r.1.errors) :=
  Holds.of_bind _ (hW _ left errs h) (fun ⟨_, _, ln⟩ h1 =>
    Holds.of_bind _ (walker.checkAssigned_grow D ln h1) (fun _ h2 =>
      Holds.of_bind _ (hW _ right errs (walker.fatalWhen_grow _ _ _ _ h2)) (fun ⟨_, _, _⟩ h3 =>
        Holds.of_pure (walker.fatalWhen_grow _ _ _ _ h3))))

theorem walker.walkInfixExpressionEqualParent_grow {W : walker.WalkFn}
    (hW : walker.Growing W) {w : walker.Walker} {errs : List diagnostics.Diagnostic}
    (left right : Option ast.Node) (h : errs <+: w.errors) :
    Holds (walker.walkInfixExpressionEqualParent W w left right)
      (fun r => errs <+: r.1.errors) := by
  unfold walker.walkInfixExpressionEqualParent
  refine Holds.of_bind _ (hW _ left errs h) (fun ⟨w1, lt, ln⟩ h1 => ?_)
  cases right with
  | none => exact Holds.of_pure h1
  | some r =>
    exact Holds.of_bind _ (hW _ (some r) errs h1) (fun ⟨_, _, _⟩ h2 => Holds.of_pure h2)

theorem walker.walkInfixExpression_grow {W : walker.WalkFn} (hW : walker.Growing W)
    (D : walker.Deps) {w : walker.Walker} {errs : List diagnostics.Diagnostic}
    (tok : token.Item) (left : Option ast.Node) (operator : List Nat) (right : Option ast.Node)
    (h : errs <+: w.errors) :
    Holds (walker.walkInfixExpression W D w tok left operator right)
      (fun r => errs <+: r.1.errors) := by
  unfold walker.walkInfixExpression
  repeat' first
    | apply Holds.of_ite
    | exact walker.walkInfixExpressionEqual_grow hW D tok left right h
    | exact walker.walkInfixExpressionNS_grow hW D left right _ h
    | exact walker.walkInfixExpressionMath_grow hW D tok operator left right h
    | exact walker.walkInfixExpressionEqualParent_grow hW left right h
    | exact walker.walkInfixExpressionComparison_grow hW D tok operator left right h
    | exact walker.walkInfixExpressionPipe_grow hW tok left right h
    | exact walker.walkInfixExpressionRange_grow hW D tok left right h
    | exact walker.walkInfixExpressionDollar_grow hW tok left right h
    | exact walker.walkInfixExpressionDefault_grow hW left right h

theorem walker.walkLetStatement_grow {W : walker.WalkFn} (hW : walker.Growing W)
    (D : walker.Deps) {w : walker.Walker} {errs : List diagnostics.Diagnostic}
    (tok : token.Item) (name : List Nat) (ty : ast.Types) (value : Option ast.Node)
    (h : errs <+: w.errors) :
    Holds (walker.walkLetStatement W D w tok name ty value) (fun r => errs <+: r.1.errors) :=
  Holds.of_bind (fun _ => True) ⟨fun _ _ => True.intro⟩ (fun _ _ =>
    Holds.of_ite (hW _ value errs (walker.addDiagnostic_grow _ _ _ _ h))
      (Holds.of_bind _ (walker.SetVariable_grow _ _ h) (fun _ h1 =>
        Holds.of_bind _ (hW _ value errs h1) (fun ⟨_, _, _⟩ h2 =>
          Holds.of_pure (walker.fatalWhen_grow _ _ _ _ h2)))))

theorem walker.walkConstStatement_grow {W : walker.WalkFn} (hW : walker.Growing W)
    {w : walker.Walker} {errs : List diagnostics.Diagnostic}
    (tok : token.Item) (name : List Nat) (ty : ast.Types) (value : Option ast.Node)
    (h : errs <+: w.errors) :
    Holds (walker.walkConstStatement W w tok name ty value) (fun r => errs <+: r.1.errors) :=
  Holds.of_bind (fun _ => True) ⟨fun _ _ => True.intro⟩ (fun _ _ =>
    Holds.of_ite (hW _ value errs (walker.addDiagnostic_grow _ _ _ _ h))
      (Holds.of_bind _ (walker.SetVariable_grow _ _ (walker.fatalWhen_grow _ _ _ _ h))
        (fun _ h1 => hW _ value errs h1)))

theorem walker.walkDecoratorClass_grow {W : walker.WalkFn} (hW : walker.Growing W)
    {w : walker.Walker} {errs : List diagnostics.Diagnostic} (node : ast.Node)
    (tok : token.Item) (ty : Option (token.Item × List Nat × ast.Types))
    (h : errs <+: w.errors) :
    Holds (walker.walkDecoratorClass W w node tok ty) (fun r => errs <+: r.1.errors) := by
  unfold walker.walkDecoratorClass
  split
  · exact Holds.of_error
  · exact Holds.of_bind _ (walker.getEnv_holds w) (fun _ he =>
      hW _ _ errs (walker.setEnv_grow _ h))

theorem walker.walkTypeStatement_grow {w : walker.Walker}
    {errs : List diagnostics.Diagnostic} (tok : token.Item) (name : List Nat)
    (ty : ast.Types) (h : errs <+: w.errors) :
    Holds (walker.walkTypeStatement w tok name ty) (fun w1 => errs <+: w1.errors) :=
  Holds.of_bind (fun _ => True) ⟨fun _ _ => True.intro⟩ (fun _ _ =>
    Holds.of_pure (walker.setEnv_grow _ (walker.fatalWhen_grow _ _ _ _ h)))

theorem walker.walkIdentifier_grow {w : walker.Walker}
    {errs : List diagnostics.Diagnostic} (node : ast.Node) (tok : token.Item)
    (value : List Nat) (ty : ast.Types) (h : errs <+: w.errors) :
    Holds (walker.walkIdentifier w node tok value ty) (fun r => errs <+: r.1.errors) := by
  unfold walker.walkIdentifier
  refine Holds.of_bind _ (walker.getEnv_holds w) (fun e he => ?_)
  dsimp only
  split
  · refine Holds.of_pure ?_
    split
    · exact walker.setEnv_grow _ (walker.addDiagnostic_grow _ _ _ _ h)
    · exact walker.setEnv_grow _ h
  · split
    · exact Holds.of_bind (fun _ => True) ⟨fun _ _ => True.intro⟩
        (fun ⟨_, _⟩ _ => Holds.of_pure h)
    · split
      · exact Holds.of_pure
          (walker.setEnv_grow _ h)
      · exact Holds.of_pure h

theorem walker.walkVectorFrom_grow {W : walker.WalkFn} (hW : walker.Growing W) :
    ∀ (xs : List ast.Node) (w : walker.Walker) (ts : ast.Types)
      (errs : List diagnostics.Diagnostic),
      errs <+: w.errors → Holds (walker.walkVectorFrom W w xs ts) (fun r => errs <+: r.1.errors)
  | [], _, _, _, h => Holds.of_ok h
  | s :: rest, w, ts, errs, h =>
    Holds.of_bind _ (hW w (some s) errs h) (fun ⟨w1, t, _⟩ h1 =>
      walker.walkVectorFrom_grow hW rest w1 (ts ++ t) errs h1)

theorem walker.walkVectorLiteral_grow {W : walker.WalkFn} (hW : walker.Growing W)
    (D : walker.Deps) {w : walker.Walker} {errs : List diagnostics.Diagnostic}
    (node : ast.Node) (tok : token.Item) (value : List ast.Node) (h : errs <+: w.errors) :
    Holds (walker.walkVectorLiteral W D w node tok value) (fun r => errs <+: r.1.errors) :=
  Holds.of_bind _ (walker.walkVectorFrom_grow hW value w [] errs h) (fun ⟨_, _⟩ h1 =>
    Holds.of_pure (walker.fatalWhen_grow _ _ _ _ h1))

theorem walker.walkDefault_grow {W : walker.WalkFn} (hW : walker.Growing W)
    {w : walker.Walker} {errs : List diagnostics.Diagnostic} (d : Option ast.Node)
    (h : errs <+: w.errors) :
    Holds (walker.walkDefault W w d) (fun w1 => errs <+: w1.errors) := by
  cases d with
  | none => exact Holds.of_ok h
  | some d =>
    exact Holds.of_bind _ (hW _ (some d) errs h) (fun ⟨_, _, _⟩ h1 => Holds.of_pure h1)

theorem walker.walkNamedParameters_grow {W : walker.WalkFn} (hW : walker.Growing W) :
    ∀ (ps : List (ast.Parameter ast.Node)) (w : walker.Walker) (m : List (List Nat))
      (errs : List diagnostics.Diagnostic),
      errs <+: w.errors →
      Holds (walker.walkNamedParameters W w ps m) (fun w1 => errs <+: w1.errors)
  | [], _, _, _, h => Holds.of_ok h
  | p :: rest, _, m, errs, h =>
    Holds.of_bind _ (walker.walkDefault_grow hW p.Default h) (fun _ h1 =>
      Holds.of_bind _ (walker.SetVariable_grow _ _ h1) (fun w2 h2 =>
        Holds.of_ite (walker.walkNamedParameters_grow hW rest w2 m errs h2)
          (walker.walkNamedParameters_grow hW rest _ _ errs (walker.fatalWhen_grow _ _ _ _ h2))))

theorem walker.walkAnonymousParameters_grow {W : walker.WalkFn} (hW : walker.Growing W) :
    ∀ (ps : List (ast.Parameter ast.Node)) (w : walker.Walker) (m : List (List Nat))
      (errs : List diagnostics.Diagnostic),
      errs <+: w.errors →
      Holds (walker.walkAnonymousParameters W w ps m) (fun w1 => errs <+: w1.errors)
  | [], _, _, _, h => Holds.of_ok h
  | p :: rest, _, _, errs, h =>
    Holds.of_bind _ (walker.walkDefault_grow hW p.Default h) (fun _ h1 =>
      Holds.of_bind _ (walker.SetVariable_grow _ _ h1) (fun _ h2 =>
        walker.walkAnonymousParameters_grow hW rest _ _ errs (walker.fatalWhen_grow _ _ _ _ h2)))

theorem walker.bindReceiver_grow {w : walker.Walker}
    {errs : List diagnostics.Diagnostic} (tok : token.Item) (method : Option ast.Ty)
    (methodVariable : List Nat) (h : errs <+: w.errors) :
    Holds (walker.bindReceiver w tok method methodVariable) (fun r => errs <+: r.1.errors) := by
  cases method with
  | none => exact Holds.of_ok h
  | some m => exact Holds.of_bind _ (walker.SetVariable_grow _ _ h) (fun _ h1 => Holds.of_pure h1)

theorem walker.walkNamedFunctionLiteral_grow {W : walker.WalkFn} (hW : walker.Growing W)
    {w : walker.Walker} {errs : List diagnostics.Diagnostic} (node : ast.Node)
    (tok : token.Item) (name : List Nat) (method : Option ast.Ty) (methodVariable : List Nat)
    (parameters : List (ast.Parameter ast.Node)) (body : Option (List ast.Node))
    (h : errs <+: w.errors) :
    Holds (walker.walkNamedFunctionLiteral W w node tok name method methodVariable parameters
      body) (fun w1 => errs <+: w1.errors) :=
  Holds.of_bind _ (walker.getEnv_holds w) (fun e _ =>
    Holds.of_ite (Holds.of_pure (walker.addDiagnostic_grow _ _ _ _ h))
      (Holds.of_bind _
        (walker.bindReceiver_grow tok method methodVariable
          (walker.Enclose_grow (walker.setEnv_grow (some (e.SetFunction name
            { environment.Object.zero with Token := tok, Value := some node })) h)))
        (fun ⟨_, m⟩ h1 =>
          Holds.of_bind _ (walker.walkNamedParameters_grow hW parameters _ m _ h1) (fun _ h2 =>
            Holds.of_bind _ (walker.walkBody_grow hW body h2) (fun _ h3 =>
              walker.Open_grow h3)))))

theorem walker.walkAnonymousFunctionLiteral_grow {W : walker.WalkFn} (hW : walker.Growing W)
    {w : walker.Walker} {errs : List diagnostics.Diagnostic}
    (parameters : List (ast.Parameter ast.Node)) (body : Option (List ast.Node))
    (h : errs <+: w.errors) :
    Holds (walker.walkAnonymousFunctionLiteral W w parameters body)
      (fun w1 => errs <+: w1.errors) :=
  Holds.of_bind _ (walker.walkAnonymousParameters_grow hW parameters _ [] _
    (walker.Enclose_grow h)) (fun _ h2 =>
      Holds.of_bind _ (walker.walkBody_grow hW body h2) (fun _ h3 => walker.Open_grow h3))

theorem walker.walkFunctionLiteral_grow {W : walker.WalkFn} (hW : walker.Growing W)
    {w : walker.Walker} {errs : List diagnostics.Diagnostic} (node : ast.Node)
    (tok : token.Item) (name : List Nat) (method : Option ast.Ty) (methodVariable : List Nat)
    (parameters : List (ast.Parameter ast.Node)) (body : Option (List ast.Node))
    (h : errs <+: w.errors) :
    Holds (walker.walkFunctionLiteral W w node tok name method methodVariable parameters body)
      (fun w1 => errs <+: w1.errors) :=
  Holds.of_ite (walker.walkAnonymousFunctionLiteral_grow hW parameters body h)
    (walker.walkNamedFunctionLiteral_grow hW node tok name method methodVariable parameters body h)

theorem walker.thenNode_grow {r : Except Fault walker.Walker}
    {errs : List diagnostics.Diagnostic} (node : ast.Node)
    (h : Holds r (fun w1 => errs <+: w1.errors)) :
    Holds (walker.thenNode r node) (fun r => errs <+: r.1.errors) :=
  Holds.of_bind _ h (fun _ h1 => Holds.of_pure h1)

theorem walker.dropResult_grow {r : Except Fault walker.Result}
    {errs : List diagnostics.Diagnostic} (node : ast.Node)
    (h : Holds r (fun r => errs <+: r.1.errors)) :
    Holds (walker.dropResult r node) (fun r => errs <+: r.1.errors) :=
  Holds.of_bind _ h (fun ⟨_, _, _⟩ h1 => Holds.of_pure h1)

/-- The walk is balanced at every depth of calls. -/
theorem walker.Walk_growing (D : walker.Deps) : ∀ fuel : Nat, walker.Growing (walker.Walk D fuel)
  | 0 => fun _ _ _ _ => Holds.of_error
  | fuel + 1 => by
    have hW := walker.Walk_growing D fuel
    intro w node errs h
    cases node with
    | none => exact Holds.of_ok h
    | some n =>
      cases n with
      | Program statements => exact walker.walkProgramFrom_grow hW statements w [] none errs h
      | ExpressionStatement expression =>
        cases expression with
        | none => exact Holds.of_ok h
        | some e => exact hW w (some e) errs h
      | Square statements => exact walker.walkSquareFrom_grow hW statements w [] none errs h
      | LetStatement tok name ty value =>
        exact walker.walkLetStatement_grow hW D tok name ty value h
      | ConstStatement tok name ty value =>
        exact walker.walkConstStatement_grow hW tok name ty value h
      | ReturnStatement value => exact hW w value errs h
      | TypeStatement tok name ty =>
        exact walker.thenNode_grow _ (walker.walkTypeStatement_grow tok name ty h)
      | DecoratorClass tok ty =>
        exact walker.dropResult_grow _ (walker.walkDecoratorClass_grow hW _ tok ty h)
      | DecoratorGeneric func => exact walker.dropResult_grow _ (hW w func errs h)
      | DecoratorDefault func => exact walker.dropResult_grow _ (hW w func errs h)
      | Keyword tok ty => exact Holds.of_ok h
      | Null tok ty => exact Holds.of_ok h
      | CommentStatement tok => exact Holds.of_ok h
      | BlockStatement statements =>
        exact walker.thenNode_grow _ (walker.walkEach_grow hW statements w errs h)
      | Attrbute tok => exact Holds.of_ok h
      | Identifier tok value ty => exact walker.walkIdentifier_grow _ tok value ty h
      | Boolean tok ty => exact Holds.of_ok h
      | IntegerLiteral tok ty => exact Holds.of_ok h
      | FloatLiteral tok ty => exact Holds.of_ok h
      | VectorLiteral tok value => exact walker.walkVectorLiteral_grow hW D _ tok value h
      | SquareRightLiteral tok => exact Holds.of_ok h
      | StringLiteral tok ty => exact Holds.of_ok h
      | PrefixExpression tok right => exact hW w right errs h
      | For name vector value =>
        exact walker.thenNode_grow _ (walker.walkFor_grow hW D name vector value h)
      | While statement value => exact walker.walkWhile_grow hW statement value h
      | InfixExpression tok left operator right =>
        exact walker.walkInfixExpression_grow hW D tok left operator right h
      | IfExpression condition consequence alternative =>
        exact walker.thenNode_grow _ (walker.walkIf_grow hW condition consequence alternative h)
      | FunctionLiteral tok name method methodVariable parameters body returnType =>
        exact walker.thenNode_grow _
          (walker.walkFunctionLiteral_grow hW _ tok name method methodVariable parameters body h)
      | CallExpression tok name arguments function =>
        exact walker.walkCallExpression_grow hW D _ name arguments function h
      | Other tok => exact Holds.of_ok h

theorem Holds.of_cases {α : Type} {c : Prop} [Decidable c] {x y : Except Fault α}
    {Q : α → Prop}
    (hx : c → Holds x Q) (hy : ¬ c → Holds y Q) : Holds (if c then x else y) Q := by
  split
  · exact hx (by assumption)
  · exact hy (by assumption)

theorem walker.env_addDiagnostic (sev : diagnostics.Severity) (w : walker.Walker)
    (tok : token.Item) (msg : List Nat) (args : List diagnostics.Arg) :
    (walker.addDiagnostic sev w tok msg args).env = w.env := by
  obtain ⟨_, _, _⟩ := w
  rfl

theorem walker.env_fatalWhen (c : Bool) (w : walker.Walker) (tok : token.Item)
    (msg : List Nat) (args : List diagnostics.Arg) :
    (walker.fatalWhen c w tok msg args).env = w.env := by
  unfold walker.fatalWhen
  split
  · exact walker.env_addDiagnostic _ _ _ _ _
  · rfl

theorem walker.env_setState (w : walker.Walker) (s : List Nat) : (w.setState s).env = w.env := by
  obtain ⟨_, _, _⟩ := w
  rfl

theorem walker.env_setEnv (w : walker.Walker) (e : Option environment.Environment) :
    (w.setEnv e).env = e := by
  obtain ⟨_, _, _⟩ := w
  rfl

theorem walker.frameHas_of_env {I : environment.Environment → Prop} {w w1 : walker.Walker}
    (h : w.frameHas I) (he : w1.env = w.env) : w1.frameHas I := by
  obtain ⟨e, h1, h2⟩ := h
  exact ⟨e, he.trans h1, h2⟩

theorem walker.addDiagnostic_frame {I : environment.Environment → Prop} {w : walker.Walker}
    (sev : diagnostics.Severity) (tok : token.Item) (msg : List Nat)
    (args : List diagnostics.Arg) (h : w.frameHas I) :
    (walker.addDiagnostic sev w tok msg args).frameHas I :=
  walker.frameHas_of_env h (walker.env_addDiagnostic _ _ _ _ _)

theorem walker.fatalWhen_frame {I : environment.Environment → Prop} {w : walker.Walker}
    (c : Bool) (tok : token.Item) (msg : List Nat) (args : List diagnostics.Arg)
    (h : w.frameHas I) : (walker.fatalWhen c w tok msg args).frameHas I :=
  walker.frameHas_of_env h (walker.env_fatalWhen _ _ _ _ _)

theorem walker.setState_frame {I : environment.Environment → Prop} {w : walker.Walker}
    (s : List Nat) (h : w.frameHas I) : (w.setState s).frameHas I :=
  walker.frameHas_of_env h (walker.env_setState _ _)

/-- A write to the current frame that keeps `I`. -/
theorem walker.setEnv_frame {I : environment.Environment → Prop} {w : walker.Walker}
    {e e1 : environment.Environment} (h : w.frameHas I) (he : w.env = some e)
    (h1 : I e → I e1) : (w.setEnv (some e1)).frameHas I := by
  obtain ⟨e0, h2, h3⟩ := h
  rw [he] at h2
  cases h2
  exact ⟨e1, walker.env_setEnv _ _, h1 h3⟩

/-- Opening a frame gives the walker the frame that encloses it. -/
theorem walker.Open_env {w : walker.Walker} {o : Option environment.Environment}
    (h : w.enclosing = some o) : Holds w.Open (fun w1 => w1.env = o) := by
  constructor
  intro w1 h1
  obtain ⟨errors, env, state⟩ := w
  cases env with
  | none => cases h
  | some e =>
    cases h1
    exact Option.some.inj h

theorem walker.Open_frame {I : environment.Environment → Prop} {w w0 : walker.Walker}
    (h : w.enclosing = some w0.env) (h0 : w0.frameHas I) :
    Holds w.Open (fun w1 => w1.frameHas I) :=
  (walker.Open_env h).weaken (fun _ h1 => walker.frameHas_of_env h0 h1)

theorem environment.Environment.SetTypeUsed_keeps {I : environment.Environment → Prop}
    (hI : walker.FrameInv I) (e : environment.Environment) (name : List Nat) (h : I e) :
    I (e.SetTypeUsed name) := by
  unfold environment.Environment.SetTypeUsed
  dsimp only
  split
  · exact h
  · exact hI.setType _ _ _ h

theorem walker.walkEach_frame {I : environment.Environment → Prop}
    {W : walker.WalkFn} (hW : walker.Framed I W) :
    ∀ (xs : List ast.Node) (w : walker.Walker),
      w.frameHas I → Holds (walker.walkEach W w xs) (fun w1 => w1.frameHas I)
  | [], _, h => Holds.of_ok h
  | s :: rest, w, h =>
    Holds.of_bind _ (hW w (some s) h) (fun ⟨w1, _, _⟩ h1 => walker.walkEach_frame hW rest w1 h1)

theorem walker.walkSquareFrom_frame {I : environment.Environment → Prop}
    {W : walker.WalkFn} (hW : walker.Framed I W) :
    ∀ (xs : List ast.Node) (w : walker.Walker) (t : ast.Types) (n : Option ast.Node),
      w.frameHas I → Holds (walker.walkSquareFrom W w xs t n) (fun r => r.1.frameHas I)
  | [], _, _, _, h => Holds.of_ok h
  | s :: rest, w, _, _, h =>
    Holds.of_bind _ (hW w (some s) h) (fun ⟨w1, t1, n1⟩ h1 =>
      walker.walkSquareFrom_frame hW rest w1 t1 n1 h1)

theorem walker.walkReturned_frame {I : environment.Environment → Prop}
    {W : walker.WalkFn} (hW : walker.Framed I W)
    {w : walker.Walker} (node : Option ast.Node)
    (h : w.frameHas I) :
    Holds (walker.walkReturned W w node) (fun w1 => w1.frameHas I) := by
  unfold walker.walkReturned
  split
  · exact Holds.of_bind _ (hW w _ h) (fun ⟨_, _, _⟩ h1 => Holds.of_pure h1)
  · exact Holds.of_ok h

theorem walker.walkProgramFrom_frame {I : environment.Environment → Prop}
    {W : walker.WalkFn} (hW : walker.Framed I W) :
    ∀ (xs : List ast.Node) (w : walker.Walker) (t : ast.Types) (n : Option ast.Node),
      w.frameHas I → Holds (walker.walkProgramFrom W w xs t n) (fun r => r.1.frameHas I)
  | [], _, _, _, h => Holds.of_ok h
  | s :: rest, w, _, _, h =>
    Holds.of_bind _ (hW w (some s) h) (fun ⟨_, t1, n1⟩ h1 =>
      Holds.of_bind _ (walker.walkReturned_frame hW n1 h1) (fun w2 h2 =>
        walker.walkProgramFrom_frame hW rest w2 t1 n1 h2))

theorem walker.walkArguments_frame {I : environment.Environment → Prop}
    {W : walker.WalkFn} (hW : walker.Framed I W) :
    ∀ (xs : List (ast.Argument ast.Node)) (w : walker.Walker),
      w.frameHas I → Holds (walker.walkArguments W w xs) (fun w1 => w1.frameHas I)
  | [], _, h => Holds.of_ok h
  | v :: rest, w, h =>
    Holds.of_bind _ (hW w v.Value h) (fun ⟨w1, _, _⟩ h1 =>
      walker.walkArguments_frame hW rest w1 h1)

theorem walker.checkArgument_frame {I : environment.Environment → Prop}
    (D : walker.Deps) {w : walker.Walker}
     (ps : List (ast.Parameter ast.Node))
    (argument : ast.Argument ast.Node) (i : Nat) (t : ast.Types) (h : w.frameHas I) :
    (walker.checkArgument D w ps argument i t).frameHas I := by
  refine walker.frameHas_of_env h ?_
  unfold walker.checkArgument
  dsimp only
  repeat' split
  all_goals rfl

theorem walker.walkKnownArguments_frame {I : environment.Environment → Prop}
    {W : walker.WalkFn} (hW : walker.Framed I W)
    (D : walker.Deps) (ps : List (ast.Parameter ast.Node)) :
    ∀ (xs : List (ast.Argument ast.Node)) (w : walker.Walker) (i : Nat),
      w.frameHas I →
      Holds (walker.walkKnownArguments W D ps w xs i) (fun w1 => w1.frameHas I)
  | [], _, _, h => Holds.of_ok h
  | a :: rest, w, i, h =>
    Holds.of_bind _ (hW w a.Value h) (fun ⟨_, t, _⟩ h1 =>
      walker.walkKnownArguments_frame hW D ps rest _ (i + 1)
        (walker.checkArgument_frame D ps a i t h1))

theorem walker.walkKnownCallExpression_frame {I : environment.Environment → Prop}
    {W : walker.WalkFn} (hW : walker.Framed I W)
    (D : walker.Deps) {w : walker.Walker} (node : ast.Node)
    (arguments : List (ast.Argument ast.Node)) (fn : environment.Object)
    (h : w.frameHas I) :
    Holds (walker.walkKnownCallExpression W D w node arguments fn)
      (fun r => r.1.frameHas I) :=
  Holds.of_bind (fun _ => True) ⟨fun _ _ => True.intro⟩ (fun ⟨ps, _⟩ _ =>
    Holds.of_bind _ (walker.walkKnownArguments_frame hW D ps arguments _ 0
      (walker.setState_frame _ h)) (fun _ h1 => Holds.of_pure (walker.setState_frame _ h1)))

theorem walker.walkCallExpression_frame {I : environment.Environment → Prop}
    {W : walker.WalkFn} (hW : walker.Framed I W)
    (D : walker.Deps) {w : walker.Walker} (node : ast.Node) (name : List Nat)
    (arguments : List (ast.Argument ast.Node))
    (function : Option ast.Node) (h : w.frameHas I) :
    Holds (walker.walkCallExpression W D w node name arguments function)
      (fun r => r.1.frameHas I) :=
  Holds.of_bind (fun _ => True) ⟨fun _ _ => True.intro⟩ (fun _ _ =>
    Holds.of_bind (fun _ => True) ⟨fun _ _ => True.intro⟩ (fun _ _ =>
      Holds.of_ite (walker.walkKnownCallExpression_frame hW D node arguments _ h)
        (Holds.of_bind _ (walker.walkArguments_frame hW arguments _ (walker.setState_frame _ h))
          (fun _ h1 => hW _ function (walker.setState_frame _ h1)))))

theorem walker.checkIterable_frame {I : environment.Environment → Prop}
    (D : walker.Deps) {w : walker.Walker}
     (t : ast.Types) (n : Option ast.Node)
    (h : w.frameHas I) :
    Holds (walker.checkIterable D w t n) (fun w1 => w1.frameHas I) :=
  Holds.of_ite
    (Holds.of_bind (fun _ => True) ⟨fun _ _ => True.intro⟩ (fun _ _ =>
      Holds.of_pure (walker.addDiagnostic_frame _ _ _ _ h)))
    (Holds.of_pure h)

theorem walker.walkFor_frame {I : environment.Environment → Prop} {W : walker.WalkFn}
    (hB : walker.Balanced W) (D : walker.Deps) {w : walker.Walker}
    (name vector : Option ast.Node) (value : Option (List ast.Node)) (h : w.frameHas I) :
    Holds (walker.walkFor W D w name vector value) (fun w1 => w1.frameHas I) :=
  Holds.of_bind _ (hB _ name _ (walker.enclosing_Enclose w)) (fun ⟨_, _, _⟩ h1 =>
    Holds.of_bind _ (hB _ vector _ h1) (fun ⟨_, _, _⟩ h2 =>
      Holds.of_bind _ (walker.checkIterable_bal D _ _ h2) (fun _ h3 =>
        Holds.of_bind _ (walker.walkBlockStatement_bal hB value h3) (fun _ h4 =>
          walker.Open_frame h4 h))))

theorem walker.walkWhile_frame {I : environment.Environment → Prop} {W : walker.WalkFn}
    (hB : walker.Balanced W) (hW : walker.Framed I W) {w : walker.Walker}
    (statement value : Option ast.Node) (h : w.frameHas I) :
    Holds (walker.walkWhile W w statement value) (fun r => r.1.frameHas I) :=
  Holds.of_bind _ (hW _ statement h) (fun ⟨w1, _, _⟩ h1 =>
    Holds.of_bind _ (hB _ value _ (walker.enclosing_Enclose w1)) (fun ⟨_, _, _⟩ h2 =>
      Holds.of_bind _ (walker.Open_frame h2 h1) (fun _ h3 => Holds.of_pure h3)))

theorem walker.walkAlternative_frame {I : environment.Environment → Prop} {W : walker.WalkFn}
    (hB : walker.Balanced W) {w : walker.Walker} (alternative : Option ast.Node)
    (h : w.frameHas I) :
    Holds (walker.walkAlternative W w alternative) (fun w1 => w1.frameHas I) := by
  cases alternative with
  | none => exact Holds.of_ok h
  | some a =>
    exact Holds.of_bind _ (hB _ (some a) _ (walker.enclosing_Enclose w)) (fun ⟨_, _, _⟩ h2 =>
      walker.Open_frame h2 h)

theorem walker.walkIf_frame {I : environment.Environment → Prop} {W : walker.WalkFn}
    (hB : walker.Balanced W) (hW : walker.Framed I W) {w : walker.Walker}
    (condition consequence alternative : Option ast.Node) (h : w.frameHas I) :
    Holds (walker.walkIf W w condition consequence alternative) (fun w1 => w1.frameHas I) :=
  Holds.of_bind _ (hW _ condition h) (fun ⟨w1, _, _⟩ h1 =>
    Holds.of_bind _ (hB _ consequence _ (walker.enclosing_Enclose w1)) (fun ⟨_, _, _⟩ h2 =>
      Holds.of_bind _ (walker.Open_frame h2 h1) (fun _ h3 =>
        walker.walkAlternative_frame hB alternative h3)))

theorem walker.walkInfixExpressionDollar_frame {I : environment.Environment → Prop}
    {W : walker.WalkFn} (hW : walker.Framed I W)
    {w : walker.Walker} (tok : token.Item)
    (left right : Option ast.Node) (h : w.frameHas I) :
    Holds (walker.walkInfixExpressionDollar W w tok left right) (fun r => r.1.frameHas I) :=
  Holds.of_bind _ (hW _ left h) (fun ⟨_, _, _⟩ h1 =>
    hW _ right (walker.fatalWhen_frame _ _ _ _ h1))

theorem walker.walkInfixExpressionPipe_frame {I : environment.Environment → Prop}
    {W : walker.WalkFn} (hW : walker.Framed I W)
    {w : walker.Walker} (tok : token.Item)
    (left right : Option ast.Node) (h : w.frameHas I) :
    Holds (walker.walkInfixExpressionPipe W w tok left right) (fun r => r.1.frameHas I) :=
  Holds.of_bind _ (hW _ left h) (fun ⟨_, _, _⟩ h1 =>
    hW _ right (walker.fatalWhen_frame _ _ _ _ h1))

theorem walker.walkInfixExpressionRange_frame {I : environment.Environment → Prop}
    {W : walker.WalkFn} (hW : walker.Framed I W)
    (D : walker.Deps) {w : walker.Walker} (tok : token.Item) (left right : Option ast.Node)
    (h : w.frameHas I) :
    Holds (walker.walkInfixExpressionRange W D w tok left right)
      (fun r => r.1.frameHas I) := by
  unfold walker.walkInfixExpressionRange
  refine Holds.of_bind _ (hW _ left h) (fun ⟨w1, lt, ln⟩ h1 => ?_)
  have h2 := walker.fatalWhen_frame (!D.validMathTypes w1 lt) tok (str "`%v`:`%v` is not valid")
    [.types lt, .types lt] h1
  cases right with
  | none => exact Holds.of_pure h2
  | some r =>
    exact Holds.of_bind _ (hW _ (some r) h2) (fun ⟨_, _, _⟩ h3 =>
      Holds.of_pure (walker.fatalWhen_frame _ _ _ _ h3))

theorem walker.walkInfixExpressionComparison_frame {I : environment.Environment → Prop}
    {W : walker.WalkFn} (hW : walker.Framed I W)
    (D : walker.Deps) {w : walker.Walker} (tok : token.Item) (operator : List Nat)
    (left right : Option ast.Node)
    (h : w.frameHas I) :
    Holds (walker.walkInfixExpressionComparison W D w tok operator left right)
      (fun r => r.1.frameHas I) := by
  unfold walker.walkInfixExpressionComparison
  refine Holds.of_bind _ (hW _ left h) (fun ⟨w1, lt, ln⟩ h1 => ?_)
  cases right with
  | none => exact Holds.of_pure h1
  | some r =>
    refine Holds.of_bind _ (hW _ (some r) h1) (fun ⟨w2, rt, rn⟩ h2 => Holds.of_pure ?_)
    dsimp only
    split
    · exact walker.addDiagnostic_frame _ _ _ _ h2
    · exact h2

theorem walker.walkInfixExpressionDefault_frame {I : environment.Environment → Prop}
    {W : walker.WalkFn} (hW : walker.Framed I W)
    {w : walker.Walker} (left right : Option ast.Node) (h : w.frameHas I) :
    Holds (walker.walkInfixExpressionDefault W w left right) (fun r => r.1.frameHas I) := by
  unfold walker.walkInfixExpressionDefault
  refine Holds.of_bind _ (hW _ left h) (fun ⟨w1, lt, ln⟩ h1 => ?_)
  cases right with
  | none => exact Holds.of_pure h1
  | some r => exact hW _ (some r) h1

theorem walker.walkInfixExpressionMath_frame {I : environment.Environment → Prop}
    {W : walker.WalkFn} (hW : walker.Framed I W)
    (D : walker.Deps) {w : walker.Walker} (tok : token.Item) (operator : List Nat)
    (left right : Option ast.Node)
    (h : w.frameHas I) :
    Holds (walker.walkInfixExpressionMath W D w tok operator left right)
      (fun r => r.1.frameHas I) := by
  unfold walker.walkInfixExpressionMath
  refine Holds.of_bind _ (hW _ left h) (fun ⟨w1, lt, ln⟩ h1 => ?_)
  have h2 := walker.fatalWhen_frame (!D.validMathTypes w1 lt) tok
    (str "`%v` %v `%v` is not valid") [.types lt, .text operator, .types lt] h1
  cases right with
  | none => exact Holds.of_pure h2
  | some r =>
    exact Holds.of_bind _ (hW _ (some r) h2) (fun ⟨_, _, _⟩ h3 =>
      Holds.of_pure (walker.fatalWhen_frame _ _ _ _ h3))

theorem walker.reportProbe_frame {I : environment.Environment → Prop}
    {w : walker.Walker} (probe : Bool × Bool) (tok : token.Item) (errMsg missMsg : List Nat)
    (args : List diagnostics.Arg) (h : w.frameHas I) :
    (walker.reportProbe w probe tok errMsg missMsg args).frameHas I := by
  refine walker.frameHas_of_env h ?_
  unfold walker.reportProbe
  dsimp only
  repeat' split
  all_goals rfl

theorem walker.walkInfixExpressionNS_frame {I : environment.Environment → Prop}
    {W : walker.WalkFn} (hW : walker.Framed I W)
    (D : walker.Deps) {w : walker.Walker} (left right : Option ast.Node) (operator : List Nat)
    (h : w.frameHas I) :
    Holds (walker.walkInfixExpressionNS W D w left right operator)
      (fun r => r.1.frameHas I) := by
  unfold walker.walkInfixExpressionNS
  refine Holds.of_bind _ (hW _ left h) (fun ⟨w1, lt, ln⟩ h1 => ?_)
  refine Holds.of_bind (fun _ => True) ⟨fun _ _ => True.intro⟩ (fun li _ => ?_)
  have h2 := walker.reportProbe_frame (D.PackageIsInstalled li.Value) li
    (str "error checking if package `%v` is installed") (str "package `%v` is not installed")
    [.text li.Value] h1
  cases right with
  | none => exact Holds.of_pure h2
  | some r =>
    exact Holds.of_bind _ (hW _ (some r) h2) (fun ⟨_, _, _⟩ h3 =>
      Holds.of_bind (fun _ => True) ⟨fun _ _ => True.intro⟩ (fun _ _ =>
        Holds.of_pure (walker.reportProbe_frame _ _ _ _ _ h3)))

theorem walker.checkAssigned_frame {I : environment.Environment → Prop}
    (D : walker.Deps) {w : walker.Walker}
     (ln : Option ast.Node)
    (h : w.frameHas I) :
    Holds (walker.checkAssigned D w ln) (fun w1 => w1.frameHas I) := by
  unfold walker.checkAssigned
  split
  · exact Holds.of_bind (fun _ => True) ⟨fun _ _ => True.intro⟩ (fun _ _ =>
      Holds.of_pure (walker.fatalWhen_frame _ _ _ _ (walker.fatalWhen_frame _ _ _ _ h)))
  · exact Holds.of_ok h

theorem walker.walkInfixExpressionEqual_frame {I : environment.Environment → Prop}
    {W : walker.WalkFn} (hW : walker.Framed I W)
    (D : walker.Deps) {w : walker.Walker} (tok : token.Item) (left right : Option ast.Node)
    (h : w.frameHas I) :
    Holds (walker.walkInfixExpressionEqual W D w tok left right)
      (fun r => r.1.frameHas I) :=
  Holds.of_bind _ (hW _ left h) (fun ⟨_, _, ln⟩ h1 =>
    Holds.of_bind _ (walker.checkAssigned_frame D ln h1) (fun _ h2 =>
      Holds.of_bind _ (hW _ right (walker.fatalWhen_frame _ _ _ _ h2)) (fun ⟨_, _, _⟩ h3 =>
        Holds.of_pure (walker.fatalWhen_frame _ _ _ _ h3))))

theorem walker.walkInfixExpressionEqualParent_frame {I : environment.Environment → Prop}
    {W : walker.WalkFn}
    (hW : walker.Framed I W) {w : walker.Walker} (left right : Option ast.Node) (h : w.frameHas I) :
    Holds (walker.walkInfixExpressionEqualParent W w left right)
      (fun r => r.1.frameHas I) := by
  unfold walker.walkInfixExpressionEqualParent
  refine Holds.of_bind _ (hW _ left h) (fun ⟨w1, lt, ln⟩ h1 => ?_)
  cases right with
  | none => exact Holds.of_pure h1
  | some r => exact Holds.of_bind _ (hW _ (some r) h1) (fun ⟨_, _, _⟩ h2 => Holds.of_pure h2)

theorem walker.walkInfixExpression_frame {I : environment.Environment → Prop}
    {W : walker.WalkFn} (hW : walker.Framed I W)
    (D : walker.Deps) {w : walker.Walker} (tok : token.Item) (left : Option ast.Node)
    (operator : List Nat) (right : Option ast.Node)
    (h : w.frameHas I) :
    Holds (walker.walkInfixExpression W D w tok left operator right)
      (fun r => r.1.frameHas I) := by
  unfold walker.walkInfixExpression
  repeat' first
    | apply Holds.of_ite
    | exact walker.walkInfixExpressionEqual_frame hW D tok left right h
    | exact walker.walkInfixExpressionNS_frame hW D left right _ h
    | exact walker.walkInfixExpressionMath_frame hW D tok operator left right h
    | exact walker.walkInfixExpressionEqualParent_frame hW left right h
    | exact walker.walkInfixExpressionComparison_frame hW D tok operator left right h
    | exact walker.walkInfixExpressionPipe_frame hW tok left right h
    | exact walker.walkInfixExpressionRange_frame hW D tok left right h
    | exact walker.walkInfixExpressionDollar_frame hW tok left right h
    | exact walker.walkInfixExpressionDefault_frame hW left right h

theorem walker.SetVariable_frame {I : environment.Environment → Prop} (hI : walker.FrameInv I)
    {w : walker.Walker} {e : environment.Environment} (name : List Nat)
    (val : environment.Object) (h : w.frameHas I) (he : w.env = some e)
    (hn : (e.GetVariable name false).2 = false) :
    Holds (w.SetVariable name val) (fun w1 => w1.frameHas I) :=
  Holds.of_bind _ (walker.getEnv_holds w) (fun _ h2 =>
    Holds.of_pure (walker.setEnv_frame h h2 (fun h3 =>
      hI.declare _ _ _ h3 (by
        rw [he] at h2
        cases h2
        exact hn))))

theorem walker.walkLetStatement_frame {I : environment.Environment → Prop}
    (hI : walker.FrameInv I) {W : walker.WalkFn} (hW : walker.Framed I W) (D : walker.Deps)
    {w : walker.Walker} (tok : token.Item) (name : List Nat) (ty : ast.Types)
    (value : Option ast.Node) (h : w.frameHas I) :
    Holds (walker.walkLetStatement W D w tok name ty value) (fun r => r.1.frameHas I) :=
  Holds.of_bind _ (walker.getEnv_holds w) (fun _ he =>
    Holds.of_cases (fun _ => hW _ value (walker.addDiagnostic_frame _ _ _ _ h))
      (fun hn => Holds.of_bind _
        (walker.SetVariable_frame hI _ _ h he (Bool.eq_false_iff.mpr hn)) (fun _ h1 =>
          Holds.of_bind _ (hW _ value h1) (fun ⟨_, _, _⟩ h2 =>
            Holds.of_pure (walker.fatalWhen_frame _ _ _ _ h2)))))

theorem walker.walkConstStatement_frame {I : environment.Environment → Prop}
    (hI : walker.FrameInv I) {W : walker.WalkFn} (hW : walker.Framed I W)
    {w : walker.Walker} (tok : token.Item) (name : List Nat) (ty : ast.Types)
    (value : Option ast.Node) (h : w.frameHas I) :
    Holds (walker.walkConstStatement W w tok name ty value) (fun r => r.1.frameHas I) :=
  Holds.of_bind _ (walker.getEnv_holds w) (fun _ he =>
    Holds.of_cases (fun _ => hW _ value (walker.addDiagnostic_frame _ _ _ _ h))
      (fun hn => Holds.of_bind _
        (walker.SetVariable_frame hI _ _ (walker.fatalWhen_frame _ _ _ _ h)
          ((walker.env_fatalWhen _ _ _ _ _).trans he) (Bool.eq_false_iff.mpr hn))
        (fun _ h1 => hW _ value h1)))

theorem walker.walkDecoratorClass_frame {I : environment.Environment → Prop}
    (hI : walker.FrameInv I) {W : walker.WalkFn} (hW : walker.Framed I W)
    {w : walker.Walker} (node : ast.Node) (tok : token.Item)
    (ty : Option (token.Item × List Nat × ast.Types)) (h : w.frameHas I) :
    Holds (walker.walkDecoratorClass W w node tok ty) (fun r => r.1.frameHas I) := by
  unfold walker.walkDecoratorClass
  split
  · exact Holds.of_error
  · exact Holds.of_bind _ (walker.getEnv_holds w) (fun _ he =>
      hW _ _ (walker.setEnv_frame h he (hI.setClass _ _ _)))

theorem walker.walkTypeStatement_frame {I : environment.Environment → Prop}
    (hI : walker.FrameInv I) {w : walker.Walker} (tok : token.Item) (name : List Nat)
    (ty : ast.Types) (h : w.frameHas I) :
    Holds (walker.walkTypeStatement w tok name ty) (fun w1 => w1.frameHas I) :=
  Holds.of_bind _ (walker.getEnv_holds w) (fun _ he =>
    Holds.of_pure (walker.setEnv_frame (walker.fatalWhen_frame _ _ _ _ h)
      ((walker.env_fatalWhen _ _ _ _ _).trans he) (hI.setType _ _ _)))

theorem walker.walkIdentifier_frame {I : environment.Environment → Prop}
    (hI : walker.FrameInv I) {w : walker.Walker} (node : ast.Node) (tok : token.Item)
    (value : List Nat) (ty : ast.Types) (h : w.frameHas I) :
    Holds (walker.walkIdentifier w node tok value ty) (fun r => r.1.frameHas I) := by
  unfold walker.walkIdentifier
  refine Holds.of_bind _ (walker.getEnv_holds w) (fun e he => ?_)
  dsimp only
  split
  · refine Holds.of_pure ?_
    split
    · exact walker.setEnv_frame (walker.addDiagnostic_frame _ _ _ _ h)
        ((walker.env_addDiagnostic _ _ _ _ _).trans he) (hI.used _ _)
    · exact walker.setEnv_frame h he (hI.used _ _)
  · split
    · exact Holds.of_bind (fun _ => True) ⟨fun _ _ => True.intro⟩
        (fun ⟨_, _⟩ _ => Holds.of_pure h)
    · split
      · exact Holds.of_pure
          (walker.setEnv_frame h he (environment.Environment.SetTypeUsed_keeps hI _ _))
      · exact Holds.of_pure h

theorem walker.walkVectorFrom_frame {I : environment.Environment → Prop}
    {W : walker.WalkFn} (hW : walker.Framed I W) :
    ∀ (xs : List ast.Node) (w : walker.Walker) (ts : ast.Types),
      w.frameHas I → Holds (walker.walkVectorFrom W w xs ts) (fun r => r.1.frameHas I)
  | [], _, _, h => Holds.of_ok h
  | s :: rest, w, ts, h =>
    Holds.of_bind _ (hW w (some s) h) (fun ⟨w1, t, _⟩ h1 =>
      walker.walkVectorFrom_frame hW rest w1 (ts ++ t) h1)

theorem walker.walkVectorLiteral_frame {I : environment.Environment → Prop}
    {W : walker.WalkFn} (hW : walker.Framed I W)
    (D : walker.Deps) {w : walker.Walker} (node : ast.Node) (tok : token.Item)
    (value : List ast.Node) (h : w.frameHas I) :
    Holds (walker.walkVectorLiteral W D w node tok value) (fun r => r.1.frameHas I) :=
  Holds.of_bind _ (walker.walkVectorFrom_frame hW value w [] h) (fun ⟨_, _⟩ h1 =>
    Holds.of_pure (walker.fatalWhen_frame _ _ _ _ h1))

theorem walker.walkNamedFunctionLiteral_frame {I : environment.Environment → Prop}
    (hI : walker.FrameInv I) {W : walker.WalkFn} (hB : walker.Balanced W)
    {w : walker.Walker} (node : ast.Node) (tok : token.Item) (name : List Nat)
    (method : Option ast.Ty) (methodVariable : List Nat)
    (parameters : List (ast.Parameter ast.Node)) (body : Option (List ast.Node))
    (h : w.frameHas I) :
    Holds (walker.walkNamedFunctionLiteral W w node tok name method methodVariable parameters
      body) (fun w1 => w1.frameHas I) :=
  Holds.of_bind _ (walker.getEnv_holds w) (fun e he =>
    Holds.of_ite (Holds.of_pure (walker.addDiagnostic_frame _ _ _ _ h))
      (Holds.of_bind _
        (walker.bindReceiver_bal tok method methodVariable
          (walker.enclosing_Enclose (w.setEnv (some (e.SetFunction name
            { environment.Object.zero with Token := tok, Value := some node })))))
        (fun ⟨_, m⟩ h1 =>
          Holds.of_bind _ (walker.walkNamedParameters_bal hB parameters _ m _ h1) (fun _ h2 =>
            Holds.of_bind _ (walker.walkBody_bal hB body h2) (fun _ h3 =>
              walker.Open_frame h3
                (walker.setEnv_frame h he (hI.setFunction _ _ _)))))))

theorem walker.walkAnonymousFunctionLiteral_frame {I : environment.Environment → Prop}
    {W : walker.WalkFn} (hB : walker.Balanced W) {w : walker.Walker}
    (parameters : List (ast.Parameter ast.Node)) (body : Option (List ast.Node))
    (h : w.frameHas I) :
    Holds (walker.walkAnonymousFunctionLiteral W w parameters body)
      (fun w1 => w1.frameHas I) :=
  Holds.of_bind _ (walker.walkAnonymousParameters_bal hB parameters _ [] _
    (walker.enclosing_Enclose w)) (fun _ h2 =>
      Holds.of_bind _ (walker.walkBody_bal hB body h2) (fun _ h3 => walker.Open_frame h3 h))

theorem walker.walkFunctionLiteral_frame {I : environment.Environment → Prop}
    (hI : walker.FrameInv I) {W : walker.WalkFn} (hB : walker.Balanced W)
    {w : walker.Walker} (node : ast.Node) (tok : token.Item) (name : List Nat)
    (method : Option ast.Ty) (methodVariable : List Nat)
    (parameters : List (ast.Parameter ast.Node)) (body : Option (List ast.Node))
    (h : w.frameHas I) :
    Holds (walker.walkFunctionLiteral W w node tok name method methodVariable parameters body)
      (fun w1 => w1.frameHas I) :=
  Holds.of_ite (walker.walkAnonymousFunctionLiteral_frame hB parameters body h)
    (walker.walkNamedFunctionLiteral_frame hI hB node tok name method methodVariable parameters
      body h)

theorem walker.thenNode_frame {I : environment.Environment → Prop}
    {r : Except Fault walker.Walker}
     (node : ast.Node)
    (h : Holds r (fun w1 => w1.frameHas I)) :
    Holds (walker.thenNode r node) (fun r => r.1.frameHas I) :=
  Holds.of_bind _ h (fun _ h1 => Holds.of_pure h1)

theorem walker.dropResult_frame {I : environment.Environment → Prop}
    {r : Except Fault walker.Result}
     (node : ast.Node)
    (h : Holds r (fun r => r.1.frameHas I)) :
    Holds (walker.dropResult r node) (fun r => r.1.frameHas I) :=
  Holds.of_bind _ h (fun ⟨_, _, _⟩ h1 => Holds.of_pure h1)

/-- The walk keeps, at every depth of calls, a property of the current frame
that its writes to the frame keep. -/
theorem walker.Walk_framed {I : environment.Environment → Prop} (hI : walker.FrameInv I)
    (D : walker.Deps) : ∀ fuel : Nat, walker.Framed I (walker.Walk D fuel)
  | 0 => fun _ _ _ => Holds.of_error
  | fuel + 1 => by
    have hW := walker.Walk_framed hI D fuel
    have hB := walker.Walk_balanced D fuel
    intro w node h
    cases node with
    | none => exact Holds.of_ok h
    | some n =>
      cases n with
      | Program statements => exact walker.walkProgramFrom_frame hW statements w [] none h
      | ExpressionStatement expression =>
        cases expression with
        | none => exact Holds.of_ok h
        | some e => exact hW w (some e) h
      | Square statements => exact walker.walkSquareFrom_frame hW statements w [] none h
      | LetStatement tok name ty value =>
        exact walker.walkLetStatement_frame hI hW D tok name ty value h
      | ConstStatement tok name ty value =>
        exact walker.walkConstStatement_frame hI hW tok name ty value h
      | ReturnStatement value => exact hW w value h
      | TypeStatement tok name ty =>
        exact walker.thenNode_frame _ (walker.walkTypeStatement_frame hI tok name ty h)
      | DecoratorClass tok ty =>
        exact walker.dropResult_frame _ (walker.walkDecoratorClass_frame hI hW _ tok ty h)
      | DecoratorGeneric func => exact walker.dropResult_frame _ (hW w func h)
      | DecoratorDefault func => exact walker.dropResult_frame _ (hW w func h)
      | Keyword tok ty => exact Holds.of_ok h
      | Null tok ty => exact Holds.of_ok h
      | CommentStatement tok => exact Holds.of_ok h
      | BlockStatement statements =>
        exact walker.thenNode_frame _ (walker.walkEach_frame hW statements w h)
      | Attrbute tok => exact Holds.of_ok h
      | Identifier tok value ty => exact walker.walkIdentifier_frame hI _ tok value ty h
      | Boolean tok ty => exact Holds.of_ok h
      | IntegerLiteral tok ty => exact Holds.of_ok h
      | FloatLiteral tok ty => exact Holds.of_ok h
      | VectorLiteral tok value => exact walker.walkVectorLiteral_frame hW D _ tok value h
      | SquareRightLiteral tok => exact Holds.of_ok h
      | StringLiteral tok ty => exact Holds.of_ok h
      | PrefixExpression tok right => exact hW w right h
      | For name vector value =>
        exact walker.thenNode_frame _ (walker.walkFor_frame hB D name vector value h)
      | While statement value => exact walker.walkWhile_frame hB hW statement value h
      | InfixExpression tok left operator right =>
        exact walker.walkInfixExpression_frame hW D tok left operator right h
      | IfExpression condition consequence alternative =>
        exact walker.thenNode_frame _
          (walker.walkIf_frame hB hW condition consequence alternative h)
      | FunctionLiteral tok name method methodVariable parameters body returnType =>
        exact walker.thenNode_frame _
          (walker.walkFunctionLiteral_frame hI hB _ tok name method methodVariable parameters
            body h)
      | CallExpression tok name arguments function =>
        exact walker.walkCallExpression_frame hW D _ name arguments function h
      | Other tok => exact Holds.of_ok h

theorem Except.bind_ok_inv {α β : Type} {x : Except Fault α} {f : α → Except Fault β} {b : β}
    (h : x >>= f = .ok b) : ∃ a, x = .ok a ∧ f a = .ok b := by
  cases x with
  | error e => cases h
  | ok a => exact ⟨a, rfl, h⟩

theorem walker.getEnv_eq {w : walker.Walker} {e : environment.Environment} (he : w.env = some e) :
    w.getEnv = .ok e := by
  unfold walker.Walker.getEnv
  rw [he]

theorem environment.Object.sameButUsed_trans {a b c : environment.Object}
    (h1 : a.sameButUsed b) (h2 : b.sameButUsed c) : a.sameButUsed c := by
  unfold environment.Object.sameButUsed at *
  rw [h2, h1]

theorem environment.Object.sameButUsed_mark (a : environment.Object) :
    a.sameButUsed { a with Used := true } := rfl

theorem environment.Environment.GetVariable_SetVariable_eq (e : environment.Environment)
    (k : List Nat) (v : environment.Object) :
    (e.SetVariable k v).GetVariable k false = (v, true) := by
  obtain ⟨⟨vs, ts, fs, cs, fn⟩, o⟩ := e
  rw [environment.Environment.GetVariable_false]
  exact environment.Table.get_set_eq vs k v

theorem environment.Environment.GetVariable_SetVariable_ne (e : environment.Environment)
    (k name : List Nat) (v : environment.Object) (h : name ≠ k) :
    (e.SetVariable k v).GetVariable name false = e.GetVariable name false := by
  obtain ⟨⟨vs, ts, fs, cs, fn⟩, o⟩ := e
  rw [environment.Environment.GetVariable_false, environment.Environment.GetVariable_false]
  exact environment.Table.get_set_ne vs k name v h

theorem environment.Environment.GetVariable_SetType (e : environment.Environment)
    (k name : List Nat) (v : environment.Object) :
    (e.SetType k v).GetVariable name false = e.GetVariable name false := by
  obtain ⟨⟨vs, ts, fs, cs, fn⟩, o⟩ := e
  rw [environment.Environment.GetVariable_false, environment.Environment.GetVariable_false]
  rfl

theorem environment.Environment.GetVariable_SetFunction (e : environment.Environment)
    (k name : List Nat) (v : environment.Object) :
    (e.SetFunction k v).GetVariable name false = e.GetVariable name false := by
  obtain ⟨⟨vs, ts, fs, cs, fn⟩, o⟩ := e
  rw [environment.Environment.GetVariable_false, environment.Environment.GetVariable_false]
  rfl

theorem environment.Environment.GetVariable_SetClass (e : environment.Environment)
    (k name : List Nat) (v : environment.Object) :
    (e.SetClass k v).GetVariable name false = e.GetVariable name false := by
  obtain ⟨⟨vs, ts, fs, cs, fn⟩, o⟩ := e
  rw [environment.Environment.GetVariable_false, environment.Environment.GetVariable_false]
  rfl

theorem environment.Environment.keepsVariables_refl (e : environment.Environment) :
    e.keepsVariables e :=
  fun _ h => ⟨h, rfl⟩

/-- The writes of the walker to the current frame keep the variables that the
frame held at some earlier point. -/
theorem environment.Environment.keepsVariables_inv (e0 : environment.Environment) :
    walker.FrameInv e0.keepsVariables where
  declare := by
    intro e k v h hk name hn
    have h1 := h name hn
    have h2 : name ≠ k := by
      intro h3
      rw [h3, hk] at h1
      exact Bool.false_ne_true h1.1
    rw [environment.Environment.GetVariable_SetVariable_ne e k name v h2]
    exact h1
  used := by
    intro e k h name hn
    have h1 := h name hn
    unfold environment.Environment.SetVariableUsed
    dsimp only
    split
    · exact h1
    · by_cases h2 : name = k
      · subst h2
        rw [environment.Environment.GetVariable_SetVariable_eq]
        exact ⟨rfl, environment.Object.sameButUsed_trans h1.2
          (environment.Object.sameButUsed_mark _)⟩
      · rw [environment.Environment.GetVariable_SetVariable_ne e k name _ h2]
        exact h1
  setType := by
    intro e k v h name hn
    rw [environment.Environment.GetVariable_SetType]
    exact h name hn
  setFunction := by
    intro e k v h name hn
    rw [environment.Environment.GetVariable_SetFunction]
    exact h name hn
  setClass := by
    intro e k v h name hn
    rw [environment.Environment.GetVariable_SetClass]
    exact h name hn

/-- When a walk returns, the current frame holds every variable it held at the
call, with the same entry but for the flag `Used`. -/
theorem walker.Walk_keepsVariables (D : walker.Deps) (fuel : Nat) {w w1 : walker.Walker}
    {e : environment.Environment} {node : Option ast.Node} {t : ast.Types}
    {n : Option ast.Node} (he : w.env = some e)
    (h : walker.Walk D fuel w node = .ok (w1, t, n)) :
    ∃ e1, w1.env = some e1 ∧ e.keepsVariables e1 :=
  (walker.Walk_framed (environment.Environment.keepsVariables_inv e) D fuel w node
    ⟨e, he, environment.Environment.keepsVariables_refl e⟩).out (w1, t, n) h

/-- When a walk returns, the diagnostics recorded before it are still there,
in their order, before those the walk recorded. -/
theorem walker.Walk_keepsErrors (D : walker.Deps) (fuel : Nat) {w w1 : walker.Walker}
    {node : Option ast.Node} {t : ast.Types} {n : Option ast.Node}
    (h : walker.Walk D fuel w node = .ok (w1, t, n)) : w.errors <+: w1.errors :=
  (walker.Walk_growing D fuel w node w.errors (List.prefix_refl _)).out (w1, t, n) h

theorem environment.Environment.GetVariable_miss (e : environment.Environment) (name : List Nat)
    (h : (e.GetVariable name true).2 = false) :
    e.GetVariable name true = (environment.Object.zero, false) := by
  rw [environment.Environment.GetVariable_true] at h ⊢
  split at h
  · rename_i f hf
    have h1 := List.find?_some hf
    rw [h] at h1
    exact absurd h1 Bool.false_ne_true
  · rfl

theorem environment.Environment.GetVariable_SetType_any (e : environment.Environment)
    (k name : List Nat) (v : environment.Object) (outer : Bool) :
    (e.SetType k v).GetVariable name outer = e.GetVariable name outer := by
  obtain ⟨⟨vs, ts, fs, cs, fn⟩, o⟩ := e
  cases o <;> rfl

theorem environment.Environment.GetVariable_SetTypeUsed (e : environment.Environment)
    (k name : List Nat) (outer : Bool) :
    (e.SetTypeUsed k).GetVariable name outer = e.GetVariable name outer := by
  unfold environment.Environment.SetTypeUsed
  dsimp only
  split
  · rfl
  · exact environment.Environment.GetVariable_SetType_any _ _ _ _ _

/-- Marking a variable used leaves what a lookup of it through the chain
finds, but for the flag `Used`. -/
theorem environment.Environment.GetVariable_SetVariableUsed (e : environment.Environment)
    (name : List Nat) :
    ((e.SetVariableUsed name).GetVariable name true).2 = (e.GetVariable name true).2 ∧
      (e.GetVariable name true).1.sameButUsed
        ((e.SetVariableUsed name).GetVariable name true).1 := by
  unfold environment.Environment.SetVariableUsed
  dsimp only
  split
  · exact ⟨rfl, rfl⟩
  · rename_i h
    have h1 : (e.GetVariable name false).2 = true := by
      cases h2 : (e.GetVariable name false).2
      · rw [h2] at h
        exact absurd rfl h
      · rfl
    obtain ⟨⟨vs, ts, fs, cs, fn⟩, o⟩ := e
    rw [environment.Environment.GetVariable_false] at h1
    have h3 : (environment.Table.get vs name).2 = true := h1
    have h4 := environment.Table.get_set_eq vs name
      { (environment.Table.get vs name).1 with Used := true }
    cases o with
    | none =>
      simp only [environment.Environment.GetVariable, environment.Environment.SetVariable, h4, h3]
      exact ⟨trivial, rfl⟩
    | some e1 =>
      simp only [environment.Environment.GetVariable, environment.Environment.SetVariable, h4, h3,
        Bool.not_true, Bool.false_and, Bool.false_eq_true, if_false]
      exact ⟨trivial, rfl⟩

/-- The method `walkIdentifier` on a name that a frame of the chain holds as a
variable. -/
theorem walker.walkIdentifier_found {w : walker.Walker} {e : environment.Environment}
    (node : ast.Node) (tok : token.Item) {value : List Nat} (ty : ast.Types)
    (he : w.env = some e) (hx : (e.GetVariable value true).2 = true) :
    ∃ w1, walker.walkIdentifier w node tok value ty
        = .ok (w1, (e.GetVariable value true).1.Type_, some node) ∧
      w.errors <+: w1.errors ∧ w1.env = some (e.SetVariableUsed value) ∧ w1.state = w.state := by
  refine ⟨(if (e.GetVariable value true).1.CanMiss then
      walker.addWarnf w tok (str "`%v` might be missing") [.text tok.Value]
    else w).setEnv (some (e.SetVariableUsed value)), ?_, ?_, ?_, ?_⟩
  · unfold walker.walkIdentifier
    rw [walker.getEnv_eq he]
    show (if _ then _ else _) = _
    rw [if_pos hx]
    rfl
  · rw [walker.errors_setEnv]
    split
    · exact walker.addDiagnostic_grow _ _ _ _ (List.prefix_refl _)
    · exact List.prefix_refl _
  · exact walker.env_setEnv _ _
  · obtain ⟨errors, env, state⟩ := w
    split <;> rfl

/-- The method `walkIdentifier` on a name that no frame of the chain holds as
a variable, when it returns. -/
theorem walker.walkIdentifier_missing {w w1 : walker.Walker} {e : environment.Environment}
    {node : ast.Node} {tok : token.Item} {value : List Nat} {ty t : ast.Types}
    {n : Option ast.Node} (he : w.env = some e) (hx : (e.GetVariable value true).2 = false)
    (h : walker.walkIdentifier w node tok value ty = .ok (w1, t, n)) :
    n = some node ∧ w1.errors = w.errors ∧ w1.state = w.state ∧
      ∃ e1, w1.env = some e1 ∧
        ∀ (name : List Nat) (outer : Bool),
          e1.GetVariable name outer = e.GetVariable name outer := by
  unfold walker.walkIdentifier at h
  rw [walker.getEnv_eq he] at h
  replace h : (if _ then _ else _) = _ := h
  rw [if_neg (by rw [hx]; exact Bool.false_ne_true)] at h
  split at h
  · obtain ⟨⟨ps, rt⟩, _, h2⟩ := Except.bind_ok_inv h
    cases h2
    exact ⟨rfl, rfl, rfl, e, he, fun _ _ => rfl⟩
  · split at h
    · cases h
      refine ⟨rfl, walker.errors_setEnv _ _, ?_, _, walker.env_setEnv _ _, fun _ _ =>
        environment.Environment.GetVariable_SetTypeUsed _ _ _ _⟩
      obtain ⟨errors, env, state⟩ := w
      rfl
    · cases h
      exact ⟨rfl, rfl, rfl, e, he, fun _ _ => rfl⟩

theorem walker.fatalWhen_mem {c : Bool} {w : walker.Walker} {tok : token.Item} {msg : List Nat}
    {args : List diagnostics.Arg} {d : diagnostics.Diagnostic}
    (hd : d ∈ (walker.fatalWhen c w tok msg args).errors) (hm : d.Message ≠ msg) :
    d ∈ w.errors := by
  unfold walker.fatalWhen at hd
  split at hd
  · rw [walker.addFatalf, walker.errors_addDiagnostic] at hd
    rcases List.mem_append.mp hd with h3 | h3
    · exact h3
    · rw [List.mem_singleton] at h3
      rw [h3] at hm
      exact absurd rfl hm
  · exact hd

theorem walker.fatalWhen_true (w : walker.Walker) (tok : token.Item) (msg : List Nat)
    (args : List diagnostics.Arg) :
    (walker.fatalWhen true w tok msg args).errors = w.errors ++ [⟨tok, msg, args, .Fatal⟩] := by
  unfold walker.fatalWhen
  rw [if_pos rfl, walker.addFatalf, walker.errors_addDiagnostic]

theorem walker.state_fatalWhen (c : Bool) (w : walker.Walker) (tok : token.Item)
    (msg : List Nat) (args : List diagnostics.Arg) :
    (walker.fatalWhen c w tok msg args).state = w.state := by
  unfold walker.fatalWhen
  split
  · obtain ⟨_, _, _⟩ := w
    rfl
  · rfl

/-- The method `walkInfixExpressionEqual` with an identifier on the left, when
it returns: the walker after the walk of the identifier, the walker that the
walk of the right-hand side receives and the walker it returns. -/
theorem walker.walkInfixExpressionEqual_inv {W : walker.WalkFn} {D : walker.Deps}
    {w w1 : walker.Walker} {e : environment.Environment} {tok itok : token.Item}
    {x : List Nat} {ity t : ast.Types} {right n : Option ast.Node} (he : w.env = some e)
    (hl : W w (some (.Identifier itok x ity))
      = walker.walkIdentifier w (.Identifier itok x ity) itok x ity)
    (h : walker.walkInfixExpressionEqual W D w tok (some (.Identifier itok x ity)) right
      = .ok (w1, t, n)) :
    ∃ (wa w3 : walker.Walker) (ea : environment.Environment) (lt : ast.Types),
      walker.walkIdentifier w (.Identifier itok x ity) itok x ity
        = .ok (wa, lt, some (.Identifier itok x ity)) ∧
      wa.env = some ea ∧
      W (walker.fatalWhen right.isNone
          (walker.fatalWhen (!(ea.GetVariable x true).2 && decide (wa.state ≠ str "call"))
            (walker.fatalWhen (ea.GetVariable x true).1.IsConst wa
              (D.Item (.Identifier itok x ity)) (str "`%v` is a constant")
              [.text (D.Item (.Identifier itok x ity)).Value])
            itok (str "`%v` does not exist") [.text x])
          tok (str "expecting right hand side") []) right = .ok (w3, t, n) ∧
      w1 = walker.fatalWhen (!D.typesValid w3 lt t) w3 tok
        (str "left expects `%v`, right returns `%v`") [.types lt, .types t] := by
  unfold walker.walkInfixExpressionEqual at h
  rw [hl] at h
  obtain ⟨⟨wa, lt, ln⟩, h1, h⟩ := Except.bind_ok_inv h
  have hn : ln = some (.Identifier itok x ity) := by
    cases hx : (e.GetVariable x true).2
    · exact (walker.walkIdentifier_missing he hx h1).1
    · obtain ⟨w2, h3, _⟩ := walker.walkIdentifier_found (.Identifier itok x ity) itok ity he hx
      rw [h3] at h1
      cases h1
      rfl
  subst hn
  obtain ⟨w2, h2, h⟩ := Except.bind_ok_inv h
  unfold walker.checkAssigned at h2
  obtain ⟨ea, h4, h2⟩ := Except.bind_ok_inv h2
  have h5 := (walker.getEnv_holds wa).out ea h4
  cases h2
  obtain ⟨⟨w3, rt, rn⟩, h6, h⟩ := Except.bind_ok_inv h
  cases h
  rw [walker.state_fatalWhen] at h6
  exact ⟨wa, w3, ea, lt, h1, h5, h6, rfl⟩

theorem environment.Object.sameButUsed_isConst {a b : environment.Object}
    (h : a.sameButUsed b) : b.IsConst = a.IsConst :=
  congrArg (fun o => o.IsConst) h

theorem walker.errors_fatalWhen (c : Bool) (w : walker.Walker) (tok : token.Item)
    (msg : List Nat) (args : List diagnostics.Arg) :
    (walker.fatalWhen c w tok msg args).errors
      = w.errors ++ (if c then [⟨tok, msg, args, .Fatal⟩] else []) := by
  cases c
  · exact (List.append_nil _).symm
  · exact walker.fatalWhen_true w tok msg args

theorem diagnostics.count_append (msg : List Nat) (a b : List diagnostics.Diagnostic) :
    diagnostics.count msg (a ++ b) = diagnostics.count msg a + diagnostics.count msg b :=
  List.countP_append _ _ _

theorem diagnostics.count_mono (msg : List Nat) {a b : List diagnostics.Diagnostic}
    (h : a <+: b) : diagnostics.count msg a ≤ diagnostics.count msg b :=
  h.sublist.countP_le _

theorem walker.count_fatalWhen (msg : List Nat) (c : Bool) (w : walker.Walker) (tok : token.Item)
    (args : List diagnostics.Arg) :
    diagnostics.count msg (walker.fatalWhen c w tok msg args).errors
      = diagnostics.count msg w.errors + (if c then 1 else 0) := by
  unfold walker.fatalWhen
  cases c
  · rfl
  · rw [if_pos rfl, walker.addFatalf, walker.errors_addDiagnostic, diagnostics.count_append]
    simp [diagnostics.count]

theorem walker.SetVariable_errors {w w1 : walker.Walker} {name : List Nat}
    {val : environment.Object} (h : w.SetVariable name val = .ok w1) : w1.errors = w.errors := by
  unfold walker.Walker.SetVariable at h
  obtain ⟨e, _, h1⟩ := Except.bind_ok_inv h
  cases h1
  exact walker.errors_setEnv _ _

theorem walker.Open_errors {w w1 : walker.Walker} (h : w.Open = .ok w1) :
    w1.errors = w.errors := by
  unfold walker.Walker.Open at h
  obtain ⟨e, _, h1⟩ := Except.bind_ok_inv h
  cases h1
  exact walker.errors_setEnv _ _

theorem walker.bindReceiver_inv {w w1 : walker.Walker} {tok : token.Item}
    {method : Option ast.Ty} {methodVariable : List Nat} {m : List (List Nat)}
    (h : walker.bindReceiver w tok method methodVariable = .ok (w1, m)) :
    w1.errors = w.errors ∧ m = ast.receiverNames method methodVariable := by
  cases method with
  | none =>
    cases h
    exact ⟨rfl, rfl⟩
  | some ty =>
    unfold walker.bindReceiver at h
    obtain ⟨w2, h1, h2⟩ := Except.bind_ok_inv h
    cases h2
    exact ⟨walker.SetVariable_errors h1, rfl⟩

theorem walker.walkDefault_quiet {W : walker.WalkFn} {msg : List Nat} {w w1 : walker.Walker}
    {d : Option ast.Node} (hQ : ∀ node, d = some node → walker.Quiet W msg [node])
    (h : walker.walkDefault W w d = .ok w1) :
    diagnostics.count msg w1.errors = diagnostics.count msg w.errors := by
  cases d with
  | none =>
    cases h
    rfl
  | some node =>
    unfold walker.walkDefault at h
    obtain ⟨⟨w2, t, n⟩, h1, h2⟩ := Except.bind_ok_inv h
    cases h2
    exact hQ node rfl node (List.mem_singleton.mpr rfl) w _ h1

theorem walker.walkEach_quiet {W : walker.WalkFn} {msg : List Nat} :
    ∀ (xs : List ast.Node) (w w1 : walker.Walker), walker.Quiet W msg xs →
      walker.walkEach W w xs = .ok w1 →
      diagnostics.count msg w1.errors = diagnostics.count msg w.errors
  | [], w, w1, _, h => by
    cases h
    rfl
  | s :: rest, w, w1, hQ, h => by
    unfold walker.walkEach at h
    obtain ⟨⟨w2, t, n⟩, h1, h2⟩ := Except.bind_ok_inv h
    rw [walker.walkEach_quiet rest w2 w1 (fun node hn => hQ node (List.mem_cons_of_mem _ hn)) h2]
    exact hQ s (List.mem_cons_self _ _) w _ h1

theorem walker.walkBody_quiet {W : walker.WalkFn} {msg : List Nat} {w w1 : walker.Walker}
    {body : Option (List ast.Node)} (hQ : walker.Quiet W msg (body.getD []))
    (h : walker.walkBody W w body = .ok w1) :
    diagnostics.count msg w1.errors = diagnostics.count msg w.errors := by
  cases body with
  | none =>
    cases h
    rfl
  | some xs => exact walker.walkEach_quiet xs w w1 hQ h

/-- The parameter loop of `walkNamedFunctionLiteral` records a diagnostic
"duplicated function parameter" for each parameter counted by
`walker.duplicates`, at least. -/
theorem walker.walkNamedParameters_atLeast {W : walker.WalkFn} (hW : walker.Growing W) :
    ∀ (ps : List (ast.Parameter ast.Node)) (w w1 : walker.Walker) (m : List (List Nat)),
      walker.walkNamedParameters W w ps m = .ok w1 →
      diagnostics.count (str "duplicated function parameter `%v`") w.errors
          + walker.duplicates m ps
        ≤ diagnostics.count (str "duplicated function parameter `%v`") w1.errors
  | [], w, w1, m, h => by
    cases h
    exact Nat.le_refl _
  | p :: rest, w, w1, m, h => by
    unfold walker.walkNamedParameters at h
    obtain ⟨wa, h1, h⟩ := Except.bind_ok_inv h
    obtain ⟨wb, h2, h⟩ := Except.bind_ok_inv h
    have h3 := diagnostics.count_mono (str "duplicated function parameter `%v`")
      ((walker.walkDefault_grow hW p.Default (List.prefix_refl w.errors)).out wa h1)
    rw [← walker.SetVariable_errors h2] at h3
    unfold walker.duplicates
    split at h
    · rename_i hd
      rw [if_pos hd]
      have h4 := walker.walkNamedParameters_atLeast hW rest wb w1 m h
      omega
    · rename_i hd
      rw [if_neg hd]
      have h4 := walker.walkNamedParameters_atLeast hW rest _ w1 _ h
      rw [walker.count_fatalWhen] at h4
      simp only [decide_eq_true_eq] at h4
      omega

/-- The parameter loop of `walkNamedFunctionLiteral` records a diagnostic
"duplicated function parameter" for each parameter counted by
`walker.duplicates` and no other, when the walks of the default values record
none. -/
theorem walker.walkNamedParameters_exact {W : walker.WalkFn} :
    ∀ (ps : List (ast.Parameter ast.Node)) (w w1 : walker.Walker) (m : List (List Nat)),
      walker.Quiet W (str "duplicated function parameter `%v`")
        (ps.filterMap (fun p => p.Default)) →
      walker.walkNamedParameters W w ps m = .ok w1 →
      diagnostics.count (str "duplicated function parameter `%v`") w1.errors
        = diagnostics.count (str "duplicated function parameter `%v`") w.errors
          + walker.duplicates m ps
  | [], w, w1, m, _, h => by
    cases h
    rfl
  | p :: rest, w, w1, m, hQ, h => by
    unfold walker.walkNamedParameters at h
    obtain ⟨wa, h1, h⟩ := Except.bind_ok_inv h
    obtain ⟨wb, h2, h⟩ := Except.bind_ok_inv h
    have hQ1 : ∀ node, p.Default = some node →
        walker.Quiet W (str "duplicated function parameter `%v`") [node] := by
      intro node hn x hx
      rw [List.mem_singleton] at hx
      subst hx
      exact hQ x (by simp [List.filterMap_cons, hn])
    have hQ2 : walker.Quiet W (str "duplicated function parameter `%v`")
        (rest.filterMap (fun p => p.Default)) := by
      intro node hn
      refine hQ node ?_
      rw [List.filterMap_cons]
      split
      · exact hn
      · exact List.mem_cons_of_mem _ hn
    have h3 := walker.walkDefault_quiet hQ1 h1
    rw [← walker.SetVariable_errors h2] at h3
    unfold walker.duplicates
    split at h
    · rename_i hd
      rw [if_pos hd]
      have h4 := walker.walkNamedParameters_exact rest wb w1 m hQ2 h
      omega
    · rename_i hd
      rw [if_neg hd]
      have h4 := walker.walkNamedParameters_exact rest _ w1 _ hQ2 h
      rw [walker.count_fatalWhen] at h4
      simp only [decide_eq_true_eq] at h4
      omega

/-- The loop flags no parameter exactly when no name other than `...` is a
key of the map or occurs twice. -/
theorem walker.duplicates_eq_zero :
    ∀ (ps : List (ast.Parameter ast.Node)) (m : List (List Nat)),
      walker.duplicates m ps = 0 ↔
        (∀ x ∈ (ps.map (fun p => p.Token.Value)).filter (fun s => decide (s ≠ str "...")),
          x ∉ m) ∧
        ((ps.map (fun p => p.Token.Value)).filter (fun s => decide (s ≠ str "..."))).Nodup
  | [], m => by simp [walker.duplicates]
  | p :: rest, m => by
    unfold walker.duplicates
    by_cases hd : p.Token.Value = str "..."
    · rw [if_pos hd, walker.duplicates_eq_zero rest m, List.map_cons,
        List.filter_cons_of_neg (by simp [hd])]
    · rw [if_neg hd, List.map_cons, List.filter_cons_of_pos (by simp [hd]), List.nodup_cons,
        Nat.add_eq_zero_iff, walker.duplicates_eq_zero rest (p.Token.Value :: m)]
      constructor
      · rintro ⟨h1, h2, h3⟩
        have h4 : p.Token.Value ∉ m := by
          intro h5
          rw [if_pos h5] at h1
          exact absurd h1 (by decide)
        refine ⟨?_, ?_, h3⟩
        · intro x hx
          rcases List.mem_cons.mp hx with h5 | h5
          · rw [h5]
            exact h4
          · exact fun h6 => h2 x h5 (List.mem_cons_of_mem _ h6)
        · intro h5
          exact h2 _ h5 (List.mem_cons_self _ _)
      · rintro ⟨h1, h2, h3⟩
        refine ⟨?_, ?_, h3⟩
        · rw [if_neg (h1 _ (List.mem_cons_self _ _))]
        · intro x hx h5
          rcases List.mem_cons.mp h5 with h6 | h6
          · rw [h6] at hx
            exact h2 hx
          · exact h1 x (List.mem_cons_of_mem _ hx) h6

/-- The loop of `walkNamedFunctionLiteral`, started with the keys that
`bindReceiver` leaves, flags a parameter exactly when a name other than `...`
is repeated among the receiver variable and the parameters. -/
theorem walker.duplicates_pos (method : Option ast.Ty) (methodVariable : List Nat)
    (ps : List (ast.Parameter ast.Node)) :
    0 < walker.duplicates (ast.receiverNames method methodVariable) ps ↔
      ast.repeated (ast.parameterNames method methodVariable ps) := by
  rw [Nat.pos_iff_ne_zero, Ne, walker.duplicates_eq_zero]
  unfold ast.repeated ast.parameterNames ast.receiverNames
  refine not_congr ?_
  cases method with
  | none => simp
  | some ty =>
    by_cases hd : methodVariable = str "..."
    · subst hd
      simp
    · simp only [List.cons_append, List.nil_append, List.filter_cons_of_pos, hd, ne_eq,
        not_false_eq_true, decide_True, List.nodup_cons, List.mem_singleton]
      constructor
      · rintro ⟨h1, h2⟩
        exact ⟨fun h3 => h1 _ h3 rfl, h2⟩
      · rintro ⟨h1, h2⟩
        exact ⟨fun x hx h3 => h1 (h3 ▸ hx), h2⟩

theorem walker.walkNamedParameters_silent {W : walker.WalkFn} :
    ∀ (ps : List (ast.Parameter ast.Node)) (w w1 : walker.Walker) (m : List (List Nat)),
      (∀ p ∈ ps, p.Default = none) → walker.duplicates m ps = 0 →
      walker.walkNamedParameters W w ps m = .ok w1 → w1.errors = w.errors
  | [], w, w1, m, _, _, h => by
    cases h
    rfl
  | p :: rest, w, w1, m, hdef, hz, h => by
    unfold walker.walkNamedParameters at h
    obtain ⟨wa, h1, ha⟩ := Except.bind_ok_inv h
    obtain ⟨wb, h2, hb⟩ := Except.bind_ok_inv ha
    have h0 : wa = w := by
      rw [hdef p (List.mem_cons_self _ _)] at h1
      cases h1
      rfl
    have h3 := walker.SetVariable_errors h2
    rw [h0] at h3
    have hdef2 : ∀ q ∈ rest, q.Default = none := fun q hq => hdef q (List.mem_cons_of_mem _ hq)
    unfold walker.duplicates at hz
    split at hb
    · rename_i hd
      rw [if_pos hd] at hz
      exact (walker.walkNamedParameters_silent rest wb w1 m hdef2 hz hb).trans h3
    · rename_i hd
      rw [if_neg hd] at hz
      have h4 : p.Token.Value ∉ m := by
        intro h5
        rw [if_pos h5] at hz
        omega
      rw [if_neg h4] at hz
      have h5 := walker.walkNamedParameters_silent rest _ w1 _ hdef2 (by omega) hb
      rw [h5]
      unfold walker.fatalWhen
      rw [if_neg (by simp [h4])]
      exact h3

/-- The method `walkNamedFunctionLiteral` on a name that is not rejected, when
it returns: the walkers between its loops. -/
theorem walker.walkNamedFunctionLiteral_inv {W : walker.WalkFn} {w w1 : walker.Walker}
    {e : environment.Environment} {node : ast.Node} {tok : token.Item} {name : List Nat}
    {method : Option ast.Ty} {methodVariable : List Nat}
    {parameters : List (ast.Parameter ast.Node)} {body : Option (List ast.Node)}
    (he : w.env = some e) (hn : ¬ ((e.GetFunction name false).2 ∧ method.isNone))
    (h : walker.walkNamedFunctionLiteral W w node tok name method methodVariable parameters body
      = .ok w1) :
    ∃ wa wb wc, wa.errors = w.errors ∧
      walker.walkNamedParameters W wa parameters (ast.receiverNames method methodVariable)
        = .ok wb ∧
      walker.walkBody W wb body = .ok wc ∧ w1.errors = wc.errors := by
  unfold walker.walkNamedFunctionLiteral at h
  rw [walker.getEnv_eq he] at h
  replace h : (if _ then _ else _) = _ := h
  rw [if_neg hn] at h
  obtain ⟨⟨wa, m⟩, h1, ha⟩ := Except.bind_ok_inv h
  obtain ⟨wb, h2, hb⟩ := Except.bind_ok_inv ha
  obtain ⟨wc, h3, hc⟩ := Except.bind_ok_inv hb
  obtain ⟨h4, h5⟩ := walker.bindReceiver_inv h1
  rw [h5] at h2
  refine ⟨wa, wb, wc, ?_, h2, h3, walker.Open_errors hc⟩
  rw [h4]
  exact (walker.errors_setEnv _ _).trans (walker.errors_setEnv _ _)

/-- The method `walkLetStatement` on a name that the current frame holds. -/
theorem walker.walkLetStatement_bound (W : walker.WalkFn) (D : walker.Deps) {w : walker.Walker}
    {e : environment.Environment} (tok : token.Item) {name : List Nat} (ty : ast.Types)
    (value : Option ast.Node) (he : w.env = some e) (hb : (e.GetVariable name false).2 = true) :
    walker.walkLetStatement W D w tok name ty value =
      W ⟨w.errors ++ [⟨tok, str "variable `%v` is already declared", [.text name], .Fatal⟩],
        some e, w.state⟩ value := by
  unfold walker.walkLetStatement
  rw [walker.getEnv_eq he]
  show (if _ then _ else _) = _
  rw [if_pos hb]
  obtain ⟨errors, env, state⟩ := w
  cases he
  rfl

/-- The method `walkLetStatement` on a name that the current frame does not
hold, when it returns. -/
theorem walker.walkLetStatement_fresh (W : walker.WalkFn) (D : walker.Deps) {w w1 : walker.Walker}
    {e : environment.Environment} (tok : token.Item) {name : List Nat} (ty : ast.Types)
    (value : Option ast.Node) {t : ast.Types} {n : Option ast.Node} (he : w.env = some e)
    (hb : (e.GetVariable name false).2 = false)
    (h : walker.walkLetStatement W D w tok name ty value = .ok (w1, t, n)) :
    ∃ w3, W ⟨w.errors, some (e.SetVariable name
          { environment.Object.zero with Token := tok, Type_ := ty }), w.state⟩ value
        = .ok (w3, t, n) ∧
      w1 = walker.fatalWhen (!D.typesValid w3 ty t) w3 tok (str "`%v` expects `%v`, got `%v`")
        [.text name, .types ty, .types t] := by
  unfold walker.walkLetStatement at h
  rw [walker.getEnv_eq he] at h
  replace h : (if _ then _ else _) = _ := h
  rw [if_neg (by rw [hb]; exact Bool.false_ne_true)] at h
  unfold walker.Walker.SetVariable at h
  rw [walker.getEnv_eq he] at h
  obtain ⟨w2, h0, h⟩ := Except.bind_ok_inv h
  cases h0
  obtain ⟨⟨w3, rt, rn⟩, h1, h2⟩ := Except.bind_ok_inv h
  cases h2
  obtain ⟨errors, env, state⟩ := w
  exact ⟨w3, h1, rfl⟩

theorem runSteps_step {fuel k : Nat} {s s1 : StateFn} {l l1 : Lexer}
    (h : step fuel s l = .ok (some s1, l1)) :
    runSteps fuel (k + 1) s l = runSteps fuel k s1 l1 := by
  simp only [runSteps, h, bind, Except.bind]

theorem runSteps_halt {fuel k : Nat} {s : StateFn} {l l1 : Lexer}
    (h : step fuel s l = .ok (none, l1)) :
    runSteps fuel (k + 1) s l = .ok (none, l1) := by
  simp only [runSteps, h, bind, Except.bind]
  rfl

/-- Over an ASCII input every iteration of the loop of `Run` returns and
leaves the cursor invariant in place. -/
theorem runSteps_ok {inp : List Nat} (hA : Ascii inp) (fuel : Nat)
    (hf : (inp.length : Int) + 1 < fuel) :
    ∀ (k : Nat) (s : StateFn) (l : Lexer), l.Ok inp →
      ∃ s1 l1, runSteps fuel k s l = .ok (s1, l1) ∧ Follows inp l l1 := by
  intro k
  induction k with
  | zero => exact fun s l hI => ⟨some s, l, rfl, Follows.refl hI⟩
  | succ k ih =>
    intro s l hI
    obtain ⟨s1, l1, h1, hf1, _⟩ := step_progress hA fuel hf s hI
    cases s1 with
    | none => exact ⟨none, l1, runSteps_halt h1, hf1⟩
    | some s2 =>
      obtain ⟨s3, l3, h3, hf3⟩ := ih s2 l1 hf1.ok
      exact ⟨s3, l3, by rw [runSteps_step h1]; exact h3, hf1.trans hf3⟩

/-- Over an ASCII input the loop of `Run` ends within the iterations that the
measure allows, at the lexer that `runLoop` returns. -/
theorem runSteps_end {inp : List Nat} (hA : Ascii inp) (fuel : Nat)
    (hf : (inp.length : Int) + 1 < fuel) :
    ∀ (n : Nat) (s : StateFn) (l : Lexer), l.Ok inp → lexMeasure inp s l < n →
      ∃ l1, runLoop fuel n s l = .ok l1 ∧ runSteps fuel n s l = .ok (none, l1) := by
  intro n
  induction n with
  | zero => intro s l _ h; omega
  | succ n ih =>
    intro s l hI hm
    obtain ⟨s1, l1, h1, hf1, hdec⟩ := step_progress hA fuel hf s hI
    cases s1 with
    | none => exact ⟨l1, runLoop_halt h1, runSteps_halt h1⟩
    | some s2 =>
      obtain ⟨l2, h2, h3⟩ := ih s2 l1 hf1.ok (by have := hdec s2 rfl; omega)
      exact ⟨l2, by rw [runLoop_step h1]; exact h2, by rw [runSteps_step h1]; exact h3⟩

theorem environment.Environment.GetFunction_SetFunction_eq (e : environment.Environment)
    (k : List Nat) (v : environment.Object) (outer : Bool) :
    (e.SetFunction k v).GetFunction k outer = (v, true) := by
  obtain ⟨⟨vs, ts, fs, cs, fn⟩, o⟩ := e
  have h := environment.Table.get_set_eq fs k v
  cases o with
  | none => simp only [environment.Environment.GetFunction, environment.Environment.SetFunction, h]
  | some e1 =>
    simp only [environment.Environment.GetFunction, environment.Environment.SetFunction, h,
      Bool.not_true, Bool.false_and, Bool.false_eq_true, if_false]

/-- A function that the enclosing frame resolves is resolved from the enclosed
frame: by the entry of the enclosed frame if it holds one of that name, by
what the enclosing frame finds otherwise. -/
theorem environment.Environment.GetFunction_enclosed {e e0 : environment.Environment}
    (name : List Nat) (ho : e.outer = some e0) (h0 : (e0.GetFunction name true).2 = true) :
    (e.GetFunction name true).2 = true ∧
      ((e.GetFunction name false).2 = false →
        e.GetFunction name true = e0.GetFunction name true) := by
  obtain ⟨f, o⟩ := e
  cases ho
  cases hr : (f.functions.get name).2
  · simp only [environment.Environment.GetFunction, hr, Bool.not_false, Bool.and_self, if_true]
    exact ⟨h0, fun _ => trivial⟩
  · simp only [environment.Environment.GetFunction, hr, Bool.not_true, Bool.false_and,
      Bool.false_eq_true, if_false, Bool.true_eq_false, false_implies, and_self]

/-- The walker has a current frame and the frames that enclose it are those
given, from the nearest on. -/
theorem walker.env_of_enclosing {w : walker.Walker} {o : Option environment.Environment}
    (h : w.enclosing = some o) : ∃ e, w.env = some e ∧ e.outer = o := by
  obtain ⟨errors, env, state⟩ := w
  cases env with
  | none => cases h
  | some e => exact ⟨e, rfl, Option.some.inj h⟩

/-! ## The claims -/

/-- C1: lexing the empty input produces exactly one item, the end-of-file
token, and no `ItemError`. -/
theorem C1_lex_empty (fuel : Nat) :
    Run (fuel + 1) [] = .ok [⟨.ItemEOF, str "EOF"⟩] := rfl

/-- C2 fails in the code: on the UTF-8 input `a€` (bytes 61 E2 82 AC) `Run`
does not return: `peek(2)` backs up twice by the width of `€` and leaves
`pos = -2`, and the next call of `next` slices `Input[-2:]`, a run-time panic. -/
theorem C2_run_panics_on_multibyte (fuel : Nat) :
    Run (fuel + 1) [0x61, 0xE2, 0x82, 0xAC] = .error .panic := rfl

/-- C3 fails in the code for a literal with an exponent: lexing `1e5..10`
emits the Float `1e5.` and the Integer `.10`, and no Range token. -/
theorem C3_exponent_range_emits_float (fuel : Nat) :
    Run (fuel + 6) (str "1e5..10") =
      .ok [⟨.ItemFloat, str "1e5."⟩, ⟨.ItemInteger, str ".10"⟩, ⟨.ItemEOF, str "EOF"⟩] := rfl

/-- C4 fails in the code for a single digit: lexing `7` emits only the
end-of-file token, the digit is lost. -/
theorem C4_single_digit_lost (fuel : Nat) :
    Run (fuel + 2) (str "7") = .ok [⟨.ItemEOF, str "EOF"⟩] := rfl

/-- C5: a string literal whose body consists only of escaped closing quotes
lexes to the opening quote, one `ItemString` holding the body with its
backslashes, the closing quote and the end-of-file token. -/
theorem C5_escaped_quotes (q n fuel : Nat) (hq : q = 34 ∨ q = 39) :
    Run (fuel + n + 5) (q :: (escapedQuotes q (n + 1) ++ [q])) =
      .ok [⟨quoteItem q, [q]⟩, ⟨.ItemString, escapedQuotes q (n + 1)⟩, ⟨quoteItem q, [q]⟩,
           ⟨.ItemEOF, str "EOF"⟩] := by
  obtain ⟨l1, h1, a1⟩ := lexDefault_quote hq
    (Lexer.new_At (q :: (escapedQuotes q (n + 1) ++ [q]))) (le_refl 0)
    (show (q :: (escapedQuotes q (n + 1) ++ [q])).drop (0 : Int).toNat =
      q :: (escapedQuotes q (n + 1) ++ [q]) from rfl)
  obtain ⟨l2, h2, i2⟩ := runLoop_escapedQuotes (q :: (escapedQuotes q (n + 1) ++ [q])) q hq _
    (fuel + n + 3) (fuel + 1) (n + 1) (0 + 1) l1 a1 (by omega) (by omega)
    (show (q :: (escapedQuotes q (n + 1) ++ [q])).drop ((0 : Int) + 1).toNat =
      escapedQuotes q (n + 1) ++ [q] from rfl)
  have s1 : step (fuel + n + 5) .lexDefault (Lexer.new (q :: (escapedQuotes q (n + 1) ++ [q]))) =
      .ok (some (.lexString q), l1) := h1
  have h2a : runLoop (fuel + n + 5) (n + 1 + 2 + (fuel + 1)) (.lexString q) l1 = .ok l2 := h2
  have e1 : runLoop (fuel + n + 5) (n + 1 + 2 + (fuel + 1) + 1) .lexDefault
      (Lexer.new (q :: (escapedQuotes q (n + 1) ++ [q]))) = .ok l2 := by
    rw [runLoop_step s1, h2a]
  rw [show n + 1 + 2 + (fuel + 1) + 1 = fuel + n + 5 by omega] at e1
  unfold Run
  rw [e1]
  simp only [bind, Except.bind, pure, Except.pure, i2]
  have ht : ((0 : Int) + 1 + 2 * ((n + 1 : Nat) : Int) - 1).toNat = (escapedQuotes q (n + 1)).length := by
    rw [escapedQuotes_length]; omega
  rw [ht]
  simp

/-- C5 at the six runes `"\"\""`. -/
theorem C5_escaped_quotes_witness :
    (34 = 34 ∨ 34 = 39) ∧
    Run (0 + 1 + 5) (34 :: (escapedQuotes 34 (1 + 1) ++ [34])) =
      .ok [⟨quoteItem 34, [34]⟩, ⟨.ItemString, escapedQuotes 34 (1 + 1)⟩, ⟨quoteItem 34, [34]⟩,
           ⟨.ItemEOF, str "EOF"⟩] :=
  ⟨Or.inl rfl, C5_escaped_quotes 34 1 0 (Or.inl rfl)⟩

/-- C6 fails in the code: on `"a\\"` followed by a newline the closing quote
is taken for an escaped one, and the items are the opening quote and an
`ItemError`. -/
theorem C6_escaped_backslash_unterminated (fuel : Nat) :
    Run (fuel + 4) [34, 97, 92, 92, 34, 10] =
      .ok [⟨.ItemDoubleQuote, [34]⟩,
           ⟨.ItemError, str "expecting closing quote, got " ++ [97, 92, 92, 34, 10]⟩] := rfl

/-- C7: a quote character followed by runes that do not contain it: the
items are exactly the opening quote and one `ItemError`; no string token and
no end-of-file token is emitted. -/
theorem C7_unterminated_string (q : Nat) (body : List Nat) (fuel : Nat)
    (hq : q = 34 ∨ q = 39) (hbody : q ∉ body) :
    Run (fuel + (encodeRunes body).length + 2) (q :: encodeRunes body) =
      .ok [⟨quoteItem q, [q]⟩,
           ⟨.ItemError, str "expecting closing quote, got " ++ encodeRunes body⟩] := by
  have hq128 : q < 128 := by omega
  obtain ⟨l1, h1, a1⟩ := lexDefault_quote hq (Lexer.new_At (q :: encodeRunes body)) (le_refl 0)
    (show (q :: encodeRunes body).drop (0 : Int).toNat = q :: encodeRunes body from rfl)
  have hno : ∀ b ∈ (q :: encodeRunes body).drop ((0 : Int) + 1).toNat, b ≠ q :=
    not_mem_encodeRunes q hq128 body hbody
  obtain ⟨l2, h2, i2⟩ := lexString_unterminated hq128 (fuel + (encodeRunes body).length + 2) a1
    (by omega) (le_refl _) (by simp) (by simp; omega) hno
  have s1 : step (fuel + (encodeRunes body).length + 2) .lexDefault
      (Lexer.new (q :: encodeRunes body)) = .ok (some (.lexString q), l1) := h1
  have s2 : step (fuel + (encodeRunes body).length + 2) (.lexString q) l1 = .ok (none, l2) := h2
  unfold Run
  rw [runLoop_step s1, runLoop_halt s2]
  simp only [bind, Except.bind, pure, Except.pure, i2]
  simp

/-- C7 at the input `"a` + newline + `é€`. -/
theorem C7_unterminated_string_witness :
    Run (0 + (encodeRunes [97, 10, 233, 8364]).length + 2) (34 :: encodeRunes [97, 10, 233, 8364]) =
      .ok [⟨quoteItem 34, [34]⟩,
           ⟨.ItemError, str "expecting closing quote, got " ++ encodeRunes [97, 10, 233, 8364]⟩] :=
  C7_unterminated_string 34 [97, 10, 233, 8364] 0 (Or.inl rfl) (by decide)

/-- C8: on `%` followed by a non-empty ASCII text `b` that does not start with
`%`: when `b` contains a `%`, the run returns and its first item is the
`ItemInfix` token holding the input up to and including the first `%` of `b`;
when `b` contains no `%`, the items are exactly one `ItemError`. -/
theorem C8_infix_operator (b : List Nat) (fuel : Nat) (hA : Ascii b) (hne : b ≠ [])
    (hhd : b.head? ≠ some 37) (hf : 4 * b.length + 16 ≤ fuel) :
    (37 ∈ b → ∃ rest, Run fuel (37 :: b) =
        .ok (⟨.ItemInfix, 37 :: (beforePercent b ++ [37])⟩ :: rest)) ∧
    (37 ∉ b → Run fuel (37 :: b) =
        .ok [⟨.ItemError, str "expecting closing %, got " ++ 37 :: b⟩]) := by
  constructor
  · intro hmem
    obtain ⟨b2, hb2⟩ := split_at_percent b hmem
    have hA12 : Ascii (beforePercent b ++ 37 :: b2) := by rw [← hb2]; exact hA
    have hA1 := (Ascii.of_append hA12).1
    have hA2 : Ascii b2 := fun x hx => (Ascii.of_append hA12).2 x (List.mem_cons_of_mem _ hx)
    have hlen : b.length = (beforePercent b).length + (b2.length + 1) := by
      conv_lhs => rw [hb2]
      simp
    have h := (infix_run (beforePercent b) b2 fuel hA1 hA2 (beforePercent_ne_nil b hne hhd)
      (not_mem_beforePercent b) (by omega)).1
    rw [← hb2] at h
    exact h
  · intro hno
    have hb : b ≠ [] := hne
    exact (infix_run b [] fuel hA (fun x hx => absurd hx (List.not_mem_nil x)) hb hno
      (by simp only [List.length_nil]; omega)).2

/-- C8 at the inputs `%in% x` and `%in x`. -/
theorem C8_infix_operator_witness :
    (∃ rest, Run 40 (str "%in% x") = .ok (⟨.ItemInfix, str "%in%"⟩ :: rest)) ∧
    Run 40 (str "%in x") = .ok [⟨.ItemError, str "expecting closing %, got %in x"⟩] :=
  ⟨(C8_infix_operator (str "in% x") 40 (by decide) (by decide) (by decide) (by decide)).1
      (by decide),
   (C8_infix_operator (str "in x") 40 (by decide) (by decide) (by decide) (by decide)).2
      (by decide)⟩

/-- C9 fails in the code: lexing `...` followed by a newline (or by `)`)
emits a Range token for the first two dots and no ThreeDot token. -/
theorem C9_three_dots_emit_range (fuel : Nat) :
    Run (fuel + 3) (str "...\n") = .ok [⟨.ItemRange, str ".."⟩, ⟨.ItemEOF, str "EOF"⟩] ∧
    Run (fuel + 3) (str "...)") = .ok [⟨.ItemRange, str ".."⟩, ⟨.ItemEOF, str "EOF"⟩] :=
  ⟨rfl, rfl⟩

/-- C10 fails in the code: lexing `x[2]` followed by a newline emits Ident `x`
and two `ItemTypesList` tokens `[2` and `]` + newline; `[[` and `]]` are
emitted as `ItemTypesList` too. -/
theorem C10_square_brackets_emit_typeslist (fuel : Nat) :
    Run (fuel + 7) (str "x[2]\n") =
      .ok [⟨.ItemIdent, str "x"⟩, ⟨.ItemTypesList, str "[2"⟩, ⟨.ItemTypesList, str "]\n"⟩,
           ⟨.ItemEOF, str "EOF"⟩] ∧
    Run (fuel + 3) (str "[[") = .ok [⟨.ItemTypesList, str "[["⟩, ⟨.ItemEOF, str "EOF"⟩] ∧
    Run (fuel + 3) (str "]]") = .ok [⟨.ItemTypesList, str "]]"⟩, ⟨.ItemEOF, str "EOF"⟩] :=
  ⟨rfl, rfl, rfl⟩

/-- C11, the input that shows the claim false: on `@` followed by a newline
the lexer emits no `ItemError`, and the text of the `@` is part of the value of
the `ItemEOL` token that follows. -/
theorem C11_stray_rune_no_error :
    Run 8 (str "@\n") = .ok [⟨.ItemEOL, str "@\n"⟩, ⟨.ItemEOF, str "EOF"⟩] := rfl

/-- C11, amended: when the Default state, on an ASCII input, is at a rune that
no test of `lexDefault` matches (such as `@`, `~`, `_` or a `!` that `=` does
not follow), it reads that rune, emits no item, so no `ItemError`, and returns
the Default state. -/
theorem C11_unmatched_rune_skipped (inp : List Nat) (hA : Ascii inp) (l : Lexer) (hI : l.Ok inp)
    (hlt : l.pos < inp.length) (hu : unmatched (runeAt inp l.pos) (runeAt inp (l.pos + 1))) :
    ∃ l1, lexDefault l = .ok (some .lexDefault, l1) ∧ l1.Items = l.Items ∧
      l1.pos = l.pos + 1 ∧ l1.Input = l.Input := by
  have hp : 0 ≤ l.pos := le_trans hI.start_nonneg hI.start_le
  have hlt2 : l.pos.toNat < inp.length := by omega
  have hd := List.drop_eq_getElem_cons hlt2
  have hb : inp[l.pos.toNat] < 128 := hA _ (List.getElem_mem _)
  have hs := hI.asSeg
  rw [hd] at hs
  rw [runeAt_of_drop hp hd hb, ← secondRune_eq hA hp hd] at hu
  have ht : ∀ c ∈ (inp.drop (l.pos.toNat + 1)).head?, c < 128 := by
    intro c hc
    apply hA
    exact List.mem_of_mem_drop (List.mem_of_mem_head? hc)
  obtain ⟨l1, e1, s1⟩ := lexDefault_unmatched hs hb ht hu
  refine ⟨l1, e1, s1.items, ?_, ?_⟩
  · have h1 := s1.pos
    have h2 := hs.pos
    simp only [List.length_append, List.length_singleton] at h1
    push_cast at h1
    omega
  · have h1 := s1.input
    have h2 := hs.input
    rw [h1, h2]
    simp

/-- C11 at the input `~x`: the `~` is read and nothing is emitted. -/
theorem C11_unmatched_rune_skipped_witness :
    ∃ l1, lexDefault (Lexer.new (str "~x")) = .ok (some .lexDefault, l1) ∧
      l1.Items = (Lexer.new (str "~x")).Items ∧ l1.pos = (Lexer.new (str "~x")).pos + 1 ∧
      l1.Input = (Lexer.new (str "~x")).Input :=
  C11_unmatched_rune_skipped (str "~x") (by decide) (Lexer.new (str "~x"))
    (Lexer.new_Ok (str "~x")) (by decide) (by decide)

/-- C12: each reserved lexeme of the keyword table of `lexIdentifier`,
followed by a newline, lexes to one token with that lexeme as value and the
class of the keyword, which is never `ItemIdent`, then the end of line and the
end of file; a non-empty word of ASCII letters that is neither a keyword nor
one of the built-in type names tested by `lexIdentifier`, followed by a
newline, lexes to one `ItemIdent` with the word as value, then the end of line
and the end of file. -/
theorem C12_keywords_and_identifiers (fuel : Nat) (w : List Nat) (hne : w ≠ [])
    (hw : ∀ b ∈ w, letter b) (hk : ∀ e ∈ keywords, w ≠ e.1)
    (ht : itemIn w
      [str "int", str "string", str "num", str "list", str "dataframe", str "struct"] = false) :
    keywords.map (fun e => Run (fuel + 16) (e.1 ++ [10])) =
      keywords.map (fun e => .ok [⟨e.2.1, e.1⟩, ⟨.ItemEOL, [10]⟩, ⟨.ItemEOF, str "EOF"⟩]) ∧
    (∀ e ∈ keywords, e.2.1 ≠ .ItemIdent) ∧
    Run (fuel + w.length + 3) (w ++ [10]) =
      .ok [⟨.ItemIdent, w⟩, ⟨.ItemEOL, [10]⟩, ⟨.ItemEOF, str "EOF"⟩] := by
  refine ⟨rfl, by decide, ?_⟩
  obtain ⟨a, w1, rfl⟩ : ∃ a w1, w = a :: w1 := by
    cases w with
    | nil => exact absurd rfl hne
    | cons a w1 => exact ⟨a, w1, rfl⟩
  have ha : letter a := hw a (List.mem_cons_self _ _)
  have hw1 : ∀ b ∈ w1, b < 128 ∧ ContainsRune identBytes b = true := fun b hb =>
    ⟨letter_lt b (hw b (List.mem_cons_of_mem _ hb)),
      letter_ident b (hw b (List.mem_cons_of_mem _ hb))⟩
  obtain ⟨c, t, hct, hc⟩ : ∃ c t, w1 ++ [10] = c :: t ∧ c < 128 := by
    cases w1 with
    | nil => exact ⟨10, [], rfl, by omega⟩
    | cons c t => exact ⟨c, t ++ [10], List.cons_append c t [10], (hw1 c (List.mem_cons_self _ _)).1⟩
  have s0 : (Lexer.new (a :: w1 ++ [10])).Seg [] [] (a :: c :: t) [] := by
    have := Lexer.new_Seg (a :: w1 ++ [10])
    rw [List.cons_append, hct] at this
    rw [List.cons_append, hct]
    exact this
  obtain ⟨l1, e1, s1⟩ := lexDefault_letter s0 ha hc
  rw [← hct] at s1
  obtain ⟨l2, e2, s2⟩ := lexIdentifier_ident w1 (fuel + (a :: w1).length + 3) s1 hw1
    (stops_newline identBytes [] rfl) (by simp; omega) (by simp) hk ht
  obtain ⟨l3, e3, s3⟩ := lexDefault_newline s2
  obtain ⟨l4, e4, i4⟩ := lexDefault_seg_eof s3
  have r : ∀ F n : Nat, F = fuel + (a :: w1).length + 3 →
      runLoop F (n + 4) .lexDefault (Lexer.new (a :: w1 ++ [10])) = .ok l4 := by
    intro F n hF
    subst hF
    rw [runLoop_step (show step _ .lexDefault _ = _ from e1),
      runLoop_step (show step _ .lexIdentifier _ = _ from e2),
      runLoop_step (show step _ .lexDefault _ = _ from e3),
      runLoop_halt (show step _ .lexDefault _ = _ from e4)]
  have r2 := r (fuel + (a :: w1).length + 3) (fuel + w1.length) rfl
  have e : fuel + w1.length + 4 = fuel + (a :: w1).length + 3 := by simp; omega
  rw [e] at r2
  unfold Run
  rw [r2]
  simp only [bind, Except.bind, pure, Except.pure, i4]
  simp

/-- C12 at the word `iffy`, which begins with the keyword `if`. -/
theorem C12_keywords_and_identifiers_witness :
    keywords.map (fun e => Run (0 + 16) (e.1 ++ [10])) =
      keywords.map (fun e => .ok [⟨e.2.1, e.1⟩, ⟨.ItemEOL, [10]⟩, ⟨.ItemEOF, str "EOF"⟩]) ∧
    (∀ e ∈ keywords, e.2.1 ≠ .ItemIdent) ∧
    Run (0 + (str "iffy").length + 3) (str "iffy" ++ [10]) =
      .ok [⟨.ItemIdent, str "iffy"⟩, ⟨.ItemEOL, [10]⟩, ⟨.ItemEOF, str "EOF"⟩] :=
  C12_keywords_and_identifiers 0 (str "iffy") (by decide) (by decide) (by decide) (by decide)

/-- C13: after a `:` that is not part of `::` the lexer is in the Type
sub-state.  For all non-empty names `A` and `B` of ASCII letters, `x: A | B`
followed by a newline lexes to Ident `x`, Colon, Types `A`, TypesOr `|`,
Types `B`, EOL, EOF, and `x: []A` followed by a newline lexes to Ident `x`,
Colon, TypesList `[]`, Types `A`, EOL, EOF; the item at index 5 of
`const x: int | na = 1` has class `ItemTypes`. -/
theorem C13_type_substate (fuel : Nat) (A B : List Nat) (hA : ∀ b ∈ A, letter b) (hAne : A ≠ [])
    (hB : ∀ b ∈ B, letter b) (hBne : B ≠ []) :
    Run (fuel + A.length + B.length + 8) (str "x: " ++ A ++ str " | " ++ B ++ [10]) =
      .ok [⟨.ItemIdent, str "x"⟩, ⟨.ItemColon, str ":"⟩, ⟨.ItemTypes, A⟩,
        ⟨.ItemTypesOr, str "|"⟩, ⟨.ItemTypes, B⟩, ⟨.ItemEOL, [10]⟩, ⟨.ItemEOF, str "EOF"⟩] ∧
    Run (fuel + A.length + 6) (str "x: []" ++ A ++ [10]) =
      .ok [⟨.ItemIdent, str "x"⟩, ⟨.ItemColon, str ":"⟩, ⟨.ItemTypesList, str "[]"⟩,
        ⟨.ItemTypes, A⟩, ⟨.ItemEOL, [10]⟩, ⟨.ItemEOF, str "EOF"⟩] ∧
    (Run (fuel + 30) (str "const x: int | na = 1")).map
      (fun its => (its.get? 5).map (fun it => it.Class)) = .ok (some .ItemTypes) := by
  have hx : letter 120 := by decide
  have hkx : ∀ e ∈ keywords, [120] ++ ([] : List Nat) ≠ e.1 := by decide
  have htx : itemIn ([120] ++ ([] : List Nat))
      [str "int", str "string", str "num", str "list", str "dataframe", str "struct"] = false := by
    decide
  have hst : ∀ t, Stops identBytes (58 :: t) := fun t => Or.inr ⟨58, t, rfl, by omega, by rfl⟩
  refine ⟨?_, ?_, ?_⟩
  · have hinp : str "x: " ++ A ++ str " | " ++ B ++ [10] =
        120 :: 58 :: 32 :: (A ++ 32 :: 124 :: 32 :: (B ++ [10])) := by
      have e1 : str "x: " = [120, 58, 32] := by decide
      have e2 : str " | " = [32, 124, 32] := by decide
      rw [e1, e2]
      simp
    rw [hinp]
    generalize hF : fuel + A.length + B.length + 8 = F
    have s0 := Lexer.new_Seg (120 :: 58 :: 32 :: (A ++ 32 :: 124 :: 32 :: (B ++ [10])))
    obtain ⟨l1, e1, s1⟩ := lexDefault_letter s0 hx (by omega)
    obtain ⟨l2, e2, s2⟩ := lexIdentifier_ident [] F s1 (by simp) (hst _) (by simp; omega)
      (by simp) hkx htx
    obtain ⟨l3, e3, s3⟩ := lexDefault_colon s2 (by omega) (by omega)
    obtain ⟨l4, e4, s4⟩ := lexType_name A 32 F s3 hA hAne (by omega) (by rfl) (by omega)
      (by omega)
    rw [if_pos rfl] at e4
    obtain ⟨l5, e5, s5⟩ := lexType_or 32 F s4 (by omega) (by omega)
    obtain ⟨l6, e6, s6⟩ := lexType_name B 10 F s5 hB hBne (by omega) (by rfl) (by omega)
      (by omega)
    rw [if_neg (by omega)] at e6
    obtain ⟨l7, e7, s7⟩ := lexDefault_newline s6
    obtain ⟨l8, e8, i8⟩ := lexDefault_seg_eof s7
    have r : ∀ n : Nat, runLoop F (n + 8) .lexDefault
        (Lexer.new (120 :: 58 :: 32 :: (A ++ 32 :: 124 :: 32 :: (B ++ [10])))) = .ok l8 := by
      intro n
      rw [runLoop_step (show step _ .lexDefault _ = _ from e1),
        runLoop_step (show step _ .lexIdentifier _ = _ from e2),
        runLoop_step (show step _ .lexDefault _ = _ from e3),
        runLoop_step (show step _ .lexType _ = _ from e4),
        runLoop_step (show step _ .lexType _ = _ from e5),
        runLoop_step (show step _ .lexType _ = _ from e6),
        runLoop_step (show step _ .lexDefault _ = _ from e7),
        runLoop_halt (show step _ .lexDefault _ = _ from e8)]
    have r2 := r (fuel + A.length + B.length)
    rw [hF] at r2
    unfold Run
    rw [r2]
    simp only [bind, Except.bind, pure, Except.pure, i8]
    have e3 : str "x" = [120] := by decide
    have e4 : str ":" = [58] := by decide
    have e5 : str "|" = [124] := by decide
    rw [e3, e4, e5]
    simp
  · have hinp : str "x: []" ++ A ++ [10] = 120 :: 58 :: 32 :: 91 :: 93 :: (A ++ [10]) := by
      have e1 : str "x: []" = [120, 58, 32, 91, 93] := by decide
      rw [e1]
      simp
    rw [hinp]
    generalize hF : fuel + A.length + 6 = F
    have s0 := Lexer.new_Seg (120 :: 58 :: 32 :: 91 :: 93 :: (A ++ [10]))
    obtain ⟨l1, e1, s1⟩ := lexDefault_letter s0 hx (by omega)
    obtain ⟨l2, e2, s2⟩ := lexIdentifier_ident [] F s1 (by simp) (hst _) (by simp; omega)
      (by simp) hkx htx
    obtain ⟨l3, e3, s3⟩ := lexDefault_colon s2 (by omega) (by omega)
    obtain ⟨l4, e4, s4⟩ := lexType_list_name A 10 F s3 hA hAne (by omega) (by rfl) (by omega)
      (by omega)
    rw [if_neg (by omega)] at e4
    obtain ⟨l7, e7, s7⟩ := lexDefault_newline s4
    obtain ⟨l8, e8, i8⟩ := lexDefault_seg_eof s7
    have r : ∀ n : Nat, runLoop F (n + 6) .lexDefault
        (Lexer.new (120 :: 58 :: 32 :: 91 :: 93 :: (A ++ [10]))) = .ok l8 := by
      intro n
      rw [runLoop_step (show step _ .lexDefault _ = _ from e1),
        runLoop_step (show step _ .lexIdentifier _ = _ from e2),
        runLoop_step (show step _ .lexDefault _ = _ from e3),
        runLoop_step (show step _ .lexType _ = _ from e4),
        runLoop_step (show step _ .lexDefault _ = _ from e7),
        runLoop_halt (show step _ .lexDefault _ = _ from e8)]
    have r2 := r (fuel + A.length)
    rw [hF] at r2
    unfold Run
    rw [r2]
    simp only [bind, Except.bind, pure, Except.pure, i8]
    have e3 : str "x" = [120] := by decide
    have e4 : str ":" = [58] := by decide
    have e5 : str "[]" = [91, 93] := by decide
    rw [e3, e4, e5]
    simp
  · rfl

/-- C13 at the names `int` and `na`. -/
theorem C13_type_substate_witness :
    Run (0 + (str "int").length + (str "na").length + 8)
        (str "x: " ++ str "int" ++ str " | " ++ str "na" ++ [10]) =
      .ok [⟨.ItemIdent, str "x"⟩, ⟨.ItemColon, str ":"⟩, ⟨.ItemTypes, str "int"⟩,
        ⟨.ItemTypesOr, str "|"⟩, ⟨.ItemTypes, str "na"⟩, ⟨.ItemEOL, [10]⟩,
        ⟨.ItemEOF, str "EOF"⟩] ∧
    Run (0 + (str "int").length + 6) (str "x: []" ++ str "int" ++ [10]) =
      .ok [⟨.ItemIdent, str "x"⟩, ⟨.ItemColon, str ":"⟩, ⟨.ItemTypesList, str "[]"⟩,
        ⟨.ItemTypes, str "int"⟩, ⟨.ItemEOL, [10]⟩, ⟨.ItemEOF, str "EOF"⟩] ∧
    (Run (0 + 30) (str "const x: int | na = 1")).map
      (fun its => (its.get? 5).map (fun it => it.Class)) = .ok (some .ItemTypes) :=
  C13_type_substate 0 (str "int") (str "na") (by decide) (by decide) (by decide) (by decide)

/-- C14: no item that a run of the lexer returns, on any input, has class
`ItemRightParen`, `ItemVector`, `ItemList` or `ItemDataframe`, and no step of
the state machine adds such an item; on an ASCII input, the Default state at a
`)` emits it (with any pending text) with class `ItemLeftParen`, as it does
for `(`. -/
theorem C14_no_right_paren (fuel : Nat) (input : List Nat) (items : List Item)
    (hrun : Run fuel input = .ok items) (s : StateFn) (l0 l1 : Lexer) (s1 : Option StateFn)
    (hclean : ∀ it ∈ l0.Items, it.Class ≠ .ItemRightParen ∧ it.Class ≠ .ItemVector ∧
      it.Class ≠ .ItemList ∧ it.Class ≠ .ItemDataframe)
    (hstep : step fuel s l0 = .ok (s1, l1))
    (inp : List Nat) (hA : Ascii inp) (l : Lexer) (hI : l.Ok inp) (hlt : l.pos < inp.length)
    (hr : runeAt inp l.pos = 40 ∨ runeAt inp l.pos = 41) :
    (∀ it ∈ items, it.Class ≠ .ItemRightParen ∧ it.Class ≠ .ItemVector ∧
      it.Class ≠ .ItemList ∧ it.Class ≠ .ItemDataframe) ∧
    (∀ it ∈ l1.Items, it.Class ≠ .ItemRightParen ∧ it.Class ≠ .ItemVector ∧
      it.Class ≠ .ItemList ∧ it.Class ≠ .ItemDataframe) ∧
    ∃ s2 l2, lexDefault l = .ok (some s2, l2) ∧
      l2.Items = l.Items ++
        [⟨.ItemLeftParen, (inp.drop l.start.toNat).take (l.pos + 1 - l.start).toNat⟩] := by
  refine ⟨(Run_clean fuel input).out items hrun, (step_clean fuel s hclean).out (s1, l1) hstep, ?_⟩
  have hp : 0 ≤ l.pos := le_trans hI.start_nonneg hI.start_le
  have hlt2 : l.pos.toNat < inp.length := by omega
  have hd := List.drop_eq_getElem_cons hlt2
  have hb : inp[l.pos.toNat] < 128 := hA _ (List.getElem_mem _)
  have hs := hI.asSeg
  rw [hd] at hs
  rw [runeAt_of_drop hp hd hb] at hr
  have ht : ∀ c ∈ (inp.drop (l.pos.toNat + 1)).head?, c < 128 := by
    intro c hc
    apply hA
    exact List.mem_of_mem_drop (List.mem_of_mem_head? hc)
  obtain ⟨l2, e2, s2⟩ := lexDefault_paren hs (by omega) ht
  refine ⟨_, l2, e2, ?_⟩
  rw [s2.items]
  congr 3
  have e : (l.pos + 1 - l.start).toNat = (l.pos - l.start).toNat + 1 := by
    have := hI.start_le
    omega
  have hlen : (l.pos - l.start).toNat < (inp.drop l.start.toNat).length := by
    rw [List.length_drop]
    have := hI.start_le
    have := hI.start_nonneg
    omega
  rw [e, List.take_succ, List.getElem?_eq_getElem hlen]
  congr 2
  simp only [Option.toList, List.getElem_drop]
  congr 2
  have := hI.start_le
  have := hI.start_nonneg
  omega

/-- C14 at the run on `f(x)`, the first step on the empty input and the
Default state at `)`. -/
theorem C14_no_right_paren_witness :
    (∀ it ∈ [(⟨.ItemIdent, str "f"⟩ : Item), ⟨.ItemLeftParen, str "("⟩, ⟨.ItemIdent, str "x"⟩,
        ⟨.ItemLeftParen, str ")"⟩, ⟨.ItemEOF, str "EOF"⟩],
      it.Class ≠ .ItemRightParen ∧ it.Class ≠ .ItemVector ∧
        it.Class ≠ .ItemList ∧ it.Class ≠ .ItemDataframe) ∧
    (∀ it ∈ (emitEOF (Lexer.new [])).Items, it.Class ≠ .ItemRightParen ∧
      it.Class ≠ .ItemVector ∧ it.Class ≠ .ItemList ∧ it.Class ≠ .ItemDataframe) ∧
    ∃ s2 l2, lexDefault (Lexer.new (str ")")) = .ok (some s2, l2) ∧
      l2.Items = (Lexer.new (str ")")).Items ++
        [⟨.ItemLeftParen, ((str ")").drop (Lexer.new (str ")")).start.toNat).take
          ((Lexer.new (str ")")).pos + 1 - (Lexer.new (str ")")).start).toNat⟩] :=
  C14_no_right_paren 12 (str "f(x)") _ rfl .lexDefault (Lexer.new []) _ none (by decide) rfl
    (str ")") (by decide) (Lexer.new (str ")")) (Lexer.new_Ok _) (by decide) (by decide)

/-- C15: `GetVariable(name, false)` is the lookup in the current frame itself,
so it succeeds exactly when the current frame binds `name`;
`GetVariable(name, true)` succeeds exactly when some frame of the scope chain
binds `name`, and it returns the binding of the innermost frame that binds it
(the zero object and `false` when no frame does). -/
theorem C15_get_variable_lookup (e : environment.Environment) (name : List Nat) :
    e.GetVariable name false = e.frame.variables_.get name ∧
    ((e.GetVariable name true).2 = true ↔
      ∃ f ∈ e.frames, (f.variables_.get name).2 = true) ∧
    e.GetVariable name true =
      (match e.frames.find? (fun f => (f.variables_.get name).2) with
       | some f => f.variables_.get name
       | none => (environment.Object.zero, false)) := by
  refine ⟨environment.Environment.GetVariable_false e name, ?_,
    environment.Environment.GetVariable_true e name⟩
  rw [environment.Environment.GetVariable_true e name]
  cases h : e.frames.find? (fun f => (f.variables_.get name).2) with
  | none =>
    simp only [List.find?_eq_none] at h
    constructor
    · intro h1; simp at h1
    · rintro ⟨f, hf, h2⟩
      exact absurd h2 (h f hf)
  | some f =>
    have h1 := List.find?_some h
    have h2 := List.mem_of_find?_eq_some h
    simp only
    exact ⟨fun _ => ⟨f, h2, h1⟩, fun _ => h1⟩

/-- C16: opening the environment made by `Enclose` gives back the enclosed
environment unchanged, with all its tables, and the new frame has empty
variable, function and class tables and no entry but the base types in its
type table. -/
theorem C16_enclose_open (e : environment.Environment) (fn : environment.Object) :
    (e.Enclose fn).Open = some e ∧
    (e.Enclose fn).frame.variables_ = [] ∧
    (e.Enclose fn).frame.functions = [] ∧
    (e.Enclose fn).frame.classes = [] ∧
    (e.Enclose fn).frame.Fn = fn ∧
    (e.Enclose fn).frame.types = (environment.New fn).frame.types :=
  ⟨rfl, rfl, rfl, rfl, rfl, rfl⟩

/-- C17, the name that fails: `struct` is not in the table `baseTypes`, so the
lookup of `struct` in a fresh root environment fails. -/
theorem C17_struct_is_no_base_type :
    (environment.New environment.Object.zero).GetType (str "struct") false
      = (environment.Object.zero, false) := rfl

/-- C17, amended: a fresh root environment has no outer frame, and for each of
the names `int`, `num`, `char`, `bool`, `null`, `na`, `factor`, `list`,
`object` and `dataframe` the lookup `GetType(name, false)` succeeds and returns
the entry whose one type is the non-list type of that name. -/
theorem C17_root_base_types (fn : environment.Object) :
    (environment.New fn).outer = none ∧
    environment.specBaseTypes.map (fun name => (environment.New fn).GetType name false)
      = environment.specBaseTypes.map (fun name => (environment.baseType name, true)) :=
  ⟨rfl, rfl⟩

/-- C18, the names that collide: in a fresh root environment the plain type
`a_` is not defined, and it is after the list type `a` has been set, because
both use the key `a_`. -/
theorem C18_list_key_collides :
    ((environment.New environment.Object.zero).GetType (str "a_") false).2 = false ∧
    (((environment.New environment.Object.zero).SetType (str "a")
        { environment.Object.zero with List := true }).GetType (str "a_") false).2 = true :=
  ⟨rfl, rfl⟩

/-- C18, amended: after `SetType(n, v)` with `v.List = true`, the lookup
`GetType(m, false)` returns what it returned before for every name `m` other
than `n` followed by `_`, and `GetType(n, true)` returns `v`. -/
theorem C18_list_type_distinct (e : environment.Environment) (n m : List Nat)
    (v : environment.Object) (hv : v.List = true) (hm : m ≠ n ++ str "_") :
    (e.SetType n v).GetType m false = e.GetType m false ∧
    (e.SetType n v).GetType n true = (v, true) := by
  obtain ⟨⟨vs, ts, fs, cs, fn⟩, o⟩ := e
  have hk : environment.typeKey n v.List = n ++ str "_" := by
    simp [environment.typeKey, hv]
  have hm2 : environment.typeKey m false = m := by simp [environment.typeKey]
  have hn2 : environment.typeKey n true = n ++ str "_" := by simp [environment.typeKey]
  cases o with
  | none =>
    simp only [environment.Environment.SetType, environment.Environment.GetType, hk, hm2, hn2,
      environment.Table.get_set_eq, environment.Table.get_set_ne _ _ _ _ hm, and_self]
  | some o =>
    simp only [environment.Environment.SetType, environment.Environment.GetType, hk, hm2, hn2,
      environment.Table.get_set_eq, environment.Table.get_set_ne _ _ _ _ hm]
    simp

/-- C18 at the list type `int` set in a fresh root environment: the plain type
`int` is still found as before. -/
theorem C18_list_type_distinct_witness :
    ((environment.New environment.Object.zero).SetType (str "int")
        { environment.Object.zero with List := true }).GetType (str "int") false
      = (environment.New environment.Object.zero).GetType (str "int") false ∧
    ((environment.New environment.Object.zero).SetType (str "int")
        { environment.Object.zero with List := true }).GetType (str "int") true
      = ({ environment.Object.zero with List := true }, true) :=
  C18_list_type_distinct (environment.New environment.Object.zero) (str "int") (str "int")
    { environment.Object.zero with List := true } rfl (by decide)

/-- C19: a binding that lives only in an outer frame is not marked.  The
variable `x` is bound, unused, in the root frame and the current frame is an
empty frame enclosed in it: `GetVariable("x", true)` finds the binding, and
after `SetVariableUsed("x")` it still has `Used = false`. -/
theorem C19_outer_binding_not_marked :
    ((((environment.New environment.Object.zero).SetVariable (str "x")
        environment.Object.zero).Enclose environment.Object.zero).GetVariable
          (str "x") true).2 = true ∧
    (((((environment.New environment.Object.zero).SetVariable (str "x")
        environment.Object.zero).Enclose environment.Object.zero).SetVariableUsed
          (str "x")).GetVariable (str "x") true).1.Used = false :=
  ⟨rfl, rfl⟩

/-- C20: when `Walk(node)` returns, the current frame of the walker is the
frame that was current at the call: the walker has a current frame after the
call exactly when it had one before, and the chain of frames that enclose it
is the same, every `Enclose` of the walk having been undone by an `Open`.  The
walk of a node does not run out of fuel once the fuel exceeds a bound that
depends on the node only, so `Walk` returns or panics. -/
theorem C20_scope_balance (D : walker.Deps) (fuel : Nat) (w w1 : walker.Walker)
    (node : Option ast.Node) (t : ast.Types) (n : Option ast.Node)
    (h : walker.Walk D fuel w node = .ok (w1, t, n)) :
    w1.enclosing = w.enclosing ∧
    ∃ N, ∀ (fuel2 : Nat) (w2 : walker.Walker), N ≤ fuel2 →
      walker.Walk D fuel2 w2 node ≠ .error .fuel :=
  ⟨(walker.Walk_balanced D fuel w node w.enclosing rfl).out (w1, t, n) h,
    sizeOf node + 1, fun fuel2 w2 h2 => (walker.Walk_adequate D fuel2 w2 node (by omega)).out⟩

/-- C20 at the walk of `ast.sampleProgram` from a fresh walker: the `if`
encloses a frame and opens it again, and the variable `x` is set in the root
frame. -/
theorem C20_scope_balance_witness :
    (walker.Walker.mk [] (some ((environment.New environment.Object.zero).SetVariable (str "x")
        { environment.Object.zero with
          Token := ⟨.ItemLet, str "let"⟩, Type_ := [⟨str "int", false⟩] })) []).enclosing
      = walker.New.enclosing ∧
    ∃ N, ∀ (fuel2 : Nat) (w2 : walker.Walker), N ≤ fuel2 →
      walker.Walk walker.Deps.lenient fuel2 w2 (some ast.sampleProgram) ≠ .error .fuel :=
  C20_scope_balance walker.Deps.lenient 5 walker.New _ (some ast.sampleProgram) []
    (some (.IfExpression (some (.Boolean ⟨.ItemBool, str "TRUE"⟩ ⟨str "bool", false⟩))
       (some (.BlockStatement
         [.LetStatement ⟨.ItemLet, str "let"⟩ (str "y") [⟨str "int", false⟩]
            (some (.IntegerLiteral ⟨.ItemInteger, str "2"⟩ ⟨str "int", false⟩))]))
       none)) rfl

/-- C21: walking a let statement whose name the current frame holds hands the
walk of the initialiser a walker with the fatal diagnostic "variable `%v` is
already declared" added and with the environment as it was, and the result of
the let statement is the result of that walk: when it returns, the diagnostic
is among those recorded and the frame holds the variable with the entry it had
(type and flags; the flag `Used` is set when the initialiser uses the
variable).  Walking a let statement whose name the current frame does not
hold, as when the name is bound in an outer frame only, hands the walk of the
initialiser a walker with no diagnostic added and with the variable set in the
current frame, with the declared type; after that walk the statement adds only
the diagnostic of a type mismatch, so every "already declared" diagnostic comes
from before the statement or from the walk of the initialiser, and when the
walk returns the current frame holds the variable with the declared type. -/
theorem C21_let_declaration (D : walker.Deps) (fuel : Nat) (w w1 : walker.Walker)
    (e : environment.Environment) (tok : token.Item) (name : List Nat) (ty t : ast.Types)
    (value n : Option ast.Node) (he : w.env = some e)
    (h : walker.Walk D (fuel + 1) w (some (.LetStatement tok name ty value)) = .ok (w1, t, n)) :
    ((e.GetVariable name false).2 = true →
      walker.Walk D fuel
          ⟨w.errors ++ [⟨tok, str "variable `%v` is already declared", [.text name], .Fatal⟩],
            some e, w.state⟩ value = .ok (w1, t, n) ∧
        (⟨tok, str "variable `%v` is already declared", [.text name], .Fatal⟩ :
          diagnostics.Diagnostic) ∈ w1.errors ∧
        ∃ e1, w1.env = some e1 ∧ (e1.GetVariable name false).2 = true ∧
          (e.GetVariable name false).1.sameButUsed (e1.GetVariable name false).1) ∧
    ((e.GetVariable name false).2 = false →
      ∃ w3,
        walker.Walk D fuel
          ⟨w.errors, some (e.SetVariable name
            { environment.Object.zero with Token := tok, Type_ := ty }), w.state⟩ value
          = .ok (w3, t, n) ∧
        w1 = walker.fatalWhen (!D.typesValid w3 ty t) w3 tok (str "`%v` expects `%v`, got `%v`")
          [.text name, .types ty, .types t] ∧
        (∀ d ∈ w1.errors, d.Message = str "variable `%v` is already declared" → d ∈ w3.errors) ∧
        ∃ e1, w1.env = some e1 ∧ (e1.GetVariable name false).2 = true ∧
          (e1.GetVariable name false).1.Type_ = ty ∧
          environment.Object.sameButUsed
            { environment.Object.zero with Token := tok, Type_ := ty }
            (e1.GetVariable name false).1) := by
  replace h : walker.walkLetStatement (walker.Walk D fuel) D w tok name ty value
      = .ok (w1, t, n) := h
  constructor
  · intro hb
    rw [walker.walkLetStatement_bound _ D tok ty value he hb] at h
    refine ⟨h, ?_, ?_⟩
    · exact (walker.Walk_keepsErrors D fuel h).subset (by simp)
    · obtain ⟨e1, h1, h2⟩ := walker.Walk_keepsVariables D fuel rfl h
      exact ⟨e1, h1, h2 name hb⟩
  · intro hb
    obtain ⟨w3, h1, h2⟩ := walker.walkLetStatement_fresh _ D tok ty value he hb h
    refine ⟨w3, h1, h2, ?_, ?_⟩
    · intro d hd hm
      rw [h2] at hd
      unfold walker.fatalWhen at hd
      split at hd
      · rw [walker.addFatalf, walker.errors_addDiagnostic] at hd
        rcases List.mem_append.mp hd with h3 | h3
        · exact h3
        · rw [List.mem_singleton] at h3
          rw [h3] at hm
          replace hm :
              str "`%v` expects `%v`, got `%v`" = str "variable `%v` is already declared" := hm
          exact absurd hm (by decide)
      · exact hd
    · obtain ⟨e1, h3, h4⟩ := walker.Walk_keepsVariables D fuel rfl h1
      have h5 := h4 name (by rw [environment.Environment.GetVariable_SetVariable_eq])
      rw [environment.Environment.GetVariable_SetVariable_eq] at h5
      refine ⟨e1, ?_, h5.1, ?_, h5.2⟩
      · rw [h2, walker.env_fatalWhen]
        exact h3
      · have h6 := h5.2
        unfold environment.Object.sameButUsed at h6
        rw [h6]

/-- C21 at `let x: char = "hello"`: walked after `let x: int | na = 1` in the
same frame, it records the fatal diagnostic and `x` keeps the type
`int | na`; walked in a frame enclosed by that frame, it records nothing and
the enclosed frame holds `x` with the type `char`. -/
theorem C21_let_declaration_witness :
    ((⟨⟨.ItemLet, str "let"⟩, str "variable `%v` is already declared", [.text (str "x")],
        .Fatal⟩ : diagnostics.Diagnostic) ∈
        [(⟨⟨.ItemLet, str "let"⟩, str "variable `%v` is already declared", [.text (str "x")],
          .Fatal⟩ : diagnostics.Diagnostic)] ∧
      ∃ e1, walker.sampleDeclared.env = some e1 ∧ (e1.GetVariable (str "x") false).2 = true ∧
        environment.Object.sameButUsed
          { environment.Object.zero with
            Token := ⟨.ItemLet, str "let"⟩, Type_ := [⟨str "int", false⟩, ⟨str "na", false⟩] }
          (e1.GetVariable (str "x") false).1) ∧
    (∃ e1, (walker.Walker.mk [] (some (((environment.New environment.Object.zero).setOuter
          walker.sampleDeclared.env).SetVariable (str "x")
            { environment.Object.zero with
              Token := ⟨.ItemLet, str "let"⟩, Type_ := [⟨str "char", false⟩] })) []).env
        = some e1 ∧ (e1.GetVariable (str "x") false).2 = true ∧
      (e1.GetVariable (str "x") false).1.Type_ = [⟨str "char", false⟩]) :=
  ⟨((C21_let_declaration walker.Deps.lenient 1 walker.sampleDeclared
      ⟨[⟨⟨.ItemLet, str "let"⟩, str "variable `%v` is already declared", [.text (str "x")],
        .Fatal⟩], walker.sampleDeclared.env, []⟩ _ ⟨.ItemLet, str "let"⟩ (str "x")
      [⟨str "char", false⟩] [⟨str "char", false⟩]
      (some (.StringLiteral ⟨.ItemString, str "hello"⟩ ⟨str "char", false⟩))
      (some (.StringLiteral ⟨.ItemString, str "hello"⟩ ⟨str "char", false⟩)) rfl rfl).1 rfl).2,
   let ⟨_, _, _, _, e1, h1, h2, h3, _⟩ :=
    (C21_let_declaration walker.Deps.lenient 1 walker.sampleDeclared.Enclose
      ⟨[], some (((environment.New environment.Object.zero).setOuter
          walker.sampleDeclared.env).SetVariable (str "x")
            { environment.Object.zero with
              Token := ⟨.ItemLet, str "let"⟩, Type_ := [⟨str "char", false⟩] }), []⟩
      _ ⟨.ItemLet, str "let"⟩ (str "x")
      [⟨str "char", false⟩] [⟨str "char", false⟩]
      (some (.StringLiteral ⟨.ItemString, str "hello"⟩ ⟨str "char", false⟩))
      (some (.StringLiteral ⟨.ItemString, str "hello"⟩ ⟨str "char", false⟩)) rfl rfl).2 rfl
   ⟨e1, h1, h2, h3⟩⟩

/-- C22: when the identifier `x` resolves, in the current frame or in a frame
that encloses it, to a variable entered with `IsConst`, a walk of `x = e` that
returns has recorded the fatal diagnostic "`%v` is a constant", with the token
of the identifier and its value for `%v`, whatever the right-hand side `e`
is; the walk does not run out of fuel once the fuel exceeds a bound that
depends on the node only. -/
theorem C22_constant_assignment (D : walker.Deps) (fuel : Nat) (w w1 : walker.Walker)
    (e : environment.Environment) (tok itok : token.Item) (x : List Nat) (ity t : ast.Types)
    (right n : Option ast.Node) (he : w.env = some e)
    (hx : (e.GetVariable x true).2 = true) (hc : (e.GetVariable x true).1.IsConst = true)
    (h : walker.Walk D fuel w
      (some (.InfixExpression tok (some (.Identifier itok x ity)) (str "=") right))
        = .ok (w1, t, n)) :
    (⟨D.Item (.Identifier itok x ity), str "`%v` is a constant",
        [.text (D.Item (.Identifier itok x ity)).Value], .Fatal⟩ : diagnostics.Diagnostic)
      ∈ w1.errors ∧
    ∃ N, ∀ (fuel2 : Nat) (w2 : walker.Walker), N ≤ fuel2 →
      walker.Walk D fuel2 w2
        (some (.InfixExpression tok (some (.Identifier itok x ity)) (str "=") right))
          ≠ .error .fuel := by
  refine ⟨?_, sizeOf (some (ast.Node.InfixExpression tok (some (.Identifier itok x ity))
    (str "=") right)) + 1, fun fuel2 w2 h2 => (walker.Walk_adequate D fuel2 w2 _ (by omega)).out⟩
  cases fuel with
  | zero => cases h
  | succ fuel =>
    replace h : walker.walkInfixExpression (walker.Walk D fuel) D w tok
        (some (.Identifier itok x ity)) (str "=") right = .ok (w1, t, n) := h
    unfold walker.walkInfixExpression at h
    rw [if_pos rfl] at h
    cases fuel with
    | zero => cases h
    | succ fuel =>
      obtain ⟨wa, w3, ea, lt, h1, h2, h3, h4⟩ := walker.walkInfixExpressionEqual_inv he rfl h
      obtain ⟨wb, h5, _, h6, _⟩ :=
        walker.walkIdentifier_found (.Identifier itok x ity) itok ity he hx
      rw [h5] at h1
      cases h1
      rw [h6] at h2
      cases h2
      have h7 : ((e.SetVariableUsed x).GetVariable x true).1.IsConst = true :=
        (environment.Object.sameButUsed_isConst
          (environment.Environment.GetVariable_SetVariableUsed e x).2).trans hc
      rw [h7] at h3
      have h8 := walker.Walk_keepsErrors D (fuel + 1) h3
      have h9 : wa.errors ++ [(⟨D.Item (.Identifier itok x ity), str "`%v` is a constant",
          [.text (D.Item (.Identifier itok x ity)).Value], .Fatal⟩ : diagnostics.Diagnostic)]
          <+: w1.errors := by
        rw [h4]
        refine walker.fatalWhen_grow _ _ _ _ (List.IsPrefix.trans ?_ h8)
        refine walker.fatalWhen_grow _ _ _ _ (walker.fatalWhen_grow _ _ _ _ ?_)
        rw [walker.fatalWhen_true]
      exact h9.subset (by simp)

/-- C22 at `y = 2` walked after `const y: int = 1`: the diagnostic
"`%v` is a constant" is recorded with the token of `y`. -/
theorem C22_constant_assignment_witness :
    (⟨⟨.ItemIdent, str "y"⟩, str "`%v` is a constant", [.text (str "y")], .Fatal⟩ :
        diagnostics.Diagnostic)
      ∈ [(⟨⟨.ItemIdent, str "y"⟩, str "`%v` is a constant", [.text (str "y")], .Fatal⟩ :
        diagnostics.Diagnostic)] ∧
    ∃ N, ∀ (fuel2 : Nat) (w2 : walker.Walker), N ≤ fuel2 →
      walker.Walk walker.Deps.sample fuel2 w2
        (some (.InfixExpression ⟨.ItemAssign, str "="⟩
          (some (.Identifier ⟨.ItemIdent, str "y"⟩ (str "y") [])) (str "=")
          (some ast.sampleTwo))) ≠ .error .fuel :=
  C22_constant_assignment walker.Deps.sample 3 walker.sampleConst
    ⟨[⟨⟨.ItemIdent, str "y"⟩, str "`%v` is a constant", [.text (str "y")], .Fatal⟩],
      some (((environment.New environment.Object.zero).SetVariable (str "y")
        { environment.Object.zero with
          Token := ⟨.ItemConst, str "const"⟩, Type_ := [⟨str "int", false⟩],
          IsConst := true }).SetVariableUsed (str "y")), []⟩
    _ ⟨.ItemAssign, str "="⟩ ⟨.ItemIdent, str "y"⟩ (str "y") [] [⟨str "int", false⟩]
    (some ast.sampleTwo) (some ast.sampleTwo) rfl rfl rfl rfl

/-- C23: walked after `const y: int = 1`, the assignment `y <- "hello"`
records no diagnostic, whatever the functions that are not under src answer:
`walkInfixExpressionEqualParent` walks the two sides and tests nothing.  The
assignment `y = "hello"` in the same place records the fatal diagnostics
"`%v` is a constant" and "left expects `%v`, right returns `%v`". -/
theorem C23_parent_assignment_unchecked (D : walker.Deps) :
    (walker.Walk D 3 walker.sampleConst
      (some (.InfixExpression ⟨.ItemAssign, str "<-"⟩ (some ast.sampleY) (str "<-")
        (some ast.sampleHello)))).map (fun r => r.1.errors) = .ok [] ∧
    (walker.Walk walker.Deps.sample 3 walker.sampleConst
      (some (.InfixExpression ⟨.ItemAssign, str "="⟩ (some ast.sampleY) (str "=")
        (some ast.sampleHello)))).map (fun r => r.1.errors)
      = .ok [⟨⟨.ItemIdent, str "y"⟩, str "`%v` is a constant", [.text (str "y")], .Fatal⟩,
        ⟨⟨.ItemAssign, str "="⟩, str "left expects `%v`, right returns `%v`",
          [.types [⟨str "int", false⟩], .types [⟨str "char", false⟩]], .Fatal⟩] :=
  ⟨rfl, rfl⟩

/-- C24: when no frame of the chain holds `x` as a variable, a walk of `x = e`
that returns has recorded the fatal diagnostic "`%v` does not exist", with the
token of the identifier and `x` for `%v`, if the state of the walker was not
"call".  If the state was "call", the assignment records no diagnostic of that
message: the walk of `e` starts with the diagnostics that were there before
the assignment and those recorded for a missing right-hand side, and the walk
of the assignment ends with the diagnostics of the walk of `e` and those
recorded for the types of the two sides. -/
theorem C24_unbound_assignment (D : walker.Deps) (fuel : Nat) (w w1 : walker.Walker)
    (e : environment.Environment) (tok itok : token.Item) (x : List Nat) (ity t : ast.Types)
    (right n : Option ast.Node) (he : w.env = some e)
    (hx : (e.GetVariable x true).2 = false)
    (h : walker.Walk D fuel w
      (some (.InfixExpression tok (some (.Identifier itok x ity)) (str "=") right))
        = .ok (w1, t, n)) :
    (w.state ≠ str "call" →
      (⟨itok, str "`%v` does not exist", [.text x], .Fatal⟩ : diagnostics.Diagnostic)
        ∈ w1.errors) ∧
    (w.state = str "call" →
      ∃ (w2 w3 : walker.Walker) (pre post : List diagnostics.Diagnostic),
        w2.errors = w.errors ++ pre ∧ w2.state = str "call" ∧
        walker.Walk D (fuel - 1) w2 right = .ok (w3, t, n) ∧
        w1.errors = w3.errors ++ post ∧
        (∀ d ∈ pre, d.Message = str "expecting right hand side") ∧
        (∀ d ∈ post, d.Message = str "left expects `%v`, right returns `%v`") ∧
        ∀ d ∈ pre ++ post, d.Message ≠ str "`%v` does not exist") := by
  cases fuel with
  | zero => cases h
  | succ fuel =>
    replace h : walker.walkInfixExpression (walker.Walk D fuel) D w tok
        (some (.Identifier itok x ity)) (str "=") right = .ok (w1, t, n) := h
    unfold walker.walkInfixExpression at h
    rw [if_pos rfl] at h
    cases fuel with
    | zero => cases h
    | succ fuel =>
      obtain ⟨wa, w3, ea, lt, h1, h2, h3, h4⟩ := walker.walkInfixExpressionEqual_inv he rfl h
      obtain ⟨_, h5, h6, e1, h7, h8⟩ := walker.walkIdentifier_missing he hx h1
      rw [h7] at h2
      cases h2
      rw [h8, hx, h6] at h3
      constructor
      · intro hs
        have h9 : (!false && decide (w.state ≠ str "call")) = true := by
          rw [decide_eq_true hs]
          rfl
        rw [h9] at h3
        have h10 : (walker.fatalWhen (e.GetVariable x true).1.IsConst wa
            (D.Item (.Identifier itok x ity)) (str "`%v` is a constant")
            [.text (D.Item (.Identifier itok x ity)).Value]).errors ++
            [(⟨itok, str "`%v` does not exist", [.text x], .Fatal⟩ : diagnostics.Diagnostic)]
            <+: w1.errors := by
          rw [h4]
          refine walker.fatalWhen_grow _ _ _ _
            (List.IsPrefix.trans ?_ (walker.Walk_keepsErrors D (fuel + 1) h3))
          refine walker.fatalWhen_grow _ _ _ _ ?_
          rw [walker.fatalWhen_true]
        exact h10.subset (by simp)
      · intro hs
        have h9 : (!false && decide (w.state ≠ str "call")) = false := by
          rw [decide_eq_false (fun h => h hs)]
          rfl
        have h11 : (e.GetVariable x true).1.IsConst = false := by
          rw [environment.Environment.GetVariable_miss e x hx]
          rfl
        rw [h9, h11] at h3
        have hpre : ∀ d ∈ (if right.isNone then
            [(⟨tok, str "expecting right hand side", [], .Fatal⟩ : diagnostics.Diagnostic)]
            else []), d.Message = str "expecting right hand side" := by
          intro d hd
          split at hd
          · rw [List.mem_singleton] at hd
            rw [hd]
          · cases hd
        have hpost : ∀ d ∈ (if (!D.typesValid w3 lt t) then
            [(⟨tok, str "left expects `%v`, right returns `%v`", [.types lt, .types t],
              .Fatal⟩ : diagnostics.Diagnostic)]
            else []), d.Message = str "left expects `%v`, right returns `%v`" := by
          intro d hd
          split at hd
          · rw [List.mem_singleton] at hd
            rw [hd]
          · cases hd
        refine ⟨_, w3, _, _, ?_, ?_, h3, ?_, hpre, hpost, ?_⟩
        · rw [walker.errors_fatalWhen]
          show wa.errors ++ _ = _
          rw [h5]
        · rw [walker.state_fatalWhen]
          exact h6.trans hs
        · rw [h4, walker.errors_fatalWhen]
        · intro d hd
          rcases List.mem_append.mp hd with h12 | h12
          · rw [hpre d h12]
            decide
          · rw [hpost d h12]
            decide

/-- C24 at `x = 1` walked by a fresh walker, which holds no variable: with the
state "" the diagnostic "`%v` does not exist" is recorded; with the state
"call" the only diagnostic of the walk is that of the types of the two
sides. -/
theorem C24_unbound_assignment_witness :
    (⟨⟨.ItemIdent, str "x"⟩, str "`%v` does not exist", [.text (str "x")], .Fatal⟩ :
        diagnostics.Diagnostic)
      ∈ [(⟨⟨.ItemIdent, str "x"⟩, str "`%v` does not exist", [.text (str "x")], .Fatal⟩ :
          diagnostics.Diagnostic),
        ⟨⟨.ItemAssign, str "="⟩, str "left expects `%v`, right returns `%v`",
          [.types [], .types [⟨str "int", false⟩]], .Fatal⟩] ∧
    ∃ (w2 w3 : walker.Walker) (pre post : List diagnostics.Diagnostic),
      w2.errors = (walker.New.setState (str "call")).errors ++ pre ∧ w2.state = str "call" ∧
      walker.Walk walker.Deps.sample 2 w2 (some ast.sampleOne)
        = .ok (w3, [⟨str "int", false⟩], some ast.sampleOne) ∧
      [(⟨⟨.ItemAssign, str "="⟩, str "left expects `%v`, right returns `%v`",
          [.types [], .types [⟨str "int", false⟩]], .Fatal⟩ : diagnostics.Diagnostic)]
        = w3.errors ++ post ∧
      (∀ d ∈ pre, d.Message = str "expecting right hand side") ∧
      (∀ d ∈ post, d.Message = str "left expects `%v`, right returns `%v`") ∧
      ∀ d ∈ pre ++ post, d.Message ≠ str "`%v` does not exist" :=
  ⟨(C24_unbound_assignment walker.Deps.sample 3 walker.New
      ⟨[⟨⟨.ItemIdent, str "x"⟩, str "`%v` does not exist", [.text (str "x")], .Fatal⟩,
        ⟨⟨.ItemAssign, str "="⟩, str "left expects `%v`, right returns `%v`",
          [.types [], .types [⟨str "int", false⟩]], .Fatal⟩],
        some (environment.New environment.Object.zero), []⟩
      _ ⟨.ItemAssign, str "="⟩ ⟨.ItemIdent, str "x"⟩ (str "x") [] [⟨str "int", false⟩]
      (some ast.sampleOne) (some ast.sampleOne) rfl rfl rfl).1 (by decide),
    (C24_unbound_assignment walker.Deps.sample 3 (walker.New.setState (str "call"))
      ⟨[⟨⟨.ItemAssign, str "="⟩, str "left expects `%v`, right returns `%v`",
          [.types [], .types [⟨str "int", false⟩]], .Fatal⟩],
        some (environment.New environment.Object.zero), str "call"⟩
      _ ⟨.ItemAssign, str "="⟩ ⟨.ItemIdent, str "x"⟩ (str "x") [] [⟨str "int", false⟩]
      (some ast.sampleOne) (some ast.sampleOne) rfl rfl rfl).2 rfl⟩

/-- C25: the walk of `const y: int = "hello"` by a fresh walker records no
diagnostic, whatever the functions that are not under src answer:
`walkConstStatement` does not call `typesValid`.  The type `int` does not
accept `char`, and the walk of `let y: int = "hello"` records the fatal
diagnostic "`%v` expects `%v`, got `%v`". -/
theorem C25_const_type_unchecked (D : walker.Deps) :
    (walker.Walk D 2 walker.New
      (some (.ConstStatement ⟨.ItemConst, str "const"⟩ (str "y") [⟨str "int", false⟩]
        (some ast.sampleHello)))).map (fun r => r.1.errors) = .ok [] ∧
    walker.compatible [⟨str "int", false⟩] [⟨str "char", false⟩] = false ∧
    (walker.Walk walker.Deps.sample 2 walker.New
      (some (.LetStatement ⟨.ItemLet, str "let"⟩ (str "y") [⟨str "int", false⟩]
        (some ast.sampleHello)))).map (fun r => r.1.errors)
      = .ok [⟨⟨.ItemLet, str "let"⟩, str "`%v` expects `%v`, got `%v`",
          [.text (str "y"), .types [⟨str "int", false⟩], .types [⟨str "char", false⟩]],
          .Fatal⟩] :=
  ⟨rfl, rfl, rfl⟩

/-- C26: for the parameters `x: int, y: char`, `getFunctionParameter` finds
the parameter with index 0, and finds neither the parameter with index 1 nor
the parameter named `y`: the body of its loop returns for the first parameter
in every case.  So the walk of `func foo(x: int, y: char): int { }` followed by
`foo(1, "hello", 3)` records "could not find parameter #%v (too many
arguments?)" for the argument #2 as well as for the argument #3. -/
theorem C26_first_parameter_only :
    (walker.getFunctionParameter
      [ast.sampleParameter (str "x") ⟨str "int", false⟩,
       ast.sampleParameter (str "y") ⟨str "char", false⟩] [] 0).2 = true ∧
    (walker.getFunctionParameter
      [ast.sampleParameter (str "x") ⟨str "int", false⟩,
       ast.sampleParameter (str "y") ⟨str "char", false⟩] [] 1).2 = false ∧
    (walker.getFunctionParameter
      [ast.sampleParameter (str "x") ⟨str "int", false⟩,
       ast.sampleParameter (str "y") ⟨str "char", false⟩] (str "y") 1).2 = false ∧
    (walker.Walk walker.Deps.sample 5 walker.New
      (some (.Program [ast.sampleFoo, ast.sampleCall]))).map (fun r => r.1.errors)
      = .ok [⟨⟨.ItemString, str "hello"⟩,
          str "could not find parameter #%v (too many arguments?)", [.int 2], .Fatal⟩,
        ⟨⟨.ItemInteger, str "3"⟩,
          str "could not find parameter #%v (too many arguments?)", [.int 3], .Fatal⟩] :=
  ⟨rfl, rfl, rfl, rfl⟩

/-- C27: for a named function literal whose name the current frame does not
hold as a function, a walk that returns has recorded a fatal diagnostic
"duplicated function parameter `%v`" if a name other than `...` occurs more
than once among the receiver variable of the method (if it is one) and the
token values of the parameters; and when the walks of the default values and
of the statements of the body record none of their own, it has recorded one if
and only if such a name occurs more than once. -/
theorem C27_duplicate_parameters (D : walker.Deps) (fuel : Nat) (w w1 : walker.Walker)
    (e : environment.Environment) (tok : token.Item) (name : List Nat)
    (method : Option ast.Ty) (methodVariable : List Nat)
    (ps : List (ast.Parameter ast.Node)) (body : Option (List ast.Node))
    (returnType t : ast.Types) (n : Option ast.Node) (he : w.env = some e)
    (hname : name ≠ []) (hnew : (e.GetFunction name false).2 = false)
    (h : walker.Walk D (fuel + 1) w
      (some (.FunctionLiteral tok name method methodVariable ps body returnType))
        = .ok (w1, t, n)) :
    (ast.repeated (ast.parameterNames method methodVariable ps) →
      diagnostics.count (str "duplicated function parameter `%v`") w.errors
        < diagnostics.count (str "duplicated function parameter `%v`") w1.errors) ∧
    (walker.Quiet (walker.Walk D fuel) (str "duplicated function parameter `%v`")
        (ast.walkedNodes ps body) →
      (diagnostics.count (str "duplicated function parameter `%v`") w.errors
          < diagnostics.count (str "duplicated function parameter `%v`") w1.errors ↔
        ast.repeated (ast.parameterNames method methodVariable ps))) := by
  replace h : walker.thenNode (walker.walkFunctionLiteral (walker.Walk D fuel) w
      (.FunctionLiteral tok name method methodVariable ps body returnType) tok name method
      methodVariable ps body) (.FunctionLiteral tok name method methodVariable ps body returnType)
      = .ok (w1, t, n) := h
  unfold walker.thenNode at h
  obtain ⟨w0, h0, h1⟩ := Except.bind_ok_inv h
  cases h1
  unfold walker.walkFunctionLiteral at h0
  rw [if_neg hname] at h0
  obtain ⟨wa, wb, wc, h2, h3, h4, h5⟩ := walker.walkNamedFunctionLiteral_inv he
    (fun hc => Bool.false_ne_true (hnew.symm.trans hc.1)) h0
  have hG := walker.Walk_growing D fuel
  have h6 := walker.walkNamedParameters_atLeast hG ps wa wb _ h3
  have h7 := diagnostics.count_mono (str "duplicated function parameter `%v`")
    ((walker.walkBody_grow hG body (List.prefix_refl wb.errors)).out wc h4)
  have h8 := walker.duplicates_pos method methodVariable ps
  rw [h2] at h6
  rw [h5]
  constructor
  · intro hr
    have h9 := h8.mpr hr
    omega
  · intro hQ
    have h9 := walker.walkNamedParameters_exact ps wa wb _
      (fun node hn => hQ node (List.mem_append_left _ hn)) h3
    have h10 := walker.walkBody_quiet (fun node hn => hQ node (List.mem_append_right _ hn)) h4
    rw [h2] at h9
    rw [h10, h9, ← h8]
    omega

/-- C27 at `func foo(x: int, x: int): int { }`, walked by a fresh walker: the
name `x` is repeated and the walk records the diagnostic. -/
theorem C27_duplicate_parameters_witness :
    ast.repeated (ast.parameterNames none []
      [ast.sampleParameter (str "x") ⟨str "int", false⟩,
       ast.sampleParameter (str "x") ⟨str "int", false⟩]) ∧
    diagnostics.count (str "duplicated function parameter `%v`") walker.New.errors
      < diagnostics.count (str "duplicated function parameter `%v`")
        [⟨⟨.ItemIdent, str "x"⟩, str "duplicated function parameter `%v`", [.text (str "x")],
          .Fatal⟩] :=
  ⟨by decide,
    (C27_duplicate_parameters walker.Deps.sample 1 walker.New
      ⟨[⟨⟨.ItemIdent, str "x"⟩, str "duplicated function parameter `%v`", [.text (str "x")],
          .Fatal⟩],
        some ((environment.New environment.Object.zero).SetFunction (str "foo")
          { environment.Object.zero with
            Token := ⟨.ItemFunction, str "func"⟩, Value := some ast.sampleRepeated }), []⟩
      _ ⟨.ItemFunction, str "func"⟩ (str "foo") none []
      [ast.sampleParameter (str "x") ⟨str "int", false⟩,
       ast.sampleParameter (str "x") ⟨str "int", false⟩]
      (some []) [⟨str "int", false⟩] [] (some ast.sampleRepeated) rfl (by decide) rfl rfl).1
      (by decide)⟩

/-- C28, the claim as it stands fails: the parameter list of
`func lg(...: char, ...: char): null { }` holds `...` twice, and its walk by a
fresh walker records no diagnostic. -/
theorem C28_two_ellipses_no_fatal :
    ((ast.parameterNames none []
      [ast.sampleParameter (str "...") ⟨str "char", false⟩,
       ast.sampleParameter (str "...") ⟨str "char", false⟩]).count (str "...") = 2) ∧
    (walker.Walk walker.Deps.sample 2 walker.New (some ast.sampleVariadic)).map
      (fun r => r.1.errors) = .ok [] :=
  ⟨rfl, rfl⟩

/-- C28, amended: the loop over the parameters of a named function literal
leaves `...` out of its test for duplicates.  When the parameters have no
default values and no name other than `...` occurs more than once among the
receiver variable and the parameters, however often `...` occurs, the loop
records no diagnostic: the walk of the body starts with the diagnostics that
were there before the function literal, and the walk of the function literal
ends with those of the walk of the body. -/
theorem C28_ellipsis_exempt (D : walker.Deps) (fuel : Nat) (w w1 : walker.Walker)
    (e : environment.Environment) (tok : token.Item) (name : List Nat)
    (method : Option ast.Ty) (methodVariable : List Nat)
    (ps : List (ast.Parameter ast.Node)) (body : Option (List ast.Node))
    (returnType t : ast.Types) (n : Option ast.Node) (he : w.env = some e)
    (hname : name ≠ []) (hnew : (e.GetFunction name false).2 = false)
    (hdef : ∀ p ∈ ps, p.Default = none)
    (hd : ¬ ast.repeated (ast.parameterNames method methodVariable ps))
    (h : walker.Walk D (fuel + 1) w
      (some (.FunctionLiteral tok name method methodVariable ps body returnType))
        = .ok (w1, t, n)) :
    ∃ w2 w3, w2.errors = w.errors ∧ walker.walkBody (walker.Walk D fuel) w2 body = .ok w3 ∧
      w1.errors = w3.errors := by
  replace h : walker.thenNode (walker.walkFunctionLiteral (walker.Walk D fuel) w
      (.FunctionLiteral tok name method methodVariable ps body returnType) tok name method
      methodVariable ps body) (.FunctionLiteral tok name method methodVariable ps body returnType)
      = .ok (w1, t, n) := h
  unfold walker.thenNode at h
  obtain ⟨w0, h0, h1⟩ := Except.bind_ok_inv h
  cases h1
  unfold walker.walkFunctionLiteral at h0
  rw [if_neg hname] at h0
  obtain ⟨wa, wb, wc, h2, h3, h4, h5⟩ := walker.walkNamedFunctionLiteral_inv he
    (fun hc => Bool.false_ne_true (hnew.symm.trans hc.1)) h0
  have h6 : walker.duplicates (ast.receiverNames method methodVariable) ps = 0 := by
    have h7 := (walker.duplicates_pos method methodVariable ps).not.mpr hd
    omega
  exact ⟨wb, wc, (walker.walkNamedParameters_silent ps wa wb _ hdef h6 h3).trans h2, h4, h5⟩

/-- C28, amended, at `func lg(...: char, ...: char): null { }` walked by a
fresh walker: no diagnostic is recorded. -/
theorem C28_ellipsis_exempt_witness :
    ∃ w2 w3, w2.errors = walker.New.errors ∧
      walker.walkBody (walker.Walk walker.Deps.sample 1) w2 (some []) = .ok w3 ∧
      ([] : List diagnostics.Diagnostic) = w3.errors :=
  C28_ellipsis_exempt walker.Deps.sample 1 walker.New
    ⟨[], some ((environment.New environment.Object.zero).SetFunction (str "lg")
      { environment.Object.zero with
        Token := ⟨.ItemFunction, str "func"⟩, Value := some ast.sampleVariadic }), []⟩
    _ ⟨.ItemFunction, str "func"⟩ (str "lg") none []
    [ast.sampleParameter (str "...") ⟨str "char", false⟩,
     ast.sampleParameter (str "...") ⟨str "char", false⟩]
    (some []) [⟨str "null", false⟩] [] (some ast.sampleVariadic) rfl (by decide) rfl
    (by
      intro p hp
      simp only [List.mem_cons, List.mem_singleton, List.not_mem_nil, or_false] at hp
      rcases hp with h1 | h1 <;> rw [h1] <;> rfl)
    (by decide) rfl

/-- C29: the walk of `"a" ^ 2` by a fresh walker returns the walker as it
was, with no diagnostic, whatever the functions that are not under src
answer: the switch of `walkInfixExpression` has no case for `^`, which falls
to `walkInfixExpressionDefault`.  The type `char` is not math-valid, and the
walk of `"a" + 2` records the fatal diagnostic "`%v` %v `%v` is not valid". -/
theorem C29_power_unchecked (D : walker.Deps) :
    walker.Walk D 2 walker.New
      (some (.InfixExpression ⟨.ItemPower, str "^"⟩ (some ast.sampleA) (str "^")
        (some ast.sampleTwo))) = .ok (walker.New, [⟨str "int", false⟩], some ast.sampleTwo) ∧
    walker.mathValid [⟨str "char", false⟩] = false ∧
    (walker.Walk walker.Deps.sample 2 walker.New
      (some (.InfixExpression ⟨.ItemPlus, str "+"⟩ (some ast.sampleA) (str "+")
        (some ast.sampleTwo)))).map (fun r => r.1.errors)
      = .ok [⟨⟨.ItemPlus, str "+"⟩, str "`%v` %v `%v` is not valid",
          [.types [⟨str "char", false⟩], .text (str "+"), .types [⟨str "char", false⟩]],
          .Fatal⟩] :=
  ⟨rfl, rfl, rfl⟩

/-- C30: the type `int` is math-valid and the type `char` is not, and the
walk of `1 .. "a"` by a fresh walker records no diagnostic: after the walk of
the right operand `walkInfixExpressionRange` tests the type of the left
operand again.  The walk of `"a" .. 1` records the diagnostic of the left
operand twice. -/
theorem C30_range_right_unchecked :
    walker.mathValid [⟨str "int", false⟩] = true ∧
    walker.mathValid [⟨str "char", false⟩] = false ∧
    (walker.Walk walker.Deps.sample 2 walker.New
      (some (.InfixExpression ⟨.ItemRange, str ".."⟩ (some ast.sampleOne) (str "..")
        (some ast.sampleA)))).map (fun r => r.1.errors) = .ok [] ∧
    (walker.Walk walker.Deps.sample 2 walker.New
      (some (.InfixExpression ⟨.ItemRange, str ".."⟩ (some ast.sampleA) (str "..")
        (some ast.sampleOne)))).map (fun r => r.1.errors)
      = .ok [⟨⟨.ItemRange, str ".."⟩, str "`%v`:`%v` is not valid",
          [.types [⟨str "char", false⟩], .types [⟨str "char", false⟩]], .Fatal⟩,
        ⟨⟨.ItemRange, str ".."⟩, str "`%v`:`%v` is not valid",
          [.types [⟨str "char", false⟩], .types [⟨str "char", false⟩]], .Fatal⟩] :=
  ⟨rfl, rfl, rfl, rfl⟩

/-- C31: the walk of a named function literal that is not a method, when the
current frame holds a function of its name, returns the walker with the fatal
diagnostic "function `%v` is already defined" added and with the environment
as it was, so the entry of the function is the one the frame had.  When the
current frame holds no function of its name, the function is set in the
current frame, with the literal as its value, before the frame of the body is
entered: the walk of the body starts in a frame enclosed by the frame that
holds the function, where a lookup of the name through the chain finds a
function (the literal itself, unless the frame of the body holds a function of
that name), and when the walk returns the current frame is the frame that
holds the function. -/
theorem C31_function_declaration (D : walker.Deps) (fuel : Nat) (w : walker.Walker)
    (e : environment.Environment) (tok : token.Item) (name methodVariable : List Nat)
    (ps : List (ast.Parameter ast.Node)) (body : Option (List ast.Node))
    (returnType : ast.Types) (he : w.env = some e) (hname : name ≠ []) :
    ((e.GetFunction name false).2 = true →
      walker.Walk D (fuel + 1) w
          (some (.FunctionLiteral tok name none methodVariable ps body returnType))
        = .ok (⟨w.errors ++ [⟨tok, str "function `%v` is already defined", [.text name],
            .Fatal⟩], some e, w.state⟩, [],
          some (.FunctionLiteral tok name none methodVariable ps body returnType))) ∧
    ((e.GetFunction name false).2 = false →
      ∀ (w1 : walker.Walker) (t : ast.Types) (n : Option ast.Node),
        walker.Walk D (fuel + 1) w
            (some (.FunctionLiteral tok name none methodVariable ps body returnType))
          = .ok (w1, t, n) →
        ∃ (w2 w3 : walker.Walker) (e2 : environment.Environment),
          w2.env = some e2 ∧
          e2.outer = some (e.SetFunction name
            { environment.Object.zero with
              Token := tok,
              Value := some (.FunctionLiteral tok name none methodVariable ps body
                returnType) }) ∧
          (e2.GetFunction name true).2 = true ∧
          ((e2.GetFunction name false).2 = false →
            e2.GetFunction name true =
              ({ environment.Object.zero with
                  Token := tok,
                  Value := some (.FunctionLiteral tok name none methodVariable ps body
                    returnType) }, true)) ∧
          walker.walkBody (walker.Walk D fuel) w2 body = .ok w3 ∧
          w1.errors = w3.errors ∧
          w1.env = some (e.SetFunction name
            { environment.Object.zero with
              Token := tok,
              Value := some (.FunctionLiteral tok name none methodVariable ps body
                returnType) })) := by
  constructor
  · intro hb
    show walker.thenNode (walker.walkFunctionLiteral (walker.Walk D fuel) w _ tok name none
      methodVariable ps body) _ = _
    unfold walker.walkFunctionLiteral
    rw [if_neg hname]
    unfold walker.walkNamedFunctionLiteral
    rw [walker.getEnv_eq he]
    show walker.thenNode (if _ then _ else _) _ = _
    rw [if_pos ⟨hb, rfl⟩]
    obtain ⟨errors, env, state⟩ := w
    cases he
    rfl
  · intro hb w1 t n h
    replace h : walker.thenNode (walker.walkFunctionLiteral (walker.Walk D fuel) w
        (.FunctionLiteral tok name none methodVariable ps body returnType) tok name none
        methodVariable ps body) (.FunctionLiteral tok name none methodVariable ps body returnType)
        = .ok (w1, t, n) := h
    unfold walker.thenNode at h
    obtain ⟨w0, h0, h1⟩ := Except.bind_ok_inv h
    cases h1
    unfold walker.walkFunctionLiteral at h0
    rw [if_neg hname] at h0
    unfold walker.walkNamedFunctionLiteral at h0
    rw [walker.getEnv_eq he] at h0
    replace h0 : (if _ then _ else _) = _ := h0
    rw [if_neg (fun hc => Bool.false_ne_true (hb.symm.trans hc.1))] at h0
    obtain ⟨⟨wa, m⟩, h1, ha⟩ := Except.bind_ok_inv h0
    obtain ⟨wb, h2, hb2⟩ := Except.bind_ok_inv ha
    obtain ⟨wc, h3, hc⟩ := Except.bind_ok_inv hb2
    have hB := walker.Walk_balanced D fuel
    have k1 := (walker.bindReceiver_bal tok none methodVariable
      (walker.enclosing_Enclose (w.setEnv (some (e.SetFunction name
        { environment.Object.zero with
          Token := tok,
          Value := some (.FunctionLiteral tok name none methodVariable ps body
            returnType) }))))).out _ h1
    have k2 := (walker.walkNamedParameters_bal hB ps wa m _ k1).out _ h2
    have k3 := (walker.walkBody_bal hB body k2).out _ h3
    have k4 := (walker.Open_env k3).out _ hc
    rw [walker.env_setEnv] at k2 k4
    obtain ⟨e2, k5, k6⟩ := walker.env_of_enclosing k2
    have k7 := environment.Environment.GetFunction_enclosed name k6
      (by rw [environment.Environment.GetFunction_SetFunction_eq])
    rw [environment.Environment.GetFunction_SetFunction_eq] at k7
    exact ⟨wb, wc, e2, k5, k6, k7.1, k7.2, h3, walker.Open_errors hc, k4⟩

/-- C31 at `func foo(x: int): int { foo(1, 2) }` walked by a fresh walker: the
call in the body is checked against the parameters of `foo`, and its second
argument is reported. -/
theorem C31_function_declaration_witness :
    ∃ (w2 w3 : walker.Walker) (e2 : environment.Environment),
      w2.env = some e2 ∧
      e2.outer = some ((environment.New environment.Object.zero).SetFunction (str "foo")
        { environment.Object.zero with
          Token := ⟨.ItemFunction, str "func"⟩, Value := some ast.sampleRecursive }) ∧
      (e2.GetFunction (str "foo") true).2 = true ∧
      ((e2.GetFunction (str "foo") false).2 = false →
        e2.GetFunction (str "foo") true =
          ({ environment.Object.zero with
              Token := ⟨.ItemFunction, str "func"⟩, Value := some ast.sampleRecursive },
            true)) ∧
      walker.walkBody (walker.Walk walker.Deps.sample 2) w2
        (some [.CallExpression ⟨.ItemIdent, str "foo"⟩ (str "foo")
          [ast.sampleArgument ast.sampleOne, ast.sampleArgument ast.sampleTwo] none])
        = .ok w3 ∧
      [(⟨⟨.ItemInteger, str "2"⟩, str "could not find parameter #%v (too many arguments?)",
          [.int 2], .Fatal⟩ : diagnostics.Diagnostic)] = w3.errors ∧
      some ((environment.New environment.Object.zero).SetFunction (str "foo")
        { environment.Object.zero with
          Token := ⟨.ItemFunction, str "func"⟩, Value := some ast.sampleRecursive })
        = some ((environment.New environment.Object.zero).SetFunction (str "foo")
          { environment.Object.zero with
            Token := ⟨.ItemFunction, str "func"⟩, Value := some ast.sampleRecursive }) :=
  (C31_function_declaration walker.Deps.sample 2 walker.New _ ⟨.ItemFunction, str "func"⟩
    (str "foo") [] [ast.sampleParameter (str "x") ⟨str "int", false⟩]
    (some [.CallExpression ⟨.ItemIdent, str "foo"⟩ (str "foo")
      [ast.sampleArgument ast.sampleOne, ast.sampleArgument ast.sampleTwo] none])
    [⟨str "int", false⟩] rfl (by decide)).2 rfl
    ⟨[⟨⟨.ItemInteger, str "2"⟩, str "could not find parameter #%v (too many arguments?)",
        [.int 2], .Fatal⟩],
      some ((environment.New environment.Object.zero).SetFunction (str "foo")
        { environment.Object.zero with
          Token := ⟨.ItemFunction, str "func"⟩, Value := some ast.sampleRecursive }), []⟩
    [] (some ast.sampleRecursive) rfl

/-- C32: walking `type int: char` with a fresh walker, whatever the
externals, records the fatal diagnostic "type `%v` already defined" for `int`
and then replaces the entry of the base type in the root frame: the entry of
`int`, preinstalled with the type `int`, holds the type `char` afterwards. -/
theorem C32_base_type_replaced (D : walker.Deps) :
    ((environment.New environment.Object.zero).GetType (str "int") false).1.Type_
        = [⟨str "int", false⟩] ∧
      ((environment.New environment.Object.zero).GetType (str "int") false).2 = true ∧
      (walker.Walk D 1 walker.New
          (some (.TypeStatement ⟨.ItemTypesDecl, str "type"⟩ (str "int")
            [⟨str "char", false⟩]))).map
          (fun r => (r.1.errors, r.1.env.map (fun e => (e.GetType (str "int") false).1.Type_)))
        = .ok ([⟨⟨.ItemTypesDecl, str "type"⟩, str "type `%v` already defined",
            [.text (str "int")], .Fatal⟩], some [⟨str "char", false⟩]) :=
  ⟨rfl, rfl, rfl⟩

/-- C33: `peek` moves the cursor.  On `a`, where one rune remains, `peek 2`
returns the end of input and leaves `pos` at 1; on `a` followed by the two
bytes of `é` it returns `é` and leaves `pos` at -1; on `é` followed by `a` it
returns `a` and leaves `pos` at 1.  In each case `pos` was 0 before the call.
On `ab` the cursor is restored. -/
theorem C33_peek_moves_cursor :
    (Lexer.new (str "a")).pos = 0 ∧
      (peek (Lexer.new (str "a")) 2).map (fun r => (r.1, r.2.pos)) = .ok (-1, 1) ∧
      (peek (Lexer.new [97, 195, 169]) 2).map (fun r => (r.1, r.2.pos)) = .ok (233, -1) ∧
      (peek (Lexer.new [195, 169, 97]) 2).map (fun r => (r.1, r.2.pos)) = .ok (97, 1) ∧
      (peek (Lexer.new (str "ab")) 2).map (fun r => (r.1, r.2.pos)) = .ok (98, 0) :=
  ⟨rfl, rfl, rfl, rfl, rfl⟩

/-- C34: for an input of ASCII bytes only, the lexer of `Run` keeps the
cursor invariant `0 ≤ start ≤ pos ≤ len(Input)`: after every number `k` of
iterations of the loop of `Run` the state functions have returned, without
panic, and the lexer has the invariant; from a lexer with the invariant the
methods `next`, `emit` and `token` take their slices within bounds: they
return, and `next` and `emit` leave the invariant in place; and the loop ends
after `fuel` iterations at most, `Run` returning the items of the lexer at
that point. -/
theorem C34_cursor_invariant (inp : List Nat) (fuel : Nat) (hA : Ascii inp)
    (hf : 4 * inp.length + 4 ≤ fuel) :
    (∀ k, ∃ s l, runSteps fuel k .lexDefault (Lexer.new inp) = .ok (s, l) ∧ l.Ok inp) ∧
    (∀ l : Lexer, l.Ok inp →
      (∃ r l1, next l = .ok (r, l1) ∧ l1.Ok inp) ∧
      (∀ t, ∃ l1, emit l t = .ok l1 ∧ l1.Ok inp) ∧
      ∃ tk, currentToken l = .ok tk) ∧
    ∃ l, runSteps fuel fuel .lexDefault (Lexer.new inp) = .ok (none, l) ∧
      Run fuel inp = .ok l.Items := by
  refine ⟨?_, ?_, ?_⟩
  · intro k
    obtain ⟨s, l, h1, h2⟩ := runSteps_ok hA fuel (by omega) k .lexDefault (Lexer.new inp)
      (Lexer.new_Ok inp)
    exact ⟨s, l, h1, h2.ok⟩
  · intro l hI
    refine ⟨?_, ?_, ?_⟩
    · obtain ⟨l1, h1, h2, _⟩ := next_ok hA hI
      exact ⟨_, l1, h1, h2.ok⟩
    · intro t
      obtain ⟨l1, h1, h2, _⟩ := emit_ok hI t
      exact ⟨l1, h1, h2.ok⟩
    · obtain ⟨tk, h1, _⟩ := currentToken_ok hI
      exact ⟨tk, h1⟩
  · obtain ⟨l1, h1, h2⟩ := runSteps_end hA fuel (by omega) fuel .lexDefault (Lexer.new inp)
      (Lexer.new_Ok inp) (by
        have := lexMeasure_le inp .lexDefault (Lexer.new inp) (le_refl 0)
        omega)
    refine ⟨l1, h2, ?_⟩
    unfold Run
    rw [h1]
    rfl

/-- C34 at the input `x = 1`. -/
theorem C34_cursor_invariant_witness :
    (∀ k, ∃ s l, runSteps 24 k .lexDefault (Lexer.new (str "x = 1")) = .ok (s, l) ∧
      l.Ok (str "x = 1")) ∧
    (∀ l : Lexer, l.Ok (str "x = 1") →
      (∃ r l1, next l = .ok (r, l1) ∧ l1.Ok (str "x = 1")) ∧
      (∀ t, ∃ l1, emit l t = .ok l1 ∧ l1.Ok (str "x = 1")) ∧
      ∃ tk, currentToken l = .ok tk) ∧
    ∃ l, runSteps 24 24 .lexDefault (Lexer.new (str "x = 1")) = .ok (none, l) ∧
      Run 24 (str "x = 1") = .ok l.Items :=
  C34_cursor_invariant (str "x = 1") 24 (by decide) (by decide)

/-- C35: in `f(g(1), x = 2)` the argument `x = 2` comes after a call and is
walked with the state the call `g(1)` left, the empty one: the walk records
"`%v` does not exist" for `x`.  In `f(x = 2)` and in `f(x = 2, g(1))` the same
argument is walked with the state `call` and nothing is recorded.  The state
is empty after each of the three calls, and also after `g(1)` walked by a
walker in the state `call`. -/
theorem C35_state_lost_after_nested_call :
    walker.outcome (walker.Walk walker.Deps.lenient 6 walker.New
        (some (ast.sampleCallF [ast.sampleCallG, ast.sampleAssignX])))
      = .ok ([⟨⟨.ItemIdent, str "x"⟩, str "`%v` does not exist", [.text (str "x")], .Fatal⟩],
          []) ∧
    walker.outcome (walker.Walk walker.Deps.lenient 6 walker.New
        (some (ast.sampleCallF [ast.sampleAssignX]))) = .ok ([], []) ∧
    walker.outcome (walker.Walk walker.Deps.lenient 6 walker.New
        (some (ast.sampleCallF [ast.sampleAssignX, ast.sampleCallG]))) = .ok ([], []) ∧
    (walker.New.setState (str "call")).state = str "call" ∧
    walker.outcome (walker.Walk walker.Deps.lenient 5 (walker.New.setState (str "call"))
        (some ast.sampleCallG)) = .ok ([], []) :=
  ⟨rfl, rfl, rfl, rfl, rfl⟩

end Vapour
